import Mathlib

/-!
# Engine: the 2D scene compositor

A shallow embedding of `Code/Engine/Renderer/2D/SpriteGameRenderer.cpp` and
`Code/Engine/Renderer/2D/ParticleSystem.cpp`.

Conventions of the embedding:
* A finite `float` value is the rational it denotes (`ℚ`). The functions whose
  results depend on the rounding of `float` operations are embedded twice:
  in the namespace `F32` with every operation rounded to binary32
  (`Float32.round`), and outside it in exact arithmetic. The theorems on the
  camera clamp, the spawn accumulator and the split-screen viewports are
  about the `F32` definitions.
* Pointers to renderables are addresses (`Nat`) into an explicit heap; a
  nullable head pointer is an `Option Nat`.
* Loops whose termination depends on the heap carry a fuel argument and
  return `none` when the fuel runs out; the theorems show that enough fuel
  gives the result.
* Code that dereferences a pointer that was never set returns `none`.
-/

namespace Engine

/-! ## Math value types (`Engine/Math/Vector2.hpp`) -/

/-- Two floats `x`, `y` (`class Vector2`). -/
structure Vector2 where
  x : ℚ
  y : ℚ
deriving DecidableEq

namespace Vector2

/-- The constant `Vector2::ZERO`. -/
def ZERO : Vector2 := ⟨0, 0⟩

/-- The operator `operator+(lhs, rhs)`. -/
def add (lhs rhs : Vector2) : Vector2 := ⟨lhs.x + rhs.x, lhs.y + rhs.y⟩

/-- The operator `operator-(lhs, rhs)`. -/
def sub (lhs rhs : Vector2) : Vector2 := ⟨lhs.x - rhs.x, lhs.y - rhs.y⟩

/-- The operator `operator*(lhs, scalarConstant)`. -/
def scale (lhs : Vector2) (scalarConstant : ℚ) : Vector2 :=
  ⟨lhs.x * scalarConstant, lhs.y * scalarConstant⟩

/-- Modelled from the spec: `Vector2::CalculateCorrectionVector` is only declared in
`Vector2.hpp`; the spec calls it "a correction vector toward world bounds", the
displacement that takes `position` onto `goal`. -/
def CalculateCorrectionVector (position goal : Vector2) : Vector2 :=
  ⟨goal.x - position.x, goal.y - position.y⟩

end Vector2

/-- An axis-aligned box with corners `mins` and `maxs` (`class AABB2`). -/
structure AABB2 where
  mins : Vector2
  maxs : Vector2
deriving DecidableEq

namespace AABB2

/-- Modelled from the spec: `AABB2::operator*(float)` is not in the source; the spec
speaks of the world bounds "scaled by the active layer's virtual-scale multiplier",
both corners multiplied by the scale. -/
def mulScale (b : AABB2) (s : ℚ) : AABB2 := ⟨b.mins.scale s, b.maxs.scale s⟩

/-- Modelled from the spec: `AABB2::IsPointOnOrInside` is not in the source; a point is on
or inside the box when each coordinate lies between the two corners, borders included. -/
def IsPointOnOrInside (b : AABB2) (p : Vector2) : Prop :=
  b.mins.x ≤ p.x ∧ p.x ≤ b.maxs.x ∧ b.mins.y ≤ p.y ∧ p.y ≤ b.maxs.y

instance (b : AABB2) (p : Vector2) : Decidable (b.IsPointOnOrInside p) := by
  unfold IsPointOnOrInside; infer_instance

/-- Modelled from the spec: `AABB2::IsPointInside` is not in the source; the strict
version of `IsPointOnOrInside`. -/
def IsPointInside (b : AABB2) (p : Vector2) : Prop :=
  b.mins.x < p.x ∧ p.x < b.maxs.x ∧ b.mins.y < p.y ∧ p.y < b.maxs.y

instance (b : AABB2) (p : Vector2) : Decidable (b.IsPointInside p) := by
  unfold IsPointInside; infer_instance

/-- Modelled from the spec: `AABB2::IsIntersecting` is not in the source; two boxes
intersect when their extents overlap on both axes. -/
def IsIntersecting (b other : AABB2) : Prop :=
  b.mins.x ≤ other.maxs.x ∧ other.mins.x ≤ b.maxs.x ∧
    b.mins.y ≤ other.maxs.y ∧ other.mins.y ≤ b.maxs.y

instance (b other : AABB2) : Decidable (b.IsIntersecting other) := by
  unfold IsIntersecting; infer_instance

end AABB2

/-! ## Particles (`ParticleSystem.cpp`) -/

/-- Modelled from the spec: `class RGBA` is not in the source; the spec's tint is a
"color with independent alpha channel". -/
structure RGBA where
  red : ℚ
  green : ℚ
  blue : ℚ
  alpha : ℚ
deriving DecidableEq

/-- Modelled from the spec: `RGBA::SetAlphaFloat` is not in the source; it stores the given
value in the alpha channel and leaves the colour channels alone. -/
def RGBA.SetAlphaFloat (c : RGBA) (alpha : ℚ) : RGBA := { c with alpha := alpha }

namespace MathUtils

/-- Modelled from the spec: `MathUtils::Clamp` is not in the source; `Clamp v lo hi` is `v`
brought into the interval from `lo` to `hi`. `UpdateParticles` calls it with one argument,
which the spec reads as the interval from 0 to 1. -/
def Clamp (inputValue minValue maxValue : ℚ) : ℚ :=
  if inputValue < minValue then minValue
  else if inputValue > maxValue then maxValue
  else inputValue

/-- Modelled from the spec: `MathUtils::RangeMap` is not in the source; the linear map that
takes the interval `inStart..inEnd` onto `outStart..outEnd` (the spec's alpha is
`1 - age/maxAge`, which is `1 - RangeMap age 0 maxAge 0 1`). -/
def RangeMap (inValue inStart inEnd outStart outEnd : ℚ) : ℚ :=
  (inValue - inStart) / (inEnd - inStart) * (outEnd - outStart) + outStart

end MathUtils

/-- The sprite a particle quad is drawn with (`SpriteResource`), as far as
`ParticleSystem.cpp` reads it. -/
structure SpriteResource where
  m_pivotPoint : Vector2
  m_uvBounds : AABB2
  m_virtualSize : Vector2

/-- The immutable emission definition (`ParticleEmitterDefinition`). The three ranges
`m_initialVelocity`, `m_lifetimePerParticle` and `m_initialScalePerParticle` are read
through `GetRandom` only; their samples come from the emitter's `randomDraws`. -/
structure ParticleEmitterDefinition where
  m_particlesPerSecond : ℚ
  m_initialNumParticlesSpawn : Nat
  m_initialTintPerParticle : RGBA
  m_spriteResource : SpriteResource

/-- The three values that the `GetRandom` calls of one `Particle` construction return. -/
structure ParticleDraw where
  velocity : Vector2
  maxAge : ℚ
  scale : Vector2

/-- One simulated particle (`struct Particle`). -/
structure Particle where
  position : Vector2
  velocity : Vector2
  acceleration : Vector2
  age : ℚ
  rotationDegrees : ℚ
  maxAge : ℚ
  scale : Vector2
  tint : RGBA

namespace Particle

/-- The constructor `Particle::Particle`: the member initialisers (`p`; `maxAge`, `scale` and
`tint` have no initialiser and are set in the body), then the body, which replaces the
velocity by a random sample, samples `maxAge` and `scale`, and copies the initial tint of
the definition. -/
def new (spawnPosition : Vector2) (definition : ParticleEmitterDefinition) (draw : ParticleDraw)
    (initialRotationDegrees : ℚ) (initialVelocity initialAcceleration : Vector2) : Particle :=
  let p : Particle :=
    { position := spawnPosition, velocity := initialVelocity,
      acceleration := initialAcceleration, age := 0,
      rotationDegrees := initialRotationDegrees,
      maxAge := 0, scale := Vector2.ZERO, tint := definition.m_initialTintPerParticle }
  { p with velocity := draw.velocity, maxAge := draw.maxAge, scale := draw.scale,
           tint := definition.m_initialTintPerParticle }

/-- Modelled from the spec: the default arguments of `Particle::Particle` are declared in
`ParticleSystem.hpp`, which is not in the source; the spec gives a particle no initial
rotation, velocity or acceleration of its own, so the defaults are zero. -/
def defaultRotationDegrees : ℚ := 0

/-- Modelled from the spec: see `defaultRotationDegrees`. -/
def defaultVelocity : Vector2 := Vector2.ZERO

/-- Modelled from the spec: see `defaultRotationDegrees`. -/
def defaultAcceleration : Vector2 := Vector2.ZERO

/-- Modelled from the spec: `Particle::IsDead` is declared in `ParticleSystem.hpp`, which is
not in the source; the spec says "a particle is dead when `age >= maxAge`". -/
def IsDead (p : Particle) : Bool := decide (p.age ≥ p.maxAge)

/-- The body of the loop in `ParticleEmitter::UpdateParticles`, for one particle. -/
def integrate (p : Particle) (deltaSeconds : ℚ) : Particle :=
  let position := p.position.add (p.velocity.scale deltaSeconds)
  let velocity := p.velocity.add (p.acceleration.scale deltaSeconds)
  let age := p.age + deltaSeconds
  { p with
    position := position, velocity := velocity, age := age,
    tint := p.tint.SetAlphaFloat
      (MathUtils.Clamp (1 - MathUtils.RangeMap age 0 p.maxAge 0 1) 0 1) }

end Particle

/-- The state of a `ParticleEmitter`. `m_position` is the followed position: `some v` when
the pointer was set and the position it points to is `v`, `none` when the constructor left
it unset. `randomDraws` and `numDraws` are the random source: the `n`-th `Particle` this
emitter constructs takes `randomDraws n`, and `numDraws` counts the constructions so far. -/
structure ParticleEmitter where
  m_definition : ParticleEmitterDefinition
  m_position : Option Vector2
  m_rotationDegrees : ℚ
  m_emitterAge : ℚ
  m_timeSinceLastEmission : ℚ
  m_secondsPerParticle : ℚ
  m_isDead : Bool
  m_particles : List Particle
  randomDraws : Nat → ParticleDraw
  numDraws : Nat

namespace ParticleEmitter

/-- The `while` loop of `ParticleEmitter::SpawnParticles`, in exact arithmetic
(`F32.ParticleEmitter.spawnLoop` has the `float` subtraction), on the members it writes: the
emission accumulator, the particle sequence and the random source. It yields `none` when it
has to read a followed position that was never set. -/
def spawnLoop (e : ParticleEmitter) (secondsPerParticle : ℚ) (hpos : 0 < secondsPerParticle)
    (timeSinceLastEmission : ℚ) (particles : List Particle) (numDraws : Nat) :
    Option (ℚ × List Particle × Nat) :=
  if timeSinceLastEmission ≥ secondsPerParticle then
    match e.m_position with
    | none => none
    | some position =>
      spawnLoop e secondsPerParticle hpos (timeSinceLastEmission - secondsPerParticle)
        (particles ++ [Particle.new position e.m_definition (e.randomDraws numDraws)
          e.m_rotationDegrees Particle.defaultVelocity Particle.defaultAcceleration])
        (numDraws + 1)
  else some (timeSinceLastEmission, particles, numDraws)
termination_by (⌊timeSinceLastEmission / secondsPerParticle⌋).toNat
decreasing_by
  rename_i h
  have h1 : (timeSinceLastEmission - secondsPerParticle) / secondsPerParticle
      = timeSinceLastEmission / secondsPerParticle - 1 := by
    field_simp
  have h2 : (1 : ℤ) ≤ ⌊timeSinceLastEmission / secondsPerParticle⌋ := by
    rw [Int.le_floor]
    rw [le_div_iff₀ hpos]
    simpa using h
  rw [h1, Int.floor_sub_one]
  omega

/-- The method `ParticleEmitter::SpawnParticles`, in exact arithmetic
(`F32.ParticleEmitter.SpawnParticles` has the `float` operations). -/
def SpawnParticles (e : ParticleEmitter) (deltaSeconds : ℚ) : Option ParticleEmitter :=
  if h : e.m_secondsPerParticle > 0 then
    match e.spawnLoop e.m_secondsPerParticle h (e.m_timeSinceLastEmission + deltaSeconds)
        e.m_particles e.numDraws with
    | none => none
    | some (t, ps, n) =>
      some { e with m_timeSinceLastEmission := t, m_particles := ps, numDraws := n }
  else some e

/-- The method `ParticleEmitter::UpdateParticles`. -/
def UpdateParticles (e : ParticleEmitter) (deltaSeconds : ℚ) : ParticleEmitter :=
  { e with m_particles := e.m_particles.map (fun p => p.integrate deltaSeconds) }

/-- The loop of `ParticleEmitter::CleanUpDeadParticles`, at index `i`: a dead particle is
overwritten by the last one and the last one is popped; otherwise the index advances. -/
def cleanUpLoop (particles : List Particle) (i : Nat) : List Particle :=
  if h : i < particles.length then
    if (particles.get ⟨i, h⟩).IsDead then
      cleanUpLoop
        ((particles.set i (particles.get ⟨particles.length - 1, by omega⟩)).dropLast) i
    else cleanUpLoop particles (i + 1)
  else particles
termination_by particles.length - i
decreasing_by
  · simp only [List.length_dropLast, List.length_set]; omega
  · omega

/-- The method `ParticleEmitter::CleanUpDeadParticles`. -/
def CleanUpDeadParticles (e : ParticleEmitter) : ParticleEmitter :=
  { e with m_particles := cleanUpLoop e.m_particles 0 }

/-- The method `ParticleEmitter::Update`, in exact arithmetic (`F32.ParticleEmitter.Update`
has the `float` operations). -/
def Update (e : ParticleEmitter) (deltaSeconds : ℚ) : Option ParticleEmitter :=
  if ¬ e.m_isDead then
    let e1 := { e with m_emitterAge := e.m_emitterAge + deltaSeconds }
    let e2 := e1.UpdateParticles deltaSeconds
    let e3 := e2.CleanUpDeadParticles
    match e3.SpawnParticles deltaSeconds with
    | none => none
    | some e4 =>
      if e4.m_secondsPerParticle = 0 ∧ e4.m_particles.length = 0 then
        some { e4 with m_isDead := true }
      else some e4
  else some e

/-- The loop `for (i = 0; i < m_initialNumParticlesSpawn; ++i) m_particles.emplace_back(...)`
of the two constructors: `count` particles at `position` with rotation `rotationDegrees`,
the `i`-th one taking the random draw `firstDraw + i`. -/
def initialBatch (definition : ParticleEmitterDefinition) (randomDraws : Nat → ParticleDraw)
    (position : Vector2) (rotationDegrees : ℚ) (firstDraw : Nat) : Nat → List Particle
  | 0 => []
  | count + 1 =>
    initialBatch definition randomDraws position rotationDegrees firstDraw count ++
      [Particle.new position definition (randomDraws (firstDraw + count)) rotationDegrees
        Particle.defaultVelocity Particle.defaultAcceleration]

/-- The constructor `ParticleEmitter(definition, positionToFollow)`, in exact arithmetic
(`F32.ParticleEmitter.newFollowing` has the `float` operations). It does not initialise
`m_rotationDegrees`; `uninitialisedRotation` is the value that member happens to hold. The
body of the initial-batch loop reads `*m_position`, so with a null `positionToFollow` the
constructor fails exactly when that loop runs at least once. -/
def newFollowing (definition : ParticleEmitterDefinition) (positionToFollow : Option Vector2)
    (randomDraws : Nat → ParticleDraw) (uninitialisedRotation : ℚ) : Option ParticleEmitter :=
  let e : ParticleEmitter :=
    { m_definition := definition, m_position := positionToFollow,
      m_rotationDegrees := uninitialisedRotation, m_emitterAge := 0,
      m_timeSinceLastEmission := 0, m_secondsPerParticle := 0, m_isDead := false,
      m_particles := [], randomDraws := randomDraws, numDraws := 0 }
  if definition.m_particlesPerSecond ≠ 0 then
    let e1 := { e with m_secondsPerParticle := 1 / definition.m_particlesPerSecond }
    e1.SpawnParticles (e1.m_secondsPerParticle * definition.m_initialNumParticlesSpawn)
  else
    if definition.m_initialNumParticlesSpawn = 0 then some e
    else
      match positionToFollow with
      | none => none
      | some position =>
        some { e with
          m_particles := initialBatch definition randomDraws position
            Particle.defaultRotationDegrees 0 definition.m_initialNumParticlesSpawn,
          numDraws := definition.m_initialNumParticlesSpawn }

/-- The constructor `ParticleEmitter(definition, positionToSpawn, rotationDegrees)`. It does
not initialise `m_position`. -/
def newAtPosition (definition : ParticleEmitterDefinition) (positionToSpawn : Vector2)
    (rotationDegrees : ℚ) (randomDraws : Nat → ParticleDraw) : Option ParticleEmitter :=
  let e : ParticleEmitter :=
    { m_definition := definition, m_position := none,
      m_rotationDegrees := rotationDegrees, m_emitterAge := 0,
      m_timeSinceLastEmission := 0, m_secondsPerParticle := 0, m_isDead := false,
      m_particles := [], randomDraws := randomDraws, numDraws := 0 }
  if definition.m_particlesPerSecond ≠ 0 then
    let e1 := { e with m_secondsPerParticle := 1 / definition.m_particlesPerSecond }
    e1.SpawnParticles (e1.m_secondsPerParticle * definition.m_initialNumParticlesSpawn)
  else
    some { e with
      m_particles := initialBatch definition randomDraws positionToSpawn rotationDegrees 0
        definition.m_initialNumParticlesSpawn,
      numDraws := definition.m_initialNumParticlesSpawn }

/-- A run of `Update` calls, one per step of `steps`, in order. -/
def runUpdates (e : ParticleEmitter) : List ℚ → Option ParticleEmitter
  | [] => some e
  | dt :: steps =>
    match e.Update dt with
    | none => none
    | some e1 => runUpdates e1 steps

end ParticleEmitter

/-- Modelled from the spec: the enumeration behind `m_type` is declared in
`ParticleSystemDefinition.hpp`, which is not in the source; the source names `ONE_SHOT` and
its assertion message calls the other kind "looping". -/
inductive ParticleSystemType where
  | ONE_SHOT
  | LOOPING
deriving DecidableEq

/-- The emitter-set definition (`ParticleSystemDefinition`), as far as `ParticleSystem.cpp`
reads it. -/
structure ParticleSystemDefinition where
  m_type : ParticleSystemType
  m_emitterDefinitions : List ParticleEmitterDefinition

/-- The state of a `ParticleSystem`: its owned emitters, in order, and its dead flag. -/
structure ParticleSystem where
  m_orderingLayer : Int
  m_isDead : Bool
  m_definition : ParticleSystemDefinition
  m_emitters : List ParticleEmitter

namespace ParticleSystem

/-- The `for` loop of `ParticleSystem::Update`: every emitter is updated in order, and
`areAllEmittersDead` is and-ed with each emitter's dead flag after its update. -/
def updateEmitters (deltaSeconds : ℚ) :
    List ParticleEmitter → Bool → Option (List ParticleEmitter × Bool)
  | [], areAllEmittersDead => some ([], areAllEmittersDead)
  | emitter :: rest, areAllEmittersDead =>
    match emitter.Update deltaSeconds with
    | none => none
    | some emitter1 =>
      match updateEmitters deltaSeconds rest (areAllEmittersDead && emitter1.m_isDead) with
      | none => none
      | some (rest1, allDead) => some (emitter1 :: rest1, allDead)

/-- The method `ParticleSystem::Update`. -/
def Update (sys : ParticleSystem) (deltaSeconds : ℚ) : Option ParticleSystem :=
  if ¬ sys.m_isDead then
    match updateEmitters deltaSeconds sys.m_emitters true with
    | none => none
    | some (emitters, areAllEmittersDead) =>
      some { sys with m_emitters := emitters, m_isDead := areAllEmittersDead }
  else some sys

/-- A run of `Update` calls, one per step of `steps`, in order. -/
def runUpdates (sys : ParticleSystem) : List ℚ → Option ParticleSystem
  | [] => some sys
  | dt :: steps =>
    match sys.Update dt with
    | none => none
    | some sys1 => runUpdates sys1 steps

end ParticleSystem

namespace ParticleEmitter

/-- A definition whose initial tint is half transparent. -/
def halfTransparentDefinition : ParticleEmitterDefinition :=
  { m_particlesPerSecond := 0, m_initialNumParticlesSpawn := 1,
    m_initialTintPerParticle := { red := 1, green := 1, blue := 1, alpha := 1/2 },
    m_spriteResource :=
      { m_pivotPoint := ⟨0, 0⟩, m_uvBounds := ⟨⟨0, 0⟩, ⟨1, 1⟩⟩, m_virtualSize := ⟨1, 1⟩ } }

/-- A random source that gives every particle velocity (1, 0), a lifetime of 2 seconds and
scale (1, 1). -/
def constantDraws : Nat → ParticleDraw :=
  fun _ => { velocity := ⟨1, 0⟩, maxAge := 2, scale := ⟨1, 1⟩ }

/-- A definition that emits two particles per second and has no initial batch. -/
def continuousDefinition : ParticleEmitterDefinition :=
  { m_particlesPerSecond := 2, m_initialNumParticlesSpawn := 0,
    m_initialTintPerParticle := { red := 1, green := 1, blue := 1, alpha := 1 },
    m_spriteResource :=
      { m_pivotPoint := ⟨0, 0⟩, m_uvBounds := ⟨⟨0, 0⟩, ⟨1, 1⟩⟩, m_virtualSize := ⟨1, 1⟩ } }

/-- The particle that `halfTransparentDefinition` and `constantDraws` give at the origin. -/
def freshParticle : Particle :=
  Particle.new ⟨0, 0⟩ halfTransparentDefinition (constantDraws 0) 0
    Particle.defaultVelocity Particle.defaultAcceleration

/-- The emitter that `newAtPosition halfTransparentDefinition` builds at the origin: one
particle, spawn interval zero. -/
def oneShotEmitter : ParticleEmitter :=
  { m_definition := halfTransparentDefinition, m_position := none, m_rotationDegrees := 0,
    m_emitterAge := 0, m_timeSinceLastEmission := 0, m_secondsPerParticle := 0,
    m_isDead := false, m_particles := [freshParticle], randomDraws := constantDraws,
    numDraws := 1 }

end ParticleEmitter

/-- An emitter's flags agree: a dead emitter holds no particle. -/
def ParticleEmitter.Consistent (e : ParticleEmitter) : Prop :=
  e.m_isDead = true → e.m_particles = []

/-- A system's flags agree: a dead system has only dead emitters, and every emitter is
consistent. -/
def ParticleSystem.Consistent (sys : ParticleSystem) : Prop :=
  (sys.m_isDead = true → ∀ e ∈ sys.m_emitters, e.m_isDead = true) ∧
    ∀ e ∈ sys.m_emitters, e.Consistent

namespace ParticleSystem

/-- A system of one `oneShotEmitter`. -/
def oneShotSystem : ParticleSystem :=
  { m_orderingLayer := 0, m_isDead := false,
    m_definition :=
      { m_type := ParticleSystemType.ONE_SHOT,
        m_emitterDefinitions := [ParticleEmitter.halfTransparentDefinition] },
    m_emitters := [ParticleEmitter.oneShotEmitter] }

end ParticleSystem

/-! ## Layers and renderables (`SpriteGameRenderer.cpp`) -/

/-- The members of a `Renderable2D` that the layer code reads and writes. `prev` and `next`
are the intrusive links; `isCullable` and `bounds` are what the virtual calls `IsCullable()`
and `GetBounds()` return. -/
structure Renderable2D where
  prev : Nat
  next : Nat
  m_isDead : Bool
  m_orderingLayer : Int
  isCullable : Bool
  bounds : AABB2

/-- The heap of renderables: the object at each address. -/
abbrev RenderableHeap : Type := Nat → Renderable2D

namespace RenderableHeap

/-- The assignment `a->next = v`. -/
def setNext (heap : RenderableHeap) (a v : Nat) : RenderableHeap :=
  Function.update heap a { heap a with next := v }

/-- The assignment `a->prev = v`. -/
def setPrev (heap : RenderableHeap) (a v : Nat) : RenderableHeap :=
  Function.update heap a { heap a with prev := v }

/-- The addresses met in `n` steps from `a`, following `step`: `a`, `step a`, and so on. -/
def walk (step : Nat → Nat) : Nat → Nat → List Nat
  | 0, _ => []
  | n + 1, a => a :: walk step n (step a)

/-- The list `members` is the ring of `heap` with head `head`: a null head goes with no
member; otherwise the members are distinct, following `next` from the head visits exactly
the members in order and returns to the head, and following `prev` from the head visits
them in reverse order and returns to the head. -/
def IsRing (heap : RenderableHeap) (head : Option Nat) (members : List Nat) : Prop :=
  match head with
  | none => members = []
  | some h =>
    members ≠ [] ∧ members.Nodup ∧
      walk (fun a => (heap a).next) (members.length + 1) h = members ++ [h] ∧
      walk (fun a => (heap a).prev) (members.length + 1) h = h :: (members.tail.reverse ++ [h])

/-- From `x`, `next` leads through `rest` in order and then to `c`, and `prev` leads back
the same way. -/
def Linked (heap : RenderableHeap) : Nat → List Nat → Nat → Prop
  | x, [], c => (heap x).next = c ∧ (heap c).prev = x
  | x, y :: rest, c => (heap x).next = y ∧ (heap y).prev = x ∧ Linked heap y rest c

/-- The ring of `heap` with head `head` is `members`, link by link. -/
def LinkedRing (heap : RenderableHeap) (head : Option Nat) (members : List Nat) : Prop :=
  match head, members with
  | none, [] => True
  | some h, x :: rest => h = x ∧ (x :: rest).Nodup ∧ Linked heap x rest x
  | _, _ => False

end RenderableHeap

/-- One draw-order layer (`class SpriteLayer`): the head of its ring of renderables, its
enable flag, its scale multiplier and its chain of effects (material handles). -/
structure SpriteLayer where
  m_layer : Int
  m_renderablesList : Option Nat
  m_isEnabled : Bool
  m_virtualScaleMultiplier : ℚ
  m_effectMaterials : List Nat
  m_boundingVolume : AABB2

namespace SpriteLayer

/-- Modelled from the spec: `SpriteLayer::AddRenderable2D` is declared in
`SpriteGameRenderer.hpp`, which is not in the source. The spec: "inserts at the ring; O(1).
If the ring is empty, the new node becomes a single self-linked node
(`next == prev == self`)". In a ring that is not empty the node is linked in before the
head, that is, at the end of the walk from the head. -/
def AddRenderable2D (layer : SpriteLayer) (heap : RenderableHeap) (renderable : Nat) :
    RenderableHeap × SpriteLayer :=
  match layer.m_renderablesList with
  | none =>
    ((heap.setPrev renderable renderable).setNext renderable renderable,
      { layer with m_renderablesList := some renderable })
  | some head =>
    let last := (heap head).prev
    ((((heap.setPrev renderable last).setNext renderable head).setNext last renderable).setPrev
        head renderable,
      layer)

/-- Modelled from the spec: `SpriteLayer::RemoveRenderable2D` is declared in
`SpriteGameRenderer.hpp`, which is not in the source. The spec: "unlinks in O(1); if it was
the last node, the ring head becomes null". The two neighbours are linked to each other, and
a head that is removed moves to the next node, so that the head stays a member. -/
def RemoveRenderable2D (layer : SpriteLayer) (heap : RenderableHeap) (renderable : Nat) :
    RenderableHeap × SpriteLayer :=
  if (heap renderable).next = renderable then
    (heap, { layer with m_renderablesList := none })
  else
    let before := (heap renderable).prev
    let after := (heap renderable).next
    ((heap.setNext before after).setPrev after before,
      { layer with
        m_renderablesList :=
          if layer.m_renderablesList = some renderable then some after
          else layer.m_renderablesList })

/-- Modelled from the spec: the destructor of a renderable is not in the source; the spec
says of the clean-up that "a node is destroyed and unlinked", and
`ParticleSystem::~ParticleSystem` unregisters itself in the same way. `delete renderable`
unlinks the renderable from the ring of its layer. -/
def deleteRenderable (layer : SpriteLayer) (heap : RenderableHeap) (renderable : Nat) :
    RenderableHeap × SpriteLayer :=
  layer.RemoveRenderable2D heap renderable

/-- The `do ... while` loop of `SpriteLayer::CleanUpDeadRenderables`, at
`currentRenderable`; `none` when the fuel runs out. The loop condition reads
`m_renderablesList` after the body has run. -/
def cleanUpWalk (cleanUpLiveRenderables : Bool) :
    Nat → RenderableHeap → SpriteLayer → Nat → Option (RenderableHeap × SpriteLayer)
  | 0, _, _, _ => none
  | fuel + 1, heap, layer, currentRenderable =>
    if (heap currentRenderable).m_isDead ∨ cleanUpLiveRenderables then
      if (heap currentRenderable).next = currentRenderable then
        some (layer.deleteRenderable heap currentRenderable)
      else
        let current1 := (heap currentRenderable).next
        let s := layer.deleteRenderable heap (heap current1).prev
        if some current1 ≠ s.2.m_renderablesList then
          cleanUpWalk cleanUpLiveRenderables fuel s.1 s.2 current1
        else some s
    else
      let current1 := (heap currentRenderable).next
      if some current1 ≠ layer.m_renderablesList then
        cleanUpWalk cleanUpLiveRenderables fuel heap layer current1
      else some (heap, layer)

/-- The method `SpriteLayer::CleanUpDeadRenderables`. -/
def CleanUpDeadRenderables (layer : SpriteLayer) (heap : RenderableHeap)
    (cleanUpLiveRenderables : Bool) (fuel : Nat) : Option (RenderableHeap × SpriteLayer) :=
  match layer.m_renderablesList with
  | none => some (heap, layer)
  | some currentRenderable => cleanUpWalk cleanUpLiveRenderables fuel heap layer currentRenderable

/-- An `Add` or a `Remove` of one renderable. -/
inductive RingOp where
  | add (renderable : Nat)
  | remove (renderable : Nat)

/-- The layer and heap after one operation. -/
def applyOp (s : RenderableHeap × SpriteLayer) : RingOp → RenderableHeap × SpriteLayer
  | RingOp.add renderable => s.2.AddRenderable2D s.1 renderable
  | RingOp.remove renderable => s.2.RemoveRenderable2D s.1 renderable

/-- The layer and heap after a sequence of operations. -/
def applyOps (s : RenderableHeap × SpriteLayer) : List RingOp → RenderableHeap × SpriteLayer
  | [] => s
  | op :: ops => applyOps (applyOp s op) ops

/-- The members after one operation: an added renderable comes last, a removed one
leaves. -/
def membersAfterOp (members : List Nat) : RingOp → List Nat
  | RingOp.add renderable => members ++ [renderable]
  | RingOp.remove renderable => members.erase renderable

/-- The members after a sequence of operations. -/
def membersAfter (members : List Nat) : List RingOp → List Nat
  | [] => members
  | op :: ops => membersAfter (membersAfterOp members op) ops

/-- A sequence of operations that registers only renderables that are not members and
unregisters only members (a renderable is registered once, when it is constructed, and
unregistered once, when it is destroyed). -/
def ValidOps (members : List Nat) : List RingOp → Prop
  | [] => True
  | RingOp.add renderable :: ops =>
    renderable ∉ members ∧ ValidOps (members ++ [renderable]) ops
  | RingOp.remove renderable :: ops =>
    renderable ∈ members ∧ ValidOps (members.erase renderable) ops

/-- An empty layer, as `SpriteLayer::SpriteLayer` builds it, with scale multiplier 1. -/
def emptyLayer : SpriteLayer :=
  { m_layer := 0, m_renderablesList := none, m_isEnabled := true,
    m_virtualScaleMultiplier := 1, m_effectMaterials := [],
    m_boundingVolume := ⟨⟨0, 0⟩, ⟨10, 10⟩⟩ }

end SpriteLayer

/-! ## Camera and viewport state (`SpriteGameRenderer`) -/

/-- One split-screen view (`struct ViewportDefinition`). -/
structure ViewportDefinition where
  m_bottomLeftX : Nat
  m_bottomLeftY : Nat
  m_viewportWidth : Nat
  m_viewportHeight : Nat
  m_viewportAspectRatio : ℚ
  m_cameraPosition : Vector2

namespace SpriteLayer

/-- The constructor `SpriteLayer::SpriteLayer(layerIndex)`; `worldBounds` is
`SpriteGameRenderer::instance->m_worldBounds`. The constructor does not set
`m_virtualScaleMultiplier`; its initial value is in `SpriteGameRenderer.hpp`, which is not
in the source, and is taken to be 1, the scale that changes nothing. The chain of effects
starts empty. -/
def new (layerIndex : Int) (worldBounds : AABB2) : SpriteLayer :=
  { m_layer := layerIndex, m_renderablesList := none, m_isEnabled := true,
    m_virtualScaleMultiplier := 1, m_effectMaterials := [],
    m_boundingVolume := worldBounds }

end SpriteLayer

/-- Modelled from the spec: `m_layers` is declared in `SpriteGameRenderer.hpp`, which is not
in the source. The source uses it as a `std::map` from layer number to layer (`find`,
`end`, `operator[]`, iteration), and the spec keys the layers "by integer order" and renders
them "in ascending layer-id order": an ordered map, whose entries are kept and iterated in
ascending key order. -/
structure LayerMap where
  entries : List (Int × SpriteLayer)

namespace LayerMap

/-- The empty map. -/
def empty : LayerMap := ⟨[]⟩

/-- The lookup `m_layers.find(key)`: `none` stands for `m_layers.end()`. -/
def findIn : List (Int × SpriteLayer) → Int → Option SpriteLayer
  | [], _ => none
  | (k, layer) :: rest, key => if key = k then some layer else findIn rest key

/-- The lookup `m_layers.find(key)`. -/
def find (m : LayerMap) (key : Int) : Option SpriteLayer := findIn m.entries key

/-- The assignment `m_layers[key] = layer` on the entries: the entry is put at its place in
ascending key order, and replaces an entry with the same key. -/
def insertIn : List (Int × SpriteLayer) → Int → SpriteLayer → List (Int × SpriteLayer)
  | [], key, layer => [(key, layer)]
  | (k, l) :: rest, key, layer =>
    if key < k then (key, layer) :: (k, l) :: rest
    else if key = k then (key, layer) :: rest
    else (k, l) :: insertIn rest key layer

/-- The assignment `m_layers[key] = layer`. -/
def insert (m : LayerMap) (key : Int) (layer : SpriteLayer) : LayerMap :=
  ⟨insertIn m.entries key layer⟩

/-- The keys in iteration order. -/
def keys (m : LayerMap) : List Int := m.entries.map Prod.fst

/-- The keys are strictly ascending in iteration order (the invariant of an ordered
map). -/
def Ordered (m : LayerMap) : Prop := m.keys.Sorted (· < ·)

end LayerMap

/-- The members of `SpriteGameRenderer` that the camera, viewport, layer and ping-pong code
reads and writes. Framebuffers are handles. `m_viewportDefinitions` is the array of
`m_numSplitscreenViews` viewports. `m_particleSystemList` is the list of registered
particle systems (its declaration is in `SpriteGameRenderer.hpp`, which is not in the
source; the spec calls it "the Compositor's global particle-system list"). -/
structure SpriteGameRenderer where
  m_aspectRatio : ℚ
  m_virtualSize : ℚ
  m_screenResolution : Vector2
  m_windowVirtualWidth : ℚ
  m_windowVirtualHeight : ℚ
  m_virtualWidth : ℚ
  m_virtualHeight : ℚ
  m_cameraPosition : Vector2
  m_worldBounds : AABB2
  m_currentFBO : Nat
  m_effectFBO : Nat
  m_numSplitscreenViews : Nat
  m_viewportDefinitions : List ViewportDefinition
  m_layers : LayerMap
  m_particleSystemList : List ParticleSystem

namespace SpriteGameRenderer

/-- The method `SpriteGameRenderer::GetVirtualBoundsAroundCameraCenter`, in exact
arithmetic (`F32.SpriteGameRenderer.GetVirtualBoundsAroundCameraCenter` has the `float`
operations). -/
def GetVirtualBoundsAroundCameraCenter (r : SpriteGameRenderer) : AABB2 :=
  let halfSize : Vector2 := ⟨r.m_virtualWidth * (1/2), r.m_virtualHeight * (1/2)⟩
  ⟨r.m_cameraPosition.sub halfSize, r.m_cameraPosition.add halfSize⟩

/-- The method `SpriteGameRenderer::UpdateCameraPositionInWorldBounds`, in exact arithmetic
(`F32.SpriteGameRenderer.UpdateCameraPositionInWorldBounds` has the `float` operations).
The only member it writes is `m_cameraPosition` (`pos0`, `pos1`, `pos2` are its successive
values). The camera-frame box `cameraBounds` is computed once, from the requested position,
and both corrections read that same box. -/
def UpdateCameraPositionInWorldBounds (r : SpriteGameRenderer) (newCameraPosition : Vector2)
    (layerScale : ℚ) : SpriteGameRenderer :=
  let pos0 := newCameraPosition
  let cameraBounds :=
    GetVirtualBoundsAroundCameraCenter { r with m_cameraPosition := pos0 }
  let scaledWorldBounds := r.m_worldBounds.mulScale layerScale
  let pos1 : Vector2 :=
    if ¬ scaledWorldBounds.IsPointOnOrInside cameraBounds.mins then
      let correctionVector :=
        Vector2.CalculateCorrectionVector cameraBounds.mins scaledWorldBounds.mins
      ⟨pos0.x + (if cameraBounds.mins.x < scaledWorldBounds.mins.x then correctionVector.x else 0),
        pos0.y + (if cameraBounds.mins.y < scaledWorldBounds.mins.y then correctionVector.y else 0)⟩
    else pos0
  let pos2 : Vector2 :=
    if ¬ scaledWorldBounds.IsPointOnOrInside cameraBounds.maxs then
      let correctionVector :=
        Vector2.CalculateCorrectionVector cameraBounds.maxs scaledWorldBounds.maxs
      ⟨pos1.x + (if cameraBounds.maxs.x > scaledWorldBounds.maxs.x then correctionVector.x else 0),
        pos1.y + (if cameraBounds.maxs.y > scaledWorldBounds.maxs.y then correctionVector.y else 0)⟩
    else pos1
  { r with m_cameraPosition := pos2 }

/-- The camera frame of `r` lies inside the world bounds scaled by `layerScale`: both
corners of the camera-frame box are on or inside the scaled box. -/
def CameraFrameInside (r : SpriteGameRenderer) (layerScale : ℚ) : Prop :=
  (r.m_worldBounds.mulScale layerScale).IsPointOnOrInside
      r.GetVirtualBoundsAroundCameraCenter.mins ∧
    (r.m_worldBounds.mulScale layerScale).IsPointOnOrInside
      r.GetVirtualBoundsAroundCameraCenter.maxs

instance (r : SpriteGameRenderer) (s : ℚ) : Decidable (r.CameraFrameInside s) := by
  unfold CameraFrameInside; infer_instance

/-- The camera frame is no larger than the scaled world bounds on each axis, and its
width and height are not negative. -/
def CameraFrameFits (r : SpriteGameRenderer) (layerScale : ℚ) : Prop :=
  0 ≤ r.m_virtualWidth ∧ 0 ≤ r.m_virtualHeight ∧
    r.m_virtualWidth ≤
      (r.m_worldBounds.mulScale layerScale).maxs.x - (r.m_worldBounds.mulScale layerScale).mins.x ∧
    r.m_virtualHeight ≤
      (r.m_worldBounds.mulScale layerScale).maxs.y - (r.m_worldBounds.mulScale layerScale).mins.y

instance (r : SpriteGameRenderer) (s : ℚ) : Decidable (r.CameraFrameFits s) := by
  unfold CameraFrameFits; infer_instance

/-- A renderer whose camera frame is 4 by 4 virtual units in a world of 1 by 1. -/
def oversizedFrame : SpriteGameRenderer :=
  { m_aspectRatio := 1, m_virtualSize := 4, m_screenResolution := ⟨4, 4⟩,
    m_windowVirtualWidth := 4, m_windowVirtualHeight := 4,
    m_virtualWidth := 4, m_virtualHeight := 4,
    m_cameraPosition := ⟨0, 0⟩, m_worldBounds := ⟨⟨0, 0⟩, ⟨1, 1⟩⟩,
    m_currentFBO := 1, m_effectFBO := 2,
    m_numSplitscreenViews := 0, m_viewportDefinitions := [],
    m_layers := LayerMap.empty, m_particleSystemList := [] }

/-- A renderer whose camera frame is 2 by 2 virtual units in a world of 10 by 10. -/
def smallFrame : SpriteGameRenderer :=
  { m_aspectRatio := 1, m_virtualSize := 2, m_screenResolution := ⟨4, 4⟩,
    m_windowVirtualWidth := 2, m_windowVirtualHeight := 2,
    m_virtualWidth := 2, m_virtualHeight := 2,
    m_cameraPosition := ⟨0, 0⟩, m_worldBounds := ⟨⟨0, 0⟩, ⟨10, 10⟩⟩,
    m_currentFBO := 1, m_effectFBO := 2,
    m_numSplitscreenViews := 0, m_viewportDefinitions := [],
    m_layers := LayerMap.empty, m_particleSystemList := [] }

end SpriteGameRenderer

namespace SpriteLayer

/-- A heap in which every renderable is cullable, not dead and has a unit box. -/
def blankHeap : RenderableHeap :=
  fun _ => { prev := 0, next := 0, m_isDead := false, m_orderingLayer := 0,
             isCullable := true, bounds := ⟨⟨0, 0⟩, ⟨1, 1⟩⟩ }

/-- A heap in which every renderable is flagged dead. -/
def deadHeap : RenderableHeap :=
  fun _ => { prev := 0, next := 0, m_isDead := true, m_orderingLayer := 0,
             isCullable := true, bounds := ⟨⟨0, 0⟩, ⟨1, 1⟩⟩ }

/-- The ring of the three dead renderables 1, 2, 3, added in this order (head 1). -/
def threeDead : RenderableHeap × SpriteLayer :=
  applyOps (deadHeap, emptyLayer) [RingOp.add 1, RingOp.add 2, RingOp.add 3]

end SpriteLayer

namespace MathUtils

/-- Modelled from the spec: `MathUtils::Lerp` is not in the source; the spec's virtual size
is "lerp-blended 50/50" between two values, the linear interpolation from `startValue` to
`endValue` at `fraction`. -/
def Lerp (fraction startValue endValue : ℚ) : ℚ :=
  startValue + fraction * (endValue - startValue)

end MathUtils

/-- One full-screen effect pass of `RenderLayer`: the effect material, the framebuffer whose
colour target is its input and the framebuffer that is bound for the pass. -/
structure EffectPass where
  material : Nat
  source : Nat
  target : Nat
deriving DecidableEq

/-- What one `RenderLayer` call does: the renderer afterwards, the renderables whose
`Render` was called, in order, and the effect passes, in order. -/
structure RenderLayerResult where
  renderer : SpriteGameRenderer
  draws : List Nat
  passes : List EffectPass

namespace SpriteGameRenderer

/-- The method `SpriteGameRenderer::RecalculateVirtualWidthAndHeight`. -/
def RecalculateVirtualWidthAndHeight (r : SpriteGameRenderer) (renderArea : ViewportDefinition)
    (layerVirtualSizeScaleFactor : ℚ) : SpriteGameRenderer :=
  let newVirtualWidth := r.m_windowVirtualHeight * renderArea.m_viewportAspectRatio
  let newVirtualHeight := r.m_windowVirtualWidth / renderArea.m_viewportAspectRatio
  { r with
    m_virtualWidth :=
      MathUtils.Lerp (1/2) r.m_windowVirtualWidth newVirtualWidth * layerVirtualSizeScaleFactor,
    m_virtualHeight :=
      MathUtils.Lerp (1/2) r.m_windowVirtualHeight newVirtualHeight *
        layerVirtualSizeScaleFactor }

/-- The `do ... while` loop over the ring in `RenderLayer`, at `currentRenderable`: the
renderables whose `Render` is called, in order; `none` when the fuel runs out. -/
def renderWalk (heap : RenderableHeap) (renderBounds : AABB2) (head : Nat) :
    Nat → Nat → Option (List Nat)
  | 0, _ => none
  | fuel + 1, currentRenderable =>
    let drawn :=
      if ¬ (heap currentRenderable).isCullable ∨
          renderBounds.IsIntersecting (heap currentRenderable).bounds
      then [currentRenderable] else []
    let current1 := (heap currentRenderable).next
    if current1 ≠ head then
      match renderWalk heap renderBounds head fuel current1 with
      | none => none
      | some rest => some (drawn ++ rest)
    else some drawn

/-- The walk over the ring in `RenderLayer`: nothing for a null head, the
`do ... while` loop from the head otherwise. -/
def renderRing (heap : RenderableHeap) (renderBounds : AABB2) (head : Option Nat)
    (fuel : Nat) : Option (List Nat) :=
  match head with
  | none => some []
  | some currentRenderable => renderWalk heap renderBounds currentRenderable fuel currentRenderable

/-- The `for` loop over the effect materials in `RenderLayer`, on `m_currentFBO` and
`m_effectFBO`: each pass binds `m_effectFBO`, reads `m_currentFBO`, and then the two are
exchanged. The result is the final pair and the passes. -/
def effectLoop : List Nat → Nat → Nat → Nat × Nat × List EffectPass
  | [], currentFBO, effectFBO => (currentFBO, effectFBO, [])
  | currentEffect :: rest, currentFBO, effectFBO =>
    let e := effectLoop rest effectFBO currentFBO
    (e.1, e.2.1, { material := currentEffect, source := currentFBO, target := effectFBO } :: e.2.2)

/-- The method `SpriteGameRenderer::RenderLayer`. -/
def RenderLayer (r : SpriteGameRenderer) (heap : RenderableHeap) (layer : SpriteLayer)
    (renderArea : ViewportDefinition) (fuel : Nat) : Option RenderLayerResult :=
  let r1 := r.RecalculateVirtualWidthAndHeight renderArea layer.m_virtualScaleMultiplier
  let r2 := r1.UpdateCameraPositionInWorldBounds renderArea.m_cameraPosition
    layer.m_virtualScaleMultiplier
  let renderBounds := r2.GetVirtualBoundsAroundCameraCenter
  if layer.m_isEnabled then
    match renderRing heap renderBounds layer.m_renderablesList fuel with
    | none => none
    | some draws =>
      let e := effectLoop layer.m_effectMaterials r2.m_currentFBO r2.m_effectFBO
      some { renderer := { r2 with m_currentFBO := e.1, m_effectFBO := e.2.1 },
             draws := draws, passes := e.2.2 }
  else some { renderer := r2, draws := [], passes := [] }

/-- The camera-space box that `RenderLayer` culls against. -/
def renderBoundsOf (r : SpriteGameRenderer) (layer : SpriteLayer)
    (renderArea : ViewportDefinition) : AABB2 :=
  GetVirtualBoundsAroundCameraCenter
    ((r.RecalculateVirtualWidthAndHeight renderArea
      layer.m_virtualScaleMultiplier).UpdateCameraPositionInWorldBounds
        renderArea.m_cameraPosition layer.m_virtualScaleMultiplier)

end SpriteGameRenderer

namespace SpriteLayer

/-- A heap of cullable renderables: 1 has its box inside the square from 4 to 6, 2 has its
box outside it, and every other renderable has a box that overlaps it in part. -/
def cullingHeap : RenderableHeap :=
  fun a =>
    { prev := 0, next := 0, m_isDead := false, m_orderingLayer := 0, isCullable := true,
      bounds :=
        if a = 1 then ⟨⟨9/2, 9/2⟩, ⟨11/2, 11/2⟩⟩
        else if a = 2 then ⟨⟨8, 8⟩, ⟨9, 9⟩⟩
        else ⟨⟨11/2, 11/2⟩, ⟨7, 7⟩⟩ }

/-- The layer that holds the renderables 1, 2, 3 of `cullingHeap`, added in this order. -/
def cullingScene : RenderableHeap × SpriteLayer :=
  applyOps (cullingHeap, emptyLayer) [RingOp.add 1, RingOp.add 2, RingOp.add 3]

/-- A square viewport whose camera is at (5, 5). -/
def squareViewport : ViewportDefinition :=
  { m_bottomLeftX := 0, m_bottomLeftY := 0, m_viewportWidth := 4, m_viewportHeight := 4,
    m_viewportAspectRatio := 1, m_cameraPosition := ⟨5, 5⟩ }

end SpriteLayer

/-! ## Layers, viewports and particle systems of the compositor -/

namespace SpriteGameRenderer

/-- The method `SpriteGameRenderer::UpdateScreenResolution`, in exact arithmetic
(`F32.SpriteGameRenderer.UpdateScreenResolution` has the conversions and the `float`
division). -/
def UpdateScreenResolution (r : SpriteGameRenderer) (widthInPixels heightInPixels : Nat) :
    SpriteGameRenderer :=
  let resolution : Vector2 := ⟨widthInPixels, heightInPixels⟩
  { r with m_screenResolution := resolution, m_aspectRatio := resolution.x / resolution.y }

/-- The conversion `static_cast<int>(x)` of a float: the fraction is dropped (defined by the
language while the result fits an `int`). -/
def floatToInt (x : ℚ) : Int := if 0 ≤ x then ⌊x⌋ else ⌈x⌉

/-- The conversion of an `int` to `unsigned int` or `uint32_t`: the value modulo `2^32`. -/
def toUInt32 (i : Int) : Nat := (i % 2 ^ 32).toNat

/-- The method `SpriteGameRenderer::CreateOrGetLayer`: the layer it returns and the renderer
afterwards. -/
def CreateOrGetLayer (r : SpriteGameRenderer) (layerNumber : Int) :
    SpriteLayer × SpriteGameRenderer :=
  match r.m_layers.find layerNumber with
  | none =>
    let newLayer := SpriteLayer.new layerNumber r.m_worldBounds
    (newLayer, { r with m_layers := r.m_layers.insert layerNumber newLayer })
  | some layer => (layer, r)

/-- A run of `CreateOrGetLayer` calls, one per layer number of `layerNumbers`, in order. -/
def createLayers (r : SpriteGameRenderer) : List Int → SpriteGameRenderer
  | [] => r
  | layerNumber :: rest => createLayers (r.CreateOrGetLayer layerNumber).2 rest

/-- Modelled from the spec: `SpriteGameRenderer::RegisterParticleSystem` is declared in
`SpriteGameRenderer.hpp`, which is not in the source; a particle system is "registered with
the Compositor at construction": it joins the list of registered particle systems. -/
def RegisterParticleSystem (r : SpriteGameRenderer) (system : ParticleSystem) :
    SpriteGameRenderer :=
  { r with m_particleSystemList := r.m_particleSystemList ++ [system] }

end SpriteGameRenderer

/-- What one `RenderView` call does: the renderer afterwards, for every layer rendered, in
order, its key in `m_layers` and what `RenderLayer` did, and the framebuffer that was
copied to the back buffer. -/
structure RenderViewResult where
  renderer : SpriteGameRenderer
  layers : List (Int × RenderLayerResult)
  copiedToBack : Nat

namespace SpriteGameRenderer

/-- The loop `for (auto layerPair : m_layers) RenderLayer(layerPair.second, renderArea)` of
`RenderView`, over the entries in iteration order. -/
def renderLayers (heap : RenderableHeap) (renderArea : ViewportDefinition) (fuel : Nat) :
    SpriteGameRenderer → List (Int × SpriteLayer) →
      Option (SpriteGameRenderer × List (Int × RenderLayerResult))
  | r, [] => some (r, [])
  | r, layerPair :: rest =>
    match r.RenderLayer heap layerPair.2 renderArea fuel with
    | none => none
    | some res =>
      match renderLayers heap renderArea fuel res.renderer rest with
      | none => none
      | some out => some (out.1, (layerPair.1, res) :: out.2)

/-- The method `SpriteGameRenderer::RenderView`. -/
def RenderView (r : SpriteGameRenderer) (heap : RenderableHeap)
    (renderArea : ViewportDefinition) (fuel : Nat) : Option RenderViewResult :=
  match renderLayers heap renderArea fuel r r.m_layers.entries with
  | none => none
  | some out =>
    some { renderer := out.1, layers := out.2, copiedToBack := out.1.m_currentFBO }

/-- The `do ... while` loop of `SpriteGameRenderer::Update` over the ring of one layer, at
`currentRenderable`: the virtual `Update` of each renderable is `updateRenderable`; `none`
when the fuel runs out. -/
def updateWalk (updateRenderable : ℚ → Renderable2D → Renderable2D) (deltaSeconds : ℚ)
    (head : Nat) : Nat → RenderableHeap → Nat → Option RenderableHeap
  | 0, _, _ => none
  | fuel + 1, heap, currentRenderable =>
    let heap1 : RenderableHeap :=
      Function.update heap currentRenderable
        (updateRenderable deltaSeconds (heap currentRenderable))
    let current1 := (heap1 currentRenderable).next
    if current1 ≠ head then updateWalk updateRenderable deltaSeconds head fuel heap1 current1
    else some heap1

/-- The body of the layer loop of `SpriteGameRenderer::Update`, over the entries in
iteration order: the renderables of the layer are updated, then the layer is cleaned up
(`CleanUpDeadRenderables()` with its default argument, which the spec gives as
`forceAll=false`). -/
def updateLayers (updateRenderable : ℚ → Renderable2D → Renderable2D) (deltaSeconds : ℚ)
    (fuel : Nat) : RenderableHeap → List (Int × SpriteLayer) →
      Option (RenderableHeap × List (Int × SpriteLayer))
  | heap, [] => some (heap, [])
  | heap, layerPair :: rest =>
    let walked : Option RenderableHeap :=
      match layerPair.2.m_renderablesList with
      | none => some heap
      | some head => updateWalk updateRenderable deltaSeconds head fuel heap head
    match walked with
    | none => none
    | some heap1 =>
      match layerPair.2.CleanUpDeadRenderables heap1 false fuel with
      | none => none
      | some s =>
        match updateLayers updateRenderable deltaSeconds fuel s.1 rest with
        | none => none
        | some out => some (out.1, (layerPair.1, s.2) :: out.2)

/-- The method `SpriteGameRenderer::Update`: the renderer and the heap of renderables
afterwards. Its body is the loop over `m_layers` and nothing else. -/
def Update (r : SpriteGameRenderer) (heap : RenderableHeap)
    (updateRenderable : ℚ → Renderable2D → Renderable2D) (deltaSeconds : ℚ) (fuel : Nat) :
    Option (SpriteGameRenderer × RenderableHeap) :=
  match updateLayers updateRenderable deltaSeconds fuel heap r.m_layers.entries with
  | none => none
  | some out => some ({ r with m_layers := ⟨out.2⟩ }, out.1)

end SpriteGameRenderer

/-- Modelled from the spec: `ResourceDatabase` is not in the source; the spec gives the
lookup as `resolveParticleSystemDefinition(name) -> definition | not-found`. `none` is a
definition that cannot be resolved (the pointer stored in `m_definition` is then null). -/
structure ResourceDatabase where
  GetParticleSystemResource : String → Option ParticleSystemDefinition

namespace ParticleSystem

/-- The loop of `ParticleSystem(systemName, orderingLayer, positionToFollow)` over the
emitter definitions: one following emitter per definition, in order; the emitter with
index `i` takes the random source `draws i`. -/
def emittersFollowing (positionToFollow : Option Vector2) (draws : Nat → Nat → ParticleDraw)
    (uninitialisedRotation : ℚ) : List ParticleEmitterDefinition → Nat →
      Option (List ParticleEmitter)
  | [], _ => some []
  | emitterDefinition :: rest, i =>
    match ParticleEmitter.newFollowing emitterDefinition positionToFollow (draws i)
        uninitialisedRotation with
    | none => none
    | some emitter =>
      match emittersFollowing positionToFollow draws uninitialisedRotation rest (i + 1) with
      | none => none
      | some emitters => some (emitter :: emitters)

/-- The loop of `ParticleSystem(systemName, orderingLayer, positionToSpawn,
rotationDegrees)` over the emitter definitions: one fixed-pose emitter per definition. -/
def emittersAtPosition (positionToSpawn : Vector2) (rotationDegrees : ℚ)
    (draws : Nat → Nat → ParticleDraw) : List ParticleEmitterDefinition → Nat →
      Option (List ParticleEmitter)
  | [], _ => some []
  | emitterDefinition :: rest, i =>
    match ParticleEmitter.newAtPosition emitterDefinition positionToSpawn rotationDegrees
        (draws i) with
    | none => none
    | some emitter =>
      match emittersAtPosition positionToSpawn rotationDegrees draws rest (i + 1) with
      | none => none
      | some emitters => some (emitter :: emitters)

/-- The constructor `ParticleSystem(systemName, orderingLayer, positionToFollow)`: the
system, or `none` when the construction fails, and the renderer as the call leaves it. The
loop reads `m_definition->m_emitterDefinitions`, which fails for a definition that was not
resolved; `RegisterParticleSystem` is the last statement. -/
def newFollowing (r : SpriteGameRenderer) (database : ResourceDatabase) (systemName : String)
    (orderingLayer : Int) (positionToFollow : Option Vector2)
    (draws : Nat → Nat → ParticleDraw) (uninitialisedRotation : ℚ) :
    Option ParticleSystem × SpriteGameRenderer :=
  match database.GetParticleSystemResource systemName with
  | none => (none, r)
  | some definition =>
    match emittersFollowing positionToFollow draws uninitialisedRotation
        definition.m_emitterDefinitions 0 with
    | none => (none, r)
    | some emitters =>
      let system : ParticleSystem :=
        { m_orderingLayer := orderingLayer, m_isDead := false, m_definition := definition,
          m_emitters := emitters }
      (some system, r.RegisterParticleSystem system)

/-- The constructor `ParticleSystem(systemName, orderingLayer, positionToSpawn,
rotationDegrees)`: the system, or `none` when the construction fails, and the renderer as
the call leaves it. -/
def newAtPosition (r : SpriteGameRenderer) (database : ResourceDatabase) (systemName : String)
    (orderingLayer : Int) (positionToSpawn : Vector2) (rotationDegrees : ℚ)
    (draws : Nat → Nat → ParticleDraw) : Option ParticleSystem × SpriteGameRenderer :=
  match database.GetParticleSystemResource systemName with
  | none => (none, r)
  | some definition =>
    match emittersAtPosition positionToSpawn rotationDegrees draws
        definition.m_emitterDefinitions 0 with
    | none => (none, r)
    | some emitters =>
      let system : ParticleSystem :=
        { m_orderingLayer := orderingLayer, m_isDead := false, m_definition := definition,
          m_emitters := emitters }
      (some system, r.RegisterParticleSystem system)

end ParticleSystem

/-- How a `PlayOneShotParticleEffect` call ends: the construction of the system failed, the
assertion `ASSERT_OR_DIE(m_type == ONE_SHOT)` failed, or the call returned. -/
inductive PlayOutcome where
  | constructionFailed
  | assertionFailed
  | played
deriving DecidableEq

namespace ParticleSystem

/-- The overload `PlayOneShotParticleEffect(systemName, layerId, followingPosition)`: the
system is constructed (and so registered) first, and the assertion on its type comes
after. -/
def PlayOneShotParticleEffectFollowing (r : SpriteGameRenderer) (database : ResourceDatabase)
    (systemName : String) (layerId : Nat) (followingPosition : Option Vector2)
    (draws : Nat → Nat → ParticleDraw) (uninitialisedRotation : ℚ) :
    PlayOutcome × SpriteGameRenderer :=
  match newFollowing r database systemName layerId followingPosition draws
      uninitialisedRotation with
  | (none, r1) => (PlayOutcome.constructionFailed, r1)
  | (some newSystemToPlay, r1) =>
    if newSystemToPlay.m_definition.m_type = ParticleSystemType.ONE_SHOT then
      (PlayOutcome.played, r1)
    else (PlayOutcome.assertionFailed, r1)

/-- The overload `PlayOneShotParticleEffect(systemName, layerId, spawnPosition,
rotationDegrees)`. -/
def PlayOneShotParticleEffectAtPosition (r : SpriteGameRenderer)
    (database : ResourceDatabase) (systemName : String) (layerId : Nat)
    (spawnPosition : Vector2) (rotationDegrees : ℚ) (draws : Nat → Nat → ParticleDraw) :
    PlayOutcome × SpriteGameRenderer :=
  match newAtPosition r database systemName layerId spawnPosition rotationDegrees draws with
  | (none, r1) => (PlayOutcome.constructionFailed, r1)
  | (some newSystemToPlay, r1) =>
    if newSystemToPlay.m_definition.m_type = ParticleSystemType.ONE_SHOT then
      (PlayOutcome.played, r1)
    else (PlayOutcome.assertionFailed, r1)

end ParticleSystem

/-! ## Example scenes of the compositor, and the particle mesh -/

namespace ParticleEmitter

/-- A dead emitter with no particle. -/
def deadEmitter : ParticleEmitter :=
  { m_definition := halfTransparentDefinition, m_position := none, m_rotationDegrees := 0,
    m_emitterAge := 5, m_timeSinceLastEmission := 0, m_secondsPerParticle := 0,
    m_isDead := true, m_particles := [], randomDraws := constantDraws, numDraws := 1 }

end ParticleEmitter

namespace ParticleSystem

/-- A dead system of one dead emitter. -/
def deadSystem : ParticleSystem :=
  { m_orderingLayer := 0, m_isDead := true,
    m_definition :=
      { m_type := ParticleSystemType.ONE_SHOT,
        m_emitterDefinitions := [ParticleEmitter.halfTransparentDefinition] },
    m_emitters := [ParticleEmitter.deadEmitter] }

end ParticleSystem

namespace SpriteGameRenderer

/-- A layer with three effect materials and no renderable. -/
def threeEffects : SpriteLayer :=
  { m_layer := 0, m_renderablesList := none, m_isEnabled := true,
    m_virtualScaleMultiplier := 1, m_effectMaterials := [7, 8, 9],
    m_boundingVolume := ⟨⟨0, 0⟩, ⟨10, 10⟩⟩ }

/-- A renderer whose layers 5, -2 and 3 were created in this order. -/
def threeLayers : SpriteGameRenderer := smallFrame.createLayers [5, -2, 3]

end SpriteGameRenderer

namespace ParticleEmitter

/-- A definition that emits one particle per second and has an initial batch of one. -/
def burstDefinition : ParticleEmitterDefinition :=
  { m_particlesPerSecond := 1, m_initialNumParticlesSpawn := 1,
    m_initialTintPerParticle := { red := 1, green := 1, blue := 1, alpha := 1 },
    m_spriteResource :=
      { m_pivotPoint := ⟨0, 0⟩, m_uvBounds := ⟨⟨0, 0⟩, ⟨1, 1⟩⟩, m_virtualSize := ⟨1, 1⟩ } }

end ParticleEmitter

namespace ParticleSystem

/-- A one-shot system definition with the one emitter `burstDefinition`. -/
def burstSystemDefinition : ParticleSystemDefinition :=
  { m_type := ParticleSystemType.ONE_SHOT,
    m_emitterDefinitions := [ParticleEmitter.burstDefinition] }

/-- A looping system definition with the one emitter `burstDefinition`. -/
def fountainSystemDefinition : ParticleSystemDefinition :=
  { m_type := ParticleSystemType.LOOPING,
    m_emitterDefinitions := [ParticleEmitter.burstDefinition] }

/-- A database that resolves "burst" to `burstSystemDefinition` and "fountain" to
`fountainSystemDefinition`. -/
def burstDatabase : ResourceDatabase :=
  { GetParticleSystemResource := fun systemName =>
      if systemName = "burst" then some burstSystemDefinition
      else if systemName = "fountain" then some fountainSystemDefinition
      else none }

/-- A renderer with no layer and the one registered system `oneShotSystem`. -/
def rendererWithSystem : SpriteGameRenderer :=
  SpriteGameRenderer.smallFrame.RegisterParticleSystem oneShotSystem

end ParticleSystem

/-- The vertex type `Vertex_Sprite`: the three members that `Vertex.cpp` copies and
binds. -/
structure Vertex_Sprite where
  position : Vector2
  color : RGBA
  uv : Vector2

/-- Modelled from the spec: `class Mesh` is not in the source; the spec treats the upload as
an opaque "upload these vertices+indices" operation, so a mesh is the vertices and the
indices it was last initialised with. -/
structure Mesh where
  vertices : List Vertex_Sprite
  indices : List Nat

namespace Mesh

/-- Modelled from the spec: `Mesh::CleanUpRenderObjects` is not in the source; it releases
the buffers of the previous upload. -/
def CleanUpRenderObjects (_m : Mesh) : Mesh := { vertices := [], indices := [] }

/-- Modelled from the spec: `Mesh::Init` is not in the source; it uploads the given vertices
and indices. -/
def Init (_m : Mesh) (verts : List Vertex_Sprite) (indices : List Nat) : Mesh :=
  { vertices := verts, indices := indices }

end Mesh

namespace ParticleEmitter

/-- The conversion of an `unsigned int` to `int`: the value modulo `2^32`, read as a
two's-complement number. -/
def toInt32 (n : Nat) : Int :=
  if n % 2 ^ 32 < 2 ^ 31 then ((n % 2 ^ 32 : Nat) : Int)
  else ((n % 2 ^ 32 : Nat) : Int) - 2 ^ 32

/-- The write access `verts[index].member = ...` on the vector: `none` when the index is
outside the vector. -/
def writeVertex (verts : List Vertex_Sprite) (index : Int)
    (f : Vertex_Sprite → Vertex_Sprite) : Option (List Vertex_Sprite) :=
  if 0 ≤ index then
    match verts.get? index.toNat with
    | none => none
    | some v => some (verts.set index.toNat (f v))
  else none

/-- The part of the loop body of `CopyParticlesToMesh` that writes the vertices of one
particle: four vertices are appended (`blankVertex` is what `emplace_back()` constructs) and
then written at `k + currentOffset`. `transformPoint particle` is the product
`Vector2(Vector4(p, 0, 1) * (scale * rotation * translation))` for the scale, rotation and
position of the particle (`Matrix4x4` is not in the source). -/
def quadVertices (e : ParticleEmitter) (transformPoint : Particle → Vector2 → Vector2)
    (blankVertex : Vertex_Sprite) (particle : Particle) (currentOffset : Int)
    (verts : List Vertex_Sprite) : Option (List Vertex_Sprite) := do
  let pivotPoint := e.m_definition.m_spriteResource.m_pivotPoint
  let uvMins := e.m_definition.m_spriteResource.m_uvBounds.mins
  let uvMaxs := e.m_definition.m_spriteResource.m_uvBounds.maxs
  let spriteBounds := e.m_definition.m_spriteResource.m_virtualSize
  let verts := verts ++ [blankVertex, blankVertex, blankVertex, blankVertex]
  let verts ← writeVertex verts (0 + currentOffset)
    (fun v => { v with position := ⟨-pivotPoint.x, -pivotPoint.y⟩ })
  let verts ← writeVertex verts (1 + currentOffset)
    (fun v => { v with position := ⟨spriteBounds.x - pivotPoint.x, -pivotPoint.y⟩ })
  let verts ← writeVertex verts (2 + currentOffset)
    (fun v => { v with position := ⟨-pivotPoint.x, spriteBounds.y - pivotPoint.y⟩ })
  let verts ← writeVertex verts (3 + currentOffset)
    (fun v => { v with
      position := ⟨spriteBounds.x - pivotPoint.x, spriteBounds.y - pivotPoint.y⟩ })
  let verts ← writeVertex verts (0 + currentOffset)
    (fun v => { v with uv := ⟨uvMins.x, uvMaxs.y⟩ })
  let verts ← writeVertex verts (1 + currentOffset) (fun v => { v with uv := uvMaxs })
  let verts ← writeVertex verts (2 + currentOffset) (fun v => { v with uv := uvMins })
  let verts ← writeVertex verts (3 + currentOffset)
    (fun v => { v with uv := ⟨uvMaxs.x, uvMins.y⟩ })
  let verts ← writeVertex verts (0 + currentOffset) (fun v => { v with color := particle.tint })
  let verts ← writeVertex verts (1 + currentOffset) (fun v => { v with color := particle.tint })
  let verts ← writeVertex verts (2 + currentOffset) (fun v => { v with color := particle.tint })
  let verts ← writeVertex verts (3 + currentOffset) (fun v => { v with color := particle.tint })
  let verts ← writeVertex verts (0 + currentOffset)
    (fun v => { v with position := transformPoint particle v.position })
  let verts ← writeVertex verts (1 + currentOffset)
    (fun v => { v with position := transformPoint particle v.position })
  let verts ← writeVertex verts (2 + currentOffset)
    (fun v => { v with position := transformPoint particle v.position })
  writeVertex verts (3 + currentOffset)
    (fun v => { v with position := transformPoint particle v.position })

/-- The body of the `for` loop of `CopyParticlesToMesh` at index `i`, on the two vectors
`verts` and `indices`; `none` once an access was outside a vector. -/
def copyStep (e : ParticleEmitter) (transformPoint : Particle → Vector2 → Vector2)
    (blankVertex : Vertex_Sprite) (acc : Option (List Vertex_Sprite × List Nat)) (i : Nat) :
    Option (List Vertex_Sprite × List Nat) :=
  match acc with
  | none => none
  | some (verts, indices) =>
    let currentOffset : Int := toInt32 (i * 4)
    match e.m_particles.get? i with
    | none => none
    | some particle =>
      match quadVertices e transformPoint blankVertex particle currentOffset verts with
      | none => none
      | some verts1 =>
        some (verts1, indices ++
          [SpriteGameRenderer.toUInt32 (1 + currentOffset),
            SpriteGameRenderer.toUInt32 (2 + currentOffset),
            SpriteGameRenderer.toUInt32 (0 + currentOffset),
            SpriteGameRenderer.toUInt32 (1 + currentOffset),
            SpriteGameRenderer.toUInt32 (3 + currentOffset),
            SpriteGameRenderer.toUInt32 (2 + currentOffset)])

/-- The method `ParticleEmitter::CopyParticlesToMesh`: the mesh afterwards, or `none` when an
access was outside a vector. `numParticles` is an `unsigned int`. -/
def CopyParticlesToMesh (e : ParticleEmitter) (transformPoint : Particle → Vector2 → Vector2)
    (blankVertex : Vertex_Sprite) (m_mesh : Mesh) : Option Mesh :=
  let numParticles : Nat := e.m_particles.length % 2 ^ 32
  if numParticles = 0 then some m_mesh
  else
    match (List.range numParticles).foldl (copyStep e transformPoint blankVertex)
        (some ([], [])) with
    | none => none
    | some (verts, indices) => some (m_mesh.CleanUpRenderObjects.Init verts indices)

/-- The four vertices of the quad of one particle, as `CopyParticlesToMesh` leaves them:
the corners of the sprite around its pivot, transformed, with the uv corners of the sprite
and the tint of the particle. -/
def particleQuad (e : ParticleEmitter) (transformPoint : Particle → Vector2 → Vector2)
    (particle : Particle) : List Vertex_Sprite :=
  let pivotPoint := e.m_definition.m_spriteResource.m_pivotPoint
  let uvMins := e.m_definition.m_spriteResource.m_uvBounds.mins
  let uvMaxs := e.m_definition.m_spriteResource.m_uvBounds.maxs
  let spriteBounds := e.m_definition.m_spriteResource.m_virtualSize
  [{ position := transformPoint particle ⟨-pivotPoint.x, -pivotPoint.y⟩,
     color := particle.tint, uv := ⟨uvMins.x, uvMaxs.y⟩ },
   { position := transformPoint particle ⟨spriteBounds.x - pivotPoint.x, -pivotPoint.y⟩,
     color := particle.tint, uv := uvMaxs },
   { position := transformPoint particle ⟨-pivotPoint.x, spriteBounds.y - pivotPoint.y⟩,
     color := particle.tint, uv := uvMins },
   { position :=
       transformPoint particle ⟨spriteBounds.x - pivotPoint.x, spriteBounds.y - pivotPoint.y⟩,
     color := particle.tint, uv := ⟨uvMaxs.x, uvMins.y⟩ }]

/-- The six indices of the quad with number `i`. -/
def quadIndices (i : Nat) : List Nat :=
  [4 * i + 1, 4 * i + 2, 4 * i, 4 * i + 1, 4 * i + 3, 4 * i + 2]

/-- A blank vertex. -/
def zeroVertex : Vertex_Sprite :=
  { position := Vector2.ZERO, color := { red := 0, green := 0, blue := 0, alpha := 0 },
    uv := Vector2.ZERO }

/-- A mesh of one vertex and three indices, as a previous frame may have left it. -/
def staleMesh : Mesh := { vertices := [zeroVertex], indices := [0, 0, 0] }

/-- An emitter that holds `2^29 + 1` particles. -/
def hugeEmitter : ParticleEmitter :=
  { m_definition := halfTransparentDefinition, m_position := none, m_rotationDegrees := 0,
    m_emitterAge := 0, m_timeSinceLastEmission := 0, m_secondsPerParticle := 0,
    m_isDead := false, m_particles := List.replicate (2 ^ 29 + 1) freshParticle,
    randomDraws := constantDraws, numDraws := 2 ^ 29 + 1 }

end ParticleEmitter

/-! ## Effect chains, the virtual size and the winding of the particle quads -/

namespace SpriteGameRenderer

/-- The method `SpriteGameRenderer::AddEffectToLayer`, on the renderer: the layer is looked
up or created, and the effect is pushed at the back of its `m_effectMaterials`. (The call
also sets the uniform `gStartTime` of the material, which is not renderer state.) -/
def AddEffectToLayer (r : SpriteGameRenderer) (effectMaterial : Nat) (layerNumber : Int) :
    SpriteGameRenderer :=
  let found := r.CreateOrGetLayer layerNumber
  let layer : SpriteLayer :=
    { found.1 with m_effectMaterials := found.1.m_effectMaterials ++ [effectMaterial] }
  { found.2 with m_layers := found.2.m_layers.insert layerNumber layer }

/-- The loop of `SpriteGameRenderer::RemoveEffectFromLayer` over `m_effectMaterials`: the
first element that is `effectMaterial` is erased, and the loop returns. -/
def eraseEffect (effectMaterial : Nat) : List Nat → List Nat
  | [] => []
  | current :: rest =>
    if effectMaterial = current then rest else current :: eraseEffect effectMaterial rest

/-- The method `SpriteGameRenderer::RemoveEffectFromLayer`, on the renderer (the layer
pointer that `CreateOrGetLayer` returns is never null). -/
def RemoveEffectFromLayer (r : SpriteGameRenderer) (effectMaterial : Nat) (layerNumber : Int) :
    SpriteGameRenderer :=
  let found := r.CreateOrGetLayer layerNumber
  let layer : SpriteLayer :=
    { found.1 with m_effectMaterials := eraseEffect effectMaterial found.1.m_effectMaterials }
  { found.2 with m_layers := found.2.m_layers.insert layerNumber layer }

/-- The effect chain of the layer `layerNumber`: its `m_effectMaterials`, and no effect when
there is no such layer. -/
def effectChain (r : SpriteGameRenderer) (layerNumber : Int) : List Nat :=
  match r.m_layers.find layerNumber with
  | none => []
  | some layer => layer.m_effectMaterials

/-- The method `SpriteGameRenderer::SetVirtualSize`. -/
def SetVirtualSize (r : SpriteGameRenderer) (vsize : ℚ) : SpriteGameRenderer :=
  { r with
    m_virtualSize := vsize,
    m_windowVirtualHeight := if r.m_aspectRatio < 1 then vsize / r.m_aspectRatio else vsize,
    m_windowVirtualWidth := if r.m_aspectRatio ≥ 1 then vsize * r.m_aspectRatio else vsize }

/-- The method `SpriteGameRenderer::IsInsideWorldBounds`. -/
def IsInsideWorldBounds (r : SpriteGameRenderer) (attemptedPosition : Vector2) : Bool :=
  decide (r.GetVirtualBoundsAroundCameraCenter.IsPointInside attemptedPosition)

/-- A layer that is disabled and has three effect materials and the head 1. -/
def disabledLayer : SpriteLayer :=
  { m_layer := 0, m_renderablesList := some 1, m_isEnabled := false,
    m_virtualScaleMultiplier := 1, m_effectMaterials := [7, 8, 9],
    m_boundingVolume := ⟨⟨0, 0⟩, ⟨10, 10⟩⟩ }

/-- A renderer for a screen twice as wide as high: aspect ratio 2. -/
def wideFrame : SpriteGameRenderer := smallFrame.UpdateScreenResolution 8 4

/-- A renderer for a screen twice as high as wide: aspect ratio 1/2. -/
def tallFrame : SpriteGameRenderer := smallFrame.UpdateScreenResolution 4 8

end SpriteGameRenderer

namespace ParticleEmitter

/-- Twice the signed area of the triangle `a`, `b`, `c`: positive when the corners are in
counter-clockwise order, negative when they are in clockwise order. -/
def signedArea2 (a b c : Vector2) : ℚ :=
  (b.x - a.x) * (c.y - a.y) - (b.y - a.y) * (c.x - a.x)

/-- The triangles that a run of indices forms over `positions`, three indices each: for
every triangle twice its signed area, or `none` when an index is outside `positions`. -/
def triangleAreas (positions : List Vector2) : List Nat → List (Option ℚ)
  | i :: j :: k :: rest =>
    (match positions[i]?, positions[j]?, positions[k]? with
      | some a, some b, some c => some (signedArea2 a b c)
      | _, _, _ => none) :: triangleAreas positions rest
  | _ => []

/-- The corners of the sprite of `e` around its pivot, before the transform of a particle
is applied: the positions of the quad with the identity for the transform. -/
def untransformedCorners (e : ParticleEmitter) (particle : Particle) : List Vector2 :=
  (particleQuad e (fun _ v => v) particle).map Vertex_Sprite.position

/-- A live emitter that follows the position (1, 2) and emits a particle every half
second; a quarter of a second has passed since the last emission. -/
def followingEmitter : ParticleEmitter :=
  { m_definition := continuousDefinition, m_position := some ⟨1, 2⟩, m_rotationDegrees := 0,
    m_emitterAge := 0, m_timeSinceLastEmission := 1/4, m_secondsPerParticle := 1/2,
    m_isDead := false, m_particles := [], randomDraws := constantDraws, numDraws := 0 }

end ParticleEmitter

/-! ## Binary32 arithmetic

The source computes in `float`. A finite `float` is the rational it denotes, and every
arithmetic operation of the source is the exact operation followed by `Float32.round`, the
rounding to the nearest binary32 value with ties to even (the default rounding mode; each
operation is rounded to binary32 by itself). Infinities, NaN and the sign of zero are not
represented: a result of magnitude `2^128` or more, and a division by zero, are outside the
embedding, and the theorems keep their values away from both. -/

namespace Float32

/-- The integer nearest to `q`; a `q` half way between two integers goes to the even one. -/
def roundEven (q : ℚ) : Int :=
  if q - ⌊q⌋ < 1/2 then ⌊q⌋
  else if q - ⌊q⌋ > 1/2 then ⌊q⌋ + 1
  else if ⌊q⌋ % 2 = 0 then ⌊q⌋ else ⌊q⌋ + 1

/-- The binary exponent that fixes the spacing of the binary32 values around `x`: the
largest `e` with `2^e ≤ |x|`, and `-126` in the subnormal range, where it would be smaller
(for `x = 0` the spacing does not matter: 0 rounds to 0). -/
def exponent (x : ℚ) : Int := max (Int.log 2 |x|) (-126)

/-- The spacing of the binary32 values around `x`: 24 significant bits. -/
def ulp (x : ℚ) : ℚ := 2 ^ (exponent x - 23)

/-- The binary32 value nearest to `x`, ties to even: `x` in units of the spacing, rounded to
an integer. Overflow is not represented: for `|x| ≥ 2^128` the result is the value a format
with the same 24 bits and no largest exponent would give. -/
def round (x : ℚ) : ℚ := (roundEven (x / ulp x) : ℚ) * ulp x

/-- The `float` sum `a + b`. -/
def add (a b : ℚ) : ℚ := round (a + b)

/-- The `float` difference `a - b`. -/
def sub (a b : ℚ) : ℚ := round (a - b)

/-- The `float` product `a * b`. -/
def mul (a b : ℚ) : ℚ := round (a * b)

/-- The `float` quotient `a / b`, for `b ≠ 0`. -/
def div (a b : ℚ) : ℚ := round (a / b)

/-- The conversion of an `unsigned int` or `int` to `float`. -/
def ofInt (i : Int) : ℚ := round i

end Float32

/-! ## The source functions with their binary32 arithmetic

The definitions of this section embed the functions of the source whose results depend on
the rounding of `float` operations, operation by operation. Where a definition of the same
name exists outside `F32`, that one is the reading of the function in exact arithmetic. -/

namespace F32

namespace SpriteGameRenderer

/-- The method `SpriteGameRenderer::UpdateScreenResolution`: the two `static_cast<float>` of
the pixel sizes and the `float` division. -/
def UpdateScreenResolution (r : Engine.SpriteGameRenderer) (widthInPixels heightInPixels : Nat) :
    Engine.SpriteGameRenderer :=
  let resolution : Vector2 := ⟨Float32.ofInt widthInPixels, Float32.ofInt heightInPixels⟩
  { r with
    m_screenResolution := resolution,
    m_aspectRatio := Float32.div resolution.x resolution.y }

/-- The method `SpriteGameRenderer::SetSplitscreen`. In
`m_screenResolution.x / m_numSplitscreenViews` the `unsigned int` is converted to `float` and
the division is a `float` division, which `static_cast<int>` then cuts to an integer. The
product `i * screenOffsetX` is unsigned, `(float)screenOffsetX` converts the integer back,
and `(uint32_t)width` cuts the `float` again. -/
def SetSplitscreen (r : Engine.SpriteGameRenderer) (numViews : Nat) :
    Engine.SpriteGameRenderer :=
  let screenOffsetX : Int :=
    Engine.SpriteGameRenderer.floatToInt
      (Float32.div r.m_screenResolution.x (Float32.ofInt numViews))
  { r with
    m_numSplitscreenViews := numViews,
    m_viewportDefinitions :=
      (List.range numViews).map (fun (i : Nat) =>
        let width : ℚ := Float32.ofInt screenOffsetX
        let height : ℚ := r.m_screenResolution.y
        { m_bottomLeftX := Engine.SpriteGameRenderer.toUInt32 ((i : Int) * screenOffsetX),
          m_bottomLeftY := 0,
          m_viewportWidth :=
            Engine.SpriteGameRenderer.toUInt32 (Engine.SpriteGameRenderer.floatToInt width),
          m_viewportHeight :=
            Engine.SpriteGameRenderer.toUInt32 (Engine.SpriteGameRenderer.floatToInt height),
          m_viewportAspectRatio := Float32.div width height,
          m_cameraPosition := Vector2.ZERO }) }

end SpriteGameRenderer

end F32

namespace Float32

/-- The rational `x` is an integer of magnitude at most `B` times the power of two `2^j`:
the quotient `x / 2^j` has denominator 1 and magnitude at most `B`. -/
def OnGrid (j : Int) (B : Nat) (x : ℚ) : Prop :=
  (x / 2 ^ j).den = 1 ∧ |x / 2 ^ j| ≤ (B : ℚ)

instance (j : Int) (B : Nat) (x : ℚ) : Decidable (OnGrid j B x) := by
  unfold OnGrid; infer_instance

end Float32

namespace F32

namespace Vector2

/-- The operator `operator+(lhs, rhs)` on `float` components. -/
def add (lhs rhs : Engine.Vector2) : Engine.Vector2 :=
  ⟨Float32.add lhs.x rhs.x, Float32.add lhs.y rhs.y⟩

/-- The operator `operator-(lhs, rhs)` on `float` components. -/
def sub (lhs rhs : Engine.Vector2) : Engine.Vector2 :=
  ⟨Float32.sub lhs.x rhs.x, Float32.sub lhs.y rhs.y⟩

/-- The operator `operator*(lhs, scalarConstant)` on `float` components. -/
def scale (lhs : Engine.Vector2) (scalarConstant : ℚ) : Engine.Vector2 :=
  ⟨Float32.mul lhs.x scalarConstant, Float32.mul lhs.y scalarConstant⟩

/-- Modelled from the spec: `Vector2::CalculateCorrectionVector` is only declared in
`Vector2.hpp`; the displacement that takes `position` onto `goal`, as a `float`
difference by component. -/
def CalculateCorrectionVector (position goal : Engine.Vector2) : Engine.Vector2 :=
  ⟨Float32.sub goal.x position.x, Float32.sub goal.y position.y⟩

end Vector2

namespace AABB2

/-- Modelled from the spec: `AABB2::operator*(float)` is not in the source; both corners
multiplied by the scale, as `float` products. -/
def mulScale (b : Engine.AABB2) (s : ℚ) : Engine.AABB2 :=
  ⟨Vector2.scale b.mins s, Vector2.scale b.maxs s⟩

end AABB2

namespace SpriteGameRenderer

/-- The method `SpriteGameRenderer::GetVirtualBoundsAroundCameraCenter`: two `float`
products by `0.5f`, then a `float` difference and sum by component. -/
def GetVirtualBoundsAroundCameraCenter (r : Engine.SpriteGameRenderer) : Engine.AABB2 :=
  let halfSize : Engine.Vector2 :=
    ⟨Float32.mul r.m_virtualWidth (1/2), Float32.mul r.m_virtualHeight (1/2)⟩
  ⟨Vector2.sub r.m_cameraPosition halfSize, Vector2.add r.m_cameraPosition halfSize⟩

/-- The method `SpriteGameRenderer::UpdateCameraPositionInWorldBounds` in `float`: the
frame box and the scaled bounds are rounded, each correction is a rounded difference, and
each `+=` is a rounded sum (of `0.0f` when the coordinate is not corrected). The box
`cameraBounds` is computed once, from the requested position. -/
def UpdateCameraPositionInWorldBounds (r : Engine.SpriteGameRenderer)
    (newCameraPosition : Engine.Vector2) (layerScale : ℚ) : Engine.SpriteGameRenderer :=
  let pos0 := newCameraPosition
  let cameraBounds :=
    GetVirtualBoundsAroundCameraCenter { r with m_cameraPosition := pos0 }
  let scaledWorldBounds := AABB2.mulScale r.m_worldBounds layerScale
  let pos1 : Engine.Vector2 :=
    if ¬ scaledWorldBounds.IsPointOnOrInside cameraBounds.mins then
      let correctionVector :=
        Vector2.CalculateCorrectionVector cameraBounds.mins scaledWorldBounds.mins
      ⟨Float32.add pos0.x
          (if cameraBounds.mins.x < scaledWorldBounds.mins.x then correctionVector.x else 0),
        Float32.add pos0.y
          (if cameraBounds.mins.y < scaledWorldBounds.mins.y then correctionVector.y else 0)⟩
    else pos0
  let pos2 : Engine.Vector2 :=
    if ¬ scaledWorldBounds.IsPointOnOrInside cameraBounds.maxs then
      let correctionVector :=
        Vector2.CalculateCorrectionVector cameraBounds.maxs scaledWorldBounds.maxs
      ⟨Float32.add pos1.x
          (if cameraBounds.maxs.x > scaledWorldBounds.maxs.x then correctionVector.x else 0),
        Float32.add pos1.y
          (if cameraBounds.maxs.y > scaledWorldBounds.maxs.y then correctionVector.y else 0)⟩
    else pos1
  { r with m_cameraPosition := pos2 }

/-- The camera frame of `r`, as `GetVirtualBoundsAroundCameraCenter` computes it in
`float`, lies inside the world bounds scaled by `layerScale` in `float`: both corners of the
frame box are on or inside the scaled box. -/
def CameraFrameInside (r : Engine.SpriteGameRenderer) (layerScale : ℚ) : Prop :=
  (AABB2.mulScale r.m_worldBounds layerScale).IsPointOnOrInside
      (GetVirtualBoundsAroundCameraCenter r).mins ∧
    (AABB2.mulScale r.m_worldBounds layerScale).IsPointOnOrInside
      (GetVirtualBoundsAroundCameraCenter r).maxs

instance (r : Engine.SpriteGameRenderer) (s : ℚ) : Decidable (CameraFrameInside r s) := by
  unfold CameraFrameInside; infer_instance

/-- The camera frame is no larger than the world bounds scaled by `layerScale` in `float`
on each axis, and its width and height are not negative. -/
def CameraFrameFits (r : Engine.SpriteGameRenderer) (layerScale : ℚ) : Prop :=
  0 ≤ r.m_virtualWidth ∧ 0 ≤ r.m_virtualHeight ∧
    r.m_virtualWidth ≤
      (AABB2.mulScale r.m_worldBounds layerScale).maxs.x -
        (AABB2.mulScale r.m_worldBounds layerScale).mins.x ∧
    r.m_virtualHeight ≤
      (AABB2.mulScale r.m_worldBounds layerScale).maxs.y -
        (AABB2.mulScale r.m_worldBounds layerScale).mins.y

instance (r : Engine.SpriteGameRenderer) (s : ℚ) : Decidable (CameraFrameFits r s) := by
  unfold CameraFrameFits; infer_instance

/-- The inputs of a clamp call are on the binary grid of `2^j`, `-149 ≤ j ≤ 100`: the
requested position, the half sizes of the frame and the corners of the scaled world bounds
are integers of magnitude at most `2^22` times `2^j`. No operation of the call rounds
then. -/
def ClampOnGrid (j : Int) (r : Engine.SpriteGameRenderer) (p : Engine.Vector2) (s : ℚ) : Prop :=
  -149 ≤ j ∧ j ≤ 100 ∧
    Float32.OnGrid j (2 ^ 22) p.x ∧ Float32.OnGrid j (2 ^ 22) p.y ∧
    Float32.OnGrid j (2 ^ 22) (r.m_virtualWidth * (1/2)) ∧
    Float32.OnGrid j (2 ^ 22) (r.m_virtualHeight * (1/2)) ∧
    Float32.OnGrid j (2 ^ 22) (r.m_worldBounds.mins.x * s) ∧
    Float32.OnGrid j (2 ^ 22) (r.m_worldBounds.mins.y * s) ∧
    Float32.OnGrid j (2 ^ 22) (r.m_worldBounds.maxs.x * s) ∧
    Float32.OnGrid j (2 ^ 22) (r.m_worldBounds.maxs.y * s)

instance (j : Int) (r : Engine.SpriteGameRenderer) (p : Engine.Vector2) (s : ℚ) :
    Decidable (ClampOnGrid j r p s) := by
  unfold ClampOnGrid; infer_instance

/-- A renderer whose camera frame is 2 by 2 virtual units in a world of 10 by 10, asked for
the camera position `(2^24, 5)`. -/
def farCamera : Engine.Vector2 := ⟨2 ^ 24, 5⟩

end SpriteGameRenderer

namespace MathUtils

/-- Modelled from the spec: `MathUtils::RangeMap` is not in the source; the linear map that
takes the interval `inStart..inEnd` onto `outStart..outEnd`, with every operation a `float`
operation. -/
def RangeMap (inValue inStart inEnd outStart outEnd : ℚ) : ℚ :=
  Float32.add
    (Float32.mul (Float32.div (Float32.sub inValue inStart) (Float32.sub inEnd inStart))
      (Float32.sub outEnd outStart))
    outStart

end MathUtils

namespace Particle

/-- The body of the loop in `ParticleEmitter::UpdateParticles`, for one particle, with its
`float` operations. -/
def integrate (p : Engine.Particle) (deltaSeconds : ℚ) : Engine.Particle :=
  let position := Vector2.add p.position (Vector2.scale p.velocity deltaSeconds)
  let velocity := Vector2.add p.velocity (Vector2.scale p.acceleration deltaSeconds)
  let age := Float32.add p.age deltaSeconds
  { p with
    position := position, velocity := velocity, age := age,
    tint := p.tint.SetAlphaFloat
      (Engine.MathUtils.Clamp (Float32.sub 1 (MathUtils.RangeMap age 0 p.maxAge 0 1)) 0 1) }

end Particle

/-- Why a run of the emitter code gives no result: it read a followed position that was
never set, or the loop was still running when the fuel ran out. -/
inductive Failure where
  | unsetPosition
  | outOfFuel
deriving DecidableEq

namespace ParticleEmitter

/-- The `while` loop of `ParticleEmitter::SpawnParticles`, on the members it writes: the
emission accumulator, the particle sequence and the random source. Every
`m_timeSinceLastEmission -= m_secondsPerParticle` is a `float` subtraction, which can leave
the accumulator as it was, so the loop carries fuel: one unit per iteration. -/
def spawnLoop (e : Engine.ParticleEmitter) (secondsPerParticle : ℚ) :
    Nat → ℚ → List Engine.Particle → Nat →
      Except Failure (ℚ × List Engine.Particle × Nat)
  | 0, timeSinceLastEmission, particles, numDraws =>
    if timeSinceLastEmission ≥ secondsPerParticle then Except.error Failure.outOfFuel
    else Except.ok (timeSinceLastEmission, particles, numDraws)
  | fuel + 1, timeSinceLastEmission, particles, numDraws =>
    if timeSinceLastEmission ≥ secondsPerParticle then
      match e.m_position with
      | none => Except.error Failure.unsetPosition
      | some position =>
        spawnLoop e secondsPerParticle fuel
          (Float32.sub timeSinceLastEmission secondsPerParticle)
          (particles ++ [Engine.Particle.new position e.m_definition (e.randomDraws numDraws)
            e.m_rotationDegrees Engine.Particle.defaultVelocity
            Engine.Particle.defaultAcceleration])
          (numDraws + 1)
    else Except.ok (timeSinceLastEmission, particles, numDraws)

/-- The method `ParticleEmitter::SpawnParticles`: the `float` sum
`m_timeSinceLastEmission += deltaSeconds`, then the loop. -/
def SpawnParticles (e : Engine.ParticleEmitter) (deltaSeconds : ℚ) (fuel : Nat) :
    Except Failure Engine.ParticleEmitter :=
  if e.m_secondsPerParticle > 0 then
    match spawnLoop e e.m_secondsPerParticle fuel
        (Float32.add e.m_timeSinceLastEmission deltaSeconds) e.m_particles e.numDraws with
    | Except.error failure => Except.error failure
    | Except.ok (t, ps, n) =>
      Except.ok { e with m_timeSinceLastEmission := t, m_particles := ps, numDraws := n }
  else Except.ok e

/-- The method `ParticleEmitter::UpdateParticles`. -/
def UpdateParticles (e : Engine.ParticleEmitter) (deltaSeconds : ℚ) : Engine.ParticleEmitter :=
  { e with m_particles := e.m_particles.map (fun p => Particle.integrate p deltaSeconds) }

/-- The method `ParticleEmitter::Update`; `fuel` is the fuel of the spawn loop. -/
def Update (e : Engine.ParticleEmitter) (deltaSeconds : ℚ) (fuel : Nat) :
    Except Failure Engine.ParticleEmitter :=
  if ¬ e.m_isDead then
    let e1 := { e with m_emitterAge := Float32.add e.m_emitterAge deltaSeconds }
    let e2 := UpdateParticles e1 deltaSeconds
    let e3 := e2.CleanUpDeadParticles
    match SpawnParticles e3 deltaSeconds fuel with
    | Except.error failure => Except.error failure
    | Except.ok e4 =>
      if e4.m_secondsPerParticle = 0 ∧ e4.m_particles.length = 0 then
        Except.ok { e4 with m_isDead := true }
      else Except.ok e4
  else Except.ok e

/-- The constructor `ParticleEmitter(definition, positionToFollow)`: the spawn interval is
the `float` quotient `1.0f / m_particlesPerSecond`, and the time of the initial batch is the
`float` product of the interval and the converted count. It does not initialise
`m_rotationDegrees`; `uninitialisedRotation` is the value that member happens to hold. -/
def newFollowing (definition : ParticleEmitterDefinition) (positionToFollow : Option Engine.Vector2)
    (randomDraws : Nat → ParticleDraw) (uninitialisedRotation : ℚ) (fuel : Nat) :
    Except Failure Engine.ParticleEmitter :=
  let e : Engine.ParticleEmitter :=
    { m_definition := definition, m_position := positionToFollow,
      m_rotationDegrees := uninitialisedRotation, m_emitterAge := 0,
      m_timeSinceLastEmission := 0, m_secondsPerParticle := 0, m_isDead := false,
      m_particles := [], randomDraws := randomDraws, numDraws := 0 }
  if definition.m_particlesPerSecond ≠ 0 then
    let e1 := { e with m_secondsPerParticle := Float32.div 1 definition.m_particlesPerSecond }
    SpawnParticles e1
      (Float32.mul e1.m_secondsPerParticle (Float32.ofInt definition.m_initialNumParticlesSpawn))
      fuel
  else
    if definition.m_initialNumParticlesSpawn = 0 then Except.ok e
    else
      match positionToFollow with
      | none => Except.error Failure.unsetPosition
      | some position =>
        Except.ok { e with
          m_particles := Engine.ParticleEmitter.initialBatch definition randomDraws position
            Engine.Particle.defaultRotationDegrees 0 definition.m_initialNumParticlesSpawn,
          numDraws := definition.m_initialNumParticlesSpawn }

/-- A run of `Update` calls, one per step of `steps`, in order, each with `fuel` for its
spawn loop. -/
def runUpdates (fuel : Nat) (e : Engine.ParticleEmitter) :
    List ℚ → Except Failure Engine.ParticleEmitter
  | [] => Except.ok e
  | dt :: steps =>
    match Update e dt fuel with
    | Except.error failure => Except.error failure
    | Except.ok e1 => runUpdates fuel e1 steps

/-- A definition that emits three particles per second and has no initial batch. -/
def thirdsDefinition : ParticleEmitterDefinition :=
  { m_particlesPerSecond := 3, m_initialNumParticlesSpawn := 0,
    m_initialTintPerParticle := { red := 1, green := 1, blue := 1, alpha := 1 },
    m_spriteResource :=
      { m_pivotPoint := ⟨0, 0⟩, m_uvBounds := ⟨⟨0, 0⟩, ⟨1, 1⟩⟩, m_virtualSize := ⟨1, 1⟩ } }

/-- An emitter that follows the position (0, 0), holds no particle, and whose spawn interval
is the `float` nearest to one tenth, `13421773 / 2^27`. -/
def tenthEmitter : Engine.ParticleEmitter :=
  { m_definition := Engine.ParticleEmitter.continuousDefinition, m_position := some ⟨0, 0⟩,
    m_rotationDegrees := 0, m_emitterAge := 0, m_timeSinceLastEmission := 0,
    m_secondsPerParticle := 13421773 / 2 ^ 27, m_isDead := false, m_particles := [],
    randomDraws := Engine.ParticleEmitter.constantDraws, numDraws := 0 }

end ParticleEmitter

end F32

/-! ## Theorems: camera clamp -/

namespace SpriteGameRenderer

/-- The clamp on the `x` axis: what `UpdateCameraPositionInWorldBounds` leaves in the
camera `x` coordinate. -/
theorem UpdateCamera_x (r : SpriteGameRenderer) (p : Vector2) (s : ℚ) :
    (r.UpdateCameraPositionInWorldBounds p s).m_cameraPosition.x =
      p.x +
        (if p.x - r.m_virtualWidth * (1/2) < r.m_worldBounds.mins.x * s
          then r.m_worldBounds.mins.x * s - (p.x - r.m_virtualWidth * (1/2)) else 0) +
        (if p.x + r.m_virtualWidth * (1/2) > r.m_worldBounds.maxs.x * s
          then r.m_worldBounds.maxs.x * s - (p.x + r.m_virtualWidth * (1/2)) else 0) := by
  simp only [UpdateCameraPositionInWorldBounds, GetVirtualBoundsAroundCameraCenter,
    AABB2.mulScale, AABB2.IsPointOnOrInside, Vector2.scale, Vector2.sub, Vector2.add,
    Vector2.CalculateCorrectionVector]
  split_ifs <;> (try simp only [add_zero]) <;> first | rfl | linarith

/-- The clamp on the `y` axis. -/
theorem UpdateCamera_y (r : SpriteGameRenderer) (p : Vector2) (s : ℚ) :
    (r.UpdateCameraPositionInWorldBounds p s).m_cameraPosition.y =
      p.y +
        (if p.y - r.m_virtualHeight * (1/2) < r.m_worldBounds.mins.y * s
          then r.m_worldBounds.mins.y * s - (p.y - r.m_virtualHeight * (1/2)) else 0) +
        (if p.y + r.m_virtualHeight * (1/2) > r.m_worldBounds.maxs.y * s
          then r.m_worldBounds.maxs.y * s - (p.y + r.m_virtualHeight * (1/2)) else 0) := by
  simp only [UpdateCameraPositionInWorldBounds, GetVirtualBoundsAroundCameraCenter,
    AABB2.mulScale, AABB2.IsPointOnOrInside, Vector2.scale, Vector2.sub, Vector2.add,
    Vector2.CalculateCorrectionVector]
  split_ifs <;> (try simp only [add_zero]) <;> first | rfl | linarith

/-- The clamp writes the camera position only. -/
theorem UpdateCamera_frame (r : SpriteGameRenderer) (p : Vector2) (s : ℚ) :
    (r.UpdateCameraPositionInWorldBounds p s).m_virtualWidth = r.m_virtualWidth ∧
    (r.UpdateCameraPositionInWorldBounds p s).m_virtualHeight = r.m_virtualHeight ∧
    (r.UpdateCameraPositionInWorldBounds p s).m_worldBounds = r.m_worldBounds := by
  simp [UpdateCameraPositionInWorldBounds]

/-- One axis of the clamp keeps a frame that fits between `lo` and `hi`. -/
theorem clampAxis_inside (p w lo hi c : ℚ) (hw : 0 ≤ w) (hfit : w ≤ hi - lo)
    (hc : c = p + (if p - w * (1/2) < lo then lo - (p - w * (1/2)) else 0) +
      (if p + w * (1/2) > hi then hi - (p + w * (1/2)) else 0)) :
    lo ≤ c - w * (1/2) ∧ c - w * (1/2) ≤ hi ∧ lo ≤ c + w * (1/2) ∧ c + w * (1/2) ≤ hi := by
  subst hc
  split_ifs <;> refine ⟨?_, ?_, ?_, ?_⟩ <;> linarith

/-- One axis of the clamp leaves a frame that is inside where it is. -/
theorem clampAxis_fixed (c w lo hi : ℚ) (h1 : lo ≤ c - w * (1/2)) (h2 : c + w * (1/2) ≤ hi) :
    c + (if c - w * (1/2) < lo then lo - (c - w * (1/2)) else 0) +
      (if c + w * (1/2) > hi then hi - (c + w * (1/2)) else 0) = c := by
  rw [if_neg (not_lt.mpr h1), if_neg (not_lt.mpr h2)]
  ring

/-- The clamp reads the requested position, the virtual size and the world bounds, and not
the previous camera position. -/
theorem UpdateCamera_eq (r : SpriteGameRenderer) (p : Vector2) (s : ℚ) (q : Vector2)
    (hx : (r.UpdateCameraPositionInWorldBounds p s).m_cameraPosition.x = q.x)
    (hy : (r.UpdateCameraPositionInWorldBounds p s).m_cameraPosition.y = q.y) :
    r.UpdateCameraPositionInWorldBounds p s = { r with m_cameraPosition := q } := by
  have h : (r.UpdateCameraPositionInWorldBounds p s).m_cameraPosition = q := by
    cases hq : (r.UpdateCameraPositionInWorldBounds p s).m_cameraPosition
    cases q
    simp_all
  have h' : r.UpdateCameraPositionInWorldBounds p s =
      { r with m_cameraPosition := (r.UpdateCameraPositionInWorldBounds p s).m_cameraPosition } := by
    simp [UpdateCameraPositionInWorldBounds]
  rw [h', h]

/-- In exact arithmetic: when the camera frame has non-negative width and height and is no
larger than the world bounds scaled by the layer scale on each axis, then after the clamp
the camera-frame box lies inside the scaled world bounds, for every requested position
`p`. -/
theorem frame_inside_exact (r : SpriteGameRenderer) (p : Vector2) (s : ℚ)
    (hfit : r.CameraFrameFits s) :
    (r.UpdateCameraPositionInWorldBounds p s).CameraFrameInside s := by
  obtain ⟨hw, hh, hfx, hfy⟩ := hfit
  simp only [AABB2.mulScale, Vector2.scale] at hfx hfy
  have hx := clampAxis_inside _ _ _ _ _ hw hfx (UpdateCamera_x r p s)
  have hy := clampAxis_inside _ _ _ _ _ hh hfy (UpdateCamera_y r p s)
  obtain ⟨fw, fh, fb⟩ := UpdateCamera_frame r p s
  simp only [CameraFrameInside, GetVirtualBoundsAroundCameraCenter, AABB2.IsPointOnOrInside,
    Vector2.sub, Vector2.add, AABB2.mulScale, Vector2.scale, fw, fh, fb]
  exact ⟨⟨hx.1, hx.2.1, hy.1, hy.2.1⟩, hx.2.2.1, hx.2.2.2, hy.2.2.1, hy.2.2.2⟩

end SpriteGameRenderer

/-! ## Theorems: particles -/

namespace ParticleEmitter

/-- What the spawn loop computes: `k` whole intervals fit in the accumulated time. -/
theorem spawnLoop_spec (e : ParticleEmitter) (spp : ℚ) (hpos : 0 < spp) (pos : Vector2)
    (hp : e.m_position = some pos) :
    ∀ (k : ℕ) (acc : ℚ) (ps : List Particle) (n : ℕ), k * spp ≤ acc → acc < (k + 1) * spp →
      ∃ ps', e.spawnLoop spp hpos acc ps n = some (acc - k * spp, ps', n + k) ∧
        ps'.length = ps.length + k := by
  intro k
  induction k with
  | zero =>
    intro acc ps n _ h2
    refine ⟨ps, ?_, rfl⟩
    rw [spawnLoop, if_neg (by simpa using h2)]
    simp
  | succ k ih =>
    intro acc ps n h1 h2
    push_cast at h1 h2
    have hge : acc ≥ spp := by nlinarith
    obtain ⟨ps', h, hl⟩ := ih (acc - spp) (ps ++ [Particle.new pos e.m_definition (e.randomDraws n)
      e.m_rotationDegrees Particle.defaultVelocity Particle.defaultAcceleration]) (n + 1)
      (by linarith) (by linarith)
    refine ⟨ps', ?_, ?_⟩
    · rw [spawnLoop, if_pos hge, hp]
      simp only [h]
      congr 2
      · push_cast; ring
      · simp; omega
    · simp at hl; omega

/-- The spawn loop does not run when the accumulated time is below one interval. -/
theorem spawnLoop_lt (e : ParticleEmitter) (spp : ℚ) (hpos : 0 < spp) (acc : ℚ)
    (ps : List Particle) (n : ℕ) (h : acc < spp) :
    e.spawnLoop spp hpos acc ps n = some (acc, ps, n) := by
  rw [spawnLoop, if_neg (by simpa using h)]

theorem swapRemove_last (front : List Particle) (x : Particle) :
    ((front ++ [x]).set front.length
      ((front ++ [x]).get ⟨(front ++ [x]).length - 1, by simp⟩)).dropLast = front := by
  simp [List.set_append]

theorem swapRemove_mid (front mid : List Particle) (x last : Particle) :
    ((front ++ x :: (mid ++ [last])).set front.length
      ((front ++ x :: (mid ++ [last])).get
        ⟨(front ++ x :: (mid ++ [last])).length - 1, by simp⟩)).dropLast
      = front ++ last :: mid := by
  have hget : (front ++ x :: (mid ++ [last])).get
        ⟨(front ++ x :: (mid ++ [last])).length - 1, by simp⟩ = last := by
    have : front ++ x :: (mid ++ [last]) = (front ++ x :: mid) ++ [last] := by simp
    simp only [List.get_eq_getElem]
    simp only [this]
    rw [List.getElem_append_right (by simp)]
    simp
  rw [hget]
  simp only [List.set_append, lt_self_iff_false, if_false, Nat.sub_self, List.set_cons_zero]
  rw [show front ++ last :: (mid ++ [last]) = (front ++ last :: mid) ++ [last] by simp]
  rw [List.dropLast_concat]

/-- The clean-up loop, started at index `front.length`, keeps `front` and the particles of
`rest` that are not dead, as a multiset. -/
theorem cleanUpLoop_perm : ∀ (n : ℕ) (rest front : List Particle), rest.length = n →
    (cleanUpLoop (front ++ rest) front.length).Perm
      (front ++ rest.filter (fun p => !p.IsDead)) := by
  intro n
  induction n with
  | zero =>
    intro rest front h
    have : rest = [] := List.length_eq_zero.mp h
    subst this
    rw [cleanUpLoop, dif_neg (by simp)]
    simp
  | succ n ih =>
    intro rest front h
    match rest, h with
    | x :: rest', h =>
      have hlt : front.length < (front ++ x :: rest').length := by simp
      have hget : (front ++ x :: rest').get ⟨front.length, hlt⟩ = x := by
        simp only [List.get_eq_getElem]
        rw [List.getElem_append_right (le_refl _)]
        simp
      rw [cleanUpLoop, dif_pos hlt, hget]
      by_cases hx : x.IsDead = true
      · rw [if_pos hx]
        rcases List.eq_nil_or_concat rest' with hnil | ⟨mid, last, hcat⟩
        · subst hnil
          rw [swapRemove_last]
          have := ih [] front (by simp at h; simp [h])
          simpa [hx] using this
        · rw [List.concat_eq_append] at hcat
          subst hcat
          rw [swapRemove_mid]
          have := ih (last :: mid) front (by simpa using h)
          refine this.trans ?_
          refine List.Perm.append_left front ?_
          have hp : (last :: mid).Perm (mid ++ [last]) := by
            simpa using (List.perm_append_comm : ([last] ++ mid).Perm (mid ++ [last]))
          simpa [hx] using hp.filter (fun p => !p.IsDead)
      · rw [if_neg hx]
        have := ih rest' (front ++ [x]) (by simpa using h)
        simp only [List.length_append, List.length_singleton, List.append_assoc,
          List.singleton_append] at this
        refine this.trans ?_
        simp [hx]

/-- `CleanUpDeadParticles` keeps exactly the particles that are not dead, as a multiset. -/
theorem cleanUp_perm (ps : List Particle) :
    (cleanUpLoop ps 0).Perm (ps.filter (fun p => !p.IsDead)) := by
  simpa using cleanUpLoop_perm ps.length ps [] rfl

/-- After the clean-up a particle is in the sequence when it was there and is not dead. -/
theorem mem_cleanUp (ps : List Particle) (p : Particle) :
    p ∈ cleanUpLoop ps 0 ↔ p ∈ ps ∧ p.IsDead = false := by
  rw [(cleanUp_perm ps).mem_iff]
  simp

/-- The clean-up empties the sequence when every particle is dead, and only then. -/
theorem cleanUp_eq_nil (ps : List Particle) :
    cleanUpLoop ps 0 = [] ↔ ∀ p ∈ ps, p.IsDead = true := by
  rw [List.eq_nil_iff_forall_not_mem]
  constructor
  · intro h p hp
    by_contra hd
    exact h p ((mem_cleanUp ps p).2 ⟨hp, by simpa using hd⟩)
  · intro h p hp
    have := (mem_cleanUp ps p).1 hp
    rw [h p this.1] at this
    exact absurd this.2 (by simp)

/-- The clean-up never lengthens the sequence. -/
theorem cleanUp_length_le (ps : List Particle) : (cleanUpLoop ps 0).length ≤ ps.length := by
  rw [(cleanUp_perm ps).length_eq]
  exact List.length_filter_le _ _

/-- `Update` on a dead emitter changes nothing. -/
theorem Update_dead (e : ParticleEmitter) (dt : ℚ) (hd : e.m_isDead = true) :
    e.Update dt = some e := by
  unfold Update
  rw [if_neg (by simp [hd])]

/-- A run of `Update` calls on a dead emitter changes nothing. -/
theorem runUpdates_dead (steps : List ℚ) (e : ParticleEmitter) (hd : e.m_isDead = true) :
    e.runUpdates steps = some e := by
  induction steps with
  | nil => rfl
  | cons dt steps ih => simp only [runUpdates, Update_dead e dt hd, ih]

/-- One `Update` of a live emitter whose spawn interval is zero: the particles are aged and
the dead ones removed, none is constructed, and the emitter is marked dead when the sequence
is empty, and only then. -/
theorem Update_oneShot (e : ParticleEmitter) (dt : ℚ) (hd : e.m_isDead = false)
    (hs : e.m_secondsPerParticle = 0) :
    ∃ e', e.Update dt = some e' ∧ e'.m_secondsPerParticle = 0 ∧ e'.numDraws = e.numDraws ∧
      e'.m_particles = cleanUpLoop (e.m_particles.map (fun p => p.integrate dt)) 0 ∧
      (e'.m_isDead = true ↔ e'.m_particles = []) := by
  set e3 : ParticleEmitter :=
    (UpdateParticles { e with m_emitterAge := e.m_emitterAge + dt } dt).CleanUpDeadParticles
    with he3
  have hs3 : e3.m_secondsPerParticle = 0 := hs
  have hsp : e3.SpawnParticles dt = some e3 := by
    unfold SpawnParticles
    rw [dif_neg (by rw [hs3]; exact lt_irrefl 0)]
  unfold Update
  rw [if_pos (by simp [hd])]
  simp only []
  rw [← he3, hsp]
  simp only []
  by_cases hnil : e3.m_particles = []
  · rw [if_pos ⟨hs3, by simp [hnil]⟩]
    exact ⟨_, rfl, hs3, rfl, rfl, by simp [hnil]⟩
  · rw [if_neg (by
      intro h
      exact hnil (List.length_eq_zero.mp h.2))]
    refine ⟨_, rfl, hs3, rfl, rfl, ?_⟩
    have hd3 : e3.m_isDead = false := hd
    simp [hd3, hnil]

/-- A run of `Update` calls of a live emitter whose spawn interval is zero: no particle is
constructed, the sequence never grows, and the emitter is dead at the end exactly when some
`Update` of the run ended with an empty sequence. -/
theorem runUpdates_oneShot : ∀ (steps : List ℚ) (e : ParticleEmitter),
    e.m_isDead = false → e.m_secondsPerParticle = 0 →
    ∃ e', e.runUpdates steps = some e' ∧ e'.m_secondsPerParticle = 0 ∧
      e'.numDraws = e.numDraws ∧ e'.m_particles.length ≤ e.m_particles.length ∧
      (e'.m_isDead = true ↔ ∃ k, 0 < k ∧ k ≤ steps.length ∧
        ∃ e'', e.runUpdates (steps.take k) = some e'' ∧ e''.m_particles = []) := by
  intro steps
  induction steps with
  | nil =>
    intro e hd hs
    refine ⟨e, rfl, hs, rfl, le_refl _, ?_⟩
    rw [hd]
    constructor
    · intro h; exact absurd h (by simp)
    · rintro ⟨k, hk, hk', -⟩
      simp at hk'
      omega
  | cons dt steps ih =>
    intro e hd hs
    obtain ⟨e1, hu, hs1, hn1, hp1, hdead1⟩ := Update_oneShot e dt hd hs
    have hlen1 : e1.m_particles.length ≤ e.m_particles.length := by
      rw [hp1]
      exact (cleanUp_length_le _).trans (by simp)
    by_cases hd1 : e1.m_isDead = true
    · refine ⟨e1, ?_, hs1, hn1, hlen1, ?_⟩
      · simp only [runUpdates, hu, runUpdates_dead steps e1 hd1]
      · simp only [hd1, true_iff]
        exact ⟨1, by omega, by simp, e1, by simp [runUpdates, hu], hdead1.1 hd1⟩
    · have hd1' : e1.m_isDead = false := by simpa using hd1
      obtain ⟨e', hr, hs', hn', hlen', hiff⟩ := ih e1 hd1' hs1
      refine ⟨e', ?_, hs', hn'.trans hn1, hlen'.trans hlen1, ?_⟩
      · simp only [runUpdates, hu, hr]
      · rw [hiff]
        constructor
        · rintro ⟨k, hk, hk', e'', hr'', hnil⟩
          exact ⟨k + 1, by omega, by simp; omega, e'', by simp [runUpdates, hu, hr''], hnil⟩
        · rintro ⟨k, hk, hk', e'', hr'', hnil⟩
          obtain ⟨j, rfl⟩ : ∃ j, k = j + 1 := ⟨k - 1, by omega⟩
          simp only [List.take_succ_cons, runUpdates, hu] at hr''
          rcases Nat.eq_zero_or_pos j with hj | hj
          · subst hj
            simp only [List.take_zero, runUpdates, Option.some.injEq] at hr''
            subst hr''
            exact absurd (hdead1.2 hnil) hd1
          · exact ⟨j, hj, by simp at hk'; omega, e'', hr'', hnil⟩

/-- The initial batch has `count` particles. -/
theorem initialBatch_length (definition : ParticleEmitterDefinition)
    (draws : Nat → ParticleDraw) (position : Vector2) (rot : ℚ) (firstDraw count : Nat) :
    (initialBatch definition draws position rot firstDraw count).length = count := by
  induction count with
  | zero => rfl
  | succ n ih => simp [initialBatch, ih]

/-- Both constructors, for a definition whose spawn rate is zero: a live emitter with a zero
spawn interval that holds the initial batch. -/
theorem new_oneShot (definition : ParticleEmitterDefinition) (positionToFollow : Vector2)
    (positionToSpawn : Vector2) (rotationDegrees : ℚ) (draws : Nat → ParticleDraw) (rot : ℚ)
    (e0 : ParticleEmitter) (hpps : definition.m_particlesPerSecond = 0)
    (hctor : newFollowing definition (some positionToFollow) draws rot = some e0 ∨
      newAtPosition definition positionToSpawn rotationDegrees draws = some e0) :
    e0.m_particles.length = definition.m_initialNumParticlesSpawn ∧ e0.m_isDead = false ∧
      e0.m_secondsPerParticle = 0 := by
  rcases hctor with h | h
  · unfold newFollowing at h
    simp only [hpps, ne_eq, not_true_eq_false, if_false] at h
    split_ifs at h with hK
    · simp only [Option.some.injEq] at h
      subst h
      simp [hK]
    · simp only [Option.some.injEq] at h
      subst h
      simp [initialBatch_length]
  · unfold newAtPosition at h
    simp only [hpps, ne_eq, not_true_eq_false, if_false, Option.some.injEq] at h
    subst h
    simp [initialBatch_length]

/-- The aged particles are all dead exactly when every particle reaches its `maxAge`
within the step. -/
theorem cleanUp_integrate_eq_nil (ps : List Particle) (dt : ℚ) :
    cleanUpLoop (ps.map (fun p => p.integrate dt)) 0 = [] ↔
      ∀ p ∈ ps, p.age + dt ≥ p.maxAge := by
  rw [cleanUp_eq_nil]
  simp [Particle.IsDead, Particle.integrate]

/-- C4: an emitter built by either constructor from a definition with
`particlesPerSecond = 0` and `initialNumParticlesSpawn = K` holds exactly `K` particles and
is not dead. In every run of later `Update` calls it constructs no further particle and its
sequence never grows; it is dead after the run exactly when some `Update` of the run ended
with an empty particle sequence; and an `Update` of the live emitter ends with an empty
sequence exactly when every particle has `age + dt >= maxAge`. -/
theorem one_shot_completion (definition : ParticleEmitterDefinition)
    (positionToFollow positionToSpawn : Vector2) (rotationDegrees : ℚ)
    (draws : Nat → ParticleDraw) (rot : ℚ) (e0 : ParticleEmitter)
    (hpps : definition.m_particlesPerSecond = 0)
    (hctor : newFollowing definition (some positionToFollow) draws rot = some e0 ∨
      newAtPosition definition positionToSpawn rotationDegrees draws = some e0) :
    e0.m_particles.length = definition.m_initialNumParticlesSpawn ∧ e0.m_isDead = false ∧
      ∀ steps : List ℚ, ∃ e', e0.runUpdates steps = some e' ∧
        e'.numDraws = e0.numDraws ∧
        e'.m_particles.length ≤ definition.m_initialNumParticlesSpawn ∧
        (e'.m_isDead = true ↔ ∃ k, 0 < k ∧ k ≤ steps.length ∧
          ∃ e'', e0.runUpdates (steps.take k) = some e'' ∧ e''.m_particles = []) ∧
        ∀ dt : ℚ, e'.m_isDead = false →
          ∃ e'', e'.Update dt = some e'' ∧ e''.numDraws = e'.numDraws ∧
            e''.m_particles.length ≤ e'.m_particles.length ∧
            (e''.m_isDead = true ↔ e''.m_particles = []) ∧
            (e''.m_particles = [] ↔ ∀ p ∈ e'.m_particles, p.age + dt ≥ p.maxAge) := by
  obtain ⟨hlen, hd, hs⟩ := new_oneShot definition positionToFollow positionToSpawn
    rotationDegrees draws rot e0 hpps hctor
  refine ⟨hlen, hd, ?_⟩
  intro steps
  obtain ⟨e', hr, hs', hn', hlen', hiff⟩ := runUpdates_oneShot steps e0 hd hs
  refine ⟨e', hr, hn', hlen ▸ hlen', hiff, ?_⟩
  intro dt hd'
  obtain ⟨e'', hu, -, hn'', hp'', hdead''⟩ := Update_oneShot e' dt hd' hs'
  refine ⟨e'', hu, hn'', ?_, hdead'', ?_⟩
  · rw [hp'']
    exact (cleanUp_length_le _).trans (by simp)
  · rw [hp'']
    exact cleanUp_integrate_eq_nil _ _

/-- Witness for `one_shot_completion`: the emitter that the fixed-pose constructor builds
from `halfTransparentDefinition`. -/
theorem one_shot_completion_witness :
    (halfTransparentDefinition.m_particlesPerSecond = 0 ∧
      (newFollowing halfTransparentDefinition (some ⟨0, 0⟩) constantDraws 0 = some oneShotEmitter ∨
        newAtPosition halfTransparentDefinition ⟨0, 0⟩ 0 constantDraws = some oneShotEmitter)) ∧
    (oneShotEmitter.m_particles.length = halfTransparentDefinition.m_initialNumParticlesSpawn ∧
      oneShotEmitter.m_isDead = false ∧
      ∀ steps : List ℚ, ∃ e', oneShotEmitter.runUpdates steps = some e' ∧
        e'.numDraws = oneShotEmitter.numDraws ∧
        e'.m_particles.length ≤ halfTransparentDefinition.m_initialNumParticlesSpawn ∧
        (e'.m_isDead = true ↔ ∃ k, 0 < k ∧ k ≤ steps.length ∧
          ∃ e'', oneShotEmitter.runUpdates (steps.take k) = some e'' ∧ e''.m_particles = []) ∧
        ∀ dt : ℚ, e'.m_isDead = false →
          ∃ e'', e'.Update dt = some e'' ∧ e''.numDraws = e'.numDraws ∧
            e''.m_particles.length ≤ e'.m_particles.length ∧
            (e''.m_isDead = true ↔ e''.m_particles = []) ∧
            (e''.m_particles = [] ↔ ∀ p ∈ e'.m_particles, p.age + dt ≥ p.maxAge)) :=
  ⟨⟨rfl, Or.inr (by
      simp [newAtPosition, halfTransparentDefinition, oneShotEmitter, initialBatch,
        freshParticle])⟩,
    one_shot_completion halfTransparentDefinition ⟨0, 0⟩ ⟨0, 0⟩ 0 constantDraws 0 oneShotEmitter
      rfl (Or.inr (by
        simp [newAtPosition, halfTransparentDefinition, oneShotEmitter, initialBatch,
          freshParticle]))⟩

end ParticleEmitter

/-- `Clamp v 0 1` is `max 0 (min v 1)`. -/
theorem MathUtils.Clamp_zero_one (v : ℚ) : MathUtils.Clamp v 0 1 = max 0 (min v 1) := by
  unfold MathUtils.Clamp
  split_ifs with h1 h2
  · rw [max_eq_left]; exact (min_le_left _ _).trans h1.le
  · rw [min_eq_right h2.le, max_eq_right]; norm_num
  · rw [min_eq_left (not_lt.mp h2), max_eq_right (not_lt.mp h1)]

/-- The tint alpha that one integration step leaves in a particle. -/
theorem Particle.integrate_alpha (p : Particle) (dt : ℚ) :
    (p.integrate dt).tint.alpha = max 0 (min (1 - (p.age + dt) / p.maxAge) 1) ∧
      (p.integrate dt).age = p.age + dt ∧ (p.integrate dt).maxAge = p.maxAge := by
  refine ⟨?_, rfl, rfl⟩
  simp only [Particle.integrate, RGBA.SetAlphaFloat, MathUtils.Clamp_zero_one,
    MathUtils.RangeMap]
  congr 2
  ring

namespace ParticleEmitter

/-- C5, as stated, fails: a particle constructed from a definition whose initial tint has
alpha 1/2 has `maxAge = 2 > 0` and age 0, and its alpha is 1/2, not
`clamp(1 - 0/2, 0, 1) = 1`. -/
theorem fresh_particle_alpha_not_faded :
    0 < freshParticle.maxAge ∧ freshParticle.age = 0 ∧
      freshParticle.tint.alpha ≠
        max 0 (min (1 - freshParticle.age / freshParticle.maxAge) 1) := by
  refine ⟨?_, rfl, ?_⟩
  · norm_num [freshParticle, Particle.new, constantDraws]
  · norm_num [freshParticle, Particle.new, constantDraws, halfTransparentDefinition]

/-- C5, amended: after every `UpdateParticles` call, each particle with `maxAge = M > 0` has
tint alpha `clamp(1 - t/M, 0, 1)` for its new age `t`; so its alpha is 1 when `t = 0` and 0
when `t >= M`. (A particle that has not been through `UpdateParticles` carries the initial
tint of its definition.) -/
theorem fade_law_after_update (e : ParticleEmitter) (dt : ℚ) (q : Particle)
    (hq : q ∈ (e.UpdateParticles dt).m_particles) (hM : 0 < q.maxAge) :
    q.tint.alpha = max 0 (min (1 - q.age / q.maxAge) 1) ∧
      (q.age = 0 → q.tint.alpha = 1) ∧ (q.age ≥ q.maxAge → q.tint.alpha = 0) := by
  simp only [UpdateParticles, List.mem_map] at hq
  obtain ⟨p, -, rfl⟩ := hq
  obtain ⟨ha, hage, hmax⟩ := p.integrate_alpha dt
  rw [hmax] at hM ⊢
  rw [hage, ha]
  refine ⟨rfl, ?_, ?_⟩
  · intro h0
    rw [h0]
    norm_num
  · intro hge
    have : (p.age + dt) / p.maxAge ≥ 1 := by rwa [ge_iff_le, le_div_iff₀ hM, one_mul]
    rw [min_eq_left (by linarith), max_eq_left (by linarith)]

/-- Witness for `fade_law_after_update`: `freshParticle` after one step of one second. -/
theorem fade_law_after_update_witness :
    (freshParticle.integrate 1 ∈ (oneShotEmitter.UpdateParticles 1).m_particles ∧
      0 < (freshParticle.integrate 1).maxAge) ∧
    ((freshParticle.integrate 1).tint.alpha =
        max 0 (min (1 - (freshParticle.integrate 1).age / (freshParticle.integrate 1).maxAge) 1) ∧
      ((freshParticle.integrate 1).age = 0 → (freshParticle.integrate 1).tint.alpha = 1) ∧
      ((freshParticle.integrate 1).age ≥ (freshParticle.integrate 1).maxAge →
        (freshParticle.integrate 1).tint.alpha = 0)) :=
  ⟨⟨by simp [UpdateParticles, oneShotEmitter],
      by norm_num [Particle.integrate, freshParticle, Particle.new, constantDraws]⟩,
    fade_law_after_update oneShotEmitter 1 (freshParticle.integrate 1)
      (by simp [UpdateParticles, oneShotEmitter])
      (by norm_num [Particle.integrate, freshParticle, Particle.new, constantDraws])⟩

/-- The spawn loop returns when the followed position is set. -/
theorem spawnLoop_total (e : ParticleEmitter) (spp : ℚ) (hpos : 0 < spp) (pos : Vector2)
    (hp : e.m_position = some pos) (acc : ℚ) (ps : List Particle) (n : ℕ) :
    ∃ r, e.spawnLoop spp hpos acc ps n = some r := by
  by_cases h : acc < spp
  · exact ⟨_, spawnLoop_lt e spp hpos acc ps n h⟩
  · have hacc : 0 ≤ acc := by linarith
    have hq : 0 ≤ acc / spp := div_nonneg hacc hpos.le
    have h1 := Nat.floor_le hq
    rw [le_div_iff₀ hpos] at h1
    have h2 := Nat.lt_floor_add_one (acc / spp)
    rw [div_lt_iff₀ hpos] at h2
    obtain ⟨ps', hl, -⟩ := spawnLoop_spec e spp hpos pos hp ⌊acc / spp⌋₊ acc ps n h1 h2
    exact ⟨_, hl⟩

/-- `Update` returns when the emitter cannot spawn or its followed position is set, and it
leaves the followed position and the spawn interval as they were. -/
theorem Update_total (e : ParticleEmitter) (dt : ℚ)
    (h : e.m_position.isSome ∨ e.m_secondsPerParticle ≤ 0) :
    ∃ e', e.Update dt = some e' ∧ e'.m_position = e.m_position ∧
      e'.m_secondsPerParticle = e.m_secondsPerParticle := by
  by_cases hd : e.m_isDead = true
  · exact ⟨e, Update_dead e dt hd, rfl, rfl⟩
  · set e3 : ParticleEmitter :=
      (UpdateParticles { e with m_emitterAge := e.m_emitterAge + dt } dt).CleanUpDeadParticles
      with he3
    have hsp : ∃ e4, e3.SpawnParticles dt = some e4 ∧ e4.m_position = e.m_position ∧
        e4.m_secondsPerParticle = e.m_secondsPerParticle := by
      unfold SpawnParticles
      by_cases hs : e3.m_secondsPerParticle > 0
      · rw [dif_pos hs]
        have hsome : e.m_position.isSome := by
          rcases h with h | h
          · exact h
          · exact absurd (show e.m_secondsPerParticle > 0 from hs) (not_lt.mpr h)
        obtain ⟨pos, hpos⟩ := Option.isSome_iff_exists.mp hsome
        obtain ⟨⟨t, ps, n⟩, hr⟩ := spawnLoop_total e3 e3.m_secondsPerParticle hs pos hpos
          (e3.m_timeSinceLastEmission + dt) e3.m_particles e3.numDraws
        rw [hr]
        exact ⟨_, rfl, rfl, rfl⟩
      · rw [dif_neg hs]
        exact ⟨_, rfl, rfl, rfl⟩
    obtain ⟨e4, h4, hp4, hs4⟩ := hsp
    unfold Update
    rw [if_pos hd]
    simp only []
    rw [← he3, h4]
    simp only []
    split_ifs
    · exact ⟨_, rfl, hp4, hs4⟩
    · exact ⟨_, rfl, hp4, hs4⟩

end ParticleEmitter

namespace ParticleSystem

/-- The emitter loop, when every emitter's `Update` returns: each emitter is replaced by its
updated state, and the flag is the conjunction of the updated dead flags. -/
theorem updateEmitters_spec (dt : ℚ) : ∀ (es : List ParticleEmitter) (b : Bool),
    (∀ e ∈ es, ∃ e', e.Update dt = some e') →
    ∃ es', updateEmitters dt es b = some (es', b && es'.all (fun e => e.m_isDead)) ∧
      List.Forall₂ (fun e e' => e.Update dt = some e') es es' := by
  intro es
  induction es with
  | nil =>
    intro b _
    exact ⟨[], by simp [updateEmitters], List.Forall₂.nil⟩
  | cons e es ih =>
    intro b h
    obtain ⟨e', he'⟩ := h e (List.mem_cons_self _ _)
    obtain ⟨es', hes', hf⟩ := ih (b && e'.m_isDead) (fun x hx => h x (List.mem_cons_of_mem _ hx))
    refine ⟨e' :: es', ?_, List.Forall₂.cons he' hf⟩
    simp only [updateEmitters, he', hes', List.all_cons, Bool.and_assoc]

/-- `Update` on a dead system changes nothing. -/
theorem Update_dead_system (sys : ParticleSystem) (dt : ℚ) (hd : sys.m_isDead = true) :
    sys.Update dt = some sys := by
  unfold Update
  rw [if_neg (by simp [hd])]

/-- A run of `Update` calls on a dead system changes nothing. -/
theorem runUpdates_dead_system (steps : List ℚ) (sys : ParticleSystem) (hd : sys.m_isDead = true) :
    sys.runUpdates steps = some sys := by
  induction steps with
  | nil => rfl
  | cons dt steps ih => simp only [runUpdates, Update_dead_system sys dt hd, ih]

/-- `Update` on a live system, when every emitter's `Update` returns. -/
theorem Update_live (sys : ParticleSystem) (dt : ℚ) (hd : sys.m_isDead = false)
    (h : ∀ e ∈ sys.m_emitters, ∃ e', e.Update dt = some e') :
    ∃ es', sys.Update dt =
        some { sys with m_emitters := es', m_isDead := es'.all (fun e => e.m_isDead) } ∧
      List.Forall₂ (fun e e' => e.Update dt = some e') sys.m_emitters es' := by
  obtain ⟨es', hes', hf⟩ := updateEmitters_spec dt sys.m_emitters true h
  refine ⟨es', ?_, hf⟩
  unfold Update
  rw [if_pos (by simp [hd]), hes']
  simp

/-- C10: when every emitter that can spawn has its followed position set, `Update` returns;
if the system was not dead, its dead flag afterwards is true exactly when the dead flag of
every owned emitter is true; and a dead system is left unchanged by any run of further
`Update` calls, so it stays dead. -/
theorem system_dead_iff_all_emitters_dead (sys : ParticleSystem) (dt : ℚ)
    (hpos : ∀ e ∈ sys.m_emitters, e.m_position.isSome ∨ e.m_secondsPerParticle ≤ 0) :
    ∃ sys', sys.Update dt = some sys' ∧
      (sys.m_isDead = false →
        (sys'.m_isDead = true ↔ ∀ e ∈ sys'.m_emitters, e.m_isDead = true)) ∧
      (sys.m_isDead = true → sys'.m_isDead = true ∧
        ∀ steps : List ℚ, ∃ sys'', sys.runUpdates steps = some sys'' ∧ sys''.m_isDead = true) := by
  by_cases hd : sys.m_isDead = true
  · refine ⟨sys, Update_dead_system sys dt hd, ?_, ?_⟩
    · intro h; rw [hd] at h; exact absurd h (by simp)
    · intro _
      exact ⟨hd, fun steps => ⟨sys, runUpdates_dead_system steps sys hd, hd⟩⟩
  · have hd' : sys.m_isDead = false := by simpa using hd
    obtain ⟨es', hu, -⟩ := Update_live sys dt hd' (fun e he => by
      obtain ⟨e', h, -⟩ := ParticleEmitter.Update_total e dt (hpos e he)
      exact ⟨e', h⟩)
    refine ⟨_, hu, ?_, ?_⟩
    · intro _
      simp [List.all_eq_true]
    · intro h; exact absurd h hd

/-- Witness for `system_dead_iff_all_emitters_dead`: `oneShotSystem`, one step of one
second. -/
theorem system_dead_iff_all_emitters_dead_witness :
    (∀ e ∈ oneShotSystem.m_emitters, e.m_position.isSome ∨ e.m_secondsPerParticle ≤ 0) ∧
    ∃ sys', oneShotSystem.Update 1 = some sys' ∧
      (oneShotSystem.m_isDead = false →
        (sys'.m_isDead = true ↔ ∀ e ∈ sys'.m_emitters, e.m_isDead = true)) ∧
      (oneShotSystem.m_isDead = true → sys'.m_isDead = true ∧
        ∀ steps : List ℚ, ∃ sys'',
          oneShotSystem.runUpdates steps = some sys'' ∧ sys''.m_isDead = true) :=
  ⟨by simp [oneShotSystem, ParticleEmitter.oneShotEmitter],
    system_dead_iff_all_emitters_dead oneShotSystem 1
      (by simp [oneShotSystem, ParticleEmitter.oneShotEmitter])⟩

end ParticleSystem

namespace ParticleEmitter

end ParticleEmitter

namespace ParticleSystem

end ParticleSystem

namespace ParticleEmitter

/-- `SpawnParticles` does not touch the dead flag. -/
theorem SpawnParticles_isDead (e e' : ParticleEmitter) (dt : ℚ)
    (h : e.SpawnParticles dt = some e') : e'.m_isDead = e.m_isDead := by
  unfold SpawnParticles at h
  split_ifs at h with hs
  · split at h
    · exact absurd h (by simp)
    · simp only [Option.some.injEq] at h
      subst h
      rfl
  · simp only [Option.some.injEq] at h
    subst h
    rfl

/-- `Update` keeps the flags of an emitter in agreement. -/
theorem Update_consistent (e e' : ParticleEmitter) (dt : ℚ) (hc : e.Consistent)
    (h : e.Update dt = some e') : e'.Consistent := by
  by_cases hd : e.m_isDead = true
  · rw [Update_dead e dt hd] at h
    simp only [Option.some.injEq] at h
    subst h
    exact hc
  · unfold Update at h
    rw [if_pos hd] at h
    simp only [] at h
    split at h
    · exact absurd h (by simp)
    · rename_i e4 h4
      have hd4 := SpawnParticles_isDead _ _ _ h4
      split_ifs at h with hnil
      · simp only [Option.some.injEq] at h
        subst h
        intro _
        exact List.length_eq_zero.mp hnil.2
      · simp only [Option.some.injEq] at h
        subst h
        intro hdead
        rw [hd4] at hdead
        exact absurd hdead hd

end ParticleEmitter

namespace ParticleSystem

end ParticleSystem

/-! ## Theorems: layers and renderables -/

namespace RenderableHeap

theorem setNext_next (heap : RenderableHeap) (a v b : Nat) :
    ((heap.setNext a v) b).next = if b = a then v else (heap b).next := by
  unfold setNext
  by_cases h : b = a
  · subst h; simp
  · simp [h]

theorem setNext_prev (heap : RenderableHeap) (a v b : Nat) :
    ((heap.setNext a v) b).prev = (heap b).prev := by
  unfold setNext
  by_cases h : b = a
  · subst h; simp
  · simp [h]

theorem setPrev_prev (heap : RenderableHeap) (a v b : Nat) :
    ((heap.setPrev a v) b).prev = if b = a then v else (heap b).prev := by
  unfold setPrev
  by_cases h : b = a
  · subst h; simp
  · simp [h]

theorem setPrev_next (heap : RenderableHeap) (a v b : Nat) :
    ((heap.setPrev a v) b).next = (heap b).next := by
  unfold setPrev
  by_cases h : b = a
  · subst h; simp
  · simp [h]

/-- Links that agree on the nodes of a segment give the same segment. -/
theorem Linked_frame (heap heap' : RenderableHeap) : ∀ (rest : List Nat) (x c : Nat),
    Linked heap x rest c →
    (∀ a ∈ x :: rest, (heap' a).next = (heap a).next) →
    (∀ a ∈ rest ++ [c], (heap' a).prev = (heap a).prev) →
    Linked heap' x rest c := by
  intro rest
  induction rest with
  | nil =>
    intro x c h hn hp
    exact ⟨(hn x (by simp)).trans h.1, (hp c (by simp)).trans h.2⟩
  | cons y rest ih =>
    intro x c h hn hp
    refine ⟨(hn x (by simp)).trans h.1, (hp y (by simp)).trans h.2.1, ?_⟩
    exact ih y c h.2.2 (fun a ha => hn a (List.mem_cons_of_mem _ ha))
      (fun a ha => hp a (by simpa using Or.inr (by simpa using ha)))

/-- The `prev` link of the closing node is the last node of the segment. -/
theorem Linked_prev_closing (heap : RenderableHeap) : ∀ (rest : List Nat) (x c : Nat),
    Linked heap x rest c → (heap c).prev = (x :: rest).getLast (List.cons_ne_nil _ _) := by
  intro rest
  induction rest with
  | nil => intro x c h; simpa using h.2
  | cons y rest ih =>
    intro x c h
    rw [List.getLast_cons (List.cons_ne_nil _ _)]
    exact ih y c h.2.2

/-- Inside a segment, the links of a node lead to its neighbours. -/
theorem Linked_neighbours (heap : RenderableHeap) (r : Nat) (r2 : List Nat) :
    ∀ (r1 : List Nat) (x c : Nat), Linked heap x (r1 ++ r :: r2) c →
      (heap r).prev ∈ x :: r1 ∧ (heap r).next ∈ r2 ++ [c] := by
  intro r1
  induction r1 with
  | nil =>
    intro x c h
    simp only [List.nil_append] at h
    refine ⟨by simp [h.2.1], ?_⟩
    cases r2 with
    | nil => simp [h.2.2.1]
    | cons z r2 => simp [h.2.2.1]
  | cons y r1 ih =>
    intro x c h
    obtain ⟨h1, h2⟩ := ih y c h.2.2
    exact ⟨List.mem_cons_of_mem _ h1, h2⟩

/-- Linking a fresh node `r` in after the last node of a segment extends the segment by
`r`. -/
theorem Linked_add (heap heap' : RenderableHeap) (r c : Nat) : ∀ (rest : List Nat) (x : Nat),
    Linked heap x rest c → (x :: rest).Nodup → r ∉ x :: rest → r ≠ c → c ∉ rest →
    (∀ a, (heap' a).next =
      if a = (x :: rest).getLast (List.cons_ne_nil _ _) then r
      else if a = r then c else (heap a).next) →
    (∀ a, (heap' a).prev =
      if a = c then r
      else if a = r then (x :: rest).getLast (List.cons_ne_nil _ _) else (heap a).prev) →
    Linked heap' x (rest ++ [r]) c := by
  intro rest
  induction rest with
  | nil =>
    intro x h _ hr hrc _ hn hp
    simp only [List.getLast_singleton] at hn hp
    have hrx : r ≠ x := fun e => hr (by simp [e])
    refine ⟨?_, ?_, ?_, ?_⟩
    · rw [hn]; simp
    · rw [hp]; simp [hrc]
    · rw [hn]; simp [hrx]
    · rw [hp]; simp
  | cons y rest ih =>
    intro x h hnd hr hrc hc hn hp
    rw [List.getLast_cons (List.cons_ne_nil _ _)] at hn hp
    have hlast_mem : (y :: rest).getLast (List.cons_ne_nil _ _) ∈ y :: rest :=
      List.getLast_mem _
    have hx_notin : x ∉ y :: rest := (List.nodup_cons.mp hnd).1
    have hxl : x ≠ (y :: rest).getLast (List.cons_ne_nil _ _) :=
      fun e => hx_notin (e ▸ hlast_mem)
    have hxr : x ≠ r := fun e => hr (by simp [e])
    have hyr : y ≠ r := fun e => hr (by simp [e])
    have hyc : y ≠ c := fun e => hc (by simp [e])
    refine ⟨?_, ?_, ?_⟩
    · rw [hn, if_neg hxl, if_neg hxr]; exact h.1
    · rw [hp, if_neg hyc, if_neg hyr]; exact h.2.1
    · exact ih y h.2.2 (List.nodup_cons.mp hnd).2
        (fun hm => hr (List.mem_cons_of_mem _ hm)) hrc
        (fun hm => hc (List.mem_cons_of_mem _ hm)) hn hp

/-- Closing a segment onto a new target `c'`: the last node's `next` and the target's
`prev` are redirected. -/
theorem Linked_reclose (heap heap' : RenderableHeap) (c c' : Nat) :
    ∀ (rest : List Nat) (x : Nat),
    Linked heap x rest c → (x :: rest).Nodup → c' ∉ rest →
    (∀ a, (heap' a).next =
      if a = (x :: rest).getLast (List.cons_ne_nil _ _) then c' else (heap a).next) →
    (∀ a, (heap' a).prev =
      if a = c' then (x :: rest).getLast (List.cons_ne_nil _ _) else (heap a).prev) →
    Linked heap' x rest c' := by
  intro rest
  induction rest with
  | nil =>
    intro x _ _ _ hn hp
    simp only [List.getLast_singleton] at hn hp
    exact ⟨by rw [hn]; simp, by rw [hp]; simp⟩
  | cons y rest ih =>
    intro x h hnd hc hn hp
    rw [List.getLast_cons (List.cons_ne_nil _ _)] at hn hp
    have hlast_mem : (y :: rest).getLast (List.cons_ne_nil _ _) ∈ y :: rest :=
      List.getLast_mem _
    have hx_notin : x ∉ y :: rest := (List.nodup_cons.mp hnd).1
    have hxl : x ≠ (y :: rest).getLast (List.cons_ne_nil _ _) :=
      fun e => hx_notin (e ▸ hlast_mem)
    have hyc : y ≠ c' := fun e => hc (by simp [e])
    refine ⟨?_, ?_, ?_⟩
    · rw [hn, if_neg hxl]; exact h.1
    · rw [hp, if_neg hyc]; exact h.2.1
    · exact ih y h.2.2 (List.nodup_cons.mp hnd).2
        (fun hm => hc (List.mem_cons_of_mem _ hm)) hn hp

/-- Unlinking a node `r` inside a segment removes it from the segment. -/
theorem Linked_unlink (heap heap' : RenderableHeap) (r c : Nat) (r2 : List Nat)
    (hn : ∀ a, (heap' a).next = if a = (heap r).prev then (heap r).next else (heap a).next)
    (hp : ∀ a, (heap' a).prev = if a = (heap r).next then (heap r).prev else (heap a).prev) :
    ∀ (r1 : List Nat) (x : Nat),
    Linked heap x (r1 ++ r :: r2) c → (x :: (r1 ++ r :: r2)).Nodup → c ∉ r1 ++ r :: r2 →
    Linked heap' x (r1 ++ r2) c := by
  intro r1
  induction r1 with
  | nil =>
    intro x h hnd hc
    simp only [List.nil_append] at h hnd hc ⊢
    obtain ⟨hxr, hrx, hrest⟩ := h
    have hnd' := List.nodup_cons.mp hnd
    have hnd'' := List.nodup_cons.mp hnd'.2
    cases r2 with
    | nil =>
      obtain ⟨h1, h2⟩ := hrest
      refine ⟨?_, ?_⟩
      · rw [hn, if_pos hrx.symm]; exact h1
      · rw [hp, if_pos h1.symm]; exact hrx
    | cons z r2 =>
      obtain ⟨h1, h2, h3⟩ := hrest
      refine ⟨?_, ?_, ?_⟩
      · rw [hn, if_pos hrx.symm]; exact h1
      · rw [hp, if_pos h1.symm]; exact hrx
      · apply Linked_frame heap heap' r2 z c h3
        · intro a ha
          rw [hn, if_neg]
          rw [hrx]
          intro e
          exact hnd'.1 (e ▸ List.mem_cons_of_mem _ ha)
        · intro a ha
          rw [hp, if_neg]
          rw [h1]
          intro e
          rcases List.mem_append.mp ha with ha | ha
          · exact (List.nodup_cons.mp hnd''.2).1 (e ▸ ha)
          · simp only [List.mem_singleton] at ha
            exact hc (by simp [← ha, e])
  | cons y r1 ih =>
    intro x h hnd hc
    simp only [List.cons_append] at h hnd hc ⊢
    obtain ⟨hxy, hyx, hrest⟩ := h
    obtain ⟨hb, ha⟩ := Linked_neighbours heap r r2 r1 y c hrest
    have hnd' := List.nodup_cons.mp hnd
    refine ⟨?_, ?_, ?_⟩
    · rw [hn, if_neg]
      · exact hxy
      · intro e
        apply hnd'.1
        rw [e]
        rcases List.mem_cons.mp hb with hb | hb
        · simp [hb]
        · exact List.mem_cons_of_mem _ (List.mem_append_left _ hb)
    · rw [hp, if_neg]
      · exact hyx
      · intro e
        have hnd'' := List.nodup_cons.mp hnd'.2
        rcases List.mem_append.mp ha with ha | ha
        · apply hnd''.1
          rw [e]
          exact List.mem_append_right _ (List.mem_cons_of_mem _ ha)
        · simp only [List.mem_singleton] at ha
          apply hc
          rw [← ha, ← e]
          simp
    · exact ih y hrest hnd'.2 (fun hm => hc (List.mem_cons_of_mem _ hm))

/-- A walk of one more step ends with the iterate of the step function. -/
theorem walk_succ_last (step : Nat → Nat) : ∀ (n a : Nat),
    walk step (n + 1) a = walk step n a ++ [step^[n] a] := by
  intro n
  induction n with
  | zero => intro a; simp [walk]
  | succ n ih =>
    intro a
    rw [walk, ih (step a)]
    simp [walk]

/-- The forward walk along a segment. -/
theorem Linked_walk_next (heap : RenderableHeap) : ∀ (rest : List Nat) (x c : Nat),
    Linked heap x rest c →
    walk (fun a => (heap a).next) (rest.length + 2) x = x :: (rest ++ [c]) := by
  intro rest
  induction rest with
  | nil => intro x c h; simp [walk, h.1]
  | cons y rest ih =>
    intro x c h
    have := ih y c h.2.2
    simp only [List.length_cons, walk, h.1, List.cons_append, List.cons.injEq, true_and]
    simpa [walk] using this

/-- The backward walk along a segment. -/
theorem Linked_walk_prev (heap : RenderableHeap) : ∀ (rest : List Nat) (x c : Nat),
    Linked heap x rest c →
    walk (fun a => (heap a).prev) (rest.length + 2) c = c :: (rest.reverse ++ [x]) := by
  intro rest
  induction rest with
  | nil => intro x c h; simp [walk, h.2]
  | cons y rest ih =>
    intro x c h
    have hy := ih y c h.2.2
    have hlast : (fun a => (heap a).prev)^[rest.length + 1] c = y := by
      rw [walk_succ_last] at hy
      have h2 : walk (fun a => (heap a).prev) (rest.length + 1) c ++
          [(fun a => (heap a).prev)^[rest.length + 1] c] = (c :: rest.reverse) ++ [y] := by
        simpa using hy
      have := List.append_inj_right' h2 rfl
      simpa using this
    rw [List.length_cons, walk_succ_last, hy, Function.iterate_succ_apply', hlast]
    simp [h.2.1]

/-- A ring given link by link is a ring. -/
theorem LinkedRing_IsRing (heap : RenderableHeap) (head : Option Nat) (members : List Nat)
    (h : LinkedRing heap head members) : IsRing heap head members := by
  match head, members, h with
  | none, [], _ => rfl
  | some a, x :: rest, h =>
    obtain ⟨rfl, hnd, hl⟩ := h
    refine ⟨List.cons_ne_nil _ _, hnd, ?_, ?_⟩
    · simpa using Linked_walk_next heap rest a a hl
    · simpa using Linked_walk_prev heap rest a a hl

end RenderableHeap

namespace SpriteLayer
open RenderableHeap

/-- `Add` of a renderable that is not a member puts it at the end of the ring. -/
theorem AddRenderable2D_LinkedRing (layer : SpriteLayer) (heap : RenderableHeap)
    (members : List Nat) (r : Nat)
    (h : LinkedRing heap layer.m_renderablesList members) (hr : r ∉ members) :
    LinkedRing (layer.AddRenderable2D heap r).1 (layer.AddRenderable2D heap r).2.m_renderablesList
      (members ++ [r]) := by
  unfold AddRenderable2D
  match hh : layer.m_renderablesList, members, h with
  | none, [], _ =>
    simp only [hh, List.nil_append]
    refine ⟨rfl, List.nodup_singleton _, ?_, ?_⟩
    · simp [setNext_next]
    · simp [setNext_prev, setPrev_prev]
  | some a, x :: rest, h =>
    obtain ⟨rfl, hnd, hl⟩ := h
    simp only [hh, List.cons_append]
    have hlast := Linked_prev_closing heap rest a a hl
    have hra : r ≠ a := fun e => hr (by simp [e])
    refine ⟨rfl, ?_, ?_⟩
    · have : (a :: rest ++ [r]).Nodup := by
        rw [List.nodup_append]
        exact ⟨hnd, List.nodup_singleton _, by
          intro b hb hb'
          simp only [List.mem_singleton] at hb'
          exact hr (hb' ▸ hb)⟩
      simpa using this
    · apply Linked_add heap _ r a rest a hl hnd hr hra (List.nodup_cons.mp hnd).1
      · intro b
        rw [setPrev_next, setNext_next, setNext_next, setPrev_next, hlast]
      · intro b
        rw [setPrev_prev, setNext_prev, setNext_prev, setPrev_prev, hlast]

/-- `Remove` of a member takes it out of the ring. -/
theorem RemoveRenderable2D_LinkedRing (layer : SpriteLayer) (heap : RenderableHeap)
    (members : List Nat) (r : Nat)
    (h : LinkedRing heap layer.m_renderablesList members) (hr : r ∈ members) :
    LinkedRing (layer.RemoveRenderable2D heap r).1
      (layer.RemoveRenderable2D heap r).2.m_renderablesList (members.erase r) := by
  unfold RemoveRenderable2D
  match hh : layer.m_renderablesList, members, h with
  | none, [], _ => simp at hr
  | some a, x :: rest, h =>
    obtain ⟨rfl, hnd, hl⟩ := h
    have hnd' := List.nodup_cons.mp hnd
    by_cases hra : r = a
    · subst hra
      rw [List.erase_cons_head]
      cases rest with
      | nil =>
        rw [if_pos hl.1]
        simp [LinkedRing]
      | cons y rest =>
        obtain ⟨h1, h2, h3⟩ := hl
        have hyr : y ≠ r := fun e => hnd'.1 (by simp [e])
        rw [if_neg (by rw [h1]; exact hyr)]
        simp only [hh, if_true, h1]
        refine ⟨rfl, hnd'.2, ?_⟩
        have hlast := Linked_prev_closing heap rest y r h3
        apply Linked_reclose heap _ r y rest y h3 hnd'.2 (List.nodup_cons.mp hnd'.2).1
        · intro b
          rw [setPrev_next, setNext_next, hlast]
        · intro b
          rw [setPrev_prev, setNext_prev, hlast]
    · have hrrest : r ∈ rest := by
        rcases List.mem_cons.mp hr with h | h
        · exact absurd h hra
        · exact h
      obtain ⟨r1, r2, hsplit⟩ := List.append_of_mem hrrest
      subst hsplit
      obtain ⟨-, hafter⟩ := Linked_neighbours heap r r2 r1 a a hl
      have hnd2 : (r1 ++ r :: r2).Nodup := hnd'.2
      have hr_r1 : r ∉ r1 := by
        intro hm
        have := List.nodup_append.mp hnd2
        exact this.2.2 hm (List.mem_cons_self _ _) 
      have hr_r2 : r ∉ r2 := by
        have := (List.nodup_append.mp hnd2).2.1
        exact (List.nodup_cons.mp this).1
      have hnext : (heap r).next ≠ r := by
        intro e
        rw [e] at hafter
        rcases List.mem_append.mp hafter with hm | hm
        · exact hr_r2 hm
        · simp only [List.mem_singleton] at hm
          exact hra hm
      rw [if_neg hnext]
      have herase : (a :: (r1 ++ r :: r2)).erase r = a :: (r1 ++ r2) := by
        rw [List.erase_cons_tail (by simpa using fun e => hra e.symm)]
        rw [List.erase_append_right _ hr_r1, List.erase_cons_head]
      rw [herase]
      simp only [hh]
      rw [if_neg (by simpa using fun e => hra e.symm)]
      refine ⟨rfl, ?_, ?_⟩
      · have : (r1 ++ r2).Nodup := by
          have := List.nodup_append.mp hnd2
          rw [List.nodup_append]
          refine ⟨this.1, (List.nodup_cons.mp this.2.1).2, ?_⟩
          intro b hb hb'
          exact this.2.2 hb (List.mem_cons_of_mem _ hb')
        rw [List.nodup_cons]
        refine ⟨?_, this⟩
        intro hm
        apply hnd'.1
        rcases List.mem_append.mp hm with hm | hm
        · exact List.mem_append_left _ hm
        · exact List.mem_append_right _ (List.mem_cons_of_mem _ hm)
      · apply Linked_unlink heap _ r a r2 _ _ r1 a hl hnd hnd'.1
        · intro b
          rw [setPrev_next, setNext_next]
        · intro b
          rw [setPrev_prev, setNext_prev]

/-- Relinking leaves the dead flag, the cullable flag and the bounds of every renderable
alone. -/
theorem setNext_payload (heap : RenderableHeap) (a v b : Nat) :
    ((heap.setNext a v) b).m_isDead = (heap b).m_isDead ∧
      ((heap.setNext a v) b).isCullable = (heap b).isCullable ∧
      ((heap.setNext a v) b).bounds = (heap b).bounds := by
  unfold setNext
  by_cases h : b = a
  · subst h; simp
  · simp [h]

/-- Relinking leaves the dead flag, the cullable flag and the bounds of every renderable
alone. -/
theorem setPrev_payload (heap : RenderableHeap) (a v b : Nat) :
    ((heap.setPrev a v) b).m_isDead = (heap b).m_isDead ∧
      ((heap.setPrev a v) b).isCullable = (heap b).isCullable ∧
      ((heap.setPrev a v) b).bounds = (heap b).bounds := by
  unfold setPrev
  by_cases h : b = a
  · subst h; simp
  · simp [h]

/-- `Add` changes links only. -/
theorem AddRenderable2D_payload (layer : SpriteLayer) (heap : RenderableHeap) (r b : Nat) :
    ((layer.AddRenderable2D heap r).1 b).m_isDead = (heap b).m_isDead ∧
      ((layer.AddRenderable2D heap r).1 b).isCullable = (heap b).isCullable ∧
      ((layer.AddRenderable2D heap r).1 b).bounds = (heap b).bounds := by
  unfold AddRenderable2D
  cases layer.m_renderablesList with
  | none =>
    simp only []
    refine ⟨?_, ?_, ?_⟩
    · rw [(setNext_payload _ _ _ _).1, (setPrev_payload _ _ _ _).1]
    · rw [(setNext_payload _ _ _ _).2.1, (setPrev_payload _ _ _ _).2.1]
    · rw [(setNext_payload _ _ _ _).2.2, (setPrev_payload _ _ _ _).2.2]
  | some a =>
    simp only []
    refine ⟨?_, ?_, ?_⟩
    · rw [(setPrev_payload _ _ _ _).1, (setNext_payload _ _ _ _).1, (setNext_payload _ _ _ _).1,
        (setPrev_payload _ _ _ _).1]
    · rw [(setPrev_payload _ _ _ _).2.1, (setNext_payload _ _ _ _).2.1,
        (setNext_payload _ _ _ _).2.1, (setPrev_payload _ _ _ _).2.1]
    · rw [(setPrev_payload _ _ _ _).2.2, (setNext_payload _ _ _ _).2.2,
        (setNext_payload _ _ _ _).2.2, (setPrev_payload _ _ _ _).2.2]

/-- `Remove` changes links only. -/
theorem RemoveRenderable2D_payload (layer : SpriteLayer) (heap : RenderableHeap) (r b : Nat) :
    ((layer.RemoveRenderable2D heap r).1 b).m_isDead = (heap b).m_isDead ∧
      ((layer.RemoveRenderable2D heap r).1 b).isCullable = (heap b).isCullable ∧
      ((layer.RemoveRenderable2D heap r).1 b).bounds = (heap b).bounds := by
  unfold RemoveRenderable2D
  by_cases h : (heap r).next = r
  · rw [if_pos h]
    exact ⟨rfl, rfl, rfl⟩
  · rw [if_neg h]
    simp only []
    refine ⟨?_, ?_, ?_⟩
    · rw [(setPrev_payload _ _ _ _).1, (setNext_payload _ _ _ _).1]
    · rw [(setPrev_payload _ _ _ _).2.1, (setNext_payload _ _ _ _).2.1]
    · rw [(setPrev_payload _ _ _ _).2.2, (setNext_payload _ _ _ _).2.2]

/-- `Add` sets the head of an empty ring and keeps the head of any other ring. -/
theorem AddRenderable2D_head (layer : SpriteLayer) (heap : RenderableHeap) (r : Nat) :
    (layer.AddRenderable2D heap r).2.m_renderablesList =
      some (layer.m_renderablesList.getD r) := by
  unfold AddRenderable2D
  cases h : layer.m_renderablesList with
  | none => rfl
  | some a => simp [h]

/-- The operations of a valid sequence keep the ring, link by link. -/
theorem applyOps_LinkedRing : ∀ (ops : List RingOp) (s : RenderableHeap × SpriteLayer)
    (members : List Nat), LinkedRing s.1 s.2.m_renderablesList members → ValidOps members ops →
    LinkedRing (applyOps s ops).1 (applyOps s ops).2.m_renderablesList
      (membersAfter members ops) := by
  intro ops
  induction ops with
  | nil => intro s members h _; exact h
  | cons op ops ih =>
    intro s members h hv
    cases op with
    | add r =>
      exact ih _ _ (AddRenderable2D_LinkedRing s.2 s.1 members r h hv.1) hv.2
    | remove r =>
      exact ih _ _ (RemoveRenderable2D_LinkedRing s.2 s.1 members r h hv.1) hv.2

/-- An initial segment of a valid sequence is valid. -/
theorem ValidOps_take : ∀ (ops : List RingOp) (members : List Nat) (k : Nat),
    ValidOps members ops → ValidOps members (ops.take k) := by
  intro ops
  induction ops with
  | nil => intro members k h; simpa using h
  | cons op ops ih =>
    intro members k h
    cases k with
    | zero => trivial
    | succ k =>
      cases op with
      | add r => exact ⟨h.1, ih _ k h.2⟩
      | remove r => exact ⟨h.1, ih _ k h.2⟩

/-- C8, amended: start from an empty layer and apply any sequence of `Add`/`Remove`
operations that adds only renderables that are not members and removes only members. After
each operation (after every initial segment of the sequence) the list is a ring of exactly
the current members: the head is null and there is no member, or the members are distinct
and following `next` from the head, and `prev` in reverse, visits every member exactly once
and returns to the head. Adding to the empty ring yields a single self-linked node, and
removing the only node of a ring yields a null head. -/
theorem ring_invariant (heap : RenderableHeap) (layer : SpriteLayer) (ops : List RingOp)
    (hempty : layer.m_renderablesList = none) (hvalid : ValidOps [] ops) :
    (∀ k : Nat,
      IsRing (applyOps (heap, layer) (ops.take k)).1
        (applyOps (heap, layer) (ops.take k)).2.m_renderablesList
        (membersAfter [] (ops.take k))) ∧
    (∀ r : Nat,
      (layer.AddRenderable2D heap r).2.m_renderablesList = some r ∧
        ((layer.AddRenderable2D heap r).1 r).next = r ∧
        ((layer.AddRenderable2D heap r).1 r).prev = r) ∧
    (∀ (heap1 : RenderableHeap) (layer1 : SpriteLayer) (r : Nat),
      IsRing heap1 layer1.m_renderablesList [r] →
        (layer1.RemoveRenderable2D heap1 r).2.m_renderablesList = none) := by
  refine ⟨?_, ?_, ?_⟩
  · intro k
    apply LinkedRing_IsRing
    apply applyOps_LinkedRing (ops.take k) (heap, layer) []
    · simp [hempty, LinkedRing]
    · exact ValidOps_take ops [] k hvalid
  · intro r
    unfold AddRenderable2D
    simp [hempty, setNext_next, setNext_prev, setPrev_prev]
  · intro heap1 layer1 r h
    unfold IsRing at h
    match hh : layer1.m_renderablesList, h with
    | none, h => simp at h
    | some a, h =>
      obtain ⟨-, -, hw, -⟩ := h
      simp only [List.length_singleton, walk, List.singleton_append, List.cons.injEq,
        and_true] at hw
      obtain ⟨rfl, hn⟩ := hw
      unfold RemoveRenderable2D
      rw [if_pos hn]

/-- Witness for `ring_invariant`: add 1, 2 and 3, then remove the head 1 and the last
node 3. -/
theorem ring_invariant_witness :
    (emptyLayer.m_renderablesList = none ∧
      ValidOps [] [RingOp.add 1, RingOp.add 2, RingOp.add 3, RingOp.remove 1,
        RingOp.remove 3]) ∧
    ((∀ k : Nat,
      IsRing
        (applyOps (blankHeap, emptyLayer) (List.take k [RingOp.add 1, RingOp.add 2, RingOp.add 3,
          RingOp.remove 1, RingOp.remove 3])).1
        (applyOps (blankHeap, emptyLayer) (List.take k [RingOp.add 1, RingOp.add 2, RingOp.add 3,
          RingOp.remove 1, RingOp.remove 3])).2.m_renderablesList
        (membersAfter [] (List.take k [RingOp.add 1, RingOp.add 2, RingOp.add 3,
          RingOp.remove 1, RingOp.remove 3]))) ∧
    (∀ r : Nat,
      (emptyLayer.AddRenderable2D blankHeap r).2.m_renderablesList = some r ∧
        ((emptyLayer.AddRenderable2D blankHeap r).1 r).next = r ∧
        ((emptyLayer.AddRenderable2D blankHeap r).1 r).prev = r) ∧
    (∀ (heap1 : RenderableHeap) (layer1 : SpriteLayer) (r : Nat),
      IsRing heap1 layer1.m_renderablesList [r] →
        (layer1.RemoveRenderable2D heap1 r).2.m_renderablesList = none)) :=
  ⟨⟨rfl, by simp [ValidOps]⟩,
    ring_invariant blankHeap emptyLayer
      [RingOp.add 1, RingOp.add 2, RingOp.add 3, RingOp.remove 1, RingOp.remove 3] rfl
      (by simp [ValidOps])⟩

/-- C9 fails on the code: on the ring of the three dead renderables 1, 2, 3 (head 1),
`CleanUpDeadRenderables(false)` returns with head 2, and 2 is still flagged dead; and
`CleanUpDeadRenderables(true)` returns with head 2 as well, so the ring is not empty. Only
the old head was unlinked: the head moved to 2, which ended the loop. -/
theorem cleanUp_stops_after_dead_head :
    IsRing threeDead.1 threeDead.2.m_renderablesList [1, 2, 3] ∧
    (∀ a ∈ [1, 2, 3], (threeDead.1 a).m_isDead = true) ∧
    (∀ fuel : Nat, 0 < fuel →
      ∃ s, threeDead.2.CleanUpDeadRenderables threeDead.1 false fuel = some s ∧
        IsRing s.1 s.2.m_renderablesList [2, 3] ∧ (s.1 2).m_isDead = true ∧
        (s.1 3).m_isDead = true) ∧
    (∀ fuel : Nat, 0 < fuel →
      ∃ s, threeDead.2.CleanUpDeadRenderables threeDead.1 true fuel = some s ∧
        IsRing s.1 s.2.m_renderablesList [2, 3]) := by
  have hring : LinkedRing threeDead.1 threeDead.2.m_renderablesList [1, 2, 3] :=
    applyOps_LinkedRing [RingOp.add 1, RingOp.add 2, RingOp.add 3] (deadHeap, emptyLayer) []
      (by simp [LinkedRing, emptyLayer]) (by simp [ValidOps])
  have hhead : threeDead.2.m_renderablesList = some 1 := by
    simp only [threeDead, applyOps, applyOp, AddRenderable2D_head]
    rfl
  have hl := hring
  rw [hhead] at hl
  obtain ⟨-, hnd, h12, h21, h23, h32, h31, h13⟩ := hl
  have hdead : ∀ a, (threeDead.1 a).m_isDead = true := by
    intro a
    simp only [threeDead, applyOps, applyOp, (AddRenderable2D_payload _ _ _ _).1]
    rfl
  have hrem := RemoveRenderable2D_LinkedRing threeDead.2 threeDead.1 [1, 2, 3] 1 hring
    (by simp)
  have hremhead : (threeDead.2.RemoveRenderable2D threeDead.1 1).2.m_renderablesList = some 2 := by
    unfold RemoveRenderable2D
    rw [if_neg (by rw [h12]; decide), hhead, h12]
    simp
  have hremdead : ∀ a, ((threeDead.2.RemoveRenderable2D threeDead.1 1).1 a).m_isDead = true := by
    intro a
    unfold RemoveRenderable2D
    rw [if_neg (by rw [h12]; decide)]
    have := (RemoveRenderable2D_payload threeDead.2 threeDead.1 1 a).1
    unfold RemoveRenderable2D at this
    rw [if_neg (by rw [h12]; decide)] at this
    rw [this, hdead]
  have hwalk : ∀ (b : Bool) (fuel : Nat), 0 < fuel →
      threeDead.2.CleanUpDeadRenderables threeDead.1 b fuel =
        some (threeDead.2.RemoveRenderable2D threeDead.1 1) := by
    intro b fuel hf
    obtain ⟨n, rfl⟩ : ∃ n, fuel = n + 1 := ⟨fuel - 1, by omega⟩
    unfold CleanUpDeadRenderables
    rw [hhead]
    simp only [cleanUpWalk, hdead, true_or, if_true, h12, h21, deleteRenderable]
    rw [if_neg (by decide), hremhead]
    simp
  refine ⟨LinkedRing_IsRing _ _ _ hring, fun a _ => hdead a, ?_, ?_⟩
  · intro fuel hf
    refine ⟨_, hwalk false fuel hf, LinkedRing_IsRing _ _ _ ?_, hremdead 2, hremdead 3⟩
    simpa using hrem
  · intro fuel hf
    refine ⟨_, hwalk true fuel hf, LinkedRing_IsRing _ _ _ ?_⟩
    simpa using hrem

end SpriteLayer

namespace SpriteGameRenderer

/-- Filtering a list one element at a time. -/
theorem filter_cons_append (p : Nat → Bool) (x : Nat) (l : List Nat) :
    (x :: l).filter p = (if p x = true then [x] else []) ++ l.filter p := by
  by_cases h : p x = true
  · rw [List.filter_cons_of_pos h, if_pos h]; rfl
  · rw [List.filter_cons_of_neg h, if_neg h]; rfl

/-- The ring walk of `RenderLayer` along a forward walk that returns to the head. -/
theorem renderWalk_ring (heap : RenderableHeap) (rb : AABB2) (head : Nat) :
    ∀ (rest : List Nat) (x fuel : Nat),
    RenderableHeap.walk (fun a => (heap a).next) (rest.length + 2) x = x :: (rest ++ [head]) →
    head ∉ rest → rest.length + 1 ≤ fuel →
    renderWalk heap rb head fuel x =
      some ((x :: rest).filter
        (fun a => decide (¬ (heap a).isCullable ∨ rb.IsIntersecting (heap a).bounds))) := by
  intro rest
  induction rest with
  | nil =>
    intro x fuel hw _ hf
    obtain ⟨n, rfl⟩ : ∃ n, fuel = n + 1 := ⟨fuel - 1, by simp at hf; omega⟩
    simp only [List.length_nil, RenderableHeap.walk, List.nil_append, List.cons.injEq, and_true,
      true_and] at hw
    simp only [renderWalk, hw, ne_eq, not_true_eq_false, if_false]
    rw [filter_cons_append _ x []]
    simp only [decide_eq_true_eq, List.filter_nil, List.append_nil]
  | cons y rest ih =>
    intro x fuel hw hh hf
    obtain ⟨n, rfl⟩ : ∃ n, fuel = n + 1 := ⟨fuel - 1, by simp at hf; omega⟩
    have h1 : RenderableHeap.walk (fun a => (heap a).next) (rest.length + 1 + 1) ((heap x).next) =
        y :: (rest ++ [head]) := by
      have h0 : RenderableHeap.walk (fun a => (heap a).next) (rest.length + 2 + 1) x =
          x :: (y :: (rest ++ [head])) := hw
      rw [RenderableHeap.walk] at h0
      exact (List.cons.inj h0).2
    have h2 : (heap x).next = y := by
      rw [RenderableHeap.walk] at h1
      exact (List.cons.inj h1).1
    rw [h2] at h1
    have hw' : (heap x).next = y ∧
        RenderableHeap.walk (fun a => (heap a).next) (rest.length + 2) y =
          y :: (rest ++ [head]) := ⟨h2, h1⟩
    have hyh : y ≠ head := fun e => hh (by simp [e])
    have := ih y n hw'.2 (fun hm => hh (List.mem_cons_of_mem _ hm))
      (by simp at hf; omega)
    simp only [renderWalk, hw'.1, ne_eq, hyh, not_false_eq_true, if_true, this]
    rw [filter_cons_append _ x (y :: rest)]
    simp only [decide_eq_true_eq]

open RenderableHeap SpriteLayer

/-- C7: for an enabled layer whose list is a ring of `members`, and any viewport,
`RenderLayer` (with fuel for one turn of the ring) returns and calls `Render` on exactly
the members that report non-cullable or whose bounds intersect the camera-space box, each
exactly once, in ring order; a cullable member whose bounds do not intersect is skipped. In
particular three renderables of which the first and the third intersect the box and the
second is cullable and does not, give exactly the two draws of the first and the third. -/
theorem render_layer_culling (r : SpriteGameRenderer) (heap : RenderableHeap)
    (layer : SpriteLayer) (renderArea : ViewportDefinition) (members : List Nat) (fuel : Nat)
    (hen : layer.m_isEnabled = true) (hring : IsRing heap layer.m_renderablesList members)
    (hfuel : members.length ≤ fuel) :
    ∃ res, r.RenderLayer heap layer renderArea fuel = some res ∧
      res.draws = members.filter (fun a => decide (¬ (heap a).isCullable ∨
        (r.renderBoundsOf layer renderArea).IsIntersecting (heap a).bounds)) ∧
      res.draws.Nodup ∧
      (∀ a, a ∈ res.draws ↔ a ∈ members ∧ (¬ (heap a).isCullable ∨
        (r.renderBoundsOf layer renderArea).IsIntersecting (heap a).bounds)) ∧
      (∀ a b c, members = [a, b, c] →
        (r.renderBoundsOf layer renderArea).IsIntersecting (heap a).bounds →
        (heap b).isCullable = true →
        ¬ (r.renderBoundsOf layer renderArea).IsIntersecting (heap b).bounds →
        (r.renderBoundsOf layer renderArea).IsIntersecting (heap c).bounds →
        res.draws = [a, c]) := by
  have hwalk : renderRing heap (r.renderBoundsOf layer renderArea) layer.m_renderablesList fuel =
      some (members.filter (fun a => decide (¬ (heap a).isCullable ∨
        (r.renderBoundsOf layer renderArea).IsIntersecting (heap a).bounds))) ∧
      members.Nodup := by
    unfold IsRing at hring
    unfold renderRing
    match hh : layer.m_renderablesList, hring with
    | none, hring =>
      simp only at hring
      subst hring
      exact ⟨rfl, List.nodup_nil⟩
    | some h, hring =>
      obtain ⟨hne, hnd, hw, -⟩ := hring
      refine ⟨?_, hnd⟩
      match members, hne, hnd, hw, hfuel with
      | x :: rest, _, hnd, hw, hfuel =>
        have hx : h = x := by
          have h0 : walk (fun a => (heap a).next) (rest.length + 1 + 1) h =
              x :: (rest ++ [h]) := hw
          rw [walk] at h0
          exact (List.cons.inj h0).1
        subst hx
        exact renderWalk_ring heap _ h rest h fuel hw (List.nodup_cons.mp hnd).1
          (by simpa using hfuel)
  obtain ⟨hw, hnd⟩ := hwalk
  have hmain : ∃ res, r.RenderLayer heap layer renderArea fuel = some res ∧
      res.draws = members.filter (fun a => decide (¬ (heap a).isCullable ∨
        (r.renderBoundsOf layer renderArea).IsIntersecting (heap a).bounds)) := by
    unfold RenderLayer
    simp only [hen, if_true]
    have : renderBoundsOf r layer renderArea =
      GetVirtualBoundsAroundCameraCenter
        ((r.RecalculateVirtualWidthAndHeight renderArea
          layer.m_virtualScaleMultiplier).UpdateCameraPositionInWorldBounds
            renderArea.m_cameraPosition layer.m_virtualScaleMultiplier) := rfl
    rw [← this, hw]
    exact ⟨_, rfl, rfl⟩
  obtain ⟨res, hres, hd⟩ := hmain
  refine ⟨res, hres, hd, ?_, ?_, ?_⟩
  · rw [hd]
    exact hnd.filter _
  · intro a
    rw [hd]
    simp [List.mem_filter]
  · intro a b c hm ha hb hb' hc
    rw [hd]
    subst hm
    simp [List.filter_cons, ha, hb, hb', hc]

/-- The camera-space box of `smallFrame` for `squareViewport` and the layer of
`cullingScene` is the square from 4 to 6. -/
theorem renderBoundsOf_cullingScene :
    smallFrame.renderBoundsOf cullingScene.2 squareViewport = ⟨⟨4, 4⟩, ⟨6, 6⟩⟩ := by
  have hs : cullingScene.2.m_virtualScaleMultiplier = 1 := rfl
  unfold renderBoundsOf
  rw [hs]
  have e := UpdateCamera_eq (smallFrame.RecalculateVirtualWidthAndHeight squareViewport 1)
    squareViewport.m_cameraPosition 1 ⟨5, 5⟩
    (by rw [UpdateCamera_x]
        norm_num [RecalculateVirtualWidthAndHeight, smallFrame, squareViewport, MathUtils.Lerp])
    (by rw [UpdateCamera_y]
        norm_num [RecalculateVirtualWidthAndHeight, smallFrame, squareViewport, MathUtils.Lerp])
  rw [e]
  simp only [GetVirtualBoundsAroundCameraCenter, RecalculateVirtualWidthAndHeight, smallFrame,
    squareViewport, MathUtils.Lerp, Vector2.sub, Vector2.add]
  norm_num

/-- Witness for `render_layer_culling`: the renderables 1 (inside), 2 (outside) and 3
(overlapping in part) of `cullingScene` give the two draws of 1 and 3. -/
theorem render_layer_culling_witness :
    (cullingScene.2.m_isEnabled = true ∧
      IsRing cullingScene.1 cullingScene.2.m_renderablesList [1, 2, 3] ∧
      [1, 2, 3].length ≤ 3) ∧
    ∃ res, smallFrame.RenderLayer cullingScene.1 cullingScene.2 squareViewport 3 = some res ∧
      res.draws = [1, 3] ∧ res.draws.length = 2 := by
  have hring : IsRing cullingScene.1 cullingScene.2.m_renderablesList [1, 2, 3] :=
    LinkedRing_IsRing _ _ _
      (applyOps_LinkedRing [RingOp.add 1, RingOp.add 2, RingOp.add 3] (cullingHeap, emptyLayer) []
        (by simp [LinkedRing, emptyLayer]) (by simp [ValidOps]))
  have hpay : ∀ a, (cullingScene.1 a).isCullable = true ∧
      (cullingScene.1 a).bounds = (cullingHeap a).bounds := by
    intro a
    simp only [cullingScene, applyOps, applyOp, (AddRenderable2D_payload _ _ _ _).2.1,
      (AddRenderable2D_payload _ _ _ _).2.2]
    exact ⟨rfl, trivial⟩
  obtain ⟨res, h1, -, -, -, h5⟩ := render_layer_culling smallFrame cullingScene.1 cullingScene.2
    squareViewport [1, 2, 3] 3 rfl hring (by simp)
  have hd : res.draws = [1, 3] := by
    apply h5 1 2 3 rfl
    · rw [renderBoundsOf_cullingScene, (hpay 1).2]
      norm_num [AABB2.IsIntersecting, cullingHeap]
    · exact (hpay 2).1
    · rw [renderBoundsOf_cullingScene, (hpay 2).2]
      norm_num [AABB2.IsIntersecting, cullingHeap]
    · rw [renderBoundsOf_cullingScene, (hpay 3).2]
      norm_num [AABB2.IsIntersecting, cullingHeap]
  exact ⟨⟨rfl, hring, by simp⟩, res, h1, hd, by rw [hd]; rfl⟩

end SpriteGameRenderer

/-! ## Theorems: dead objects, layers, viewports, ping-pong targets, one-shot systems and
the particle mesh -/

namespace ParticleSystem

/-- C11: `Update` on a dead object is a no-op. For every step, `ParticleEmitter::Update` on a
dead emitter returns the emitter as it was (age, emission accumulator, particles and dead
flag included), and `ParticleSystem::Update` on a dead system returns the system as it was,
with all its emitters; neither fails. -/
theorem update_dead_is_noop (e : ParticleEmitter) (sys : ParticleSystem) (dt : ℚ)
    (he : e.m_isDead = true) (hs : sys.m_isDead = true) :
    e.Update dt = some e ∧ sys.Update dt = some sys := by
  constructor
  · unfold ParticleEmitter.Update
    rw [if_neg (by simp [he])]
  · unfold Update
    rw [if_neg (by simp [hs])]

/-- Witness for `update_dead_is_noop`: `deadEmitter` and `deadSystem`, one step of one
second. -/
theorem update_dead_is_noop_witness :
    (ParticleEmitter.deadEmitter.m_isDead = true ∧ deadSystem.m_isDead = true) ∧
    (ParticleEmitter.deadEmitter.Update 1 = some ParticleEmitter.deadEmitter ∧
      deadSystem.Update 1 = some deadSystem) :=
  ⟨⟨rfl, rfl⟩, update_dead_is_noop ParticleEmitter.deadEmitter deadSystem 1 rfl rfl⟩

end ParticleSystem

namespace LayerMap

/-- Looking up the key that was just assigned finds the assigned layer. -/
theorem findIn_insertIn_same (key : Int) (layer : SpriteLayer) :
    ∀ l : List (Int × SpriteLayer), findIn (insertIn l key layer) key = some layer := by
  intro l
  induction l with
  | nil => simp [insertIn, findIn]
  | cons p rest ih =>
    obtain ⟨k, v⟩ := p
    unfold insertIn
    split_ifs with h1 h2
    · simp [findIn]
    · simp [findIn]
    · simp only [findIn, if_neg h2]
      exact ih

/-- An assignment leaves the lookup of every other key as it was. -/
theorem findIn_insertIn_other (key other : Int) (layer : SpriteLayer) (h : other ≠ key) :
    ∀ l : List (Int × SpriteLayer), findIn (insertIn l key layer) other = findIn l other := by
  intro l
  induction l with
  | nil => simp [insertIn, findIn, h]
  | cons p rest ih =>
    obtain ⟨k, v⟩ := p
    unfold insertIn
    split_ifs with h1 h2
    · simp [findIn, h]
    · subst h2
      simp [findIn, h]
    · simp only [findIn, ih]

/-- Assigning a key that is not in the map adds one entry. -/
theorem length_insertIn_absent (key : Int) (layer : SpriteLayer) :
    ∀ l : List (Int × SpriteLayer), findIn l key = none →
      (insertIn l key layer).length = l.length + 1 := by
  intro l
  induction l with
  | nil => intro _; simp [insertIn]
  | cons p rest ih =>
    obtain ⟨k, v⟩ := p
    intro h
    unfold findIn at h
    split_ifs at h with hk
    unfold insertIn
    split_ifs with h1
    · simp
    · simp [ih h]

end LayerMap

namespace SpriteGameRenderer

/-- C13: `CreateOrGetLayer(id)` creates on demand. When `id` is absent it returns a new layer
(enabled, empty ring, no effects, layer number `id`), which is afterwards found under `id`;
every other key is looked up as before, the map has exactly one entry more, and nothing
else in the renderer changes. When `id` is present it returns the existing layer and leaves
the renderer unchanged. A second call with the same `id` returns the same layer as the
first and changes nothing. -/
theorem create_or_get_layer (r : SpriteGameRenderer) (layerNumber : Int) :
    (r.m_layers.find layerNumber = none →
      (r.CreateOrGetLayer layerNumber).1 = SpriteLayer.new layerNumber r.m_worldBounds ∧
      (r.CreateOrGetLayer layerNumber).1.m_isEnabled = true ∧
      (r.CreateOrGetLayer layerNumber).1.m_renderablesList = none ∧
      (r.CreateOrGetLayer layerNumber).1.m_effectMaterials = [] ∧
      (r.CreateOrGetLayer layerNumber).1.m_layer = layerNumber ∧
      (r.CreateOrGetLayer layerNumber).2.m_layers.find layerNumber =
        some (r.CreateOrGetLayer layerNumber).1 ∧
      (∀ other : Int, other ≠ layerNumber →
        (r.CreateOrGetLayer layerNumber).2.m_layers.find other = r.m_layers.find other) ∧
      (r.CreateOrGetLayer layerNumber).2.m_layers.entries.length =
        r.m_layers.entries.length + 1 ∧
      (r.CreateOrGetLayer layerNumber).2 =
        { r with m_layers := (r.CreateOrGetLayer layerNumber).2.m_layers }) ∧
    (∀ layer : SpriteLayer, r.m_layers.find layerNumber = some layer →
      r.CreateOrGetLayer layerNumber = (layer, r)) ∧
    (r.CreateOrGetLayer layerNumber).2.CreateOrGetLayer layerNumber =
      ((r.CreateOrGetLayer layerNumber).1, (r.CreateOrGetLayer layerNumber).2) := by
  have habsent : r.m_layers.find layerNumber = none →
      r.CreateOrGetLayer layerNumber =
        (SpriteLayer.new layerNumber r.m_worldBounds,
          { r with m_layers :=
            r.m_layers.insert layerNumber (SpriteLayer.new layerNumber r.m_worldBounds) }) := by
    intro h
    unfold CreateOrGetLayer
    rw [h]
  have hpresent : ∀ layer : SpriteLayer, r.m_layers.find layerNumber = some layer →
      r.CreateOrGetLayer layerNumber = (layer, r) := by
    intro layer h
    unfold CreateOrGetLayer
    rw [h]
  refine ⟨?_, hpresent, ?_⟩
  · intro h
    rw [habsent h]
    refine ⟨rfl, rfl, rfl, rfl, rfl, ?_, ?_, ?_, rfl⟩
    · exact LayerMap.findIn_insertIn_same _ _ _
    · intro other ho
      exact LayerMap.findIn_insertIn_other _ _ _ ho _
    · exact LayerMap.length_insertIn_absent _ _ _ h
  · cases h : r.m_layers.find layerNumber with
    | none =>
      rw [habsent h]
      unfold CreateOrGetLayer
      have : LayerMap.find
          (r.m_layers.insert layerNumber (SpriteLayer.new layerNumber r.m_worldBounds))
          layerNumber = some (SpriteLayer.new layerNumber r.m_worldBounds) :=
        LayerMap.findIn_insertIn_same _ _ _
      simp only [this]
    | some layer =>
      rw [hpresent layer h]
      exact hpresent layer h

end SpriteGameRenderer

namespace ParticleSystem

end ParticleSystem

namespace SpriteGameRenderer
open RenderableHeap

/-- On a ring, with fuel for every member, the walk of `RenderLayer` returns, and draws the
members that pass the culling test, in ring order. -/
theorem renderRing_of_IsRing (heap : RenderableHeap) (rb : AABB2) (head : Option Nat)
    (members : List Nat) (fuel : Nat) (hring : IsRing heap head members)
    (hfuel : members.length ≤ fuel) :
    renderRing heap rb head fuel =
      some (members.filter (fun a => decide (¬ (heap a).isCullable ∨
        rb.IsIntersecting (heap a).bounds))) := by
  unfold IsRing at hring
  unfold renderRing
  match head, hring with
  | none, hring =>
    simp only at hring
    subst hring
    rfl
  | some h, hring =>
    obtain ⟨hne, hnd, hw, -⟩ := hring
    match members, hne, hnd, hw, hfuel with
    | x :: rest, _, hnd, hw, hfuel =>
      have hx : h = x := by
        have h0 : walk (fun a => (heap a).next) (rest.length + 1 + 1) h =
            x :: (rest ++ [h]) := hw
        rw [walk] at h0
        exact (List.cons.inj h0).1
      subst hx
      exact renderWalk_ring heap _ h rest h fuel hw (List.nodup_cons.mp hnd).1
        (by simpa using hfuel)

/-- A `RenderLayer` call returns when the layer is disabled or its ring can be walked with
the fuel; it does not touch the layers, and its passes are those of `effectLoop` on the
two framebuffers the renderer had before the call. -/
theorem RenderLayer_total (r : SpriteGameRenderer) (heap : RenderableHeap) (layer : SpriteLayer)
    (renderArea : ViewportDefinition) (fuel : Nat)
    (hring : layer.m_isEnabled = true →
      ∃ members, IsRing heap layer.m_renderablesList members ∧ members.length ≤ fuel) :
    ∃ res, r.RenderLayer heap layer renderArea fuel = some res ∧
      res.renderer.m_layers = r.m_layers ∧
      res.passes = (if layer.m_isEnabled = true then
        (effectLoop layer.m_effectMaterials r.m_currentFBO r.m_effectFBO).2.2 else []) ∧
      res.renderer.m_currentFBO = (if layer.m_isEnabled = true then
        (effectLoop layer.m_effectMaterials r.m_currentFBO r.m_effectFBO).1
        else r.m_currentFBO) ∧
      res.renderer.m_effectFBO = (if layer.m_isEnabled = true then
        (effectLoop layer.m_effectMaterials r.m_currentFBO r.m_effectFBO).2.1
        else r.m_effectFBO) := by
  by_cases hen : layer.m_isEnabled = true
  · obtain ⟨members, hr, hf⟩ := hring hen
    have hw := renderRing_of_IsRing heap (r.renderBoundsOf layer renderArea) _ members fuel hr hf
    unfold renderBoundsOf at hw
    unfold RenderLayer
    simp only [hen, if_true, hw]
    exact ⟨_, rfl, rfl, rfl, rfl, rfl⟩
  · unfold RenderLayer
    simp only [hen, if_false, Bool.false_eq_true]
    exact ⟨_, rfl, rfl, rfl, rfl, rfl⟩

end SpriteGameRenderer

namespace LayerMap

/-- The keys after an assignment are the assigned key and the keys before. -/
theorem mem_keys_insertIn (key : Int) (layer : SpriteLayer) (other : Int) :
    ∀ l : List (Int × SpriteLayer),
      other ∈ (insertIn l key layer).map Prod.fst ↔ other = key ∨ other ∈ l.map Prod.fst := by
  intro l
  induction l with
  | nil => simp [insertIn]
  | cons p rest ih =>
    obtain ⟨k, v⟩ := p
    unfold insertIn
    split_ifs with h1 h2
    · simp
    · subst h2
      simp
    · simp only [List.map_cons, List.mem_cons, ih]
      tauto

/-- An assignment keeps the keys strictly ascending. -/
theorem sorted_insertIn (key : Int) (layer : SpriteLayer) :
    ∀ l : List (Int × SpriteLayer), (l.map Prod.fst).Sorted (· < ·) →
      ((insertIn l key layer).map Prod.fst).Sorted (· < ·) := by
  intro l
  induction l with
  | nil => intro _; simp [insertIn]
  | cons p rest ih =>
    obtain ⟨k, v⟩ := p
    intro hs
    simp only [List.map_cons, List.sorted_cons] at hs
    unfold insertIn
    split_ifs with h1 h2
    · simp only [List.map_cons, List.sorted_cons]
      refine ⟨?_, hs⟩
      intro b hb
      simp only [List.mem_cons] at hb
      rcases hb with rfl | hb
      · exact h1
      · exact lt_trans h1 (hs.1 b hb)
    · subst h2
      simpa using hs
    · simp only [List.map_cons, List.sorted_cons]
      refine ⟨?_, ih hs.2⟩
      intro b hb
      rcases (mem_keys_insertIn key layer b rest).mp hb with rfl | hb
      · omega
      · exact hs.1 b hb

/-- A key is in the map exactly when its lookup finds a layer. -/
theorem mem_keys_iff_find (key : Int) :
    ∀ l : List (Int × SpriteLayer), key ∈ l.map Prod.fst ↔ findIn l key ≠ none := by
  intro l
  induction l with
  | nil => simp [findIn]
  | cons p rest ih =>
    obtain ⟨k, v⟩ := p
    unfold findIn
    split_ifs with h
    · simp [h]
    · simp only [List.map_cons, List.mem_cons, h, false_or, ih]

end LayerMap

namespace SpriteGameRenderer
open RenderableHeap

/-- A `CreateOrGetLayer` call keeps the layer map ordered, and its keys are the key of the
call and the keys before. -/
theorem CreateOrGetLayer_keys (r : SpriteGameRenderer) (layerNumber : Int) :
    (r.m_layers.Ordered → (r.CreateOrGetLayer layerNumber).2.m_layers.Ordered) ∧
    ∀ other, other ∈ (r.CreateOrGetLayer layerNumber).2.m_layers.keys ↔
      other = layerNumber ∨ other ∈ r.m_layers.keys := by
  unfold CreateOrGetLayer
  cases h : r.m_layers.find layerNumber with
  | none =>
    refine ⟨fun ho => LayerMap.sorted_insertIn _ _ _ ho, fun other => ?_⟩
    exact LayerMap.mem_keys_insertIn _ _ _ _
  | some layer =>
    refine ⟨fun ho => ho, fun other => ?_⟩
    have hk : layerNumber ∈ r.m_layers.keys :=
      (LayerMap.mem_keys_iff_find layerNumber _).mpr (by
        have : LayerMap.findIn r.m_layers.entries layerNumber = some layer := h
        simp [this])
    simp only
    constructor
    · exact fun ho => Or.inr ho
    · rintro (rfl | ho)
      · exact hk
      · exact ho

/-- Layers created in any order are kept in ascending key order, and the keys are the keys
before and the layer numbers of the calls. -/
theorem createLayers_keys : ∀ (layerNumbers : List Int) (r : SpriteGameRenderer),
    (r.m_layers.Ordered → (r.createLayers layerNumbers).m_layers.Ordered) ∧
    ∀ other, other ∈ (r.createLayers layerNumbers).m_layers.keys ↔
      other ∈ layerNumbers ∨ other ∈ r.m_layers.keys := by
  intro layerNumbers
  induction layerNumbers with
  | nil => intro r; simp [createLayers]
  | cons n rest ih =>
    intro r
    obtain ⟨h1, h2⟩ := CreateOrGetLayer_keys r n
    obtain ⟨h3, h4⟩ := ih (r.CreateOrGetLayer n).2
    refine ⟨fun ho => h3 (h1 ho), fun other => ?_⟩
    simp only [createLayers, h4, h2, List.mem_cons]
    tauto

/-- The loop of `RenderView` returns when every enabled layer can be walked, and renders the
entries one by one, in their order. -/
theorem renderLayers_spec (heap : RenderableHeap) (renderArea : ViewportDefinition)
    (fuel : Nat) : ∀ (entries : List (Int × SpriteLayer)) (r : SpriteGameRenderer),
    (∀ p ∈ entries, p.2.m_isEnabled = true →
      ∃ members, IsRing heap p.2.m_renderablesList members ∧ members.length ≤ fuel) →
    ∃ out, renderLayers heap renderArea fuel r entries = some out ∧
      out.2.map Prod.fst = entries.map Prod.fst ∧
      List.Forall₂ (fun (p : Int × SpriteLayer) (q : Int × RenderLayerResult) =>
        p.1 = q.1 ∧ ∃ r0 : SpriteGameRenderer,
          r0.RenderLayer heap p.2 renderArea fuel = some q.2) entries out.2 := by
  intro entries
  induction entries with
  | nil => intro r _; exact ⟨_, rfl, rfl, List.Forall₂.nil⟩
  | cons p rest ih =>
    intro r h
    obtain ⟨res, hres, -⟩ := RenderLayer_total r heap p.2 renderArea fuel
      (h p (List.mem_cons_self _ _))
    obtain ⟨out, hout, hk, hf⟩ := ih res.renderer
      (fun q hq => h q (List.mem_cons_of_mem _ hq))
    refine ⟨(out.1, (p.1, res) :: out.2), ?_, ?_, ?_⟩
    · simp only [renderLayers, hres, hout]
    · simp only [List.map_cons, hk]
    · exact List.Forall₂.cons ⟨rfl, r, hres⟩ hf

/-- C12: layers render in ascending order of their integer id, whatever the order they were
created in. `RenderView` returns (every enabled layer being a ring that the fuel covers),
renders the layers of `m_layers` one by one: the ids of the rendered layers, in rendering
order, are the keys of `m_layers`, strictly ascending, so each layer is rendered exactly
once; the k-th rendering is `RenderLayer` on the k-th layer. And the layers that a run of
`CreateOrGetLayer` calls creates from an empty map, in any order, are kept in ascending
order of id, the ids being those of the calls. -/
theorem render_view_ascending (r : SpriteGameRenderer) (heap : RenderableHeap)
    (renderArea : ViewportDefinition) (fuel : Nat)
    (hord : r.m_layers.Ordered)
    (hrings : ∀ p ∈ r.m_layers.entries, p.2.m_isEnabled = true →
      ∃ members, IsRing heap p.2.m_renderablesList members ∧ members.length ≤ fuel) :
    (∃ res, r.RenderView heap renderArea fuel = some res ∧
      res.layers.map Prod.fst = r.m_layers.keys ∧
      (res.layers.map Prod.fst).Sorted (· < ·) ∧
      (res.layers.map Prod.fst).Nodup ∧
      (∀ layerNumber, layerNumber ∈ res.layers.map Prod.fst ↔
        r.m_layers.find layerNumber ≠ none) ∧
      List.Forall₂ (fun (p : Int × SpriteLayer) (q : Int × RenderLayerResult) =>
        p.1 = q.1 ∧ ∃ r0 : SpriteGameRenderer,
          r0.RenderLayer heap p.2 renderArea fuel = some q.2) r.m_layers.entries res.layers) ∧
    (∀ (r0 : SpriteGameRenderer) (layerNumbers : List Int),
      r0.m_layers = LayerMap.empty →
      (r0.createLayers layerNumbers).m_layers.Ordered ∧
      ∀ layerNumber, layerNumber ∈ (r0.createLayers layerNumbers).m_layers.keys ↔
        layerNumber ∈ layerNumbers) := by
  constructor
  · obtain ⟨out, hout, hk, hf⟩ := renderLayers_spec heap renderArea fuel _ r hrings
    refine ⟨{ renderer := out.1, layers := out.2, copiedToBack := out.1.m_currentFBO },
      ?_, hk, ?_, ?_, ?_, hf⟩
    · unfold RenderView
      rw [hout]
    · simp only [hk]
      exact hord
    · simp only [hk]
      exact List.Sorted.nodup hord
    · intro n
      simp only [hk]
      exact LayerMap.mem_keys_iff_find n _
  · intro r0 layerNumbers h0
    obtain ⟨h1, h2⟩ := createLayers_keys layerNumbers r0
    refine ⟨h1 (by rw [h0]; simp [LayerMap.Ordered, LayerMap.keys, LayerMap.empty]), ?_⟩
    intro n
    rw [h2 n, h0]
    simp [LayerMap.keys, LayerMap.empty]

/-- The effect loop makes one pass per effect, in order; pass `i` reads the first
framebuffer and binds the second when `i` is even, and the other way round when `i` is odd;
the final pair is the initial pair after an even number of passes and the exchanged pair
after an odd number. -/
theorem effectLoop_spec : ∀ (effects : List Nat) (currentFBO effectFBO : Nat),
    (effectLoop effects currentFBO effectFBO).2.2.map EffectPass.material = effects ∧
    (∀ (i : Nat) (h : i < (effectLoop effects currentFBO effectFBO).2.2.length),
      ((effectLoop effects currentFBO effectFBO).2.2.get ⟨i, h⟩).source =
        (if i % 2 = 0 then currentFBO else effectFBO) ∧
      ((effectLoop effects currentFBO effectFBO).2.2.get ⟨i, h⟩).target =
        (if i % 2 = 0 then effectFBO else currentFBO)) ∧
    (effectLoop effects currentFBO effectFBO).1 =
      (if effects.length % 2 = 0 then currentFBO else effectFBO) ∧
    (effectLoop effects currentFBO effectFBO).2.1 =
      (if effects.length % 2 = 0 then effectFBO else currentFBO) := by
  intro effects
  induction effects with
  | nil => intro c e; simp [effectLoop]
  | cons x rest ih =>
    intro c e
    obtain ⟨h1, h2, h3, h4⟩ := ih e c
    refine ⟨?_, ?_, ?_, ?_⟩
    · simp only [effectLoop, List.map_cons, h1]
    · intro i h
      cases i with
      | zero => simp [effectLoop]
      | succ j =>
        have hj : j < (effectLoop rest e c).2.2.length := by
          simpa [effectLoop] using h
        obtain ⟨g1, g2⟩ := h2 j hj
        simp only [effectLoop, List.get_eq_getElem, List.getElem_cons_succ] at g1 g2 ⊢
        rw [g1, g2]
        have : (j + 1) % 2 = 0 ↔ ¬ (j % 2 = 0) := by omega
        by_cases hp : j % 2 = 0
        · simp [hp, this]
        · simp [hp, this]
    · simp only [effectLoop, h3, List.length_cons]
      have : (rest.length + 1) % 2 = 0 ↔ ¬ (rest.length % 2 = 0) := by omega
      by_cases hp : rest.length % 2 = 0
      · simp [hp, this]
      · simp [hp, this]
    · simp only [effectLoop, h4, List.length_cons]
      have : (rest.length + 1) % 2 = 0 ↔ ¬ (rest.length % 2 = 0) := by omega
      by_cases hp : rest.length % 2 = 0
      · simp [hp, this]
      · simp [hp, this]

/-- C15: the two ping-pong framebuffers are never the same after `RenderLayer` when they
were distinct before it. `RenderLayer` returns (the ring of an enabled layer being walked
with enough fuel); on an enabled layer with `k` effect materials it makes `k` passes, one
per material in order, pass `i` reading the framebuffer that was `m_currentFBO` before the
call when `i` is even and the one that was `m_effectFBO` when `i` is odd, and binding the
other, so that each pass exchanges the two; afterwards `m_currentFBO` is the original
`m_currentFBO` when `k` is even and the original `m_effectFBO` when `k` is odd, and
`m_effectFBO` is the other one. On a disabled layer there is no pass and no exchange. -/
theorem ping_pong_effects (r : SpriteGameRenderer) (heap : RenderableHeap)
    (layer : SpriteLayer) (renderArea : ViewportDefinition) (fuel : Nat)
    (hdistinct : r.m_currentFBO ≠ r.m_effectFBO)
    (hring : layer.m_isEnabled = true →
      ∃ members, IsRing heap layer.m_renderablesList members ∧ members.length ≤ fuel) :
    ∃ res, r.RenderLayer heap layer renderArea fuel = some res ∧
      res.renderer.m_currentFBO ≠ res.renderer.m_effectFBO ∧
      (layer.m_isEnabled = true →
        res.passes.map EffectPass.material = layer.m_effectMaterials ∧
        res.passes.length = layer.m_effectMaterials.length ∧
        (∀ (i : Nat) (h : i < res.passes.length),
          (res.passes.get ⟨i, h⟩).source =
            (if i % 2 = 0 then r.m_currentFBO else r.m_effectFBO) ∧
          (res.passes.get ⟨i, h⟩).target =
            (if i % 2 = 0 then r.m_effectFBO else r.m_currentFBO)) ∧
        (layer.m_effectMaterials.length % 2 = 0 →
          res.renderer.m_currentFBO = r.m_currentFBO ∧
          res.renderer.m_effectFBO = r.m_effectFBO) ∧
        (layer.m_effectMaterials.length % 2 = 1 →
          res.renderer.m_currentFBO = r.m_effectFBO ∧
          res.renderer.m_effectFBO = r.m_currentFBO)) ∧
      (layer.m_isEnabled = false →
        res.passes = [] ∧ res.renderer.m_currentFBO = r.m_currentFBO ∧
        res.renderer.m_effectFBO = r.m_effectFBO) := by
  obtain ⟨res, hres, -, hp, hc, he⟩ := RenderLayer_total r heap layer renderArea fuel hring
  obtain ⟨h1, h2, h3, h4⟩ := effectLoop_spec layer.m_effectMaterials r.m_currentFBO r.m_effectFBO
  refine ⟨res, hres, ?_, ?_, ?_⟩
  · rw [hc, he, h3, h4]
    split_ifs
    · exact hdistinct
    · exact hdistinct.symm
    · exact hdistinct
  · intro hen
    rw [if_pos hen] at hp hc he
    have hlen : res.passes.length = layer.m_effectMaterials.length := by
      rw [hp]
      have := congrArg List.length h1
      simpa using this
    refine ⟨by rw [hp]; exact h1, hlen, ?_, ?_, ?_⟩
    · intro i h
      have h0 : i < (effectLoop layer.m_effectMaterials r.m_currentFBO r.m_effectFBO).2.2.length := by
        rw [← hp]; exact h
      have := h2 i h0
      simp only [List.get_eq_getElem] at this ⊢
      simp only [hp]
      exact this
    · intro hk
      rw [hc, he, h3, h4, if_pos hk, if_pos hk]
      exact ⟨rfl, rfl⟩
    · intro hk
      have hk0 : ¬ (layer.m_effectMaterials.length % 2 = 0) := by omega
      rw [hc, he, h3, h4, if_neg hk0, if_neg hk0]
      exact ⟨rfl, rfl⟩
  · intro hen
    have hen0 : ¬ (layer.m_isEnabled = true) := by simp [hen]
    rw [if_neg hen0] at hp hc he
    exact ⟨hp, hc, he⟩

/-- Witness for `ping_pong_effects`: `smallFrame` (framebuffers 1 and 2) and a layer with
three effects; after the three passes the framebuffers are exchanged. -/
theorem ping_pong_effects_witness :
    smallFrame.m_currentFBO ≠ smallFrame.m_effectFBO ∧
    (threeEffects.m_isEnabled = true →
      ∃ members, IsRing SpriteLayer.blankHeap threeEffects.m_renderablesList members ∧
        members.length ≤ 0) ∧
    ∃ res, smallFrame.RenderLayer SpriteLayer.blankHeap threeEffects SpriteLayer.squareViewport 0
        = some res ∧
      res.renderer.m_currentFBO ≠ res.renderer.m_effectFBO ∧
      res.renderer.m_currentFBO = 2 ∧ res.renderer.m_effectFBO = 1 := by
  have hd : smallFrame.m_currentFBO ≠ smallFrame.m_effectFBO := by decide
  have hr : threeEffects.m_isEnabled = true →
      ∃ members, IsRing SpriteLayer.blankHeap threeEffects.m_renderablesList members ∧
        members.length ≤ 0 := fun _ => ⟨[], rfl, Nat.le_refl 0⟩
  obtain ⟨res, h1, h2, h3, -⟩ :=
    ping_pong_effects smallFrame SpriteLayer.blankHeap threeEffects SpriteLayer.squareViewport 0
      hd hr
  exact ⟨hd, hr, res, h1, h2, (h3 rfl).2.2.2.2 rfl⟩

/-- The layers of `threeLayers`, in iteration order. -/
theorem threeLayers_entries :
    threeLayers.m_layers.entries =
      [(-2, SpriteLayer.new (-2) smallFrame.m_worldBounds),
        (3, SpriteLayer.new 3 smallFrame.m_worldBounds),
        (5, SpriteLayer.new 5 smallFrame.m_worldBounds)] := by
  simp [threeLayers, createLayers, CreateOrGetLayer, LayerMap.find, LayerMap.findIn,
    LayerMap.insert, LayerMap.insertIn, smallFrame, LayerMap.empty]

/-- Witness for `render_view_ascending`: the layers 5, -2 and 3, created in this order, are
rendered in the order -2, 3, 5. -/
theorem render_view_ascending_witness :
    threeLayers.m_layers.Ordered ∧
    (∀ p ∈ threeLayers.m_layers.entries, p.2.m_isEnabled = true →
      ∃ members, IsRing SpriteLayer.blankHeap p.2.m_renderablesList members ∧
        members.length ≤ 0) ∧
    ∃ res, threeLayers.RenderView SpriteLayer.blankHeap SpriteLayer.squareViewport 0 = some res ∧
      res.layers.map Prod.fst = [-2, 3, 5] := by
  have ho : threeLayers.m_layers.Ordered := by
    simp [LayerMap.Ordered, LayerMap.keys, threeLayers_entries]
  have hr : ∀ p ∈ threeLayers.m_layers.entries, p.2.m_isEnabled = true →
      ∃ members, IsRing SpriteLayer.blankHeap p.2.m_renderablesList members ∧
        members.length ≤ 0 := by
    intro p hp _
    rw [threeLayers_entries] at hp
    simp only [List.mem_cons, List.mem_singleton, List.not_mem_nil, or_false] at hp
    rcases hp with rfl | rfl | rfl <;> exact ⟨[], rfl, Nat.le_refl 0⟩
  obtain ⟨res, h1, h2, -⟩ :=
    (render_view_ascending threeLayers SpriteLayer.blankHeap SpriteLayer.squareViewport 0
      ho hr).1
  refine ⟨ho, hr, res, h1, ?_⟩
  rw [h2]
  simp [LayerMap.keys, threeLayers_entries]

end SpriteGameRenderer

namespace ParticleEmitter

/-- The spawn loop fails at its first iteration when the followed position was never
set. -/
theorem spawnLoop_unset (e : ParticleEmitter) (spp : ℚ) (hpos : 0 < spp) (acc : ℚ)
    (ps : List Particle) (n : Nat) (hp : e.m_position = none) (hacc : acc ≥ spp) :
    e.spawnLoop spp hpos acc ps n = none := by
  rw [spawnLoop, if_pos hacc]
  simp only [hp]

/-- `SpawnParticles` fails on an emitter whose followed position was never set, as soon as
the accumulated time reaches the spawn interval. -/
theorem SpawnParticles_unset (e : ParticleEmitter) (dt : ℚ) (hp : e.m_position = none)
    (hs : 0 < e.m_secondsPerParticle)
    (hacc : e.m_timeSinceLastEmission + dt ≥ e.m_secondsPerParticle) :
    e.SpawnParticles dt = none := by
  unfold SpawnParticles
  rw [dif_pos hs, spawnLoop_unset e _ hs _ _ _ hp hacc]

/-- The fixed-pose constructor fails for a definition with a positive spawn rate and an
initial batch of at least one particle. -/
theorem newAtPosition_spawning_fails (definition : ParticleEmitterDefinition)
    (positionToSpawn : Vector2) (rotationDegrees : ℚ) (draws : Nat → ParticleDraw)
    (hR : 0 < definition.m_particlesPerSecond)
    (hK : 1 ≤ definition.m_initialNumParticlesSpawn) :
    newAtPosition definition positionToSpawn rotationDegrees draws = none := by
  have hs : (0 : ℚ) < 1 / definition.m_particlesPerSecond := by positivity
  unfold newAtPosition
  simp only []
  rw [if_pos (ne_of_gt hR)]
  apply SpawnParticles_unset
  · rfl
  · exact hs
  · simp only [zero_add]
    have hK1 : (1 : ℚ) ≤ (definition.m_initialNumParticlesSpawn : ℚ) := by exact_mod_cast hK
    nlinarith

/-- The fixed-pose constructor, for a definition with a positive spawn rate and no initial
batch, builds an emitter with no particle whose `Update` fails as soon as the step reaches
the spawn interval. -/
theorem newAtPosition_then_Update_fails (definition : ParticleEmitterDefinition)
    (positionToSpawn : Vector2) (rotationDegrees : ℚ) (draws : Nat → ParticleDraw)
    (hR : 0 < definition.m_particlesPerSecond)
    (hK : definition.m_initialNumParticlesSpawn = 0) :
    ∃ e0, newAtPosition definition positionToSpawn rotationDegrees draws = some e0 ∧
      e0.m_particles = [] ∧ e0.m_isDead = false ∧
      ∀ dt : ℚ, dt ≥ 1 / definition.m_particlesPerSecond → e0.Update dt = none := by
  have hs : (0 : ℚ) < 1 / definition.m_particlesPerSecond := by positivity
  unfold newAtPosition
  simp only []
  rw [if_pos (ne_of_gt hR), hK]
  unfold SpawnParticles
  simp only []
  rw [dif_pos hs, spawnLoop_lt _ _ hs _ _ _ (by simpa using hs)]
  refine ⟨_, rfl, rfl, rfl, ?_⟩
  intro dt hdt
  unfold Update
  simp only [Bool.false_eq_true, not_false_eq_true, if_true]
  rw [SpawnParticles_unset _ dt rfl hs (by
    simp only [UpdateParticles, CleanUpDeadParticles]
    simpa using hdt)]

/-- The fixed-pose constructor, for a definition with spawn rate zero: every particle of the
initial batch is at the fixed position with the fixed rotation. -/
theorem newAtPosition_oneShot_pose (definition : ParticleEmitterDefinition)
    (positionToSpawn : Vector2) (rotationDegrees : ℚ) (draws : Nat → ParticleDraw)
    (hR : definition.m_particlesPerSecond = 0) :
    ∃ e0, newAtPosition definition positionToSpawn rotationDegrees draws = some e0 ∧
      e0.m_particles.length = definition.m_initialNumParticlesSpawn ∧
      ∀ p ∈ e0.m_particles, p.position = positionToSpawn ∧
        p.rotationDegrees = rotationDegrees := by
  unfold newAtPosition
  simp only [hR, ne_eq, not_true_eq_false, if_false]
  refine ⟨_, rfl, initialBatch_length _ _ _ _ _ _, ?_⟩
  simp only
  generalize definition.m_initialNumParticlesSpawn = count
  induction count with
  | zero => intro p hp; simp [initialBatch] at hp
  | succ n ih =>
    intro p hp
    simp only [initialBatch, List.mem_append, List.mem_singleton] at hp
    rcases hp with hp | rfl
    · exact ih p hp
    · exact ⟨rfl, rfl⟩

/-- C20: an emitter with a fixed pose cannot spawn. The constructor
`ParticleEmitter(definition, positionToSpawn, rotationDegrees)` never sets `m_position`,
and `SpawnParticles` reads `*m_position`. With `burstDefinition` (one particle per second,
initial batch of one) the construction at position (3, 4) with rotation 90 fails; with
`continuousDefinition` (two particles per second, no initial batch) the construction gives
an emitter without particles whose first `Update(1)` fails instead of spawning two
particles at (3, 4). -/
theorem fixed_pose_emitter_cannot_spawn :
    newAtPosition burstDefinition ⟨3, 4⟩ 90 constantDraws = none ∧
    ∃ e0, newAtPosition continuousDefinition ⟨3, 4⟩ 90 constantDraws = some e0 ∧
      e0.m_particles = [] ∧ e0.m_isDead = false ∧ e0.Update 1 = none := by
  constructor
  · exact newAtPosition_spawning_fails burstDefinition _ _ _ (by norm_num [burstDefinition])
      (by decide)
  · obtain ⟨e0, h0, h1, h2, h3⟩ := newAtPosition_then_Update_fails continuousDefinition
      ⟨3, 4⟩ 90 constantDraws (by norm_num [continuousDefinition]) rfl
    exact ⟨e0, h0, h1, h2, h3 1 (by norm_num [continuousDefinition])⟩

end ParticleEmitter

namespace ParticleSystem

/-- The following overload of `PlayOneShotParticleEffect`, when the definition is resolved
and every emitter is constructed: the system is registered, and the assertion fails exactly
when the type of the definition is not `ONE_SHOT`. -/
theorem PlayOneShotFollowing_constructed (r : SpriteGameRenderer) (database : ResourceDatabase)
    (systemName : String) (layerId : Nat) (followingPosition : Option Vector2)
    (draws : Nat → Nat → ParticleDraw) (rot : ℚ) (definition : ParticleSystemDefinition)
    (emitters : List ParticleEmitter)
    (hdef : database.GetParticleSystemResource systemName = some definition)
    (hem : emittersFollowing followingPosition draws rot definition.m_emitterDefinitions 0 =
      some emitters) :
    PlayOneShotParticleEffectFollowing r database systemName layerId followingPosition draws
        rot =
      (if definition.m_type = ParticleSystemType.ONE_SHOT then PlayOutcome.played
        else PlayOutcome.assertionFailed,
       r.RegisterParticleSystem
        { m_orderingLayer := layerId, m_isDead := false, m_definition := definition,
          m_emitters := emitters }) := by
  unfold PlayOneShotParticleEffectFollowing newFollowing
  simp only [hdef, hem]
  split_ifs <;> rfl

/-- The fixed-pose overload of `PlayOneShotParticleEffect`, when the definition is resolved
and every emitter is constructed. -/
theorem PlayOneShotAtPosition_constructed (r : SpriteGameRenderer)
    (database : ResourceDatabase) (systemName : String) (layerId : Nat)
    (spawnPosition : Vector2) (rotationDegrees : ℚ) (draws : Nat → Nat → ParticleDraw)
    (definition : ParticleSystemDefinition) (emitters : List ParticleEmitter)
    (hdef : database.GetParticleSystemResource systemName = some definition)
    (hem : emittersAtPosition spawnPosition rotationDegrees draws
      definition.m_emitterDefinitions 0 = some emitters) :
    PlayOneShotParticleEffectAtPosition r database systemName layerId spawnPosition
        rotationDegrees draws =
      (if definition.m_type = ParticleSystemType.ONE_SHOT then PlayOutcome.played
        else PlayOutcome.assertionFailed,
       r.RegisterParticleSystem
        { m_orderingLayer := layerId, m_isDead := false, m_definition := definition,
          m_emitters := emitters }) := by
  unfold PlayOneShotParticleEffectAtPosition newAtPosition
  simp only [hdef, hem]
  split_ifs <;> rfl

/-- The emitters of the following constructor are all constructed when the followed
position is set. -/
theorem emittersFollowing_total (position : Vector2) (draws : Nat → Nat → ParticleDraw)
    (rot : ℚ) : ∀ (definitions : List ParticleEmitterDefinition) (i : Nat),
    ∃ emitters, emittersFollowing (some position) draws rot definitions i = some emitters ∧
      emitters.length = definitions.length := by
  intro definitions
  induction definitions with
  | nil => intro i; exact ⟨[], rfl, rfl⟩
  | cons d rest ih =>
    intro i
    obtain ⟨es, hes, hl⟩ := ih (i + 1)
    have hd : ∃ e, ParticleEmitter.newFollowing d (some position) (draws i) rot = some e := by
      unfold ParticleEmitter.newFollowing
      simp only []
      split_ifs with h1 h2
      · have hne : d.m_particlesPerSecond ≠ 0 := h1
        unfold ParticleEmitter.SpawnParticles
        simp only []
        split_ifs with h3
        · obtain ⟨res, hres⟩ := ParticleEmitter.spawnLoop_total
            { m_definition := d, m_position := some position, m_rotationDegrees := rot,
              m_emitterAge := 0, m_timeSinceLastEmission := 0,
              m_secondsPerParticle := 1 / d.m_particlesPerSecond, m_isDead := false,
              m_particles := [], randomDraws := draws i, numDraws := 0 }
            (1 / d.m_particlesPerSecond) h3 position rfl
            (0 + 1 / d.m_particlesPerSecond * d.m_initialNumParticlesSpawn) [] 0
          rw [hres]
          exact ⟨_, rfl⟩
        · exact ⟨_, rfl⟩
      · exact ⟨_, rfl⟩
      · exact ⟨_, rfl⟩
    obtain ⟨e, he⟩ := hd
    refine ⟨e :: es, ?_, by simp [hl]⟩
    simp only [emittersFollowing, he, hes]

/-- C17: the fixed-pose overload of `PlayOneShotParticleEffect` does not reach its assertion
when an emitter of the definition spawns at construction. The database resolves "burst" to
a `ONE_SHOT` definition and "fountain" to a `LOOPING` one, each with one emitter that emits
one particle per second from an initial batch of one. Playing "burst" at (3, 4) with
rotation 90 registers no system: the construction fails on the position the emitter never
set. Playing "fountain" fails in the same way, before the assertion on the type. -/
theorem play_one_shot_fixed_pose_fails :
    burstDatabase.GetParticleSystemResource "burst" = some burstSystemDefinition ∧
    burstSystemDefinition.m_type = ParticleSystemType.ONE_SHOT ∧
    PlayOneShotParticleEffectAtPosition SpriteGameRenderer.smallFrame burstDatabase "burst" 0
        ⟨3, 4⟩ 90 (fun _ => ParticleEmitter.constantDraws) =
      (PlayOutcome.constructionFailed, SpriteGameRenderer.smallFrame) ∧
    burstDatabase.GetParticleSystemResource "fountain" = some fountainSystemDefinition ∧
    fountainSystemDefinition.m_type ≠ ParticleSystemType.ONE_SHOT ∧
    PlayOneShotParticleEffectAtPosition SpriteGameRenderer.smallFrame burstDatabase "fountain"
        0 ⟨3, 4⟩ 90 (fun _ => ParticleEmitter.constantDraws) =
      (PlayOutcome.constructionFailed, SpriteGameRenderer.smallFrame) := by
  have hb : burstDatabase.GetParticleSystemResource "burst" = some burstSystemDefinition := by
    simp [burstDatabase]
  have hf : burstDatabase.GetParticleSystemResource "fountain" =
      some fountainSystemDefinition := by
    simp [burstDatabase]
  have he : ParticleEmitter.newAtPosition ParticleEmitter.burstDefinition ⟨3, 4⟩ 90
      ParticleEmitter.constantDraws = none :=
    ParticleEmitter.newAtPosition_spawning_fails _ _ _ _
      (by norm_num [ParticleEmitter.burstDefinition]) (by decide)
  refine ⟨hb, rfl, ?_, hf, by decide, ?_⟩
  · unfold PlayOneShotParticleEffectAtPosition newAtPosition
    simp only [hb, burstSystemDefinition, emittersAtPosition, he]
  · unfold PlayOneShotParticleEffectAtPosition newAtPosition
    simp only [hf, fountainSystemDefinition, emittersAtPosition, he]

end ParticleSystem

namespace SpriteGameRenderer

/-- `SpriteGameRenderer::Update` leaves the list of registered particle systems as it
was. -/
theorem Update_particleSystemList (r : SpriteGameRenderer) (heap : RenderableHeap)
    (updateRenderable : ℚ → Renderable2D → Renderable2D) (dt : ℚ) (fuel : Nat)
    (out : SpriteGameRenderer × RenderableHeap)
    (h : r.Update heap updateRenderable dt fuel = some out) :
    out.1.m_particleSystemList = r.m_particleSystemList := by
  unfold Update at h
  cases hu : updateLayers updateRenderable dt fuel heap r.m_layers.entries with
  | none => rw [hu] at h; exact absurd h (by simp)
  | some o =>
    rw [hu] at h
    simp only [Option.some.injEq] at h
    rw [← h]

/-- C18: `SpriteGameRenderer::Update` does not touch the registered particle systems. On the
renderer `rendererWithSystem` (no layer, the one registered system `oneShotSystem`, whose
only particle lives 2 seconds), `Update(3)` returns and the list of registered systems is
still `[oneShotSystem]`, with the particle at age 0: the system was not advanced, although
`ParticleSystem::Update(3)` on it gives a dead system with no particle, which would have to
be unregistered. No `Update` call ever changes the list. -/
theorem update_ignores_particle_systems :
    (∃ out, ParticleSystem.rendererWithSystem.Update SpriteLayer.blankHeap (fun _ o => o) 3 1
        = some out ∧
      out.1.m_particleSystemList = [ParticleSystem.oneShotSystem]) ∧
    (∃ s, ParticleSystem.oneShotSystem.Update 3 = some s ∧ s.m_isDead = true ∧
      s ≠ ParticleSystem.oneShotSystem) ∧
    (∀ (r : SpriteGameRenderer) (heap : RenderableHeap)
      (updateRenderable : ℚ → Renderable2D → Renderable2D) (dt : ℚ) (fuel : Nat)
      (out : SpriteGameRenderer × RenderableHeap),
      r.Update heap updateRenderable dt fuel = some out →
      out.1.m_particleSystemList = r.m_particleSystemList) := by
  refine ⟨⟨_, rfl, rfl⟩, ?_, Update_particleSystemList⟩
  obtain ⟨e1, h1, -, -, hp, hd⟩ :=
    ParticleEmitter.Update_oneShot ParticleEmitter.oneShotEmitter 3 rfl rfl
  have hnil : e1.m_particles = [] := by
    rw [hp, ParticleEmitter.cleanUp_integrate_eq_nil]
    intro p hpm
    simp only [ParticleEmitter.oneShotEmitter, List.mem_singleton] at hpm
    subst hpm
    norm_num [ParticleEmitter.freshParticle, Particle.new, ParticleEmitter.constantDraws]
  have hdead : e1.m_isDead = true := hd.mpr hnil
  obtain ⟨es, hs, hf⟩ := ParticleSystem.Update_live ParticleSystem.oneShotSystem 3 rfl (by
    intro e he
    simp only [ParticleSystem.oneShotSystem, List.mem_singleton] at he
    subst he
    exact ⟨e1, h1⟩)
  have hes : es = [e1] := by
    simp only [ParticleSystem.oneShotSystem] at hf
    cases hf with
    | cons ha hrest =>
      cases hrest
      rw [h1] at ha
      simp only [Option.some.injEq] at ha
      rw [ha]
  refine ⟨_, hs, ?_, ?_⟩
  · simp [hes, hdead]
  · intro hcontra
    have := congrArg ParticleSystem.m_isDead hcontra
    simp [hes, hdead, ParticleSystem.oneShotSystem] at this

end SpriteGameRenderer

namespace ParticleEmitter

/-- A write at `k + verts.length` lands on the `k`-th vertex after `verts`. -/
theorem writeVertex_append (verts quad : List Vertex_Sprite) (k : Nat) (v : Vertex_Sprite)
    (index : Int) (f : Vertex_Sprite → Vertex_Sprite)
    (hidx : index = ((k : Nat) : Int) + ((verts.length : Nat) : Int))
    (hk : quad.get? k = some v) :
    writeVertex (verts ++ quad) index f = some (verts ++ quad.set k (f v)) := by
  have hnn : 0 ≤ index := by rw [hidx]; positivity
  have hto : index.toNat = verts.length + k := by rw [hidx]; omega
  unfold writeVertex
  rw [if_pos hnn, hto]
  have hget : (verts ++ quad).get? (verts.length + k) = some v := by
    rw [List.get?_eq_getElem?, List.getElem?_append_right (Nat.le_add_right _ _)]
    simpa using hk
  rw [hget]
  simp only [Option.some.injEq]
  rw [List.set_append_right _ _ (Nat.le_add_right _ _)]
  simp

/-- The vertex writes of one loop iteration, when `currentOffset` is the number of vertices
so far: the quad of the particle is appended. -/
theorem quadVertices_spec (e : ParticleEmitter) (transformPoint : Particle → Vector2 → Vector2)
    (blankVertex : Vertex_Sprite) (particle : Particle) (currentOffset : Int)
    (verts : List Vertex_Sprite) (hoff : currentOffset = ((verts.length : Nat) : Int)) :
    quadVertices e transformPoint blankVertex particle currentOffset verts =
      some (verts ++ particleQuad e transformPoint particle) := by
  have w0 : ∀ (a b c d : Vertex_Sprite) (f : Vertex_Sprite → Vertex_Sprite),
      writeVertex (verts ++ [a, b, c, d]) (0 + currentOffset) f =
        some (verts ++ [f a, b, c, d]) := fun a b c d f =>
    writeVertex_append verts [a, b, c, d] 0 a _ f (by rw [hoff]; simp) rfl
  have w1 : ∀ (a b c d : Vertex_Sprite) (f : Vertex_Sprite → Vertex_Sprite),
      writeVertex (verts ++ [a, b, c, d]) (1 + currentOffset) f =
        some (verts ++ [a, f b, c, d]) := fun a b c d f =>
    writeVertex_append verts [a, b, c, d] 1 b _ f (by rw [hoff]; simp) rfl
  have w2 : ∀ (a b c d : Vertex_Sprite) (f : Vertex_Sprite → Vertex_Sprite),
      writeVertex (verts ++ [a, b, c, d]) (2 + currentOffset) f =
        some (verts ++ [a, b, f c, d]) := fun a b c d f =>
    writeVertex_append verts [a, b, c, d] 2 c _ f (by rw [hoff]; simp) rfl
  have w3 : ∀ (a b c d : Vertex_Sprite) (f : Vertex_Sprite → Vertex_Sprite),
      writeVertex (verts ++ [a, b, c, d]) (3 + currentOffset) f =
        some (verts ++ [a, b, c, f d]) := fun a b c d f =>
    writeVertex_append verts [a, b, c, d] 3 d _ f (by rw [hoff]; simp) rfl
  unfold quadVertices particleQuad
  simp only [w0, w1, w2, w3, Option.bind_eq_bind, Option.some_bind, Option.pure_def,
    bind_pure_comp, Option.map_some']

/-- The vertices of `k` quads. -/
theorem length_flatMap_particleQuad (e : ParticleEmitter)
    (transformPoint : Particle → Vector2 → Vector2) (ps : List Particle) :
    (ps.flatMap (particleQuad e transformPoint)).length = 4 * ps.length := by
  induction ps with
  | nil => rfl
  | cons p rest ih =>
    simp only [List.flatMap_cons, List.length_append, ih, List.length_cons]
    simp only [particleQuad, List.length_cons, List.length_nil]
    omega

/-- The indices of `k` quads. -/
theorem length_flatMap_quadIndices (k : Nat) :
    ((List.range k).flatMap quadIndices).length = 6 * k := by
  induction k with
  | zero => rfl
  | succ n ih =>
    simp only [List.range_succ, List.flatMap_append, List.length_append, ih, List.flatMap_cons,
      List.flatMap_nil, List.append_nil, quadIndices, List.length_cons, List.length_nil]
    omega

/-- The element with number `4 * i + k` of a run of groups of four is element `k` of group
`i`. -/
theorem getElem?_flatMap_quads {α β : Type} (f : α → List β) (hf : ∀ a, (f a).length = 4) :
    ∀ (l : List α) (i k : Nat), k < 4 →
      (l.flatMap f)[4 * i + k]? = (l[i]?).bind (fun a => (f a)[k]?) := by
  intro l
  induction l with
  | nil => intro i k _; simp
  | cons a rest ih =>
    intro i k hk
    cases i with
    | zero =>
      simp only [List.flatMap_cons, Nat.mul_zero, Nat.zero_add, List.getElem?_cons_zero,
        Option.some_bind]
      rw [List.getElem?_append_left (by rw [hf a]; exact hk)]
    | succ j =>
      have hidx : 4 * (j + 1) + k = (f a).length + (4 * j + k) := by rw [hf a]; omega
      simp only [List.flatMap_cons, List.getElem?_cons_succ]
      rw [hidx, List.getElem?_append_right (Nat.le_add_right _ _)]
      simp only [Nat.add_sub_cancel_left]
      exact ih j k hk

/-- The loop of `CopyParticlesToMesh` after `k` iterations: the quads of the first `k`
particles and their indices. -/
theorem copyLoop_spec (e : ParticleEmitter) (transformPoint : Particle → Vector2 → Vector2)
    (blankVertex : Vertex_Sprite) :
    ∀ k : Nat, k ≤ e.m_particles.length → k ≤ 2 ^ 29 →
      (List.range k).foldl (copyStep e transformPoint blankVertex) (some ([], [])) =
        some ((e.m_particles.take k).flatMap (particleQuad e transformPoint),
          (List.range k).flatMap quadIndices) := by
  intro k
  induction k with
  | zero => intro _ _; rfl
  | succ n ih =>
    intro hlen hbound
    rw [List.range_succ, List.foldl_append, ih (by omega) (by omega)]
    obtain ⟨p, hp⟩ : ∃ p, e.m_particles[n]? = some p :=
      ⟨e.m_particles[n], List.getElem?_eq_getElem (by omega)⟩
    have hp0 : e.m_particles.get? n = some p := by rw [List.get?_eq_getElem?]; exact hp
    have hoff : toInt32 (n * 4) = ((4 * n : Nat) : Int) := by
      unfold toInt32
      have h1 : n * 4 % 2 ^ 32 = 4 * n := by
        rw [Nat.mod_eq_of_lt (by omega)]; omega
      rw [h1, if_pos (by omega)]
    have hvl : ((e.m_particles.take n).flatMap (particleQuad e transformPoint)).length
        = 4 * n := by
      rw [length_flatMap_particleQuad, List.length_take, Nat.min_eq_left (by omega)]
    have hu : ∀ j : Nat, j < 4 →
        SpriteGameRenderer.toUInt32 ((j : Int) + ((4 * n : Nat) : Int)) = 4 * n + j := by
      intro j hj
      unfold SpriteGameRenderer.toUInt32
      have : ((j : Int) + ((4 * n : Nat) : Int)) = ((4 * n + j : Nat) : Int) := by
        push_cast; ring
      rw [this, Int.emod_eq_of_lt (by positivity) (by
        have : 4 * n + j < 2 ^ 32 := by omega
        exact_mod_cast this)]
      exact Int.toNat_natCast _
    have h0 := hu 0 (by omega)
    have h1 := hu 1 (by omega)
    have h2 := hu 2 (by omega)
    have h3 := hu 3 (by omega)
    simp only [Nat.cast_ofNat, Nat.cast_zero, Nat.cast_one] at h0 h1 h2 h3
    simp only [List.foldl_cons, List.foldl_nil, copyStep, hp0, hoff]
    rw [quadVertices_spec e transformPoint blankVertex p _ _ (by rw [hvl])]
    simp only [h0, h1, h2, h3]
    have htake : e.m_particles.take (n + 1) = e.m_particles.take n ++ [p] := by
      rw [List.take_succ, hp]
      rfl
    rw [htake, List.flatMap_append, List.flatMap_append]
    simp only [List.flatMap_cons, List.flatMap_nil, List.append_nil, quadIndices, Nat.add_zero]

/-- C19 (as amended): `CopyParticlesToMesh` with no particle leaves the mesh as it was; with
`n > 0` particles, `n` at most `2^29` so that the offset `4 i` fits the `int` it is stored
in, it returns a mesh of
exactly `4 n` vertices and `6 n` indices that does not depend on the mesh before the call:
the vertices are the quads of the particles in particle order, the indices those of the
quads `0 .. n-1` in order, and each of the four vertices `4 i .. 4 i + 3` of quad `i`
carries the tint of particle `i`. -/
theorem copy_particles_to_mesh (e : ParticleEmitter)
    (transformPoint : Particle → Vector2 → Vector2) (blankVertex : Vertex_Sprite)
    (m_mesh : Mesh) (hbound : e.m_particles.length ≤ 2 ^ 29) :
    (e.m_particles = [] →
      e.CopyParticlesToMesh transformPoint blankVertex m_mesh = some m_mesh) ∧
    (e.m_particles ≠ [] →
      ∃ out, e.CopyParticlesToMesh transformPoint blankVertex m_mesh = some out ∧
        out.vertices.length = 4 * e.m_particles.length ∧
        out.indices.length = 6 * e.m_particles.length ∧
        out.vertices = e.m_particles.flatMap (particleQuad e transformPoint) ∧
        out.indices = (List.range e.m_particles.length).flatMap quadIndices ∧
        (∀ (i k : Nat) (p : Particle), e.m_particles[i]? = some p → k < 4 →
          ∃ v, out.vertices[4 * i + k]? = some v ∧ v.color = p.tint) ∧
        (∀ (otherMesh : Mesh) (otherBlank : Vertex_Sprite),
          e.CopyParticlesToMesh transformPoint otherBlank otherMesh = some out)) := by
  constructor
  · intro h
    unfold CopyParticlesToMesh
    simp [h]
  · intro h
    have hpos : 0 < e.m_particles.length := List.length_pos.mpr h
    have hmod : e.m_particles.length % 2 ^ 32 = e.m_particles.length :=
      Nat.mod_eq_of_lt (by omega)
    have hcopy : ∀ (mesh : Mesh) (blank : Vertex_Sprite),
        e.CopyParticlesToMesh transformPoint blank mesh =
          some { vertices := e.m_particles.flatMap (particleQuad e transformPoint),
                 indices := (List.range e.m_particles.length).flatMap quadIndices } := by
      intro mesh blank
      unfold CopyParticlesToMesh
      simp only [hmod]
      rw [if_neg (by omega), copyLoop_spec e transformPoint blank _ (le_refl _) hbound,
        List.take_length]
      rfl
    refine ⟨_, hcopy m_mesh blankVertex, length_flatMap_particleQuad _ _ _,
      length_flatMap_quadIndices _, rfl, rfl, ?_, fun otherMesh otherBlank =>
        hcopy otherMesh otherBlank⟩
    intro i k p hp hk
    simp only
    rw [getElem?_flatMap_quads (particleQuad e transformPoint) (fun _ => rfl) _ i k hk, hp]
    simp only [Option.some_bind, particleQuad]
    match k, hk with
    | 0, _ => exact ⟨_, rfl, rfl⟩
    | 1, _ => exact ⟨_, rfl, rfl⟩
    | 2, _ => exact ⟨_, rfl, rfl⟩
    | 3, _ => exact ⟨_, rfl, rfl⟩

/-- Witness for `copy_particles_to_mesh`: the one particle of `oneShotEmitter` replaces the
stale mesh by one quad of four vertices and six indices. -/
theorem copy_particles_to_mesh_witness :
    oneShotEmitter.m_particles.length ≤ 2 ^ 29 ∧
    ∃ out, oneShotEmitter.CopyParticlesToMesh (fun _ v => v) zeroVertex staleMesh = some out ∧
      out.vertices.length = 4 ∧ out.indices = [1, 2, 0, 1, 3, 2] := by
  have hb : oneShotEmitter.m_particles.length ≤ 2 ^ 29 := by
    simp [oneShotEmitter]
  obtain ⟨out, h1, h2, -, -, h3, -⟩ :=
    (copy_particles_to_mesh oneShotEmitter (fun _ v => v) zeroVertex staleMesh hb).2
      (by simp [oneShotEmitter])
  refine ⟨hb, out, h1, ?_, ?_⟩
  · rw [h2]; simp [oneShotEmitter]
  · rw [h3]; simp [oneShotEmitter, quadIndices, List.range_succ]

/-- With `2^29 + 1` particles the loop of `CopyParticlesToMesh` fails in its last iteration:
the offset `i * 4` does not fit an `int`, and the vertex access is outside the vector. -/
theorem CopyParticlesToMesh_overflow (e : ParticleEmitter)
    (transformPoint : Particle → Vector2 → Vector2) (blankVertex : Vertex_Sprite)
    (m_mesh : Mesh) (hlen : e.m_particles.length = 2 ^ 29 + 1) :
    e.CopyParticlesToMesh transformPoint blankVertex m_mesh = none := by
  obtain ⟨k, hk⟩ : ∃ k : Nat, k = 2 ^ 29 := ⟨_, rfl⟩
  have hlen1 : e.m_particles.length = k + 1 := by rw [hlen, hk]
  have hmod : e.m_particles.length % 2 ^ 32 = k + 1 := by
    rw [hlen1]; exact Nat.mod_eq_of_lt (by omega)
  obtain ⟨p, hp⟩ : ∃ p, e.m_particles.get? k = some p :=
    ⟨e.m_particles[k], by rw [List.get?_eq_getElem?]; exact List.getElem?_eq_getElem (by omega)⟩
  have hoff : toInt32 (k * 4) = -(2 ^ 31) := by
    unfold toInt32
    have h1 : k * 4 % 2 ^ 32 = 2 ^ 31 := by
      rw [Nat.mod_eq_of_lt (by omega)]; omega
    rw [h1, if_neg (by omega)]
    norm_num
  have hstep : ∀ acc : List Vertex_Sprite × List Nat,
      copyStep e transformPoint blankVertex (some acc) k = none := by
    intro acc
    have hw : ∀ (vs : List Vertex_Sprite) (f : Vertex_Sprite → Vertex_Sprite),
        writeVertex vs (0 + -(2 ^ 31)) f = none := by
      intro vs f
      unfold writeVertex
      rw [if_neg (by norm_num)]
    simp only [copyStep, hp, hoff, quadVertices, hw, Option.bind_eq_bind, Option.none_bind]
  unfold CopyParticlesToMesh
  simp only [hmod]
  rw [if_neg (by omega), List.range_succ, List.foldl_append,
    copyLoop_spec e transformPoint blankVertex k (by omega) (by omega)]
  simp only [List.foldl_cons, List.foldl_nil, hstep]

/-- Counterexample to C19 as stated: for the emitter `hugeEmitter` with `2^29 + 1`
particles, `CopyParticlesToMesh` does not replace the mesh by `4 n` vertices: the offset of
the last quad, `2^31`, does not fit the `int` it is stored in, and the write to the vertex
at that offset is outside the vector. -/
theorem copy_particles_overflow :
    hugeEmitter.m_particles.length = 2 ^ 29 + 1 ∧
    hugeEmitter.CopyParticlesToMesh (fun _ v => v) zeroVertex staleMesh = none :=
  ⟨List.length_replicate _ _,
    CopyParticlesToMesh_overflow hugeEmitter _ _ _ (List.length_replicate _ _)⟩

end ParticleEmitter

namespace SpriteGameRenderer

/-- An instance of `create_or_get_layer`: layer 3 is absent from `smallFrame`; the first call
creates it, and the second call returns the same layer and changes nothing. -/
theorem create_or_get_layer_witness :
    smallFrame.m_layers.find 3 = none ∧
    (smallFrame.CreateOrGetLayer 3).2.m_layers.find 3 = some (smallFrame.CreateOrGetLayer 3).1 ∧
    (smallFrame.CreateOrGetLayer 3).2.CreateOrGetLayer 3 =
      ((smallFrame.CreateOrGetLayer 3).1, (smallFrame.CreateOrGetLayer 3).2) :=
  ⟨rfl, ((create_or_get_layer smallFrame 3).1 rfl).2.2.2.2.2.1,
    (create_or_get_layer smallFrame 3).2.2⟩

end SpriteGameRenderer

/-! ## Theorems: particle steps, virtual size, camera clamp per axis, quad indices and
effect chains -/

namespace ParticleEmitter

/-- C22: `CleanUpDeadParticles` returns for every particle sequence (the loop is a total
function) and leaves exactly the particles that were not dead, as a multiset: the result is
a permutation of the particles with `age < maxAge` in the sequence before; no particle
with `age ≥ maxAge` remains; a particle is in the result exactly when it was in the
sequence and is not dead; the length drops by the number of dead particles; and nothing
else in the emitter changes. -/
theorem clean_up_dead_particles (e : ParticleEmitter) :
    (e.CleanUpDeadParticles).m_particles.Perm
      (e.m_particles.filter (fun p => decide (p.age < p.maxAge))) ∧
    (∀ p ∈ (e.CleanUpDeadParticles).m_particles, p.age < p.maxAge) ∧
    (∀ p, p ∈ (e.CleanUpDeadParticles).m_particles ↔ p ∈ e.m_particles ∧ p.age < p.maxAge) ∧
    (e.CleanUpDeadParticles).m_particles.length +
        (e.m_particles.filter (fun p => decide (p.age ≥ p.maxAge))).length =
      e.m_particles.length ∧
    e.CleanUpDeadParticles =
      { e with m_particles := (e.CleanUpDeadParticles).m_particles } := by
  have hfilter : e.m_particles.filter (fun p => !p.IsDead) =
      e.m_particles.filter (fun p => decide (p.age < p.maxAge)) := by
    apply List.filter_congr
    intro p _
    by_cases h : p.age < p.maxAge
    · simp [Particle.IsDead, h, not_le.mpr h]
    · simp [Particle.IsDead, h, not_lt.mp h]
  have hperm : (e.CleanUpDeadParticles).m_particles.Perm
      (e.m_particles.filter (fun p => decide (p.age < p.maxAge))) := by
    rw [← hfilter]
    exact cleanUp_perm e.m_particles
  have hmem : ∀ p, p ∈ (e.CleanUpDeadParticles).m_particles ↔
      p ∈ e.m_particles ∧ p.age < p.maxAge := by
    intro p
    rw [hperm.mem_iff]
    simp
  refine ⟨hperm, fun p hp => ((hmem p).mp hp).2, hmem, ?_, rfl⟩
  rw [hperm.length_eq]
  have hsplit := List.length_eq_length_filter_add (l := e.m_particles)
    (fun p => decide (p.age < p.maxAge))
  rw [hsplit]
  congr 1
  congr 1
  apply List.filter_congr
  intro p _
  by_cases h : p.age < p.maxAge
  · simp [h, not_le.mpr h]
  · simp [h, not_lt.mp h]

end ParticleEmitter

namespace SpriteGameRenderer

/-- C24: `RecalculateVirtualWidthAndHeight` sets `m_virtualWidth = s * (W + H * a) / 2` and
`m_virtualHeight = s * (H + W / a) / 2`, where `W` and `H` are the window virtual width and
height, `a > 0` the aspect ratio of the viewport and `s` the scale factor of the layer; when
`a = W / H` the result is exactly `(s * W, s * H)`. It writes no other member. -/
theorem recalculate_virtual_size (r : SpriteGameRenderer) (renderArea : ViewportDefinition)
    (layerVirtualSizeScaleFactor : ℚ) (ha : 0 < renderArea.m_viewportAspectRatio) :
    (r.RecalculateVirtualWidthAndHeight renderArea layerVirtualSizeScaleFactor).m_virtualWidth =
      layerVirtualSizeScaleFactor *
        (r.m_windowVirtualWidth + r.m_windowVirtualHeight * renderArea.m_viewportAspectRatio)
        / 2 ∧
    (r.RecalculateVirtualWidthAndHeight renderArea layerVirtualSizeScaleFactor).m_virtualHeight =
      layerVirtualSizeScaleFactor *
        (r.m_windowVirtualHeight + r.m_windowVirtualWidth / renderArea.m_viewportAspectRatio)
        / 2 ∧
    (renderArea.m_viewportAspectRatio = r.m_windowVirtualWidth / r.m_windowVirtualHeight →
      (r.RecalculateVirtualWidthAndHeight renderArea layerVirtualSizeScaleFactor).m_virtualWidth
        = layerVirtualSizeScaleFactor * r.m_windowVirtualWidth ∧
      (r.RecalculateVirtualWidthAndHeight renderArea layerVirtualSizeScaleFactor).m_virtualHeight
        = layerVirtualSizeScaleFactor * r.m_windowVirtualHeight) ∧
    r.RecalculateVirtualWidthAndHeight renderArea layerVirtualSizeScaleFactor =
      { r with
        m_virtualWidth :=
          (r.RecalculateVirtualWidthAndHeight renderArea
            layerVirtualSizeScaleFactor).m_virtualWidth,
        m_virtualHeight :=
          (r.RecalculateVirtualWidthAndHeight renderArea
            layerVirtualSizeScaleFactor).m_virtualHeight } := by
  have hw : (r.RecalculateVirtualWidthAndHeight renderArea
      layerVirtualSizeScaleFactor).m_virtualWidth =
      layerVirtualSizeScaleFactor *
        (r.m_windowVirtualWidth + r.m_windowVirtualHeight * renderArea.m_viewportAspectRatio)
        / 2 := by
    simp only [RecalculateVirtualWidthAndHeight, MathUtils.Lerp]
    ring
  have hh : (r.RecalculateVirtualWidthAndHeight renderArea
      layerVirtualSizeScaleFactor).m_virtualHeight =
      layerVirtualSizeScaleFactor *
        (r.m_windowVirtualHeight + r.m_windowVirtualWidth / renderArea.m_viewportAspectRatio)
        / 2 := by
    simp only [RecalculateVirtualWidthAndHeight, MathUtils.Lerp]
    ring
  refine ⟨hw, hh, ?_, rfl⟩
  intro heq
  have hH : r.m_windowVirtualHeight ≠ 0 := by
    intro h0
    rw [heq, h0, div_zero] at ha
    exact lt_irrefl 0 ha
  have hW : r.m_windowVirtualWidth ≠ 0 := by
    intro h0
    rw [heq, h0, zero_div] at ha
    exact lt_irrefl 0 ha
  rw [hw, hh, heq]
  constructor
  · field_simp
    ring
  · field_simp
    ring

/-- Witness for `recalculate_virtual_size`: `smallFrame` (window virtual size 2 by 2) and a
square viewport with scale factor 3: virtual size 6 by 6. -/
theorem recalculate_virtual_size_witness :
    0 < SpriteLayer.squareViewport.m_viewportAspectRatio ∧
    (smallFrame.RecalculateVirtualWidthAndHeight SpriteLayer.squareViewport 3).m_virtualWidth = 6 ∧
    (smallFrame.RecalculateVirtualWidthAndHeight SpriteLayer.squareViewport 3).m_virtualHeight
      = 6 := by
  have ha : 0 < SpriteLayer.squareViewport.m_viewportAspectRatio := by
    norm_num [SpriteLayer.squareViewport]
  obtain ⟨h1, h2, -⟩ := recalculate_virtual_size smallFrame SpriteLayer.squareViewport 3 ha
  refine ⟨ha, ?_, ?_⟩
  · rw [h1]; norm_num [smallFrame, SpriteLayer.squareViewport]
  · rw [h2]; norm_num [smallFrame, SpriteLayer.squareViewport]

/-- One axis of the clamp, when the frame is no wider than the interval from `lo` to `hi`:
the requested coordinate clamped into the interval shrunk by half the width. -/
theorem clampAxis_clamp (p w lo hi : ℚ) (hfit : w ≤ hi - lo) :
    p + (if p - w * (1/2) < lo then lo - (p - w * (1/2)) else 0) +
      (if p + w * (1/2) > hi then hi - (p + w * (1/2)) else 0) =
    MathUtils.Clamp p (lo + w * (1/2)) (hi - w * (1/2)) := by
  unfold MathUtils.Clamp
  split_ifs <;> linarith

/-- In exact arithmetic: when the camera frame is no larger than the scaled world bounds on
each axis, the clamp sets the camera `x` to `p.x` clamped into
`[worldMin.x * s + W / 2, worldMax.x * s - W / 2]` and the camera `y` to `p.y` clamped into
`[worldMin.y * s + H / 2, worldMax.y * s - H / 2]` (`W`, `H` the virtual width and height),
and nothing but the camera position is written; a frame of non-negative size is inside the
scaled world bounds afterwards, and a requested position whose frame is inside already is
the camera position afterwards. -/
theorem clamp_per_axis_exact (r : SpriteGameRenderer) (p : Vector2) (s : ℚ)
    (hfx : r.m_virtualWidth ≤
      (r.m_worldBounds.mulScale s).maxs.x - (r.m_worldBounds.mulScale s).mins.x)
    (hfy : r.m_virtualHeight ≤
      (r.m_worldBounds.mulScale s).maxs.y - (r.m_worldBounds.mulScale s).mins.y) :
    (r.UpdateCameraPositionInWorldBounds p s).m_cameraPosition.x =
      MathUtils.Clamp p.x (r.m_worldBounds.mins.x * s + r.m_virtualWidth * (1/2))
        (r.m_worldBounds.maxs.x * s - r.m_virtualWidth * (1/2)) ∧
    (r.UpdateCameraPositionInWorldBounds p s).m_cameraPosition.y =
      MathUtils.Clamp p.y (r.m_worldBounds.mins.y * s + r.m_virtualHeight * (1/2))
        (r.m_worldBounds.maxs.y * s - r.m_virtualHeight * (1/2)) ∧
    r.UpdateCameraPositionInWorldBounds p s =
      { r with m_cameraPosition := (r.UpdateCameraPositionInWorldBounds p s).m_cameraPosition } ∧
    (0 ≤ r.m_virtualWidth → 0 ≤ r.m_virtualHeight →
      (r.UpdateCameraPositionInWorldBounds p s).CameraFrameInside s) ∧
    (CameraFrameInside { r with m_cameraPosition := p } s →
      (r.UpdateCameraPositionInWorldBounds p s).m_cameraPosition = p) := by
  simp only [AABB2.mulScale, Vector2.scale] at hfx hfy
  have hx := UpdateCamera_x r p s
  have hy := UpdateCamera_y r p s
  refine ⟨?_, ?_, ?_, ?_, ?_⟩
  · rw [hx]; exact clampAxis_clamp _ _ _ _ hfx
  · rw [hy]; exact clampAxis_clamp _ _ _ _ hfy
  · exact UpdateCamera_eq r p s _ rfl rfl
  · intro hw hh
    have gx := clampAxis_inside _ _ _ _ _ hw hfx hx
    have gy := clampAxis_inside _ _ _ _ _ hh hfy hy
    obtain ⟨fw, fh, fb⟩ := UpdateCamera_frame r p s
    simp only [CameraFrameInside, GetVirtualBoundsAroundCameraCenter, AABB2.IsPointOnOrInside,
      Vector2.sub, Vector2.add, AABB2.mulScale, Vector2.scale, fw, fh, fb]
    exact ⟨⟨gx.1, gx.2.1, gy.1, gy.2.1⟩, gx.2.2.1, gx.2.2.2, gy.2.2.1, gy.2.2.2⟩
  · intro hin
    simp only [CameraFrameInside, GetVirtualBoundsAroundCameraCenter, AABB2.IsPointOnOrInside,
      Vector2.sub, Vector2.add, AABB2.mulScale, Vector2.scale] at hin
    obtain ⟨⟨a1, -, a3, -⟩, -, b2, -, b4⟩ := hin
    have ex : (r.UpdateCameraPositionInWorldBounds p s).m_cameraPosition.x = p.x := by
      rw [hx]; exact clampAxis_fixed _ _ _ _ a1 b2
    have ey : (r.UpdateCameraPositionInWorldBounds p s).m_cameraPosition.y = p.y := by
      rw [hy]; exact clampAxis_fixed _ _ _ _ a3 b4
    cases hq : (r.UpdateCameraPositionInWorldBounds p s).m_cameraPosition
    cases p
    simp_all

/-- C28: for a disabled layer `RenderLayer` returns without walking the ring (whatever the
ring and the fuel): no renderable is drawn, no effect pass is run, and `m_currentFBO` and
`m_effectFBO` are as before, not exchanged. The renderer afterwards is the one that
`RecalculateVirtualWidthAndHeight` and then `UpdateCameraPositionInWorldBounds` leave for
this layer: the virtual width and height are recomputed from the viewport and the scale
multiplier of the layer, and the camera is clamped again. -/
theorem disabled_layer_renders_nothing (r : SpriteGameRenderer) (heap : RenderableHeap)
    (layer : SpriteLayer) (renderArea : ViewportDefinition) (fuel : Nat)
    (hdisabled : layer.m_isEnabled = false) :
    ∃ res, r.RenderLayer heap layer renderArea fuel = some res ∧
      res.draws = [] ∧ res.passes = [] ∧
      res.renderer.m_currentFBO = r.m_currentFBO ∧ res.renderer.m_effectFBO = r.m_effectFBO ∧
      res.renderer =
        (r.RecalculateVirtualWidthAndHeight renderArea
          layer.m_virtualScaleMultiplier).UpdateCameraPositionInWorldBounds
            renderArea.m_cameraPosition layer.m_virtualScaleMultiplier ∧
      res.renderer.m_virtualWidth =
        (r.RecalculateVirtualWidthAndHeight renderArea
          layer.m_virtualScaleMultiplier).m_virtualWidth ∧
      res.renderer.m_virtualHeight =
        (r.RecalculateVirtualWidthAndHeight renderArea
          layer.m_virtualScaleMultiplier).m_virtualHeight ∧
      res.renderer.m_cameraPosition =
        ((r.RecalculateVirtualWidthAndHeight renderArea
          layer.m_virtualScaleMultiplier).UpdateCameraPositionInWorldBounds
            renderArea.m_cameraPosition layer.m_virtualScaleMultiplier).m_cameraPosition := by
  have hres : ∃ res, r.RenderLayer heap layer renderArea fuel = some res ∧
      res.draws = [] ∧ res.passes = [] ∧
      res.renderer =
        (r.RecalculateVirtualWidthAndHeight renderArea
          layer.m_virtualScaleMultiplier).UpdateCameraPositionInWorldBounds
            renderArea.m_cameraPosition layer.m_virtualScaleMultiplier := by
    unfold RenderLayer
    simp only [hdisabled, Bool.false_eq_true, if_false]
    exact ⟨_, rfl, rfl, rfl, rfl⟩
  obtain ⟨res, hres, hdraws, hpasses, hrend⟩ := hres
  obtain ⟨fw, fh, -⟩ := UpdateCamera_frame
    (r.RecalculateVirtualWidthAndHeight renderArea layer.m_virtualScaleMultiplier)
    renderArea.m_cameraPosition layer.m_virtualScaleMultiplier
  refine ⟨res, hres, hdraws, hpasses, ?_, ?_, hrend, ?_, ?_, ?_⟩
  · rw [hrend]; simp [UpdateCameraPositionInWorldBounds, RecalculateVirtualWidthAndHeight]
  · rw [hrend]; simp [UpdateCameraPositionInWorldBounds, RecalculateVirtualWidthAndHeight]
  · rw [hrend]; exact fw
  · rw [hrend]; exact fh
  · rw [hrend]

/-- Witness for `disabled_layer_renders_nothing`: `disabledLayer` has three effects and a
head, and is rendered with no fuel. -/
theorem disabled_layer_renders_nothing_witness :
    disabledLayer.m_isEnabled = false ∧
    ∃ res, smallFrame.RenderLayer SpriteLayer.blankHeap disabledLayer SpriteLayer.squareViewport 0
        = some res ∧
      res.draws = [] ∧ res.passes = [] ∧ res.renderer.m_currentFBO = 1 ∧
      res.renderer.m_effectFBO = 2 := by
  obtain ⟨res, h1, h2, h3, h4, h5, -⟩ :=
    disabled_layer_renders_nothing smallFrame SpriteLayer.blankHeap disabledLayer
      SpriteLayer.squareViewport 0 rfl
  exact ⟨rfl, res, h1, h2, h3, h4, h5⟩

/-- C29: for an aspect ratio `a > 0` and a virtual size `v > 0`, `SetVirtualSize(v)` leaves a
window virtual width `W` and height `H` with `W / H = a` and `min W H = v`: for `a ≥ 1` it
is `W = v * a`, `H = v`, and for `a < 1` it is `W = v`, `H = v / a`, so the shorter
dimension is `v` and the longer one is `v` scaled by `a` or by `1 / a`. It writes
`m_virtualSize = v` and nothing else. After `UpdateScreenResolution(w, h)` the aspect ratio
is `w / h`. -/
theorem set_virtual_size (r : SpriteGameRenderer) (vsize : ℚ)
    (ha : 0 < r.m_aspectRatio) (hv : 0 < vsize) :
    (r.SetVirtualSize vsize).m_windowVirtualWidth / (r.SetVirtualSize vsize).m_windowVirtualHeight
      = r.m_aspectRatio ∧
    min (r.SetVirtualSize vsize).m_windowVirtualWidth
      (r.SetVirtualSize vsize).m_windowVirtualHeight = vsize ∧
    max (r.SetVirtualSize vsize).m_windowVirtualWidth
      (r.SetVirtualSize vsize).m_windowVirtualHeight =
        vsize * max r.m_aspectRatio (1 / r.m_aspectRatio) ∧
    (1 ≤ r.m_aspectRatio →
      (r.SetVirtualSize vsize).m_windowVirtualWidth = vsize * r.m_aspectRatio ∧
      (r.SetVirtualSize vsize).m_windowVirtualHeight = vsize) ∧
    (r.m_aspectRatio < 1 →
      (r.SetVirtualSize vsize).m_windowVirtualWidth = vsize ∧
      (r.SetVirtualSize vsize).m_windowVirtualHeight = vsize / r.m_aspectRatio) ∧
    (r.SetVirtualSize vsize).m_virtualSize = vsize ∧
    r.SetVirtualSize vsize =
      { r with
        m_virtualSize := vsize,
        m_windowVirtualHeight := (r.SetVirtualSize vsize).m_windowVirtualHeight,
        m_windowVirtualWidth := (r.SetVirtualSize vsize).m_windowVirtualWidth } ∧
    (∀ (r0 : SpriteGameRenderer) (widthInPixels heightInPixels : Nat),
      (r0.UpdateScreenResolution widthInPixels heightInPixels).m_aspectRatio =
        (widthInPixels : ℚ) / (heightInPixels : ℚ)) := by
  have hane : r.m_aspectRatio ≠ 0 := ne_of_gt ha
  have hvne : vsize ≠ 0 := ne_of_gt hv
  have hge : 1 ≤ r.m_aspectRatio →
      (r.SetVirtualSize vsize).m_windowVirtualWidth = vsize * r.m_aspectRatio ∧
      (r.SetVirtualSize vsize).m_windowVirtualHeight = vsize := by
    intro h
    constructor <;> simp [SetVirtualSize, h, not_lt.mpr h]
  have hlt : r.m_aspectRatio < 1 →
      (r.SetVirtualSize vsize).m_windowVirtualWidth = vsize ∧
      (r.SetVirtualSize vsize).m_windowVirtualHeight = vsize / r.m_aspectRatio := by
    intro h
    constructor <;> simp [SetVirtualSize, h]
  refine ⟨?_, ?_, ?_, hge, hlt, rfl, rfl, fun r0 w h => rfl⟩
  · by_cases h : 1 ≤ r.m_aspectRatio
    · rw [(hge h).1, (hge h).2]
      field_simp
    · rw [(hlt (not_le.mp h)).1, (hlt (not_le.mp h)).2]
      field_simp
  · by_cases h : 1 ≤ r.m_aspectRatio
    · rw [(hge h).1, (hge h).2]
      apply min_eq_right
      nlinarith
    · have h' := not_le.mp h
      rw [(hlt h').1, (hlt h').2]
      apply min_eq_left
      rw [le_div_iff₀ ha]
      nlinarith
  · by_cases h : 1 ≤ r.m_aspectRatio
    · rw [(hge h).1, (hge h).2]
      have h1 : 1 / r.m_aspectRatio ≤ r.m_aspectRatio := by
        rw [div_le_iff₀ ha]; nlinarith
      rw [max_eq_left h1, max_eq_left (by nlinarith)]
    · have h' := not_le.mp h
      rw [(hlt h').1, (hlt h').2]
      have h1 : r.m_aspectRatio ≤ 1 / r.m_aspectRatio := by
        rw [le_div_iff₀ ha]; nlinarith
      have h2 : vsize ≤ vsize / r.m_aspectRatio := by
        rw [le_div_iff₀ ha]; nlinarith
      rw [max_eq_right h1, max_eq_right h2]
      field_simp

/-- Witness for `set_virtual_size`: a screen of 8 by 4 pixels (aspect ratio 2) with virtual
size 3 gives a window of 6 by 3 virtual units, and a screen of 4 by 8 pixels gives 3 by
6. -/
theorem set_virtual_size_witness :
    (0 < wideFrame.m_aspectRatio ∧ (0 : ℚ) < 3) ∧
    ((wideFrame.SetVirtualSize 3).m_windowVirtualWidth = 6 ∧
      (wideFrame.SetVirtualSize 3).m_windowVirtualHeight = 3) ∧
    (tallFrame.SetVirtualSize 3).m_windowVirtualWidth /
      (tallFrame.SetVirtualSize 3).m_windowVirtualHeight = 1 / 2 := by
  have ha : 0 < wideFrame.m_aspectRatio := by
    norm_num [wideFrame, UpdateScreenResolution]
  have ha2 : 0 < tallFrame.m_aspectRatio := by
    norm_num [tallFrame, UpdateScreenResolution]
  have h := (set_virtual_size wideFrame 3 ha (by norm_num)).2.2.2.1
    (by norm_num [wideFrame, UpdateScreenResolution])
  have h2 := (set_virtual_size tallFrame 3 ha2 (by norm_num)).1
  refine ⟨⟨ha, by norm_num⟩, ⟨?_, h.2⟩, ?_⟩
  · rw [h.1]; norm_num [wideFrame, UpdateScreenResolution]
  · rw [h2]; norm_num [tallFrame, UpdateScreenResolution]

/-- C30: `IsInsideWorldBounds(p)` is true exactly when `p` is strictly inside the box of the
camera frame, the box of the virtual width and height around the current camera position:
`camera.x - W / 2 < p.x < camera.x + W / 2` and `camera.y - H / 2 < p.y < camera.y + H / 2`.
The result does not depend on the world bounds: on `smallFrame` (camera at the origin, frame
2 by 2, world bounds from (0, 0) to (10, 10)) the point (5, 5), which is in the world
bounds, gives false, and the point (-1/2, -1/2), which is outside them, gives true. -/
theorem is_inside_world_bounds (r : SpriteGameRenderer) (attemptedPosition : Vector2) :
    (r.IsInsideWorldBounds attemptedPosition = true ↔
      r.GetVirtualBoundsAroundCameraCenter.IsPointInside attemptedPosition) ∧
    (r.IsInsideWorldBounds attemptedPosition = true ↔
      r.m_cameraPosition.x - r.m_virtualWidth * (1/2) < attemptedPosition.x ∧
      attemptedPosition.x < r.m_cameraPosition.x + r.m_virtualWidth * (1/2) ∧
      r.m_cameraPosition.y - r.m_virtualHeight * (1/2) < attemptedPosition.y ∧
      attemptedPosition.y < r.m_cameraPosition.y + r.m_virtualHeight * (1/2)) ∧
    (∀ worldBounds : AABB2,
      IsInsideWorldBounds { r with m_worldBounds := worldBounds } attemptedPosition =
        r.IsInsideWorldBounds attemptedPosition) ∧
    (smallFrame.m_worldBounds.IsPointOnOrInside ⟨5, 5⟩ ∧
      smallFrame.IsInsideWorldBounds ⟨5, 5⟩ = false) ∧
    (¬ smallFrame.m_worldBounds.IsPointOnOrInside ⟨-1/2, -1/2⟩ ∧
      smallFrame.IsInsideWorldBounds ⟨-1/2, -1/2⟩ = true) := by
  refine ⟨?_, ?_, fun _ => rfl, ⟨?_, ?_⟩, ?_, ?_⟩
  · simp [IsInsideWorldBounds]
  · simp [IsInsideWorldBounds, GetVirtualBoundsAroundCameraCenter, AABB2.IsPointInside,
      Vector2.sub, Vector2.add]
  · norm_num [AABB2.IsPointOnOrInside, smallFrame]
  · simp only [IsInsideWorldBounds, GetVirtualBoundsAroundCameraCenter, AABB2.IsPointInside,
      Vector2.sub, Vector2.add, smallFrame, decide_eq_false_iff_not]
    norm_num
  · norm_num [AABB2.IsPointOnOrInside, smallFrame]
  · simp only [IsInsideWorldBounds, GetVirtualBoundsAroundCameraCenter, AABB2.IsPointInside,
      Vector2.sub, Vector2.add, smallFrame, decide_eq_true_eq]
    norm_num

end SpriteGameRenderer

namespace ParticleEmitter

/-- With at least one and at most `2^29` particles, `CopyParticlesToMesh` returns the mesh
of the quads of the particles and their indices, whatever the mesh was. -/
theorem CopyParticlesToMesh_eq (e : ParticleEmitter)
    (transformPoint : Particle → Vector2 → Vector2) (blankVertex : Vertex_Sprite)
    (m_mesh : Mesh) (hne : e.m_particles ≠ []) (hbound : e.m_particles.length ≤ 2 ^ 29) :
    e.CopyParticlesToMesh transformPoint blankVertex m_mesh =
      some { vertices := e.m_particles.flatMap (particleQuad e transformPoint),
             indices := (List.range e.m_particles.length).flatMap quadIndices } := by
  have hpos : 0 < e.m_particles.length := List.length_pos.mpr hne
  have hmod : e.m_particles.length % 2 ^ 32 = e.m_particles.length :=
    Nat.mod_eq_of_lt (by omega)
  unfold CopyParticlesToMesh
  simp only [hmod]
  rw [if_neg (by omega), copyLoop_spec e transformPoint blankVertex _ (le_refl _) hbound,
    List.take_length]
  rfl

/-- The six indices from position `6 * i` in the indices of `n` quads are those of quad
`i`. -/
theorem drop_take_quadIndices : ∀ (n i : Nat), i < n →
    (((List.range n).flatMap quadIndices).drop (6 * i)).take 6 = quadIndices i := by
  intro n
  induction n with
  | zero => intro i hi; omega
  | succ n ih =>
    intro i hi
    have hlen := length_flatMap_quadIndices n
    rw [List.range_succ, List.flatMap_append]
    simp only [List.flatMap_cons, List.flatMap_nil, List.append_nil]
    by_cases h : i < n
    · rw [List.drop_append_of_le_length (by rw [hlen]; omega),
        List.take_append_of_le_length (by rw [List.length_drop, hlen]; omega)]
      exact ih i h
    · have hi2 : i = n := by omega
      subst hi2
      rw [List.drop_append_eq_append_drop, List.drop_of_length_le (by rw [hlen]), hlen]
      simp [quadIndices]

/-- C26 (as amended): for `n > 0` particles, `n` at most `2^29`, and every `i < n`, the six
indices that `CopyParticlesToMesh` emits for particle `i` (those from position `6 i` in the
index buffer) are `4i+1, 4i+2, 4i, 4i+1, 4i+3, 4i+2`; each is below `4 n` and is one of
`4i .. 4i+3`, the four vertices of that particle. For a sprite of positive width `w` and
height `h`, the two triangles these indices form over the corners before the transform (the
vertex buffer with the identity for the transform) both have twice the signed area `w * h`,
which is positive: the same orientation. -/
theorem quad_indices_and_winding (e : ParticleEmitter)
    (transformPoint : Particle → Vector2 → Vector2) (blankVertex : Vertex_Sprite)
    (m_mesh : Mesh) (hne : e.m_particles ≠ []) (hbound : e.m_particles.length ≤ 2 ^ 29) :
    ∃ out corners, e.CopyParticlesToMesh transformPoint blankVertex m_mesh = some out ∧
      e.CopyParticlesToMesh (fun _ v => v) blankVertex m_mesh = some corners ∧
      corners.indices = out.indices ∧
      ∀ i : Nat, i < e.m_particles.length →
        (out.indices.drop (6 * i)).take 6 =
          [4 * i + 1, 4 * i + 2, 4 * i, 4 * i + 1, 4 * i + 3, 4 * i + 2] ∧
        (∀ k ∈ (out.indices.drop (6 * i)).take 6,
          k < 4 * e.m_particles.length ∧ 4 * i ≤ k ∧ k ≤ 4 * i + 3) ∧
        (0 < e.m_definition.m_spriteResource.m_virtualSize.x →
          0 < e.m_definition.m_spriteResource.m_virtualSize.y →
          triangleAreas (corners.vertices.map Vertex_Sprite.position)
              ((out.indices.drop (6 * i)).take 6) =
            [some (e.m_definition.m_spriteResource.m_virtualSize.x *
                e.m_definition.m_spriteResource.m_virtualSize.y),
              some (e.m_definition.m_spriteResource.m_virtualSize.x *
                e.m_definition.m_spriteResource.m_virtualSize.y)] ∧
          0 < e.m_definition.m_spriteResource.m_virtualSize.x *
            e.m_definition.m_spriteResource.m_virtualSize.y) := by
  refine ⟨_, _, CopyParticlesToMesh_eq e transformPoint blankVertex m_mesh hne hbound,
    CopyParticlesToMesh_eq e (fun _ v => v) blankVertex m_mesh hne hbound, rfl, ?_⟩
  intro i hi
  have hidx := drop_take_quadIndices e.m_particles.length i hi
  simp only [hidx]
  refine ⟨rfl, ?_, ?_⟩
  · intro k hk
    simp only [quadIndices, List.mem_cons, List.mem_singleton, List.not_mem_nil, or_false] at hk
    omega
  · intro hw hh
    refine ⟨?_, mul_pos hw hh⟩
    obtain ⟨p, hp⟩ : ∃ p, e.m_particles[i]? = some p :=
      ⟨e.m_particles[i], List.getElem?_eq_getElem hi⟩
    have hv : ∀ k : Nat, k < 4 →
        ((e.m_particles.flatMap (particleQuad e (fun _ v => v))).map
          Vertex_Sprite.position)[4 * i + k]? =
        ((particleQuad e (fun _ v => v) p).map Vertex_Sprite.position)[k]? := by
      intro k hk
      rw [List.getElem?_map, getElem?_flatMap_quads (particleQuad e (fun _ v => v))
        (fun _ => rfl) _ i k hk, hp]
      simp
    have h0 := hv 0 (by omega)
    have h1 := hv 1 (by omega)
    have h2 := hv 2 (by omega)
    have h3 := hv 3 (by omega)
    simp only [Nat.add_zero, particleQuad, List.map_cons, List.map_nil, List.getElem?_cons_zero,
      List.getElem?_cons_succ] at h0 h1 h2 h3
    simp only [quadIndices, triangleAreas, h0, h1, h2, h3, signedArea2]
    congr 1
    · congr 1; ring
    · congr 1
      congr 1; ring

/-- Witness for `quad_indices_and_winding`: the one particle of `oneShotEmitter`, whose
sprite is 1 by 1. -/
theorem quad_indices_and_winding_witness :
    (oneShotEmitter.m_particles ≠ [] ∧ oneShotEmitter.m_particles.length ≤ 2 ^ 29) ∧
    ∃ out, oneShotEmitter.CopyParticlesToMesh (fun _ v => v) zeroVertex staleMesh = some out ∧
      (out.indices.drop (6 * 0)).take 6 = [1, 2, 0, 1, 3, 2] := by
  have hne : oneShotEmitter.m_particles ≠ [] := by simp [oneShotEmitter]
  have hb : oneShotEmitter.m_particles.length ≤ 2 ^ 29 := by simp [oneShotEmitter]
  obtain ⟨out, corners, h1, -, -, h2⟩ :=
    quad_indices_and_winding oneShotEmitter (fun _ v => v) zeroVertex staleMesh hne hb
  exact ⟨⟨hne, hb⟩, out, h1, (h2 0 (by simp [oneShotEmitter])).1⟩

/-- With `2^29 + 1` particles the loop body of `CopyParticlesToMesh` fails for the last
particle: the offset `2^29 * 4` does not fit an `int`. -/
theorem copyStep_overflow (e : ParticleEmitter)
    (transformPoint : Particle → Vector2 → Vector2) (blankVertex : Vertex_Sprite)
    (hlen : e.m_particles.length = 2 ^ 29 + 1) :
    toInt32 (2 ^ 29 * 4) = -(2 ^ 31) ∧
    ∀ acc : List Vertex_Sprite × List Nat,
      copyStep e transformPoint blankVertex (some acc) (2 ^ 29) = none := by
  have hoff : toInt32 (2 ^ 29 * 4) = -(2 ^ 31) := by
    unfold toInt32
    norm_num
  refine ⟨hoff, ?_⟩
  intro acc
  obtain ⟨p, hp⟩ : ∃ p, e.m_particles.get? (2 ^ 29) = some p :=
    ⟨e.m_particles[2 ^ 29], by
      rw [List.get?_eq_getElem?]; exact List.getElem?_eq_getElem (by rw [hlen]; omega)⟩
  have hw : ∀ (vs : List Vertex_Sprite) (f : Vertex_Sprite → Vertex_Sprite),
      writeVertex vs (0 + -(2 ^ 31)) f = none := by
    intro vs f
    unfold writeVertex
    rw [if_neg (by norm_num)]
  simp only [copyStep, hp, hoff, quadVertices, hw, Option.bind_eq_bind, Option.none_bind]

/-- Counterexample to C26 as stated: with `n = 2^29 + 1` particles (`hugeEmitter`) the loop
body of `CopyParticlesToMesh` for the particle `i = 2^29 < n` emits no index: the offset
`i * 4 = 2^31` does not fit the `int` `currentOffset`, and the iteration fails at its first
vertex write, whatever the vectors hold. -/
theorem quad_indices_overflow :
    hugeEmitter.m_particles.length = 2 ^ 29 + 1 ∧
    toInt32 (2 ^ 29 * 4) = -(2 ^ 31) ∧
    ∀ acc : List Vertex_Sprite × List Nat,
      copyStep hugeEmitter (fun _ v => v) zeroVertex (some acc) (2 ^ 29) = none :=
  ⟨List.length_replicate _ _,
    copyStep_overflow hugeEmitter _ _ (List.length_replicate _ _)⟩

end ParticleEmitter

namespace SpriteGameRenderer
open RenderableHeap

/-- The loop of `RemoveEffectFromLayer` leaves a chain without the effect as it is. -/
theorem eraseEffect_not_mem (effectMaterial : Nat) :
    ∀ chain : List Nat, effectMaterial ∉ chain → eraseEffect effectMaterial chain = chain := by
  intro chain
  induction chain with
  | nil => intro _; rfl
  | cons x rest ih =>
    intro h
    simp only [List.mem_cons, not_or] at h
    simp only [eraseEffect, if_neg h.1, ih h.2]

/-- The loop of `RemoveEffectFromLayer` removes the first occurrence of the effect and keeps
what is before and after it. -/
theorem eraseEffect_first (effectMaterial : Nat) :
    ∀ before after : List Nat, effectMaterial ∉ before →
      eraseEffect effectMaterial (before ++ effectMaterial :: after) = before ++ after := by
  intro before
  induction before with
  | nil => intro after _; simp [eraseEffect]
  | cons x rest ih =>
    intro after h
    simp only [List.mem_cons, not_or] at h
    have hstep : eraseEffect effectMaterial (x :: (rest ++ effectMaterial :: after)) =
        x :: eraseEffect effectMaterial (rest ++ effectMaterial :: after) := by
      simp only [eraseEffect, if_neg h.1]
    rw [List.cons_append, hstep, ih after h.2, List.cons_append]

/-- The loop of `RemoveEffectFromLayer` leaves a subsequence of the chain. -/
theorem eraseEffect_sublist (effectMaterial : Nat) :
    ∀ chain : List Nat, (eraseEffect effectMaterial chain).Sublist chain := by
  intro chain
  induction chain with
  | nil => exact List.Sublist.refl _
  | cons x rest ih =>
    unfold eraseEffect
    split_ifs
    · exact List.sublist_cons_self x rest
    · exact List.Sublist.cons₂ x ih

/-- What `CreateOrGetLayer` returns and leaves: the layer found, or a new layer placed in
the map. -/
theorem CreateOrGetLayer_cases (r : SpriteGameRenderer) (layerNumber : Int) :
    (r.m_layers.find layerNumber = none ∧
      r.CreateOrGetLayer layerNumber =
        (SpriteLayer.new layerNumber r.m_worldBounds,
          { r with m_layers :=
            r.m_layers.insert layerNumber (SpriteLayer.new layerNumber r.m_worldBounds) })) ∨
    (∃ layer, r.m_layers.find layerNumber = some layer ∧
      r.CreateOrGetLayer layerNumber = (layer, r)) := by
  unfold CreateOrGetLayer
  cases h : r.m_layers.find layerNumber with
  | none => exact Or.inl ⟨rfl, rfl⟩
  | some layer => exact Or.inr ⟨layer, rfl, rfl⟩

/-- After the layer `layerNumber` was looked up or created and replaced by `layer`, the
lookup of `layerNumber` finds `layer` and every other lookup is as before. -/
theorem find_replace_layer (r : SpriteGameRenderer) (layerNumber : Int) (layer : SpriteLayer) :
    ((r.CreateOrGetLayer layerNumber).2.m_layers.insert layerNumber layer).find layerNumber =
      some layer ∧
    ∀ other : Int, other ≠ layerNumber →
      ((r.CreateOrGetLayer layerNumber).2.m_layers.insert layerNumber layer).find other =
        r.m_layers.find other := by
  refine ⟨LayerMap.findIn_insertIn_same _ _ _, ?_⟩
  intro other ho
  have h1 : ((r.CreateOrGetLayer layerNumber).2.m_layers.insert layerNumber layer).find other =
      (r.CreateOrGetLayer layerNumber).2.m_layers.find other :=
    LayerMap.findIn_insertIn_other _ _ _ ho _
  rw [h1]
  rcases CreateOrGetLayer_cases r layerNumber with ⟨-, h⟩ | ⟨l, -, h⟩
  · rw [h]
    exact LayerMap.findIn_insertIn_other _ _ _ ho _
  · rw [h]

/-- The chain of the layer that `CreateOrGetLayer` returns is the chain of that layer
before the call (empty for a new layer). -/
theorem CreateOrGetLayer_chain (r : SpriteGameRenderer) (layerNumber : Int) :
    (r.CreateOrGetLayer layerNumber).1.m_effectMaterials = r.effectChain layerNumber := by
  unfold effectChain
  rcases CreateOrGetLayer_cases r layerNumber with ⟨h0, h⟩ | ⟨l, h0, h⟩
  · rw [h, h0]; rfl
  · rw [h, h0]

/-- C27: the effect chain of a layer keeps registration order. `AddEffectToLayer` puts the
effect at the end of the chain of the layer (an absent layer is created with an empty
chain) and leaves every other layer as it was. `RemoveEffectFromLayer` removes the first
occurrence of the effect only: a chain `before ++ effect :: after` with no `effect` in
`before` becomes `before ++ after`, a chain without the effect stays as it is, the result
is always a subsequence of the chain, and every other layer is as it was. `RenderLayer` on
an enabled layer runs one pass per effect of the chain, in chain order. -/
theorem effect_chain_order (r : SpriteGameRenderer) (effectMaterial : Nat)
    (layerNumber : Int) :
    (r.AddEffectToLayer effectMaterial layerNumber).effectChain layerNumber =
      r.effectChain layerNumber ++ [effectMaterial] ∧
    (∀ other : Int, other ≠ layerNumber →
      (r.AddEffectToLayer effectMaterial layerNumber).m_layers.find other =
        r.m_layers.find other) ∧
    (r.RemoveEffectFromLayer effectMaterial layerNumber).effectChain layerNumber =
      eraseEffect effectMaterial (r.effectChain layerNumber) ∧
    (∀ other : Int, other ≠ layerNumber →
      (r.RemoveEffectFromLayer effectMaterial layerNumber).m_layers.find other =
        r.m_layers.find other) ∧
    (∀ before after : List Nat,
      r.effectChain layerNumber = before ++ effectMaterial :: after →
      effectMaterial ∉ before →
      (r.RemoveEffectFromLayer effectMaterial layerNumber).effectChain layerNumber =
        before ++ after) ∧
    (effectMaterial ∉ r.effectChain layerNumber →
      (r.RemoveEffectFromLayer effectMaterial layerNumber).effectChain layerNumber =
        r.effectChain layerNumber) ∧
    ((r.RemoveEffectFromLayer effectMaterial layerNumber).effectChain layerNumber).Sublist
      (r.effectChain layerNumber) ∧
    (∀ (r0 : SpriteGameRenderer) (heap : RenderableHeap) (layer : SpriteLayer)
      (renderArea : ViewportDefinition) (fuel : Nat),
      layer.m_isEnabled = true →
      (∃ members, IsRing heap layer.m_renderablesList members ∧ members.length ≤ fuel) →
      ∃ res, r0.RenderLayer heap layer renderArea fuel = some res ∧
        res.passes.map EffectPass.material = layer.m_effectMaterials) := by
  have hadd : (r.AddEffectToLayer effectMaterial layerNumber).effectChain layerNumber =
      r.effectChain layerNumber ++ [effectMaterial] := by
    have h := (find_replace_layer r layerNumber
      { (r.CreateOrGetLayer layerNumber).1 with
        m_effectMaterials :=
          (r.CreateOrGetLayer layerNumber).1.m_effectMaterials ++ [effectMaterial] }).1
    have h' : (r.AddEffectToLayer effectMaterial layerNumber).m_layers.find layerNumber =
        some { (r.CreateOrGetLayer layerNumber).1 with
          m_effectMaterials :=
            (r.CreateOrGetLayer layerNumber).1.m_effectMaterials ++ [effectMaterial] } := h
    unfold effectChain
    rw [h']
    simp only
    rw [CreateOrGetLayer_chain]
    rfl
  have hrem : (r.RemoveEffectFromLayer effectMaterial layerNumber).effectChain layerNumber =
      eraseEffect effectMaterial (r.effectChain layerNumber) := by
    have h := (find_replace_layer r layerNumber
      { (r.CreateOrGetLayer layerNumber).1 with
        m_effectMaterials :=
          eraseEffect effectMaterial (r.CreateOrGetLayer layerNumber).1.m_effectMaterials }).1
    have h' : (r.RemoveEffectFromLayer effectMaterial layerNumber).m_layers.find layerNumber =
        some { (r.CreateOrGetLayer layerNumber).1 with
          m_effectMaterials :=
            eraseEffect effectMaterial (r.CreateOrGetLayer layerNumber).1.m_effectMaterials } := h
    unfold effectChain
    rw [h']
    simp only
    rw [CreateOrGetLayer_chain]
    rfl
  refine ⟨hadd, ?_, hrem, ?_, ?_, ?_, ?_, ?_⟩
  · intro other ho
    exact (find_replace_layer r layerNumber _).2 other ho
  · intro other ho
    exact (find_replace_layer r layerNumber _).2 other ho
  · intro before after hc hb
    rw [hrem, hc]
    exact eraseEffect_first effectMaterial before after hb
  · intro hn
    rw [hrem]
    exact eraseEffect_not_mem effectMaterial _ hn
  · rw [hrem]
    exact eraseEffect_sublist effectMaterial _
  · intro r0 heap layer renderArea fuel hen hring
    obtain ⟨res, hres, -, hp, -⟩ := RenderLayer_total r0 heap layer renderArea fuel (fun _ => hring)
    refine ⟨res, hres, ?_⟩
    rw [hp, if_pos hen]
    exact (effectLoop_spec layer.m_effectMaterials r0.m_currentFBO r0.m_effectFBO).1

/-- An instance of `effect_chain_order`: on layer 0 of `smallFrame` the effects 7, 8, 7 are
added and then 7 is removed; the chain is 8, 7. -/
theorem effect_chain_order_witness :
    ((((smallFrame.AddEffectToLayer 7 0).AddEffectToLayer 8 0).AddEffectToLayer 7
      0).RemoveEffectFromLayer 7 0).effectChain 0 = [8, 7] := by
  rw [(effect_chain_order _ 7 0).2.2.1, (effect_chain_order _ 7 0).1,
    (effect_chain_order _ 8 0).1, (effect_chain_order smallFrame 7 0).1]
  rfl

end SpriteGameRenderer

/-! ## Theorems: binary32 arithmetic, and the clamp, split screen and spawn loop in `float` -/

namespace Float32

/-- A rational less than a half away from an integer rounds to that integer. -/
theorem roundEven_of_abs_lt (q : ℚ) (k : Int) (h : |q - k| < 1/2) : roundEven q = k := by
  rw [abs_lt] at h
  unfold roundEven
  by_cases hk : (k : ℚ) ≤ q
  · have hf : ⌊q⌋ = k := by
      rw [Int.floor_eq_iff]
      constructor <;> linarith [h.1, h.2]
    rw [hf, if_pos (by linarith [h.2])]
  · push_neg at hk
    have hf : ⌊q⌋ = k - 1 := by
      rw [Int.floor_eq_iff]
      push_cast
      constructor <;> linarith [h.1, h.2]
    rw [hf]
    push_cast
    rw [if_neg (by linarith [h.1]), if_pos (by linarith [h.1])]
    ring

/-- A rational half way between `k` and `k + 1` rounds to the even one of the two. -/
theorem roundEven_half (k : Int) :
    roundEven ((k : ℚ) + 1/2) = if k % 2 = 0 then k else k + 1 := by
  have hf : ⌊(k : ℚ) + 1/2⌋ = k := by
    rw [Int.floor_eq_iff]
    constructor <;> linarith
  unfold roundEven
  rw [hf, if_neg (by linarith), if_neg (by linarith)]

/-- An integer rounds to itself. -/
theorem roundEven_intCast (k : Int) : roundEven (k : ℚ) = k :=
  roundEven_of_abs_lt _ _ (by simp)

/-- Rounding does not go below the floor. -/
theorem floor_le_roundEven (q : ℚ) : ⌊q⌋ ≤ roundEven q := by
  unfold roundEven
  split_ifs <;> omega

/-- A rational more than a half below the integer `M` rounds below `M`. -/
theorem roundEven_le_of_lt (q : ℚ) (M : Int) (h : q < (M : ℚ) - 1/2) :
    roundEven q ≤ M - 1 := by
  have hfl : ((⌊q⌋ : Int) : ℚ) ≤ q := Int.floor_le q
  have h1 : ⌊q⌋ ≤ M - 1 := by
    have : ((⌊q⌋ : Int) : ℚ) < M := by linarith
    have := (Int.cast_lt (R := ℚ)).mp this
    omega
  unfold roundEven
  split_ifs with c1 c2 c3
  · exact h1
  · have : ((⌊q⌋ : Int) : ℚ) + 1 < M := by linarith
    have : ((⌊q⌋ + 1 : Int) : ℚ) < M := by push_cast; linarith
    have := (Int.cast_lt (R := ℚ)).mp this
    omega
  · have h2 : ((⌊q⌋ : Int) : ℚ) + 1 < M := by
      push_neg at c1 c2
      have : q - ⌊q⌋ = 1/2 := le_antisymm c2 c1
      linarith
    have : ((⌊q⌋ + 1 : Int) : ℚ) < M := by push_cast; linarith
    have := (Int.cast_lt (R := ℚ)).mp this
    omega
  · have h2 : ((⌊q⌋ : Int) : ℚ) + 1 < M := by
      push_neg at c1 c2
      have : q - ⌊q⌋ = 1/2 := le_antisymm c2 c1
      linarith
    have : ((⌊q⌋ + 1 : Int) : ℚ) < M := by push_cast; linarith
    have := (Int.cast_lt (R := ℚ)).mp this
    omega

/-- The exponent of a rational between `2^e` and `2^(e+1)`, in the normal range. -/
theorem exponent_eq (x : ℚ) (e : Int) (h1 : (2 : ℚ) ^ e ≤ |x|) (h2 : |x| < (2 : ℚ) ^ (e + 1))
    (he : -126 ≤ e) : exponent x = e := by
  have hpos : 0 < |x| := lt_of_lt_of_le (zpow_pos (by norm_num) e) h1
  have hb : 1 < 2 := by norm_num
  have hlog : Int.log 2 |x| = e := by
    apply le_antisymm
    · have := (Int.lt_zpow_iff_log_lt hb hpos).mp (by simpa using h2)
      omega
    · exact (Int.zpow_le_iff_le_log hb hpos).mp (by simpa using h1)
  unfold exponent
  rw [hlog]
  exact max_eq_left he

/-- Rounding a rational in the normal range: the certificate is the exponent `e` and an
integer `k` within a half of `x / 2^(e-23)`. -/
theorem round_eq (x : ℚ) (e k : Int) (h1 : (2 : ℚ) ^ e ≤ |x|) (h2 : |x| < (2 : ℚ) ^ (e + 1))
    (he : -126 ≤ e) (hk : |x / 2 ^ (e - 23) - k| < 1/2) :
    round x = k * 2 ^ (e - 23) := by
  unfold round ulp
  rw [exponent_eq x e h1 h2 he, roundEven_of_abs_lt _ _ hk]

/-- Rounding a rational that lies half way between two binary32 values. -/
theorem round_eq_tie (x : ℚ) (e k : Int) (h1 : (2 : ℚ) ^ e ≤ |x|)
    (h2 : |x| < (2 : ℚ) ^ (e + 1)) (he : -126 ≤ e) (hk : x / 2 ^ (e - 23) = k + 1/2) :
    round x = ((if k % 2 = 0 then k else k + 1 : Int) : ℚ) * 2 ^ (e - 23) := by
  unfold round ulp
  rw [exponent_eq x e h1 h2 he, hk, roundEven_half]

/-- Zero is a binary32 value. -/
theorem round_zero : round 0 = 0 := by
  have h : roundEven 0 = 0 := by simpa using roundEven_intCast 0
  unfold round
  rw [zero_div, h]
  simp

/-- An integer of less than 24 bits times a power of two, not below the subnormal spacing,
is a binary32 value. -/
theorem round_of_grid (m j : Int) (hm : |m| < 2 ^ 24) (hj : -149 ≤ j) :
    round ((m : ℚ) * 2 ^ j) = (m : ℚ) * 2 ^ j := by
  by_cases h0 : m = 0
  · subst h0
    simp [round_zero]
  have h2 : (0 : ℚ) < 2 := by norm_num
  have hb : 1 < 2 := by norm_num
  have hmq : (0 : ℚ) < |(m : ℚ)| := abs_pos.mpr (by exact_mod_cast h0)
  have hx : |(m : ℚ) * 2 ^ j| = |(m : ℚ)| * 2 ^ j := by
    rw [abs_mul, abs_of_pos (zpow_pos h2 j)]
  have hxpos : 0 < |(m : ℚ) * 2 ^ j| := by
    rw [hx]; exact mul_pos hmq (zpow_pos h2 j)
  have hmlt : |(m : ℚ)| < 2 ^ (24 : ℤ) := by
    have h := (Int.cast_lt (R := ℚ)).mpr hm
    push_cast at h
    norm_num at h ⊢
    exact h
  have hlt : |(m : ℚ) * 2 ^ j| < (2 : ℚ) ^ (24 + j) := by
    rw [hx, zpow_add₀ (ne_of_gt h2)]
    exact mul_lt_mul_of_pos_right hmlt (zpow_pos h2 j)
  have hlog : Int.log 2 |(m : ℚ) * 2 ^ j| < 24 + j :=
    (Int.lt_zpow_iff_log_lt hb hxpos).mp (by simpa using hlt)
  have hE : exponent ((m : ℚ) * 2 ^ j) ≤ j + 23 := by
    unfold exponent
    exact max_le (by omega) (by omega)
  obtain ⟨d, hd⟩ : ∃ d : Nat, (d : Int) = j + 23 - exponent ((m : ℚ) * 2 ^ j) :=
    ⟨(j + 23 - exponent ((m : ℚ) * 2 ^ j)).toNat, Int.toNat_of_nonneg (by omega)⟩
  have hq : (m : ℚ) * 2 ^ j / 2 ^ (exponent ((m : ℚ) * 2 ^ j) - 23) =
      ((m * 2 ^ d : Int) : ℚ) := by
    rw [mul_div_assoc, ← zpow_sub₀ (ne_of_gt h2)]
    have : j - (exponent ((m : ℚ) * 2 ^ j) - 23) = (d : Int) := by omega
    rw [this, zpow_natCast]
    push_cast
    ring
  unfold round ulp
  rw [hq, roundEven_intCast]
  push_cast
  rw [mul_assoc, ← zpow_natCast, ← zpow_add₀ (ne_of_gt h2)]
  congr 2
  omega

/-- A natural number up to `2^24` is a binary32 value. -/
theorem round_natCast (n : Nat) (h : n ≤ 2 ^ 24) : round (n : ℚ) = n := by
  by_cases hlt : n < 2 ^ 24
  · have := round_of_grid (n : Int) 0 (by
      rw [abs_of_nonneg (by positivity)]
      exact_mod_cast hlt) (by norm_num)
    simpa using this
  · have hn : n = 2 ^ 24 := by omega
    subst hn
    have := round_of_grid 1 24 (by norm_num) (by norm_num)
    norm_num at this ⊢
    exact this

/-- The `float` quotient of two naturals up to `2^24`, cut to an integer, is the integer
quotient: the rounding of the division never reaches the next integer. -/
theorem floor_round_div (W d : Nat) (hW : W ≤ 2 ^ 24) (hd1 : 1 ≤ d) (hd2 : d ≤ 2 ^ 24) :
    ⌊round ((W : ℚ) / d)⌋ = ((W / d : Nat) : Int) := by
  have hdq : (0 : ℚ) < d := by exact_mod_cast hd1
  have hmod := Nat.div_add_mod W d
  have hqW : W / d ≤ W := Nat.div_le_self _ _
  have hrlt : W % d < d := Nat.mod_lt _ hd1
  have hdvd : d ∣ W → W % d = 0 := Nat.mod_eq_zero_of_dvd
  generalize W / d = q at *
  generalize W % d = r at *
  have hWq : (W : ℚ) = d * (q : ℚ) + (r : ℚ) := by
    exact_mod_cast hmod.symm
  by_cases hr : r = 0
  · have hx : (W : ℚ) / d = (q : ℚ) := by
      rw [div_eq_iff (ne_of_gt hdq), hWq, hr]
      push_cast
      ring
    rw [hx, round_natCast _ (le_trans hqW hW)]
    exact Int.floor_natCast q
  · have hrpos : 1 ≤ r := by omega
    have hrq1 : (1 : ℚ) ≤ (r : ℚ) := by exact_mod_cast hrpos
    have hrq2 : (r : ℚ) + 1 ≤ d := by exact_mod_cast hrlt
    have hWle : (W : ℚ) ≤ 2 ^ 24 := by exact_mod_cast hW
    have hdle : (d : ℚ) ≤ 2 ^ 24 := by exact_mod_cast hd2
    have h2 : (0 : ℚ) < 2 := by norm_num
    have hb : 1 < 2 := by norm_num
    -- the quotient x = q + r / d
    have hxd : (W : ℚ) / d * d = W := div_mul_cancel₀ _ (ne_of_gt hdq)
    have hxq : (q : ℚ) < (W : ℚ) / d := by
      rw [lt_div_iff₀ hdq]; nlinarith
    have hxu : (W : ℚ) / d + 1 / d ≤ (q : ℚ) + 1 := by
      rw [← add_div, div_le_iff₀ hdq]; nlinarith
    have hxpos : 0 < (W : ℚ) / d := lt_of_le_of_lt (by positivity) hxq
    have hWpos : (0 : ℚ) < W := by
      by_contra h
      have : (W : ℚ) = 0 := le_antisymm (not_lt.mp h) (by positivity)
      rw [this, zero_div] at hxpos
      exact lt_irrefl 0 hxpos
    have habs : |(W : ℚ) / d| = (W : ℚ) / d := abs_of_pos hxpos
    -- the exponent
    have hlo : (2 : ℚ) ^ Int.log 2 ((W : ℚ) / d) ≤ (W : ℚ) / d := by
      simpa using Int.zpow_log_le_self hb hxpos
    have hhi : (W : ℚ) / d < (2 : ℚ) ^ (Int.log 2 ((W : ℚ) / d) + 1) := by
      simpa using Int.lt_zpow_succ_log_self hb ((W : ℚ) / d)
    have hemin : -24 ≤ Int.log 2 ((W : ℚ) / d) := by
      apply (Int.zpow_le_iff_le_log hb hxpos).mp
      have : (2 : ℚ) ^ (-24 : ℤ) = 1 / 2 ^ 24 := by norm_num
      simp only [Nat.cast_ofNat]
      rw [this, div_le_div_iff₀ (by positivity) hdq]
      have : (1 : ℚ) ≤ W := by
        have : (1 : ℕ) ≤ W := by
          rcases Nat.eq_zero_or_pos W with h | h
          · rw [h] at hWpos; simp at hWpos
          · exact h
        exact_mod_cast this
      nlinarith
    have hemax : Int.log 2 ((W : ℚ) / d) < 24 := by
      apply (Int.lt_zpow_iff_log_lt hb hxpos).mp
      simp only [Nat.cast_ofNat]
      have : (2 : ℚ) ^ (24 : ℤ) = 2 ^ 24 := by norm_num
      rw [this, div_lt_iff₀ hdq]
      have : (2 : ℚ) ≤ d := by
        have : 2 ≤ d := by omega
        exact_mod_cast this
      nlinarith
    obtain ⟨e, he⟩ : ∃ e : Int, e = Int.log 2 ((W : ℚ) / d) := ⟨_, rfl⟩
    rw [← he] at hlo hhi hemin hemax
    obtain ⟨c, hc⟩ : ∃ c : Nat, (c : Int) = 23 - e := ⟨(23 - e).toNat, Int.toNat_of_nonneg (by omega)⟩
    have hu : (2 : ℚ) ^ (e - 23) = 1 / 2 ^ c := by
      have : e - 23 = -(c : Int) := by omega
      rw [this, zpow_neg, zpow_natCast, one_div]
    have hexp : exponent ((W : ℚ) / d) = e :=
      exponent_eq _ e (by rw [habs]; exact hlo) (by rw [habs]; exact hhi) (by omega)
    have hcpos : (0 : ℚ) < 2 ^ c := by positivity
    -- the strict bound d < 2^(c+1)
    have hdc : (d : ℚ) < 2 * 2 ^ c := by
      by_contra hcon
      push_neg at hcon
      have h24 : (2 : ℚ) ^ e * 2 ^ c = 2 ^ (23 : ℤ) := by
        rw [← zpow_natCast, ← zpow_add₀ (ne_of_gt h2)]
        congr 1
        omega
      have h23 : (2 : ℚ) ^ (23 : ℤ) = 2 ^ 23 := by norm_num
      have hWd : (2 : ℚ) ^ e * d ≤ W := by
        have := mul_le_mul_of_nonneg_right hlo hdq.le
        rwa [hxd] at this
      have hpe : (0 : ℚ) < 2 ^ e := zpow_pos h2 e
      have hW24 : (W : ℚ) = 2 ^ 24 := by
        apply le_antisymm hWle
        have : (2 : ℚ) ^ e * (2 * 2 ^ c) ≤ 2 ^ e * d := mul_le_mul_of_nonneg_left hcon hpe.le
        have h3 : (2 : ℚ) ^ e * (2 * 2 ^ c) = 2 ^ 24 := by
          rw [mul_comm 2 _, ← mul_assoc, h24, h23]; norm_num
        linarith
      have hd_eq : (d : ℚ) = 2 * 2 ^ c := by
        apply le_antisymm _ hcon
        have h3 : (2 : ℚ) ^ e * (2 * 2 ^ c) = 2 ^ 24 := by
          rw [mul_comm 2 _, ← mul_assoc, h24, h23]; norm_num
        have : (2 : ℚ) ^ e * d ≤ 2 ^ e * (2 * 2 ^ c) := by rw [h3, ← hW24]; exact hWd
        exact le_of_mul_le_mul_left this hpe
      have hdn : d = 2 ^ (c + 1) := by
        have : (d : ℚ) = ((2 ^ (c + 1) : Nat) : ℚ) := by
          rw [hd_eq]; push_cast; ring
        exact_mod_cast this
      have hWn : W = 2 ^ 24 := by exact_mod_cast hW24
      have hc24 : c + 1 ≤ 24 := by
        have : (2 : Nat) ^ (c + 1) ≤ 2 ^ 24 := hdn ▸ hd2
        exact (Nat.pow_le_pow_iff_right (by norm_num)).mp this
      have hdW : d ∣ W := by
        rw [hdn, hWn]
        exact pow_dvd_pow 2 hc24
      exact hr (hdvd hdW)
    -- the rounded quotient
    have hround : round ((W : ℚ) / d) =
        (roundEven ((W : ℚ) / d * 2 ^ c) : ℚ) / 2 ^ c := by
      unfold round ulp
      rw [hexp, hu]
      field_simp
    rw [hround, Int.floor_eq_iff]
    constructor
    · rw [le_div_iff₀ hcpos]
      have hA : (((q : Nat) * 2 ^ c : Int) : ℚ) ≤ (W : ℚ) / d * 2 ^ c := by
        push_cast
        exact mul_le_mul_of_nonneg_right hxq.le hcpos.le
      have h1 := Int.le_floor.mpr hA
      have h2' := floor_le_roundEven ((W : ℚ) / d * 2 ^ c)
      have : (((q : Nat) * 2 ^ c : Int) : ℚ) ≤ (roundEven ((W : ℚ) / d * 2 ^ c) : ℚ) :=
        Int.cast_le.mpr (le_trans h1 h2')
      push_cast at this
      exact_mod_cast this
    · rw [div_lt_iff₀ hcpos]
      have hy : (W : ℚ) / d * 2 ^ c < ((((q : Nat) + 1) * 2 ^ c : Int) : ℚ) - 1 / 2 := by
        push_cast
        have h1 : (W : ℚ) / d * 2 ^ c ≤ ((q : ℚ) + 1 - 1 / d) * 2 ^ c :=
          mul_le_mul_of_nonneg_right (by linarith) hcpos.le
        have h3 : (1 : ℚ) / 2 < 1 / d * 2 ^ c := by
          rw [one_div_mul_eq_div, lt_div_iff₀ hdq]
          linarith
        have h4 : ((q : ℚ) + 1 - 1 / d) * 2 ^ c =
            ((q : ℚ) + 1) * 2 ^ c - 1 / d * 2 ^ c := by ring
        linarith
      have hk := roundEven_le_of_lt _ _ hy
      have : (roundEven ((W : ℚ) / d * 2 ^ c) : ℚ) ≤
          (((((q : Nat) + 1) * 2 ^ c - 1 : Int)) : ℚ) := Int.cast_le.mpr hk
      push_cast at this
      push_cast
      linarith

end Float32

namespace F32
namespace SpriteGameRenderer
open Engine.SpriteGameRenderer

/-- The viewports of `SetSplitscreen(n)` after `UpdateScreenResolution(W, H)`, for `W`, `H`
and `n` up to `2^24`: viewport `i` is `W / n` wide (the integer quotient), `H` high, and
starts at `i * (W / n)`. -/
theorem SetSplitscreen_viewports (r : Engine.SpriteGameRenderer) (W H n : Nat)
    (hn : 1 ≤ n) (hW : W ≤ 2 ^ 24) (hH : H ≤ 2 ^ 24) (hn2 : n ≤ 2 ^ 24) :
    (SetSplitscreen (UpdateScreenResolution r W H) n).m_viewportDefinitions =
      (List.range n).map (fun i =>
        { m_bottomLeftX := i * (W / n), m_bottomLeftY := 0, m_viewportWidth := W / n,
          m_viewportHeight := H,
          m_viewportAspectRatio := Float32.div ((W / n : Nat) : ℚ) (H : ℚ),
          m_cameraPosition := Vector2.ZERO }) := by
  have hWf : Float32.ofInt (W : Int) = (W : ℚ) := by
    unfold Float32.ofInt
    simpa using Float32.round_natCast W hW
  have hHf : Float32.ofInt (H : Int) = (H : ℚ) := by
    unfold Float32.ofInt
    simpa using Float32.round_natCast H hH
  have hnf : Float32.ofInt (n : Int) = (n : ℚ) := by
    unfold Float32.ofInt
    simpa using Float32.round_natCast n hn2
  have hdiv : W / n ≤ W := Nat.div_le_self _ _
  have hqf : Float32.ofInt ((W / n : Nat) : Int) = ((W / n : Nat) : ℚ) := by
    unfold Float32.ofInt
    simpa using Float32.round_natCast (W / n) (by omega)
  have hfl : ∀ k : Nat, floatToInt (k : ℚ) = (k : Int) := by
    intro k
    unfold floatToInt
    rw [if_pos (by positivity)]
    exact Int.floor_natCast _
  have hq : floatToInt (Float32.div (W : ℚ) (n : ℚ)) = ((W / n : Nat) : Int) := by
    have h0 : (0 : ℚ) ≤ Float32.div (W : ℚ) (n : ℚ) := by
      have h := Float32.floor_round_div W n hW hn hn2
      unfold Float32.div
      by_contra hneg
      push_neg at hneg
      have hlt : ⌊Float32.round ((W : ℚ) / n)⌋ < 0 := Int.floor_lt.mpr (by simpa using hneg)
      rw [h] at hlt
      exact absurd hlt (not_lt.mpr (Int.natCast_nonneg _))
    unfold floatToInt
    rw [if_pos h0]
    exact Float32.floor_round_div W n hW hn hn2
  have hu : ∀ k : Nat, k < 2 ^ 32 → toUInt32 (k : Int) = k := by
    intro k hk
    unfold toUInt32
    rw [Int.emod_eq_of_lt (by positivity) (by exact_mod_cast hk)]
    exact Int.toNat_natCast k
  unfold SetSplitscreen UpdateScreenResolution
  simp only [hWf, hHf, hnf, hq, hqf, hfl]
  apply List.map_congr_left
  intro i hi
  have hin : i < n := List.mem_range.mp hi
  have hle : i * (W / n) ≤ W := by
    calc i * (W / n) ≤ n * (W / n) := Nat.mul_le_mul_right _ (le_of_lt hin)
      _ ≤ W := Nat.mul_div_le W n
  have h1 : toUInt32 ((i : Int) * ((W / n : Nat) : Int)) = i * (W / n) := by
    have := hu (i * (W / n)) (by omega)
    rw [← this]
    push_cast
    rfl
  have h2 : toUInt32 ((W / n : Nat) : Int) = W / n := hu _ (by omega)
  have h3 : toUInt32 (H : Int) = H := hu _ (by omega)
  rw [h1, h2, h3]

/-- C14 (as amended): on a physical resolution of `W` by `H` pixels and for `n` views, with
`1 ≤ n` and `W`, `H`, `n` at most `2^24` (the integers a `float` holds without rounding),
`SetSplitscreen(n)` after `UpdateScreenResolution(W, H)` produces `n` viewports of height
`H` and of equal width `W / n` (the quotient of the integer division), left to right:
viewport `i` starts at `x = i * (W / n)`, so viewport 0 starts at 0 and each viewport starts
where the one before ends; the last viewport ends at `x = n * (W / n) = W - W % n`, which is
at most `W`, and is `W` exactly when `n` divides `W`. -/
theorem split_screen_tiling (r : Engine.SpriteGameRenderer) (W H n : Nat)
    (hn : 1 ≤ n) (hW : W ≤ 2 ^ 24) (hH : H ≤ 2 ^ 24) (hn2 : n ≤ 2 ^ 24) :
    (SetSplitscreen (UpdateScreenResolution r W H) n).m_numSplitscreenViews = n ∧
    (SetSplitscreen (UpdateScreenResolution r W H) n).m_viewportDefinitions.length = n ∧
    (∀ (i : Nat)
      (h : i < (SetSplitscreen (UpdateScreenResolution r W H) n).m_viewportDefinitions.length),
      ((SetSplitscreen (UpdateScreenResolution r W H) n).m_viewportDefinitions.get
        ⟨i, h⟩).m_viewportHeight = H ∧
      ((SetSplitscreen (UpdateScreenResolution r W H) n).m_viewportDefinitions.get
        ⟨i, h⟩).m_viewportWidth = W / n ∧
      ((SetSplitscreen (UpdateScreenResolution r W H) n).m_viewportDefinitions.get
        ⟨i, h⟩).m_bottomLeftX = i * (W / n) ∧
      ((SetSplitscreen (UpdateScreenResolution r W H) n).m_viewportDefinitions.get
        ⟨i, h⟩).m_bottomLeftY = 0) ∧
    (∀ (i : Nat)
      (h : i + 1 <
        (SetSplitscreen (UpdateScreenResolution r W H) n).m_viewportDefinitions.length),
      ((SetSplitscreen (UpdateScreenResolution r W H) n).m_viewportDefinitions.get
        ⟨i + 1, h⟩).m_bottomLeftX =
        ((SetSplitscreen (UpdateScreenResolution r W H) n).m_viewportDefinitions.get
          ⟨i, Nat.lt_of_succ_lt h⟩).m_bottomLeftX +
        ((SetSplitscreen (UpdateScreenResolution r W H) n).m_viewportDefinitions.get
          ⟨i, Nat.lt_of_succ_lt h⟩).m_viewportWidth) ∧
    (∀ h : n - 1 <
        (SetSplitscreen (UpdateScreenResolution r W H) n).m_viewportDefinitions.length,
      ((SetSplitscreen (UpdateScreenResolution r W H) n).m_viewportDefinitions.get
        ⟨n - 1, h⟩).m_bottomLeftX +
        ((SetSplitscreen (UpdateScreenResolution r W H) n).m_viewportDefinitions.get
          ⟨n - 1, h⟩).m_viewportWidth = n * (W / n) ∧
      n * (W / n) = W - W % n ∧ n * (W / n) ≤ W ∧ (n * (W / n) = W ↔ n ∣ W)) := by
  have hv := SetSplitscreen_viewports r W H n hn hW hH hn2
  have hget : ∀ (i : Nat)
      (h : i < (SetSplitscreen (UpdateScreenResolution r W H) n).m_viewportDefinitions.length),
      (SetSplitscreen (UpdateScreenResolution r W H) n).m_viewportDefinitions.get ⟨i, h⟩ =
        { m_bottomLeftX := i * (W / n), m_bottomLeftY := 0, m_viewportWidth := W / n,
          m_viewportHeight := H,
          m_viewportAspectRatio := Float32.div ((W / n : Nat) : ℚ) (H : ℚ),
          m_cameraPosition := Vector2.ZERO } := by
    intro i h
    simp only [List.get_eq_getElem, hv, List.getElem_map, List.getElem_range]
  refine ⟨rfl, by rw [hv]; simp, ?_, ?_, ?_⟩
  · intro i h
    rw [hget i h]
    exact ⟨rfl, rfl, rfl, rfl⟩
  · intro i h
    rw [hget (i + 1) h, hget i (Nat.lt_of_succ_lt h)]
    simp only
    ring
  · intro h
    rw [hget (n - 1) h]
    simp only
    have hmod := Nat.div_add_mod W n
    have hdm : n * (W / n) = W - W % n := by omega
    refine ⟨?_, hdm, Nat.mul_div_le W n, ?_⟩
    · have : n - 1 + 1 = n := by omega
      calc (n - 1) * (W / n) + W / n = (n - 1 + 1) * (W / n) := by ring
        _ = n * (W / n) := by rw [this]
    · constructor
      · intro he
        exact Dvd.intro _ he
      · intro hd
        exact Nat.mul_div_cancel' hd

/-- Witness for `split_screen_tiling`: a screen of 10 by 10 pixels split in 2. -/
theorem split_screen_tiling_witness :
    (1 ≤ 2 ∧ 10 ≤ 2 ^ 24 ∧ 10 ≤ 2 ^ 24 ∧ 2 ≤ 2 ^ 24) ∧
    (SetSplitscreen (UpdateScreenResolution smallFrame 10 10) 2).m_viewportDefinitions.length
      = 2 :=
  ⟨⟨by decide, by decide, by decide, by decide⟩,
    (split_screen_tiling smallFrame 10 10 2 (by decide) (by decide) (by decide)
      (by decide)).2.1⟩

/-- Counterexample to C14 as stated: on a screen of 10 by 10 pixels, `SetSplitscreen(3)`
makes three viewports 3 pixels wide at `x = 0, 3, 6`; the last one ends at `x = 9`, not at
the physical width 10. -/
theorem split_screen_last_viewport_short :
    (SetSplitscreen (UpdateScreenResolution smallFrame 10 10) 3).m_viewportDefinitions.map
        (fun v => (v.m_bottomLeftX, v.m_viewportWidth, v.m_viewportHeight)) =
      [(0, 3, 10), (3, 3, 10), (6, 3, 10)] ∧
    (∀ v ∈ (SetSplitscreen (UpdateScreenResolution smallFrame 10 10) 3).m_viewportDefinitions,
      v.m_bottomLeftX + v.m_viewportWidth ≠ 10) := by
  have hv := SetSplitscreen_viewports smallFrame 10 10 3 (by decide) (by decide) (by decide)
    (by decide)
  rw [hv]
  constructor
  · simp [List.range_succ]
  · intro v hvm
    simp only [List.mem_map, List.mem_range] at hvm
    obtain ⟨i, hi, rfl⟩ := hvm
    simp only
    have : (10 : Nat) / 3 = 3 := by norm_num
    rw [this]
    omega

end SpriteGameRenderer

namespace SpriteGameRenderer
open Engine.SpriteGameRenderer

/-- The bound `2^24` on the width of the screen cannot be raised: on a screen `2^24 + 1`
pixels wide, `static_cast<float>` rounds the width to `2^24`, and the one viewport of
`SetSplitscreen(1)` is `2^24` wide, not `2^24 + 1`. -/
theorem split_screen_width_rounded :
    Float32.ofInt (2 ^ 24 + 1) = 2 ^ 24 ∧
    (SetSplitscreen (UpdateScreenResolution smallFrame (2 ^ 24 + 1) 10) 1).m_viewportDefinitions.map
        (fun v => (v.m_bottomLeftX, v.m_viewportWidth)) = [(0, 2 ^ 24)] := by
  have h1 : Float32.ofInt (2 ^ 24 + 1) = 2 ^ 24 := by
    unfold Float32.ofInt
    have h := Float32.round_eq_tie (((2 ^ 24 + 1 : Int)) : ℚ) 24 (2 ^ 23) (by norm_num)
      (by norm_num) (by norm_num) (by norm_num)
    rw [h]
    norm_num
  have h2 : Float32.ofInt ((1 : Nat) : Int) = 1 := by
    unfold Float32.ofInt
    simpa using Float32.round_natCast 1 (by norm_num)
  have h3 : Float32.round ((2 : ℚ) ^ 24) = 2 ^ 24 := by
    simpa using Float32.round_natCast (2 ^ 24) (le_refl _)
  have h4 : Float32.ofInt ((2 : Int) ^ 24) = 2 ^ 24 := by
    unfold Float32.ofInt
    simpa using h3
  have h5 : floatToInt ((2 : ℚ) ^ 24) = 2 ^ 24 := by
    unfold floatToInt
    rw [if_pos (by positivity)]
    rw [Int.floor_eq_iff]
    norm_num
  have h6 : toUInt32 ((2 : Int) ^ 24) = 2 ^ 24 := by
    unfold toUInt32
    norm_num
    rfl
  refine ⟨h1, ?_⟩
  unfold SetSplitscreen UpdateScreenResolution
  have h1' : Float32.ofInt (((2 ^ 24 + 1 : Nat)) : Int) = 2 ^ 24 := by
    simpa using h1
  simp only [h1', h2, Float32.div, div_one, h3, h5, h4, h6]
  have hr : List.range 1 = [0] := rfl
  rw [hr]
  simp only [List.map_cons, List.map_nil, Nat.cast_zero, zero_mul]
  have h7 : toUInt32 0 = 0 := rfl
  rw [h7]

end SpriteGameRenderer
end F32

namespace Float32

/-- A value on a grid is an integer of bounded magnitude times the power of two. -/
theorem OnGrid.exists_int {j : Int} {B : Nat} {x : ℚ} (h : OnGrid j B x) :
    ∃ m : Int, |m| ≤ (B : Int) ∧ x = (m : ℚ) * 2 ^ j := by
  obtain ⟨hd, hb⟩ := h
  have hg : (2 : ℚ) ^ j ≠ 0 := ne_of_gt (zpow_pos (by norm_num) j)
  have hnum : ((x / 2 ^ j).num : ℚ) = x / 2 ^ j := Rat.den_eq_one_iff _ |>.mp hd
  refine ⟨(x / 2 ^ j).num, ?_, ?_⟩
  · rw [← hnum] at hb
    exact_mod_cast hb
  · rw [hnum, div_mul_cancel₀ _ hg]

/-- An integer of bounded magnitude times the power of two is on the grid. -/
theorem OnGrid.of_int (j : Int) (B : Nat) (m : Int) (hm : |m| ≤ (B : Int)) :
    OnGrid j B ((m : ℚ) * 2 ^ j) := by
  have hg : (2 : ℚ) ^ j ≠ 0 := ne_of_gt (zpow_pos (by norm_num) j)
  unfold OnGrid
  rw [mul_div_assoc, div_self hg, mul_one]
  exact ⟨Rat.den_intCast m, by exact_mod_cast hm⟩

/-- A value on a grid with fewer than 24 bits is a binary32 value. -/
theorem OnGrid.exact {j : Int} {B : Nat} {x : ℚ} (h : OnGrid j B x) (hB : B < 2 ^ 24)
    (hj : -149 ≤ j) : round x = x := by
  obtain ⟨m, hm, rfl⟩ := h.exists_int
  exact round_of_grid m j (by omega) hj

/-- The sum of two values on one grid. -/
theorem OnGrid.sum {j : Int} {B C : Nat} {x y : ℚ} (hx : OnGrid j B x) (hy : OnGrid j C y) :
    OnGrid j (B + C) (x + y) := by
  obtain ⟨m, hm, rfl⟩ := hx.exists_int
  obtain ⟨n, hn, rfl⟩ := hy.exists_int
  have e : (m : ℚ) * 2 ^ j + (n : ℚ) * 2 ^ j = ((m + n : Int) : ℚ) * 2 ^ j := by
    push_cast; ring
  rw [e]
  apply OnGrid.of_int
  rw [abs_le] at hm hn ⊢
  push_cast
  constructor <;> omega

/-- The difference of two values on one grid. -/
theorem OnGrid.diff {j : Int} {B C : Nat} {x y : ℚ} (hx : OnGrid j B x) (hy : OnGrid j C y) :
    OnGrid j (B + C) (x - y) := by
  obtain ⟨m, hm, rfl⟩ := hx.exists_int
  obtain ⟨n, hn, rfl⟩ := hy.exists_int
  have e : (m : ℚ) * 2 ^ j - (n : ℚ) * 2 ^ j = ((m - n : Int) : ℚ) * 2 ^ j := by
    push_cast; ring
  rw [e]
  apply OnGrid.of_int
  rw [abs_le] at hm hn ⊢
  push_cast
  constructor <;> omega

/-- Zero is on every grid. -/
theorem OnGrid.origin (j : Int) (B : Nat) : OnGrid j B 0 := by
  have h := OnGrid.of_int j B 0 (by simp)
  simpa using h

/-- A value on a grid is on every grid with a larger bound. -/
theorem OnGrid.widen {j : Int} {B C : Nat} {x : ℚ} (hx : OnGrid j B x) (h : B ≤ C) :
    OnGrid j C x :=
  ⟨hx.1, hx.2.trans (by exact_mod_cast h)⟩

end Float32

namespace F32
namespace SpriteGameRenderer

open Engine.SpriteGameRenderer

/-- On a binary grid no operation of the clamp rounds: the `float` clamp and the clamp in
exact arithmetic give the same renderer. -/
theorem UpdateCamera_exact (r : Engine.SpriteGameRenderer) (p : Engine.Vector2) (s : ℚ)
    (j : Int) (hg : ClampOnGrid j r p s) :
    UpdateCameraPositionInWorldBounds r p s = r.UpdateCameraPositionInWorldBounds p s := by
  obtain ⟨hj, -, gpx, gpy, ghx, ghy, glx, gly, ghix, ghiy⟩ := hg
  have B1 : (2 : ℕ) ^ 22 < 2 ^ 24 := by norm_num
  have B2 : (2 : ℕ) ^ 22 + 2 ^ 22 < 2 ^ 24 := by norm_num
  have B3 : (2 : ℕ) ^ 22 + (2 ^ 22 + 2 ^ 22) < 2 ^ 24 := by norm_num
  have B3' : (2 : ℕ) ^ 22 + 2 ^ 22 + 2 ^ 22 < 2 ^ 24 := by norm_num
  have B4 : (2 : ℕ) ^ 22 + 0 < 2 ^ 24 := by norm_num
  have e1 := ghx.exact B1 hj
  have e2 := ghy.exact B1 hj
  have e3 := glx.exact B1 hj
  have e4 := gly.exact B1 hj
  have e5 := ghix.exact B1 hj
  have e6 := ghiy.exact B1 hj
  have e7 := (gpx.diff ghx).exact B2 hj
  have e8 := (gpy.diff ghy).exact B2 hj
  have e9 := (gpx.sum ghx).exact B2 hj
  have e10 := (gpy.sum ghy).exact B2 hj
  have e11 := (glx.diff (gpx.diff ghx)).exact B3 hj
  have e12 := (gly.diff (gpy.diff ghy)).exact B3 hj
  have e13 := (ghix.diff (gpx.sum ghx)).exact B3 hj
  have e14 := (ghiy.diff (gpy.sum ghy)).exact B3 hj
  have e15 := (gpx.sum (Float32.OnGrid.origin j 0)).exact B4 hj
  have e16 := (gpy.sum (Float32.OnGrid.origin j 0)).exact B4 hj
  -- the corrected coordinates are sums of at most three grid values
  have e17 : Float32.round (p.x + (r.m_worldBounds.mins.x * s - (p.x - r.m_virtualWidth * (1/2))))
      = p.x + (r.m_worldBounds.mins.x * s - (p.x - r.m_virtualWidth * (1/2))) := by
    have h := (glx.sum ghx).exact B2 hj
    have e : p.x + (r.m_worldBounds.mins.x * s - (p.x - r.m_virtualWidth * (1/2))) =
        r.m_worldBounds.mins.x * s + r.m_virtualWidth * (1/2) := by ring
    rw [e]; exact h
  have e18 : Float32.round (p.y + (r.m_worldBounds.mins.y * s - (p.y - r.m_virtualHeight * (1/2))))
      = p.y + (r.m_worldBounds.mins.y * s - (p.y - r.m_virtualHeight * (1/2))) := by
    have h := (gly.sum ghy).exact B2 hj
    have e : p.y + (r.m_worldBounds.mins.y * s - (p.y - r.m_virtualHeight * (1/2))) =
        r.m_worldBounds.mins.y * s + r.m_virtualHeight * (1/2) := by ring
    rw [e]; exact h
  have e19 : Float32.round (p.x + (r.m_worldBounds.maxs.x * s - (p.x + r.m_virtualWidth * (1/2))))
      = p.x + (r.m_worldBounds.maxs.x * s - (p.x + r.m_virtualWidth * (1/2))) := by
    have h := (ghix.diff ghx).exact B2 hj
    have e : p.x + (r.m_worldBounds.maxs.x * s - (p.x + r.m_virtualWidth * (1/2))) =
        r.m_worldBounds.maxs.x * s - r.m_virtualWidth * (1/2) := by ring
    rw [e]; exact h
  have e20 : Float32.round (p.y + (r.m_worldBounds.maxs.y * s - (p.y + r.m_virtualHeight * (1/2))))
      = p.y + (r.m_worldBounds.maxs.y * s - (p.y + r.m_virtualHeight * (1/2))) := by
    have h := (ghiy.diff ghy).exact B2 hj
    have e : p.y + (r.m_worldBounds.maxs.y * s - (p.y + r.m_virtualHeight * (1/2))) =
        r.m_worldBounds.maxs.y * s - r.m_virtualHeight * (1/2) := by ring
    rw [e]; exact h
  have e21 : Float32.round (p.x + (r.m_worldBounds.mins.x * s - (p.x - r.m_virtualWidth * (1/2)))
        + (r.m_worldBounds.maxs.x * s - (p.x + r.m_virtualWidth * (1/2))))
      = p.x + (r.m_worldBounds.mins.x * s - (p.x - r.m_virtualWidth * (1/2)))
        + (r.m_worldBounds.maxs.x * s - (p.x + r.m_virtualWidth * (1/2))) := by
    have h := ((glx.sum ghix).diff gpx).exact B3' hj
    have e : p.x + (r.m_worldBounds.mins.x * s - (p.x - r.m_virtualWidth * (1/2)))
        + (r.m_worldBounds.maxs.x * s - (p.x + r.m_virtualWidth * (1/2))) =
        r.m_worldBounds.mins.x * s + r.m_worldBounds.maxs.x * s - p.x := by ring
    rw [e]; exact h
  have e22 : Float32.round (p.y + (r.m_worldBounds.mins.y * s - (p.y - r.m_virtualHeight * (1/2)))
        + (r.m_worldBounds.maxs.y * s - (p.y + r.m_virtualHeight * (1/2))))
      = p.y + (r.m_worldBounds.mins.y * s - (p.y - r.m_virtualHeight * (1/2)))
        + (r.m_worldBounds.maxs.y * s - (p.y + r.m_virtualHeight * (1/2))) := by
    have h := ((gly.sum ghiy).diff gpy).exact B3' hj
    have e : p.y + (r.m_worldBounds.mins.y * s - (p.y - r.m_virtualHeight * (1/2)))
        + (r.m_worldBounds.maxs.y * s - (p.y + r.m_virtualHeight * (1/2))) =
        r.m_worldBounds.mins.y * s + r.m_worldBounds.maxs.y * s - p.y := by ring
    rw [e]; exact h
  simp only [add_zero] at e15 e16
  simp only [UpdateCameraPositionInWorldBounds, GetVirtualBoundsAroundCameraCenter,
    AABB2.mulScale, Vector2.scale, Vector2.sub, Vector2.add, Vector2.CalculateCorrectionVector,
    Float32.add, Float32.sub, Float32.mul,
    Engine.SpriteGameRenderer.UpdateCameraPositionInWorldBounds,
    Engine.SpriteGameRenderer.GetVirtualBoundsAroundCameraCenter,
    Engine.AABB2.mulScale, Engine.Vector2.scale, Engine.Vector2.sub, Engine.Vector2.add,
    Engine.Vector2.CalculateCorrectionVector, Engine.AABB2.IsPointOnOrInside,
    e1, e2, e3, e4, e5, e6, e7, e8, e9, e10, e11, e12, e13, e14]
  congr 1
  split_ifs <;>
    simp only [add_zero, e15, e16, e17, e18, e19, e20, e21, e22]

end SpriteGameRenderer
end F32

namespace MathUtils

/-- The value of `Clamp` is one of its three arguments. -/
theorem Clamp_cases (v lo hi : ℚ) :
    Clamp v lo hi = lo ∨ Clamp v lo hi = hi ∨ Clamp v lo hi = v := by
  unfold Clamp
  split_ifs <;> simp

end MathUtils

namespace F32
namespace SpriteGameRenderer

open Engine.SpriteGameRenderer

/-- A requested position whose frame, as computed in `float`, is inside the scaled world
bounds becomes the camera position as it is: no correction is added. -/
theorem UpdateCamera_of_inside (r : Engine.SpriteGameRenderer) (p : Engine.Vector2) (s : ℚ)
    (h : CameraFrameInside { r with m_cameraPosition := p } s) :
    UpdateCameraPositionInWorldBounds r p s = { r with m_cameraPosition := p } := by
  obtain ⟨h1, h2⟩ := h
  simp only [GetVirtualBoundsAroundCameraCenter] at h1 h2
  simp only [UpdateCameraPositionInWorldBounds, GetVirtualBoundsAroundCameraCenter]
  rw [if_neg (not_not.mpr h1), if_neg (not_not.mpr h2)]

/-- The `float` clamp writes the camera position only. -/
theorem UpdateCamera_writes (r : Engine.SpriteGameRenderer) (p : Engine.Vector2) (s : ℚ) :
    UpdateCameraPositionInWorldBounds r p s =
      { r with m_cameraPosition := (UpdateCameraPositionInWorldBounds r p s).m_cameraPosition } := by
  simp [UpdateCameraPositionInWorldBounds]

/-- On a binary grid the frame box and the scaled bounds are computed without rounding, so
the `float` test of the frame against the bounds is the exact one. The camera position may
use one bit more than the other values. -/
theorem CameraFrameInside_exact (r : Engine.SpriteGameRenderer) (s : ℚ) (j : Int)
    (hj : -149 ≤ j)
    (gcx : Float32.OnGrid j (2 ^ 23) r.m_cameraPosition.x)
    (gcy : Float32.OnGrid j (2 ^ 23) r.m_cameraPosition.y)
    (ghx : Float32.OnGrid j (2 ^ 22) (r.m_virtualWidth * (1/2)))
    (ghy : Float32.OnGrid j (2 ^ 22) (r.m_virtualHeight * (1/2)))
    (glx : Float32.OnGrid j (2 ^ 22) (r.m_worldBounds.mins.x * s))
    (gly : Float32.OnGrid j (2 ^ 22) (r.m_worldBounds.mins.y * s))
    (ghix : Float32.OnGrid j (2 ^ 22) (r.m_worldBounds.maxs.x * s))
    (ghiy : Float32.OnGrid j (2 ^ 22) (r.m_worldBounds.maxs.y * s)) :
    CameraFrameInside r s ↔ r.CameraFrameInside s := by
  have B1 : (2 : ℕ) ^ 22 < 2 ^ 24 := by norm_num
  have B2 : (2 : ℕ) ^ 23 + 2 ^ 22 < 2 ^ 24 := by norm_num
  have e1 := ghx.exact B1 hj
  have e2 := ghy.exact B1 hj
  have e3 := glx.exact B1 hj
  have e4 := gly.exact B1 hj
  have e5 := ghix.exact B1 hj
  have e6 := ghiy.exact B1 hj
  have e7 := (gcx.diff ghx).exact B2 hj
  have e8 := (gcy.diff ghy).exact B2 hj
  have e9 := (gcx.sum ghx).exact B2 hj
  have e10 := (gcy.sum ghy).exact B2 hj
  simp only [CameraFrameInside, GetVirtualBoundsAroundCameraCenter,
    AABB2.mulScale, Vector2.scale, Vector2.sub, Vector2.add,
    Float32.add, Float32.sub, Float32.mul,
    Engine.SpriteGameRenderer.CameraFrameInside,
    Engine.SpriteGameRenderer.GetVirtualBoundsAroundCameraCenter,
    Engine.AABB2.mulScale, Engine.Vector2.scale, Engine.Vector2.sub, Engine.Vector2.add,
    e1, e2, e3, e4, e5, e6, e7, e8, e9, e10]

/-- On a binary grid the scaled bounds are computed without rounding, so the frame fits the
`float` bounds exactly when it fits the exact ones. -/
theorem CameraFrameFits_exact (r : Engine.SpriteGameRenderer) (p : Engine.Vector2) (s : ℚ)
    (j : Int) (hg : ClampOnGrid j r p s) : CameraFrameFits r s ↔ r.CameraFrameFits s := by
  obtain ⟨hj, -, -, -, -, -, glx, gly, ghix, ghiy⟩ := hg
  have B1 : (2 : ℕ) ^ 22 < 2 ^ 24 := by norm_num
  have e3 := glx.exact B1 hj
  have e4 := gly.exact B1 hj
  have e5 := ghix.exact B1 hj
  have e6 := ghiy.exact B1 hj
  simp only [CameraFrameFits, AABB2.mulScale, Vector2.scale, Float32.mul,
    Engine.SpriteGameRenderer.CameraFrameFits, Engine.AABB2.mulScale, Engine.Vector2.scale,
    e3, e4, e5, e6]

/-- On a binary grid the clamped camera position is on the grid, with one bit more. -/
theorem UpdateCamera_onGrid (r : Engine.SpriteGameRenderer) (p : Engine.Vector2) (s : ℚ)
    (j : Int)
    (hfx : r.m_virtualWidth ≤ r.m_worldBounds.maxs.x * s - r.m_worldBounds.mins.x * s)
    (hfy : r.m_virtualHeight ≤ r.m_worldBounds.maxs.y * s - r.m_worldBounds.mins.y * s)
    (gpx : Float32.OnGrid j (2 ^ 22) p.x) (gpy : Float32.OnGrid j (2 ^ 22) p.y)
    (ghx : Float32.OnGrid j (2 ^ 22) (r.m_virtualWidth * (1/2)))
    (ghy : Float32.OnGrid j (2 ^ 22) (r.m_virtualHeight * (1/2)))
    (glx : Float32.OnGrid j (2 ^ 22) (r.m_worldBounds.mins.x * s))
    (gly : Float32.OnGrid j (2 ^ 22) (r.m_worldBounds.mins.y * s))
    (ghix : Float32.OnGrid j (2 ^ 22) (r.m_worldBounds.maxs.x * s))
    (ghiy : Float32.OnGrid j (2 ^ 22) (r.m_worldBounds.maxs.y * s)) :
    Float32.OnGrid j (2 ^ 23) (r.UpdateCameraPositionInWorldBounds p s).m_cameraPosition.x ∧
    Float32.OnGrid j (2 ^ 23) (r.UpdateCameraPositionInWorldBounds p s).m_cameraPosition.y := by
  have h23 : (2 : ℕ) ^ 22 + 2 ^ 22 = 2 ^ 23 := by norm_num
  have hle : (2 : ℕ) ^ 22 ≤ 2 ^ 23 := by norm_num
  constructor
  · rw [UpdateCamera_x, clampAxis_clamp _ _ _ _ hfx]
    rcases MathUtils.Clamp_cases p.x (r.m_worldBounds.mins.x * s + r.m_virtualWidth * (1/2))
      (r.m_worldBounds.maxs.x * s - r.m_virtualWidth * (1/2)) with h | h | h <;> rw [h]
    · exact h23 ▸ glx.sum ghx
    · exact h23 ▸ ghix.diff ghx
    · exact gpx.widen hle
  · rw [UpdateCamera_y, clampAxis_clamp _ _ _ _ hfy]
    rcases MathUtils.Clamp_cases p.y (r.m_worldBounds.mins.y * s + r.m_virtualHeight * (1/2))
      (r.m_worldBounds.maxs.y * s - r.m_virtualHeight * (1/2)) with h | h | h <;> rw [h]
    · exact h23 ▸ gly.sum ghy
    · exact h23 ▸ ghiy.diff ghy
    · exact gpy.widen hle

/-- On a binary grid, after the `float` clamp of a frame that fits, the frame as computed in
`float` is inside the scaled world bounds. -/
theorem UpdateCamera_inside (r : Engine.SpriteGameRenderer) (p : Engine.Vector2) (s : ℚ)
    (j : Int) (hfit : CameraFrameFits r s) (hgrid : ClampOnGrid j r p s) :
    CameraFrameInside (UpdateCameraPositionInWorldBounds r p s) s := by
  have hfit' := (CameraFrameFits_exact r p s j hgrid).mp hfit
  rw [UpdateCamera_exact r p s j hgrid]
  obtain ⟨hj, -, gpx, gpy, ghx, ghy, glx, gly, ghix, ghiy⟩ := hgrid
  have hin := frame_inside_exact r p s hfit'
  obtain ⟨-, -, hfx, hfy⟩ := hfit'
  simp only [Engine.AABB2.mulScale, Engine.Vector2.scale] at hfx hfy
  obtain ⟨gcx, gcy⟩ := UpdateCamera_onGrid r p s j hfx hfy gpx gpy ghx ghy glx gly ghix ghiy
  obtain ⟨fw, fh, fb⟩ := UpdateCamera_frame r p s
  exact (CameraFrameInside_exact _ s j hj gcx gcy (by rw [fw]; exact ghx) (by rw [fh]; exact ghy)
    (by rw [fb]; exact glx) (by rw [fb]; exact gly) (by rw [fb]; exact ghix)
    (by rw [fb]; exact ghiy)).mpr hin

end SpriteGameRenderer
end F32

namespace Float32

/-- An integer of less than 24 bits is a binary32 value. -/
theorem round_intCast (i : Int) (h : |i| < 2 ^ 24) : round (i : ℚ) = i := by
  simpa using round_of_grid i 0 h (by norm_num)

/-- The integer `2^24 + 1` lies half way between the binary32 values `2^24` and `2^24 + 2`
and rounds to the even one, `2^24`. -/
theorem round_two_pow_24_add_one : round (16777217 : ℚ) = 16777216 := by
  have h := round_eq_tie (16777217 : ℚ) 24 (2 ^ 23) (by norm_num) (by norm_num) (by norm_num)
    (by norm_num)
  rw [h]
  norm_num

end Float32

namespace F32
namespace SpriteGameRenderer

open Engine.SpriteGameRenderer

/-- The `float` clamp of the requested position `(2^24, 5)` with a frame of 2 by 2 in world
bounds of 10 by 10: the right edge of the frame, `2^24 + 1`, is rounded to `2^24`, the
correction is `10 - 2^24`, and the camera is left at `x = 10`, where the frame reaches
to 11. -/
theorem UpdateCamera_far :
    UpdateCameraPositionInWorldBounds smallFrame farCamera 1 =
      { smallFrame with m_cameraPosition := ⟨10, 5⟩ } := by
  have r0 : Float32.round (0 : ℚ) = 0 := Float32.round_zero
  have r1 : Float32.round (1 : ℚ) = 1 := by simpa using Float32.round_intCast 1 (by norm_num)
  have r4 : Float32.round (4 : ℚ) = 4 := by simpa using Float32.round_intCast 4 (by norm_num)
  have r5 : Float32.round (5 : ℚ) = 5 := by simpa using Float32.round_intCast 5 (by norm_num)
  have r6 : Float32.round (6 : ℚ) = 6 := by simpa using Float32.round_intCast 6 (by norm_num)
  have r10 : Float32.round (10 : ℚ) = 10 := by
    simpa using Float32.round_intCast 10 (by norm_num)
  have ra : Float32.round (16777215 : ℚ) = 16777215 := by
    simpa using Float32.round_intCast 16777215 (by norm_num)
  have rb : Float32.round (16777216 : ℚ) = 16777216 := by
    simpa using Float32.round_natCast 16777216 (by norm_num)
  have rc : Float32.round (-16777206 : ℚ) = -16777206 := by
    simpa using Float32.round_intCast (-16777206) (by norm_num)
  have rd := Float32.round_two_pow_24_add_one
  rw [UpdateCamera_writes]
  congr 1
  simp only [UpdateCameraPositionInWorldBounds, GetVirtualBoundsAroundCameraCenter,
    AABB2.mulScale, Vector2.scale, Vector2.sub, Vector2.add, Vector2.CalculateCorrectionVector,
    Float32.add, Float32.sub, Float32.mul, Engine.AABB2.IsPointOnOrInside, smallFrame, farCamera]
  norm_num [r0, r1, r4, r5, r6, r10, ra, rb, rc, rd]

end SpriteGameRenderer

namespace SpriteGameRenderer

open Engine.SpriteGameRenderer

/-- The inputs of the clamp of `smallFrame` at an integer position of small magnitude are
on the grid of the integers. -/
theorem smallFrame_onGrid (x y : Int) (hx : |x| ≤ 2 ^ 22) (hy : |y| ≤ 2 ^ 22) :
    ClampOnGrid 0 smallFrame ⟨x, y⟩ 1 := by
  have g : ∀ m : Int, |m| ≤ 2 ^ 22 → Float32.OnGrid 0 (2 ^ 22) (m : ℚ) := by
    intro m hm
    have h := Float32.OnGrid.of_int 0 (2 ^ 22) m (by simpa using hm)
    simpa using h
  have g0 := g 0 (by norm_num)
  have g1 := g 1 (by norm_num)
  have g10 := g 10 (by norm_num)
  refine ⟨by norm_num, by norm_num, g x hx, g y hy, ?_, ?_, ?_, ?_, ?_, ?_⟩ <;>
    norm_num [smallFrame] <;> first | exact_mod_cast g0 | exact_mod_cast g1 | exact_mod_cast g10

/-- The frame of `smallFrame` fits its world bounds. -/
theorem smallFrame_fits : CameraFrameFits smallFrame 1 := by
  have r0 : Float32.round (0 : ℚ) = 0 := Float32.round_zero
  have r10 : Float32.round (10 : ℚ) = 10 := by
    simpa using Float32.round_intCast 10 (by norm_num)
  simp only [CameraFrameFits, AABB2.mulScale, Vector2.scale, Float32.mul, smallFrame]
  norm_num [r0, r10]

/-- The `float` clamp of `oversizedFrame` at the requested position `(0, 0)` leaves the
camera at `(1, 1)`, and at the requested position `(1, 1)` it leaves it at `(0, 0)`. -/
theorem UpdateCamera_oversized :
    UpdateCameraPositionInWorldBounds oversizedFrame ⟨0, 0⟩ 1 =
      { oversizedFrame with m_cameraPosition := ⟨1, 1⟩ } ∧
    UpdateCameraPositionInWorldBounds { oversizedFrame with m_cameraPosition := ⟨1, 1⟩ } ⟨1, 1⟩ 1 =
      { oversizedFrame with m_cameraPosition := ⟨0, 0⟩ } := by
  have r0 : Float32.round (0 : ℚ) = 0 := Float32.round_zero
  have r1 : Float32.round (1 : ℚ) = 1 := by simpa using Float32.round_intCast 1 (by norm_num)
  have r2 : Float32.round (2 : ℚ) = 2 := by simpa using Float32.round_intCast 2 (by norm_num)
  have r3 : Float32.round (3 : ℚ) = 3 := by simpa using Float32.round_intCast 3 (by norm_num)
  have rm1 : Float32.round (-1 : ℚ) = -1 := by
    simpa using Float32.round_intCast (-1) (by norm_num)
  have rm2 : Float32.round (-2 : ℚ) = -2 := by
    simpa using Float32.round_intCast (-2) (by norm_num)
  constructor
  · rw [UpdateCamera_writes]
    congr 1
    simp only [UpdateCameraPositionInWorldBounds, GetVirtualBoundsAroundCameraCenter,
      AABB2.mulScale, Vector2.scale, Vector2.sub, Vector2.add,
      Vector2.CalculateCorrectionVector, Float32.add, Float32.sub, Float32.mul,
      Engine.AABB2.IsPointOnOrInside, oversizedFrame]
    norm_num [r0, r1, r2, r3, rm1, rm2]
  · rw [UpdateCamera_writes]
    congr 1
    simp only [UpdateCameraPositionInWorldBounds, GetVirtualBoundsAroundCameraCenter,
      AABB2.mulScale, Vector2.scale, Vector2.sub, Vector2.add,
      Vector2.CalculateCorrectionVector, Float32.add, Float32.sub, Float32.mul,
      Engine.AABB2.IsPointOnOrInside, oversizedFrame]
    norm_num [r0, r1, r2, r3, rm1, rm2]

/-- C1, as stated, fails on the code, in two ways. A camera frame larger than the scaled
world bounds stays outside them: with a frame of 4 by 4 in world bounds of 1 by 1 the clamp
of `(0, 0)` leaves the camera at `(1, 1)` and the frame from -1 to 3. And rounding takes a
frame that fits outside: with a frame of 2 by 2 in world bounds of 10 by 10 and the
requested position `(2^24, 5)`, the `float` clamp leaves the camera at `x = 10` and the
frame from 9 to 11. -/
theorem clamp_frame_not_inside :
    ¬ CameraFrameInside (UpdateCameraPositionInWorldBounds oversizedFrame ⟨0, 0⟩ 1) 1 ∧
    (CameraFrameFits smallFrame 1 ∧
      (UpdateCameraPositionInWorldBounds smallFrame farCamera 1).m_cameraPosition = ⟨10, 5⟩ ∧
      (GetVirtualBoundsAroundCameraCenter
        (UpdateCameraPositionInWorldBounds smallFrame farCamera 1)).maxs.x = 11 ∧
      ¬ CameraFrameInside (UpdateCameraPositionInWorldBounds smallFrame farCamera 1) 1) := by
  have r0 : Float32.round (0 : ℚ) = 0 := Float32.round_zero
  have r1 : Float32.round (1 : ℚ) = 1 := by simpa using Float32.round_intCast 1 (by norm_num)
  have r2 : Float32.round (2 : ℚ) = 2 := by simpa using Float32.round_intCast 2 (by norm_num)
  have r3 : Float32.round (3 : ℚ) = 3 := by simpa using Float32.round_intCast 3 (by norm_num)
  have rm1 : Float32.round (-1 : ℚ) = -1 := by
    simpa using Float32.round_intCast (-1) (by norm_num)
  have r10 : Float32.round (10 : ℚ) = 10 := by
    simpa using Float32.round_intCast 10 (by norm_num)
  have r11 : Float32.round (11 : ℚ) = 11 := by
    simpa using Float32.round_intCast 11 (by norm_num)
  refine ⟨?_, smallFrame_fits, ?_, ?_, ?_⟩
  · rw [UpdateCamera_oversized.1]
    intro h
    have h1 := h.1.1
    simp only [GetVirtualBoundsAroundCameraCenter, AABB2.mulScale, Vector2.scale, Vector2.sub,
      Float32.sub, Float32.mul, oversizedFrame] at h1
    norm_num [r0, r1, r2, rm1] at h1
  · rw [UpdateCamera_far]
  · rw [UpdateCamera_far]
    simp only [GetVirtualBoundsAroundCameraCenter, Vector2.add, Float32.add, Float32.mul,
      smallFrame]
    norm_num [r1, r11]
  · rw [UpdateCamera_far]
    intro h
    have h1 := h.2.2.1
    simp only [GetVirtualBoundsAroundCameraCenter, AABB2.mulScale, Vector2.scale, Vector2.add,
      Float32.add, Float32.mul, smallFrame] at h1
    norm_num [r1, r10, r11] at h1

/-- C1, amended: when the camera frame has non-negative width and height and is no larger
than the world bounds scaled by the layer scale on each axis, and the requested position,
the half sizes of the frame and the corners of the scaled bounds are integers of magnitude
at most `2^22` times one power of two `2^j` (so that no `float` operation of the call rounds),
then after `UpdateCameraPositionInWorldBounds p s` the camera-frame box (camera position
plus/minus half the virtual width and height, as `GetVirtualBoundsAroundCameraCenter`
computes it) lies entirely inside the scaled world bounds. -/
theorem clamp_keeps_frame_inside (r : Engine.SpriteGameRenderer) (p : Engine.Vector2) (s : ℚ)
    (j : Int) (hfit : CameraFrameFits r s) (hgrid : ClampOnGrid j r p s) :
    CameraFrameInside (UpdateCameraPositionInWorldBounds r p s) s :=
  UpdateCamera_inside r p s j hfit hgrid

/-- Witness for `clamp_keeps_frame_inside`: a 2 by 2 frame in world bounds of 10 by 10,
requested position (20, -3). -/
theorem clamp_keeps_frame_inside_witness :
    (CameraFrameFits smallFrame 1 ∧ ClampOnGrid 0 smallFrame ⟨20, -3⟩ 1) ∧
      CameraFrameInside (UpdateCameraPositionInWorldBounds smallFrame ⟨20, -3⟩ 1) 1 :=
  ⟨⟨smallFrame_fits, by simpa using smallFrame_onGrid 20 (-3) (by norm_num) (by norm_num)⟩,
    clamp_keeps_frame_inside smallFrame ⟨20, -3⟩ 1 0 smallFrame_fits
      (by simpa using smallFrame_onGrid 20 (-3) (by norm_num) (by norm_num))⟩

/-- C2, as stated, fails on the code, in two ways. With a camera frame of 4 by 4 in world
bounds of 1 by 1, a second clamp call with the position the first call produced moves the
camera back from `(1, 1)` to `(0, 0)`. And with a frame of 2 by 2 that fits world bounds of
10 by 10, the `float` clamp of `(2^24, 5)` leaves the camera at `(10, 5)`, and a second call
with that position moves it to `(9, 5)`. -/
theorem clamp_not_idempotent :
    (UpdateCameraPositionInWorldBounds
        (UpdateCameraPositionInWorldBounds oversizedFrame ⟨0, 0⟩ 1)
        (UpdateCameraPositionInWorldBounds oversizedFrame ⟨0, 0⟩ 1).m_cameraPosition
        1).m_cameraPosition
      ≠ (UpdateCameraPositionInWorldBounds oversizedFrame ⟨0, 0⟩ 1).m_cameraPosition ∧
    (CameraFrameFits smallFrame 1 ∧
      (UpdateCameraPositionInWorldBounds smallFrame farCamera 1).m_cameraPosition = ⟨10, 5⟩ ∧
      (UpdateCameraPositionInWorldBounds
        (UpdateCameraPositionInWorldBounds smallFrame farCamera 1)
        (UpdateCameraPositionInWorldBounds smallFrame farCamera 1).m_cameraPosition
        1).m_cameraPosition = ⟨9, 5⟩) := by
  have r0 : Float32.round (0 : ℚ) = 0 := Float32.round_zero
  have r1 : Float32.round (1 : ℚ) = 1 := by simpa using Float32.round_intCast 1 (by norm_num)
  have r4 : Float32.round (4 : ℚ) = 4 := by simpa using Float32.round_intCast 4 (by norm_num)
  have r5 : Float32.round (5 : ℚ) = 5 := by simpa using Float32.round_intCast 5 (by norm_num)
  have r6 : Float32.round (6 : ℚ) = 6 := by simpa using Float32.round_intCast 6 (by norm_num)
  have r9 : Float32.round (9 : ℚ) = 9 := by simpa using Float32.round_intCast 9 (by norm_num)
  have rm1 : Float32.round (-1 : ℚ) = -1 := by
    simpa using Float32.round_intCast (-1) (by norm_num)
  have r10 : Float32.round (10 : ℚ) = 10 := by
    simpa using Float32.round_intCast 10 (by norm_num)
  have r11 : Float32.round (11 : ℚ) = 11 := by
    simpa using Float32.round_intCast 11 (by norm_num)
  refine ⟨?_, smallFrame_fits, ?_, ?_⟩
  · rw [UpdateCamera_oversized.1]
    simp only []
    rw [UpdateCamera_oversized.2]
    simp
  · rw [UpdateCamera_far]
  · rw [UpdateCamera_far]
    simp only [UpdateCameraPositionInWorldBounds, GetVirtualBoundsAroundCameraCenter,
      AABB2.mulScale, Vector2.scale, Vector2.sub, Vector2.add,
      Vector2.CalculateCorrectionVector, Float32.add, Float32.sub, Float32.mul,
      Engine.AABB2.IsPointOnOrInside, smallFrame]
    norm_num [r0, r1, r4, r5, r6, r9, rm1, r10, r11]

/-- C2, amended: when the camera frame has non-negative width and height and is no larger
than the scaled world bounds on each axis, and the requested position, the half sizes of
the frame and the corners of the scaled bounds are integers of magnitude at most `2^22`
times one power of two (so that no `float` operation of the call rounds), the clamp is
idempotent: calling `UpdateCameraPositionInWorldBounds` again with the camera position
produced by a first call leaves the renderer, and so the camera position, unchanged. -/
theorem clamp_idempotent (r : Engine.SpriteGameRenderer) (p : Engine.Vector2) (s : ℚ)
    (j : Int) (hfit : CameraFrameFits r s) (hgrid : ClampOnGrid j r p s) :
    UpdateCameraPositionInWorldBounds (UpdateCameraPositionInWorldBounds r p s)
        (UpdateCameraPositionInWorldBounds r p s).m_cameraPosition s
      = UpdateCameraPositionInWorldBounds r p s := by
  have hin := UpdateCamera_inside r p s j hfit hgrid
  generalize UpdateCameraPositionInWorldBounds r p s = r1 at *
  have e : ({ r1 with m_cameraPosition := r1.m_cameraPosition } : Engine.SpriteGameRenderer)
      = r1 := rfl
  exact (UpdateCamera_of_inside r1 r1.m_cameraPosition s (by rw [e]; exact hin)).trans e

/-- Witness for `clamp_idempotent`: a 2 by 2 frame in world bounds of 10 by 10, requested
position (-7, 30). -/
theorem clamp_idempotent_witness :
    (CameraFrameFits smallFrame 1 ∧ ClampOnGrid 0 smallFrame ⟨-7, 30⟩ 1) ∧
      UpdateCameraPositionInWorldBounds (UpdateCameraPositionInWorldBounds smallFrame ⟨-7, 30⟩ 1)
          (UpdateCameraPositionInWorldBounds smallFrame ⟨-7, 30⟩ 1).m_cameraPosition 1
        = UpdateCameraPositionInWorldBounds smallFrame ⟨-7, 30⟩ 1 :=
  ⟨⟨smallFrame_fits, by simpa using smallFrame_onGrid (-7) 30 (by norm_num) (by norm_num)⟩,
    clamp_idempotent smallFrame ⟨-7, 30⟩ 1 0 smallFrame_fits
      (by simpa using smallFrame_onGrid (-7) 30 (by norm_num) (by norm_num))⟩

end SpriteGameRenderer

namespace SpriteGameRenderer

open Engine.SpriteGameRenderer

/-- C25, as stated, fails on the code: with a frame of 2 by 2 that fits world bounds of
10 by 10 and the requested position `(2^24, 5)`, the requested `x` clamped into
`[0 + 1, 10 - 1]` is 9, and the `float` clamp leaves the camera at `x = 10`: the right edge
`2^24 + 1` of the frame is rounded to `2^24` before the correction is taken from it. -/
theorem clamp_per_axis_rounds :
    smallFrame.m_virtualWidth ≤
        (AABB2.mulScale smallFrame.m_worldBounds 1).maxs.x -
          (AABB2.mulScale smallFrame.m_worldBounds 1).mins.x ∧
    smallFrame.m_virtualHeight ≤
        (AABB2.mulScale smallFrame.m_worldBounds 1).maxs.y -
          (AABB2.mulScale smallFrame.m_worldBounds 1).mins.y ∧
    MathUtils.Clamp farCamera.x
        (smallFrame.m_worldBounds.mins.x * 1 + smallFrame.m_virtualWidth * (1/2))
        (smallFrame.m_worldBounds.maxs.x * 1 - smallFrame.m_virtualWidth * (1/2)) = 9 ∧
    (UpdateCameraPositionInWorldBounds smallFrame farCamera 1).m_cameraPosition.x = 10 := by
  obtain ⟨-, -, h1, h2⟩ := smallFrame_fits
  refine ⟨h1, h2, ?_, ?_⟩
  · norm_num [MathUtils.Clamp, smallFrame, farCamera]
  · rw [UpdateCamera_far]

/-- C25, amended: when the camera frame is no larger than the scaled world bounds on each
axis, and the requested position, the half sizes of the frame and the corners of the scaled
bounds are integers of magnitude at most `2^22` times one power of two `2^j` (so that no
`float` operation of the call rounds), `UpdateCameraPositionInWorldBounds p s` sets the
camera `x` to `p.x` clamped into `[worldMin.x * s + W / 2, worldMax.x * s - W / 2]` and the
camera `y` to `p.y` clamped into `[worldMin.y * s + H / 2, worldMax.y * s - H / 2]` (`W`,
`H` the virtual width and height): each axis by itself, in one call, and nothing but the
camera position is written. So a frame of non-negative size is inside the scaled world
bounds afterwards, and a requested position whose frame is inside already is the camera
position afterwards. -/
theorem clamp_per_axis (r : Engine.SpriteGameRenderer) (p : Engine.Vector2) (s : ℚ)
    (hfx : r.m_virtualWidth ≤
      (AABB2.mulScale r.m_worldBounds s).maxs.x - (AABB2.mulScale r.m_worldBounds s).mins.x)
    (hfy : r.m_virtualHeight ≤
      (AABB2.mulScale r.m_worldBounds s).maxs.y - (AABB2.mulScale r.m_worldBounds s).mins.y)
    (j : Int) (hgrid : ClampOnGrid j r p s) :
    (UpdateCameraPositionInWorldBounds r p s).m_cameraPosition.x =
      MathUtils.Clamp p.x (r.m_worldBounds.mins.x * s + r.m_virtualWidth * (1/2))
        (r.m_worldBounds.maxs.x * s - r.m_virtualWidth * (1/2)) ∧
    (UpdateCameraPositionInWorldBounds r p s).m_cameraPosition.y =
      MathUtils.Clamp p.y (r.m_worldBounds.mins.y * s + r.m_virtualHeight * (1/2))
        (r.m_worldBounds.maxs.y * s - r.m_virtualHeight * (1/2)) ∧
    UpdateCameraPositionInWorldBounds r p s =
      { r with m_cameraPosition := (UpdateCameraPositionInWorldBounds r p s).m_cameraPosition } ∧
    (0 ≤ r.m_virtualWidth → 0 ≤ r.m_virtualHeight →
      CameraFrameInside (UpdateCameraPositionInWorldBounds r p s) s) ∧
    (CameraFrameInside { r with m_cameraPosition := p } s →
      (UpdateCameraPositionInWorldBounds r p s).m_cameraPosition = p) := by
  have hfx' : r.m_virtualWidth ≤
      (r.m_worldBounds.mulScale s).maxs.x - (r.m_worldBounds.mulScale s).mins.x := by
    obtain ⟨hj, -, -, -, -, -, glx, -, ghix, -⟩ := hgrid
    have B1 : (2 : ℕ) ^ 22 < 2 ^ 24 := by norm_num
    have e3 := glx.exact B1 hj
    have e5 := ghix.exact B1 hj
    simpa only [AABB2.mulScale, Vector2.scale, Float32.mul, Engine.AABB2.mulScale,
      Engine.Vector2.scale, e3, e5] using hfx
  have hfy' : r.m_virtualHeight ≤
      (r.m_worldBounds.mulScale s).maxs.y - (r.m_worldBounds.mulScale s).mins.y := by
    obtain ⟨hj, -, -, -, -, -, -, gly, -, ghiy⟩ := hgrid
    have B1 : (2 : ℕ) ^ 22 < 2 ^ 24 := by norm_num
    have e4 := gly.exact B1 hj
    have e6 := ghiy.exact B1 hj
    simpa only [AABB2.mulScale, Vector2.scale, Float32.mul, Engine.AABB2.mulScale,
      Engine.Vector2.scale, e4, e6] using hfy
  obtain ⟨g1, g2, -⟩ := clamp_per_axis_exact r p s hfx' hfy'
  refine ⟨?_, ?_, UpdateCamera_writes r p s, ?_, ?_⟩
  · rw [UpdateCamera_exact r p s j hgrid]; exact g1
  · rw [UpdateCamera_exact r p s j hgrid]; exact g2
  · intro hw hh
    exact UpdateCamera_inside r p s j ⟨hw, hh, hfx, hfy⟩ hgrid
  · intro hin
    rw [UpdateCamera_of_inside r p s hin]

/-- Witness for `clamp_per_axis`: a 2 by 2 frame in world bounds of 10 by 10; the requested
position (20, -3) is clamped to (9, 1), each axis by itself. -/
theorem clamp_per_axis_witness :
    (smallFrame.m_virtualWidth ≤
        (AABB2.mulScale smallFrame.m_worldBounds 1).maxs.x -
          (AABB2.mulScale smallFrame.m_worldBounds 1).mins.x ∧
      smallFrame.m_virtualHeight ≤
        (AABB2.mulScale smallFrame.m_worldBounds 1).maxs.y -
          (AABB2.mulScale smallFrame.m_worldBounds 1).mins.y ∧
      ClampOnGrid 0 smallFrame ⟨20, -3⟩ 1) ∧
    (UpdateCameraPositionInWorldBounds smallFrame ⟨20, -3⟩ 1).m_cameraPosition.x = 9 ∧
    (UpdateCameraPositionInWorldBounds smallFrame ⟨20, -3⟩ 1).m_cameraPosition.y = 1 := by
  have h1 := smallFrame_fits.2.2.1
  have h2 := smallFrame_fits.2.2.2
  have h3 : ClampOnGrid 0 smallFrame ⟨20, -3⟩ 1 := by
    simpa using smallFrame_onGrid 20 (-3) (by norm_num) (by norm_num)
  obtain ⟨g1, g2, -⟩ := clamp_per_axis smallFrame ⟨20, -3⟩ 1 h1 h2 0 h3
  refine ⟨⟨h1, h2, h3⟩, ?_, ?_⟩
  · rw [g1]; norm_num [smallFrame, MathUtils.Clamp]
  · rw [g2]; norm_num [smallFrame, MathUtils.Clamp]

end SpriteGameRenderer

namespace ParticleEmitter

open Engine.ParticleEmitter

/-- The spawn loop on a binary grid: with the spawn interval `b * 2^j` and the accumulated
time `t * 2^j` (`t < 2^24`), no subtraction rounds, and with fuel for `t / b` iterations the
loop returns: it appends `t / b` new particles at the followed position, with age 0 and the
rotation of the emitter, and leaves the remainder `(t % b) * 2^j`. -/
theorem spawnLoop_grid (e : Engine.ParticleEmitter) (pos : Engine.Vector2)
    (hp : e.m_position = some pos) (j : Int) (hj : -149 ≤ j) (b : Nat) (hb : 0 < b) :
    ∀ (fuel t : Nat) (ps : List Engine.Particle) (n : Nat), t < 2 ^ 24 → t / b ≤ fuel →
      ∃ fresh, spawnLoop e ((b : ℚ) * 2 ^ j) fuel ((t : ℚ) * 2 ^ j) ps n =
          Except.ok (((t % b : Nat) : ℚ) * 2 ^ j, ps ++ fresh, n + t / b) ∧
        fresh.length = t / b ∧
        ∀ p ∈ fresh, p.position = pos ∧ p.age = 0 ∧
          p.rotationDegrees = e.m_rotationDegrees := by
  have hg : (0 : ℚ) < 2 ^ j := zpow_pos (by norm_num) j
  have hcmp : ∀ t : Nat, ((t : ℚ) * 2 ^ j ≥ (b : ℚ) * 2 ^ j) ↔ b ≤ t := by
    intro t
    rw [ge_iff_le, mul_le_mul_right hg]
    exact Nat.cast_le
  have hstop : ∀ (fuel t : Nat) (ps : List Engine.Particle) (n : Nat), t < b →
      ∃ fresh, spawnLoop e ((b : ℚ) * 2 ^ j) fuel ((t : ℚ) * 2 ^ j) ps n =
          Except.ok (((t % b : Nat) : ℚ) * 2 ^ j, ps ++ fresh, n + t / b) ∧
        fresh.length = t / b ∧
        ∀ p ∈ fresh, p.position = pos ∧ p.age = 0 ∧
          p.rotationDegrees = e.m_rotationDegrees := by
    intro fuel t ps n hlt
    have hno : ¬ ((t : ℚ) * 2 ^ j ≥ (b : ℚ) * 2 ^ j) := by
      rw [hcmp]; omega
    refine ⟨[], ?_, by simp [Nat.div_eq_of_lt hlt], by simp⟩
    cases fuel with
    | zero =>
      rw [spawnLoop, if_neg hno, Nat.mod_eq_of_lt hlt, Nat.div_eq_of_lt hlt]
      simp
    | succ fuel =>
      rw [spawnLoop, if_neg hno, Nat.mod_eq_of_lt hlt, Nat.div_eq_of_lt hlt]
      simp
  intro fuel
  induction fuel with
  | zero =>
    intro t ps n _ hf
    have hlt : t < b := by
      by_contra hge
      have : 1 ≤ t / b := (Nat.one_le_div_iff hb).mpr (by omega)
      omega
    exact hstop 0 t ps n hlt
  | succ fuel ih =>
    intro t ps n ht hf
    by_cases hlt : t < b
    · exact hstop (fuel + 1) t ps n hlt
    · have hge : b ≤ t := by omega
      have hyes : (t : ℚ) * 2 ^ j ≥ (b : ℚ) * 2 ^ j := (hcmp t).mpr hge
      have hsub : Float32.sub ((t : ℚ) * 2 ^ j) ((b : ℚ) * 2 ^ j) = ((t - b : Nat) : ℚ) * 2 ^ j := by
        unfold Float32.sub
        have h := Float32.round_of_grid ((t - b : Nat) : Int) j (by
          rw [abs_of_nonneg (by positivity)]
          have : t - b < 2 ^ 24 := by omega
          exact_mod_cast this) hj
        have e1 : (t : ℚ) * 2 ^ j - (b : ℚ) * 2 ^ j = (((t - b : Nat) : Int) : ℚ) * 2 ^ j := by
          push_cast [Nat.cast_sub hge]
          ring
        rw [e1, h]
        push_cast
        rfl
      have hdiv : t / b = (t - b) / b + 1 := by
        have h := Nat.add_div_right (t - b) hb
        rwa [Nat.sub_add_cancel hge] at h
      have hmod : (t - b) % b = t % b := by
        have h := Nat.add_mod_right (t - b) b
        rw [Nat.sub_add_cancel hge] at h
        exact h.symm
      obtain ⟨fresh, h, hl, hall⟩ := ih (t - b)
        (ps ++ [Engine.Particle.new pos e.m_definition (e.randomDraws n)
          e.m_rotationDegrees Engine.Particle.defaultVelocity
          Engine.Particle.defaultAcceleration]) (n + 1) (by omega) (by omega)
      refine ⟨Engine.Particle.new pos e.m_definition (e.randomDraws n)
          e.m_rotationDegrees Engine.Particle.defaultVelocity
          Engine.Particle.defaultAcceleration :: fresh, ?_, by simp [hl, hdiv], ?_⟩
      · rw [spawnLoop, if_pos hyes, hp]
        simp only [hsub, h, hmod]
        congr 2
        congr 1
        · simp
        · omega
      · intro p hpm
        simp only [List.mem_cons] at hpm
        rcases hpm with rfl | hpm
        · exact ⟨rfl, rfl, rfl⟩
        · exact hall p hpm

end ParticleEmitter
end F32

namespace Float32

/-- Rounding a positive rational in the normal range: the certificate is the exponent `e`
and an integer `k` within a half of `x / 2^(e-23)`. -/
theorem round_eq_of_pos (x : ℚ) (e k : Int) (h1 : (2 : ℚ) ^ e ≤ x) (h2 : x < (2 : ℚ) ^ (e + 1))
    (he : -126 ≤ e) (hk1 : (k : ℚ) - 1/2 < x / 2 ^ (e - 23))
    (hk2 : x / 2 ^ (e - 23) < (k : ℚ) + 1/2) :
    round x = k * 2 ^ (e - 23) := by
  have hx : 0 < x := lt_of_lt_of_le (zpow_pos (by norm_num) e) h1
  exact round_eq x e k (by rwa [abs_of_pos hx]) (by rwa [abs_of_pos hx]) he
    (by rw [abs_lt]; constructor <;> linarith)

/-- Rounding a positive rational that lies half way between two binary32 values. -/
theorem round_eq_tie_of_pos (x : ℚ) (e k : Int) (h1 : (2 : ℚ) ^ e ≤ x)
    (h2 : x < (2 : ℚ) ^ (e + 1)) (he : -126 ≤ e) (hk : x / 2 ^ (e - 23) = k + 1/2) :
    round x = ((if k % 2 = 0 then k else k + 1 : Int) : ℚ) * 2 ^ (e - 23) := by
  have hx : 0 < x := lt_of_lt_of_le (zpow_pos (by norm_num) e) h1
  exact round_eq_tie x e k (by rwa [abs_of_pos hx]) (by rwa [abs_of_pos hx]) he hk

end Float32

namespace F32
namespace ParticleEmitter

open Engine.ParticleEmitter

/-- The `float` sum of two grid values whose sum has fewer than 24 bits is exact. -/
theorem add_grid (j : Int) (hj : -149 ≤ j) (c d : Nat) (h : c + d < 2 ^ 24) :
    Float32.add ((c : ℚ) * 2 ^ j) ((d : ℚ) * 2 ^ j) = ((c + d : Nat) : ℚ) * 2 ^ j := by
  unfold Float32.add
  have h1 := Float32.round_of_grid ((c + d : Nat) : Int) j (by
    rw [abs_of_nonneg (by positivity)]
    exact_mod_cast h) hj
  have e1 : (c : ℚ) * 2 ^ j + (d : ℚ) * 2 ^ j = (((c + d : Nat) : Int) : ℚ) * 2 ^ j := by
    push_cast
    ring
  rw [e1, h1]
  push_cast
  rfl

/-- The quotient of two grid values, rounded down, is the integer quotient. -/
theorem floor_grid (j : Int) (t b : Nat) :
    ⌊((t : ℚ) * 2 ^ j) / ((b : ℚ) * 2 ^ j)⌋₊ = t / b := by
  have hg : (2 : ℚ) ^ j ≠ 0 := ne_of_gt (zpow_pos (by norm_num) j)
  rw [mul_div_mul_right _ _ hg]
  exact Nat.floor_div_eq_div t b

/-- One call of `SpawnParticles` on a binary grid. -/
theorem SpawnParticles_grid (e : Engine.ParticleEmitter) (dt : ℚ) (pos : Engine.Vector2)
    (j : Int) (b c d fuel : Nat)
    (hp : e.m_position = some pos) (hj : -149 ≤ j)
    (hs : e.m_secondsPerParticle = (b : ℚ) * 2 ^ j) (hb : 0 < b)
    (ha : e.m_timeSinceLastEmission = (c : ℚ) * 2 ^ j) (hdt : dt = (d : ℚ) * 2 ^ j)
    (hbound : c + d < 2 ^ 24) (hfuel : (c + d) / b ≤ fuel) :
    ∃ fresh, SpawnParticles e dt fuel = Except.ok
        { e with
          m_timeSinceLastEmission := (((c + d) % b : Nat) : ℚ) * 2 ^ j,
          m_particles := e.m_particles ++ fresh,
          numDraws := e.numDraws + (c + d) / b } ∧
      fresh.length = (c + d) / b ∧
      ∀ p ∈ fresh, p.position = pos ∧ p.age = 0 ∧ p.rotationDegrees = e.m_rotationDegrees := by
  have hg : (0 : ℚ) < 2 ^ j := zpow_pos (by norm_num) j
  obtain ⟨fresh, hloop, hlen, hall⟩ :=
    spawnLoop_grid e pos hp j hj b hb fuel (c + d) e.m_particles e.numDraws hbound hfuel
  refine ⟨fresh, ?_, hlen, hall⟩
  unfold SpawnParticles
  have hpos : e.m_secondsPerParticle > 0 := by
    rw [hs]
    exact mul_pos (by exact_mod_cast hb) hg
  rw [if_pos hpos, hs, ha, hdt, add_grid j hj c d hbound, hloop]

/-- C23, as stated, fails on the code, in two ways. With the spawn interval `0.1f`, the
accumulator at 0 and `dt = 0.5`, the bound `floor ((a + dt) / s)` is 4, and the `float` loop
spawns 5 particles and leaves `2^-26` in the accumulator: the subtractions round upwards.
And with `dt = 4000000` the call does not return: `4000000 - 0.1f` rounds back to
`4000000`, so the loop makes no progress and uses up every amount of fuel. -/
theorem spawn_particles_rounds :
    (0 ≤ tenthEmitter.m_timeSinceLastEmission ∧
      tenthEmitter.m_timeSinceLastEmission < tenthEmitter.m_secondsPerParticle) ∧
    ⌊(tenthEmitter.m_timeSinceLastEmission + 1/2) / tenthEmitter.m_secondsPerParticle⌋₊ = 4 ∧
    (∀ fuel : Nat, 5 ≤ fuel →
      ∃ e', SpawnParticles tenthEmitter (1/2) fuel = Except.ok e' ∧
        e'.m_particles.length = 5 ∧ e'.numDraws = 5 ∧
        e'.m_timeSinceLastEmission = 1 / 2 ^ 26) ∧
    (∀ fuel : Nat, SpawnParticles tenthEmitter 4000000 fuel = Except.error Failure.outOfFuel) := by
  have hs : tenthEmitter.m_secondsPerParticle = 13421773 / 2 ^ 27 := rfl
  have ht : tenthEmitter.m_timeSinceLastEmission = 0 := rfl
  have hp : tenthEmitter.m_position = some ⟨0, 0⟩ := rfl
  refine ⟨⟨by rw [ht], by rw [ht, hs]; norm_num⟩, ?_, ?_, ?_⟩
  · rw [ht, hs, Nat.floor_eq_iff (by norm_num)]
    norm_num
  · intro fuel hfuel
    obtain ⟨k, rfl⟩ : ∃ k, fuel = k + 5 := ⟨fuel - 5, by omega⟩
    -- the accumulator after the sum and after each of the five subtractions
    have t0 : Float32.add 0 (1/2 : ℚ) = 1/2 := by
      unfold Float32.add
      have h := Float32.round_of_grid 1 (-1) (by norm_num) (by norm_num)
      norm_num at h ⊢
      exact h
    have t1 : Float32.sub (1/2 : ℚ) (13421773 / 2 ^ 27) = 13421773 / 2 ^ 25 := by
      unfold Float32.sub
      have h := Float32.round_eq_of_pos ((1/2 : ℚ) - 13421773 / 2 ^ 27) (-2) 13421773
        (by norm_num) (by norm_num) (by norm_num) (by norm_num) (by norm_num)
      rw [h]
      norm_num
    have t2 : Float32.sub (13421773 / 2 ^ 25 : ℚ) (13421773 / 2 ^ 27) = 10066330 / 2 ^ 25 := by
      unfold Float32.sub
      have h := Float32.round_eq_of_pos ((13421773 / 2 ^ 25 : ℚ) - 13421773 / 2 ^ 27) (-2)
        10066330 (by norm_num) (by norm_num) (by norm_num) (by norm_num) (by norm_num)
      rw [h]
      norm_num
    have t3 : Float32.sub (10066330 / 2 ^ 25 : ℚ) (13421773 / 2 ^ 27) = 13421774 / 2 ^ 26 := by
      unfold Float32.sub
      have h := Float32.round_eq_tie_of_pos ((10066330 / 2 ^ 25 : ℚ) - 13421773 / 2 ^ 27) (-3)
        13421773 (by norm_num) (by norm_num) (by norm_num) (by norm_num)
      rw [h]
      norm_num
    have t4 : Float32.sub (13421774 / 2 ^ 26 : ℚ) (13421773 / 2 ^ 27) = 13421775 / 2 ^ 27 := by
      unfold Float32.sub
      have h := Float32.round_of_grid 13421775 (-27) (by norm_num) (by norm_num)
      have e1 : (13421774 / 2 ^ 26 : ℚ) - 13421773 / 2 ^ 27 = ((13421775 : Int) : ℚ) * 2 ^ (-27 : Int) := by
        norm_num
      rw [e1, h]
      norm_num
    have t5 : Float32.sub (13421775 / 2 ^ 27 : ℚ) (13421773 / 2 ^ 27) = 1 / 2 ^ 26 := by
      unfold Float32.sub
      have h := Float32.round_of_grid 1 (-26) (by norm_num) (by norm_num)
      have e1 : (13421775 / 2 ^ 27 : ℚ) - 13421773 / 2 ^ 27 = ((1 : Int) : ℚ) * 2 ^ (-26 : Int) := by
        norm_num
      rw [e1, h]
      norm_num
    have c0 : (1/2 : ℚ) ≥ 13421773 / 2 ^ 27 := by norm_num
    have c1 : (13421773 / 2 ^ 25 : ℚ) ≥ 13421773 / 2 ^ 27 := by norm_num
    have c2 : (10066330 / 2 ^ 25 : ℚ) ≥ 13421773 / 2 ^ 27 := by norm_num
    have c3 : (13421774 / 2 ^ 26 : ℚ) ≥ 13421773 / 2 ^ 27 := by norm_num
    have c4 : (13421775 / 2 ^ 27 : ℚ) ≥ 13421773 / 2 ^ 27 := by norm_num
    have c5 : ¬ ((1 / 2 ^ 26 : ℚ) ≥ 13421773 / 2 ^ 27) := by norm_num
    have hstop : ∀ (k : Nat) (ps : List Engine.Particle) (n : Nat),
        spawnLoop tenthEmitter (13421773 / 2 ^ 27) k (1 / 2 ^ 26) ps n =
          Except.ok (1 / 2 ^ 26, ps, n) := by
      intro k ps n
      cases k with
      | zero => rw [spawnLoop, if_neg c5]
      | succ k => rw [spawnLoop, if_neg c5]
    unfold SpawnParticles
    rw [if_pos (by rw [hs]; norm_num), hs, ht, t0]
    rw [spawnLoop, if_pos c0, hp]
    simp only [t1]
    rw [spawnLoop, if_pos c1, hp]
    simp only [t2]
    rw [spawnLoop, if_pos c2, hp]
    simp only [t3]
    rw [spawnLoop, if_pos c3, hp]
    simp only [t4]
    rw [spawnLoop, if_pos c4, hp]
    simp only [t5]
    rw [hstop]
    exact ⟨_, rfl, by simp [tenthEmitter], by simp [tenthEmitter], rfl⟩
  · intro fuel
    have t0 : Float32.add 0 (4000000 : ℚ) = 4000000 := by
      unfold Float32.add
      have h := Float32.round_natCast 4000000 (by norm_num)
      norm_num at h ⊢
      exact h
    have t1 : Float32.sub (4000000 : ℚ) (13421773 / 2 ^ 27) = 4000000 := by
      unfold Float32.sub
      have h := Float32.round_eq_of_pos ((4000000 : ℚ) - 13421773 / 2 ^ 27) 21 16000000
        (by norm_num) (by norm_num) (by norm_num) (by norm_num) (by norm_num)
      rw [h]
      norm_num
    have c0 : (4000000 : ℚ) ≥ 13421773 / 2 ^ 27 := by norm_num
    have hloop : ∀ (k : Nat) (ps : List Engine.Particle) (n : Nat),
        spawnLoop tenthEmitter (13421773 / 2 ^ 27) k 4000000 ps n =
          Except.error Failure.outOfFuel := by
      intro k
      induction k with
      | zero => intro ps n; rw [spawnLoop, if_pos c0]
      | succ k ih =>
        intro ps n
        rw [spawnLoop, if_pos c0, hp]
        simp only [t1]
        exact ih _ _
    unfold SpawnParticles
    rw [if_pos (by rw [hs]; norm_num), hs, ht, t0, hloop]

end ParticleEmitter

namespace ParticleEmitter

open Engine.ParticleEmitter

/-- C23, amended: let the spawn interval `s`, the accumulator `a` and the step `dt` be the
multiples `b * 2^j`, `c * 2^j` and `d * 2^j` of one power of two (`b > 0`, `-149 ≤ j ≤ 100`)
with `c + d < 2^24`, so that no `float` operation of the call rounds. Then the
accumulated time `a + dt` is in the finite range of `float`, and `SpawnParticles(dt)` on an
emitter whose followed position is set returns (with fuel for `(c + d) / b` iterations of
the loop); it appends exactly `⌊(a + dt) / s⌋` new particles
(the particles it had stay in front, in order; each new one is at the followed position
with age 0), which may be several in one call; it leaves the accumulator at
`(a + dt) - s * ⌊(a + dt) / s⌋`, which is at least 0 and below `s`, so the accumulator and
the intervals used add up to `a + dt`: no emission time is lost. Nothing else changes except
the count of random draws. -/
theorem spawn_particles_accumulator (e : Engine.ParticleEmitter) (dt : ℚ)
    (pos : Engine.Vector2) (j : Int) (b c d fuel : Nat)
    (hp : e.m_position = some pos) (hj : -149 ≤ j) (hj2 : j ≤ 100)
    (hs : e.m_secondsPerParticle = (b : ℚ) * 2 ^ j) (hb : 0 < b)
    (ha : e.m_timeSinceLastEmission = (c : ℚ) * 2 ^ j) (hdt : dt = (d : ℚ) * 2 ^ j)
    (hbound : c + d < 2 ^ 24) (hfuel : (c + d) / b ≤ fuel) :
    e.m_timeSinceLastEmission + dt < 2 ^ 128 ∧
    ∃ e' fresh, SpawnParticles e dt fuel = Except.ok e' ∧
      e'.m_particles = e.m_particles ++ fresh ∧
      fresh.length = ⌊(e.m_timeSinceLastEmission + dt) / e.m_secondsPerParticle⌋₊ ∧
      (∀ p ∈ fresh, p.position = pos ∧ p.age = 0) ∧
      e'.m_timeSinceLastEmission = (e.m_timeSinceLastEmission + dt) -
        e.m_secondsPerParticle *
          ⌊(e.m_timeSinceLastEmission + dt) / e.m_secondsPerParticle⌋₊ ∧
      0 ≤ e'.m_timeSinceLastEmission ∧ e'.m_timeSinceLastEmission < e.m_secondsPerParticle ∧
      e'.m_timeSinceLastEmission + e.m_secondsPerParticle * fresh.length =
        e.m_timeSinceLastEmission + dt ∧
      e'.m_secondsPerParticle = e.m_secondsPerParticle ∧
      e'.numDraws = e.numDraws + fresh.length ∧
      e' = { e with m_timeSinceLastEmission := e'.m_timeSinceLastEmission,
                    m_particles := e'.m_particles, numDraws := e'.numDraws } := by
  have hg : (0 : ℚ) < 2 ^ j := zpow_pos (by norm_num) j
  have hg100 : (2 : ℚ) ^ j ≤ 2 ^ (100 : Int) := zpow_le_zpow_right₀ (by norm_num) hj2
  have hbig : ∀ t : Nat, t < 2 ^ 24 → (t : ℚ) * 2 ^ j < 2 ^ 128 := by
    intro t ht
    have h1 : (t : ℚ) < 2 ^ 24 := by exact_mod_cast ht
    calc (t : ℚ) * 2 ^ j ≤ (t : ℚ) * 2 ^ (100 : Int) :=
          mul_le_mul_of_nonneg_left hg100 (by positivity)
      _ < 2 ^ 24 * 2 ^ (100 : Int) := mul_lt_mul_of_pos_right h1 (by positivity)
      _ < 2 ^ 128 := by norm_num
  obtain ⟨fresh, hsp, hlen, hall⟩ :=
    SpawnParticles_grid e dt pos j b c d fuel hp hj hs hb ha hdt hbound hfuel
  have hsum : e.m_timeSinceLastEmission + dt = ((c + d : Nat) : ℚ) * 2 ^ j := by
    rw [ha, hdt]; push_cast; ring
  have hfloor : ⌊(e.m_timeSinceLastEmission + dt) / e.m_secondsPerParticle⌋₊ = (c + d) / b := by
    rw [hsum, hs]
    exact floor_grid j (c + d) b
  have hdm : (((c + d) % b : Nat) : ℚ) + (b : ℚ) * (((c + d) / b : Nat) : ℚ) = ((c + d : Nat) : ℚ) := by
    have := Nat.mod_add_div (c + d) b
    exact_mod_cast this
  have hmodlt : (((c + d) % b : Nat) : ℚ) < b := by
    exact_mod_cast Nat.mod_lt (c + d) hb
  constructor
  · rw [hsum]; exact hbig (c + d) hbound
  refine ⟨_, fresh, hsp, rfl, by rw [hlen, hfloor],
    fun p hpm => ⟨(hall p hpm).1, (hall p hpm).2.1⟩, ?_, ?_, ?_, ?_, rfl, ?_, rfl⟩
  · simp only [hfloor]
    rw [hsum, hs]
    have := hdm
    linear_combination (2 : ℚ) ^ j * this
  · simp only
    positivity
  · simp only
    rw [hs]
    exact mul_lt_mul_of_pos_right hmodlt hg
  · simp only [hlen]
    rw [hsum, hs]
    have := hdm
    linear_combination (2 : ℚ) ^ j * this
  · simp only [hlen]

/-- Witness for `spawn_particles_accumulator`: `followingEmitter` (interval 1/2, accumulator
1/4) and a step of one second, on the grid of the quarters: two particles, and the
accumulator at 1/4 again. -/
theorem spawn_particles_accumulator_witness :
    (followingEmitter.m_position = some ⟨1, 2⟩ ∧ (-149 : Int) ≤ -2 ∧ (-2 : Int) ≤ 100 ∧
      followingEmitter.m_secondsPerParticle = ((2 : Nat) : ℚ) * 2 ^ (-2 : Int) ∧ 0 < 2 ∧
      followingEmitter.m_timeSinceLastEmission = ((1 : Nat) : ℚ) * 2 ^ (-2 : Int) ∧
      (1 : ℚ) = ((4 : Nat) : ℚ) * 2 ^ (-2 : Int) ∧ 1 + 4 < 2 ^ 24 ∧ (1 + 4) / 2 ≤ 2) ∧
    ∃ e', SpawnParticles followingEmitter 1 2 = Except.ok e' ∧ e'.m_particles.length = 2 ∧
      e'.m_timeSinceLastEmission = 1/4 := by
  have h1 : followingEmitter.m_position = some ⟨1, 2⟩ := rfl
  have h2 : followingEmitter.m_secondsPerParticle = ((2 : Nat) : ℚ) * 2 ^ (-2 : Int) := by
    norm_num [followingEmitter]
  have h3 : followingEmitter.m_timeSinceLastEmission = ((1 : Nat) : ℚ) * 2 ^ (-2 : Int) := by
    norm_num [followingEmitter]
  have h4 : (1 : ℚ) = ((4 : Nat) : ℚ) * 2 ^ (-2 : Int) := by norm_num
  have hfloor : ⌊(followingEmitter.m_timeSinceLastEmission + 1) /
      followingEmitter.m_secondsPerParticle⌋₊ = 2 := by
    rw [Nat.floor_eq_iff (by norm_num [followingEmitter])]
    norm_num [followingEmitter]
  obtain ⟨-, e', fresh, g1, g2, g3, -, g5, -⟩ :=
    spawn_particles_accumulator followingEmitter 1 ⟨1, 2⟩ (-2) 2 1 4 2 h1 (by norm_num)
      (by norm_num) h2 (by norm_num) h3 h4 (by norm_num) (by norm_num)
  refine ⟨⟨h1, by norm_num, by norm_num, h2, by norm_num, h3, h4, by norm_num, by norm_num⟩,
    e', g1, ?_, ?_⟩
  · rw [g2, List.length_append, g3, hfloor]
    rfl
  · rw [g5, hfloor]
    norm_num [followingEmitter]

end ParticleEmitter

namespace ParticleEmitter

open Engine.ParticleEmitter

/-- What `Update` does to a live emitter: the age grows, the particles are integrated and
the dead ones removed, and then `SpawnParticles` runs on the result, which has the position,
the spawn interval, the accumulator and the count of random draws of the emitter. -/
theorem Update_live_float (e : Engine.ParticleEmitter) (dt : ℚ) (fuel : Nat)
    (hdead : e.m_isDead = false) :
    ∃ e3 : Engine.ParticleEmitter,
      e3.m_position = e.m_position ∧ e3.m_secondsPerParticle = e.m_secondsPerParticle ∧
      e3.m_timeSinceLastEmission = e.m_timeSinceLastEmission ∧ e3.numDraws = e.numDraws ∧
      e3.m_isDead = false ∧
      Update e dt fuel =
        match SpawnParticles e3 dt fuel with
        | Except.error failure => Except.error failure
        | Except.ok e4 =>
          if e4.m_secondsPerParticle = 0 ∧ e4.m_particles.length = 0 then
            Except.ok { e4 with m_isDead := true }
          else Except.ok e4 := by
  refine ⟨(UpdateParticles { e with m_emitterAge := Float32.add e.m_emitterAge dt }
    dt).CleanUpDeadParticles, rfl, rfl, rfl, rfl, hdead, ?_⟩
  unfold Update
  rw [if_pos (by simp [hdead])]

/-- One `Update` of a live emitter on a binary grid: the accumulator keeps the remainder,
and the count of constructed particles grows by the integer quotient. -/
theorem Update_grid (e : Engine.ParticleEmitter) (dt : ℚ) (pos : Engine.Vector2)
    (j : Int) (b c d fuel : Nat)
    (hdead : e.m_isDead = false) (hp : e.m_position = some pos) (hj : -149 ≤ j)
    (hs : e.m_secondsPerParticle = (b : ℚ) * 2 ^ j) (hb : 0 < b)
    (ha : e.m_timeSinceLastEmission = (c : ℚ) * 2 ^ j) (hdt : dt = (d : ℚ) * 2 ^ j)
    (hbound : c + d < 2 ^ 24) (hfuel : (c + d) / b ≤ fuel) :
    ∃ e', Update e dt fuel = Except.ok e' ∧ e'.m_isDead = false ∧
      e'.m_position = some pos ∧ e'.m_secondsPerParticle = (b : ℚ) * 2 ^ j ∧
      e'.m_timeSinceLastEmission = (((c + d) % b : Nat) : ℚ) * 2 ^ j ∧
      e'.numDraws = e.numDraws + (c + d) / b := by
  have hg : (0 : ℚ) < 2 ^ j := zpow_pos (by norm_num) j
  obtain ⟨e3, h1, h2, h3, h4, h5, hu⟩ := Update_live_float e dt fuel hdead
  obtain ⟨fresh, hsp, -, -⟩ := SpawnParticles_grid e3 dt pos j b c d fuel (h1.trans hp) hj
    (h2.trans hs) hb (h3.trans ha) hdt hbound hfuel
  rw [hsp] at hu
  simp only [] at hu
  have hne : ¬ (e3.m_secondsPerParticle = 0 ∧ (e3.m_particles ++ fresh).length = 0) := by
    intro h
    rw [h2, hs] at h
    have : (0 : ℚ) < (b : ℚ) * 2 ^ j := mul_pos (by exact_mod_cast hb) hg
    exact absurd h.1 (ne_of_gt this)
  rw [if_neg hne] at hu
  exact ⟨_, hu, h5, h1.trans hp, h2.trans hs, rfl, by simp only [h4]⟩

/-- A run of `n` equal steps of a live emitter on a binary grid: the particles constructed
and the accumulator account for the whole time `n * d`, in units of the grid. -/
theorem runUpdates_grid (dt : ℚ) (pos : Engine.Vector2) (j : Int) (b d fuel : Nat)
    (hj : -149 ≤ j) (hb : 0 < b) (hdt : dt = (d : ℚ) * 2 ^ j) (hbound : b + d ≤ 2 ^ 24)
    (hfuel : d / b + 1 ≤ fuel) :
    ∀ (n : Nat) (e : Engine.ParticleEmitter) (c : Nat), e.m_isDead = false →
      e.m_position = some pos → e.m_secondsPerParticle = (b : ℚ) * 2 ^ j →
      e.m_timeSinceLastEmission = (c : ℚ) * 2 ^ j → c < b →
      ∃ (e' : Engine.ParticleEmitter) (c' : Nat),
        runUpdates fuel e (List.replicate n dt) = Except.ok e' ∧ c' < b ∧
        e'.numDraws * b + c' = e.numDraws * b + c + n * d := by
  intro n
  induction n with
  | zero =>
    intro e c _ _ _ _ hc
    exact ⟨e, c, rfl, hc, by simp⟩
  | succ n ih =>
    intro e c hd hp hs ha hc
    have hq : (c + d) / b ≤ fuel := by
      have h1 : (c + d) / b ≤ (b + d) / b := Nat.div_le_div_right (by omega)
      have h2 : (b + d) / b = d / b + 1 := by
        rw [Nat.add_comm, Nat.add_div_right d hb]
      omega
    obtain ⟨e1, hu, hd1, hp1, hs1, ha1, hn1⟩ :=
      Update_grid e dt pos j b c d fuel hd hp hj hs hb ha hdt (by omega) hq
    obtain ⟨e', c', hr, hc', hsum⟩ := ih e1 ((c + d) % b) hd1 hp1 hs1 ha1 (Nat.mod_lt _ hb)
    refine ⟨e', c', ?_, hc', ?_⟩
    · simp only [List.replicate_succ, runUpdates, hu, hr]
    · rw [hsum, hn1]
      have := Nat.div_add_mod (c + d) b
      have h3 : (e.numDraws + (c + d) / b) * b = e.numDraws * b + b * ((c + d) / b) := by ring
      rw [h3]
      have h4 : (n + 1) * d = n * d + d := by ring
      rw [h4]
      omega

/-- The following constructor with a spawn interval on a binary grid and no initial batch:
an empty, live emitter with the accumulator at zero. -/
theorem newFollowing_grid (definition : ParticleEmitterDefinition) (pos : Engine.Vector2)
    (draws : Nat → ParticleDraw) (rot : ℚ) (fuel : Nat) (j : Int) (b : Nat)
    (hK : definition.m_initialNumParticlesSpawn = 0)
    (hs : Float32.div 1 definition.m_particlesPerSecond = (b : ℚ) * 2 ^ j) (hb : 0 < b) :
    ∃ e0, newFollowing definition (some pos) draws rot fuel = Except.ok e0 ∧
      e0.m_particles = [] ∧ e0.numDraws = 0 ∧ e0.m_isDead = false ∧
      e0.m_position = some pos ∧ e0.m_secondsPerParticle = (b : ℚ) * 2 ^ j ∧
      e0.m_timeSinceLastEmission = 0 := by
  have hg : (0 : ℚ) < 2 ^ j := zpow_pos (by norm_num) j
  have hspos : (0 : ℚ) < (b : ℚ) * 2 ^ j := mul_pos (by exact_mod_cast hb) hg
  have hR : definition.m_particlesPerSecond ≠ 0 := by
    intro h0
    rw [h0] at hs
    unfold Float32.div at hs
    rw [div_zero, Float32.round_zero] at hs
    exact absurd hs.symm (ne_of_gt hspos)
  have h0 : Float32.ofInt ((0 : Nat) : Int) = 0 := by
    unfold Float32.ofInt
    simpa using Float32.round_zero
  have hm : ∀ x : ℚ, Float32.mul x 0 = 0 := by
    intro x
    unfold Float32.mul
    rw [mul_zero, Float32.round_zero]
  have hadd : Float32.add 0 0 = 0 := by
    unfold Float32.add
    rw [add_zero, Float32.round_zero]
  have hno : ¬ ((0 : ℚ) ≥ (b : ℚ) * 2 ^ j) := not_le.mpr hspos
  unfold newFollowing
  simp only []
  rw [if_pos hR, hK, h0, hm]
  unfold SpawnParticles
  simp only [hs]
  rw [if_pos hspos, hadd]
  cases fuel with
  | zero =>
    rw [spawnLoop, if_neg hno]
    exact ⟨_, rfl, rfl, rfl, rfl, rfl, rfl, rfl⟩
  | succ fuel =>
    rw [spawnLoop, if_neg hno]
    exact ⟨_, rfl, rfl, rfl, rfl, rfl, rfl, rfl⟩

/-- C3, amended: let the spawn interval `s = 1.0f / R` of the constructor (the `float`
quotient) and the step `dt` be the multiples `b * 2^j` and `d * 2^j` of one power of two
(`b > 0`, `-149 ≤ j ≤ 100`) with `b + d ≤ 2^24`, so that no `float` operation on the
accumulator rounds. Then `s` and `dt` are in the finite range of `float`, an emitter built
by the following constructor from a definition with spawn rate `R` and
`initialNumParticlesSpawn = 0` starts with no particle, and after `n` calls of `Update` with
the fixed step `dt` (each with fuel for `d / b + 1` iterations of the spawn loop) it has
constructed exactly `floor ((n * dt) / s)` particles, whatever the size of `dt` relative to
`s` (`numDraws` grows by one with every `emplace_back` of a particle). This is
`floor ((n * dt) / (1 / R))` when `1 / R` is a `float`, that is, when `s = 1 / R`. -/
theorem continuous_emission_count (definition : ParticleEmitterDefinition)
    (pos : Engine.Vector2) (draws : Nat → ParticleDraw) (rot : ℚ) (dt : ℚ) (n fuel : Nat)
    (j : Int) (b d : Nat)
    (hK : definition.m_initialNumParticlesSpawn = 0) (hj : -149 ≤ j) (hj2 : j ≤ 100)
    (hs : Float32.div 1 definition.m_particlesPerSecond = (b : ℚ) * 2 ^ j) (hb : 0 < b)
    (hdt : dt = (d : ℚ) * 2 ^ j) (hbound : b + d ≤ 2 ^ 24) (hfuel : d / b + 1 ≤ fuel) :
    (Float32.div 1 definition.m_particlesPerSecond < 2 ^ 128 ∧ dt < 2 ^ 128) ∧
    ∃ e0 e', newFollowing definition (some pos) draws rot fuel = Except.ok e0 ∧
      e0.m_particles = [] ∧ e0.numDraws = 0 ∧
      runUpdates fuel e0 (List.replicate n dt) = Except.ok e' ∧
      e'.numDraws = ⌊(n * dt) / Float32.div 1 definition.m_particlesPerSecond⌋₊ ∧
      (Float32.div 1 definition.m_particlesPerSecond = 1 / definition.m_particlesPerSecond →
        e'.numDraws = ⌊(n * dt) / (1 / definition.m_particlesPerSecond)⌋₊) := by
  obtain ⟨e0, h0, hps, hn, hd, hp, hs0, ht⟩ :=
    newFollowing_grid definition pos draws rot fuel j b hK hs hb
  obtain ⟨e', c', hr, hc', hsum⟩ := runUpdates_grid dt pos j b d fuel hj hb hdt hbound hfuel n
    e0 0 hd hp hs0 (by rw [ht]; simp) hb
  have hcount : e'.numDraws = ⌊(n * dt) / Float32.div 1 definition.m_particlesPerSecond⌋₊ := by
    rw [hs, hdt]
    have e1 : (n : ℚ) * ((d : ℚ) * 2 ^ j) = ((n * d : Nat) : ℚ) * 2 ^ j := by
      push_cast; ring
    rw [e1, floor_grid]
    rw [hn] at hsum
    simp only [zero_mul, zero_add, add_zero] at hsum
    rw [← hsum, Nat.add_comm, Nat.add_mul_div_right _ _ hb, Nat.div_eq_of_lt hc', zero_add]
  have hg : (0 : ℚ) < 2 ^ j := zpow_pos (by norm_num) j
  have hg100 : (2 : ℚ) ^ j ≤ 2 ^ (100 : Int) := zpow_le_zpow_right₀ (by norm_num) hj2
  have hbig : ∀ t : Nat, t ≤ 2 ^ 24 → (t : ℚ) * 2 ^ j < 2 ^ 128 := by
    intro t ht
    have h1 : (t : ℚ) ≤ 2 ^ 24 := by exact_mod_cast ht
    calc (t : ℚ) * 2 ^ j ≤ (t : ℚ) * 2 ^ (100 : Int) :=
          mul_le_mul_of_nonneg_left hg100 (by positivity)
      _ ≤ 2 ^ 24 * 2 ^ (100 : Int) := mul_le_mul_of_nonneg_right h1 (by positivity)
      _ < 2 ^ 128 := by norm_num
  refine ⟨⟨by rw [hs]; exact hbig b (by omega), by rw [hdt]; exact hbig d (by omega)⟩,
    e0, e', h0, hps, hn, hr, hcount, ?_⟩
  intro hexact
  rw [← hexact]
  exact hcount

/-- Witness for `continuous_emission_count`: two particles per second, five steps of 3/4
second, on the grid of the quarters: seven particles. -/
theorem continuous_emission_count_witness :
    (continuousDefinition.m_initialNumParticlesSpawn = 0 ∧ (-149 : Int) ≤ -2 ∧
      (-2 : Int) ≤ 100 ∧
      Float32.div 1 continuousDefinition.m_particlesPerSecond = ((2 : Nat) : ℚ) * 2 ^ (-2 : Int) ∧
      0 < 2 ∧ (3/4 : ℚ) = ((3 : Nat) : ℚ) * 2 ^ (-2 : Int) ∧ 2 + 3 ≤ 2 ^ 24 ∧ 3 / 2 + 1 ≤ 2) ∧
    ∃ e0 e', newFollowing continuousDefinition (some ⟨0, 0⟩) constantDraws 0 2 = Except.ok e0 ∧
      e0.m_particles = [] ∧ e0.numDraws = 0 ∧
      runUpdates 2 e0 (List.replicate 5 (3/4)) = Except.ok e' ∧ e'.numDraws = 7 := by
  have hs : Float32.div 1 continuousDefinition.m_particlesPerSecond =
      ((2 : Nat) : ℚ) * 2 ^ (-2 : Int) := by
    unfold Float32.div
    have h := Float32.round_of_grid 1 (-1) (by norm_num) (by norm_num)
    norm_num [continuousDefinition] at h ⊢
    exact h
  have hdt : (3/4 : ℚ) = ((3 : Nat) : ℚ) * 2 ^ (-2 : Int) := by norm_num
  obtain ⟨-, e0, e', g1, g2, g3, g4, g5, -⟩ :=
    continuous_emission_count continuousDefinition ⟨0, 0⟩ constantDraws 0 (3/4) 5 2 (-2) 2 3
      rfl (by norm_num) (by norm_num) hs (by norm_num) hdt (by norm_num) (by norm_num)
  refine ⟨⟨rfl, by norm_num, by norm_num, hs, by norm_num, hdt, by norm_num, by norm_num⟩,
    e0, e', g1, g2, g3, g4, ?_⟩
  rw [g5, hs, Nat.floor_eq_iff (by norm_num)]
  norm_num

/-- One call of `SpawnParticles` with a step of one second on an emitter whose spawn
interval is the `float` nearest to one third, `11184811 / 2^25`, and whose accumulator is
at 0: the first subtraction rounds `22369621 / 2^25` down to `11184810 / 2^24`, the second
leaves `11184809 / 2^25`, which is below the interval: two particles. -/
theorem SpawnParticles_third (e : Engine.ParticleEmitter) (pos : Engine.Vector2) (k : Nat)
    (hp : e.m_position = some pos) (hs : e.m_secondsPerParticle = 11184811 / 2 ^ 25)
    (ht : e.m_timeSinceLastEmission = 0) :
    ∃ e', SpawnParticles e 1 (k + 2) = Except.ok e' ∧ e'.numDraws = e.numDraws + 2 ∧
      e'.m_timeSinceLastEmission = 11184809 / 2 ^ 25 := by
  have t0 : Float32.add 0 (1 : ℚ) = 1 := by
    unfold Float32.add
    have h := Float32.round_natCast 1 (by norm_num)
    norm_num at h ⊢
    exact h
  have t1 : Float32.sub (1 : ℚ) (11184811 / 2 ^ 25) = 11184810 / 2 ^ 24 := by
    unfold Float32.sub
    have h := Float32.round_eq_tie_of_pos ((1 : ℚ) - 11184811 / 2 ^ 25) (-1) 11184810
      (by norm_num) (by norm_num) (by norm_num) (by norm_num)
    rw [h]
    norm_num
  have t2 : Float32.sub (11184810 / 2 ^ 24 : ℚ) (11184811 / 2 ^ 25) = 11184809 / 2 ^ 25 := by
    unfold Float32.sub
    have h := Float32.round_of_grid 11184809 (-25) (by norm_num) (by norm_num)
    have e1 : (11184810 / 2 ^ 24 : ℚ) - 11184811 / 2 ^ 25 =
        ((11184809 : Int) : ℚ) * 2 ^ (-25 : Int) := by
      norm_num
    rw [e1, h]
    norm_num
  have c0 : (1 : ℚ) ≥ 11184811 / 2 ^ 25 := by norm_num
  have c1 : (11184810 / 2 ^ 24 : ℚ) ≥ 11184811 / 2 ^ 25 := by norm_num
  have c2 : ¬ ((11184809 / 2 ^ 25 : ℚ) ≥ 11184811 / 2 ^ 25) := by norm_num
  have hstop : ∀ (k : Nat) (ps : List Engine.Particle) (n : Nat),
      spawnLoop e (11184811 / 2 ^ 25) k (11184809 / 2 ^ 25) ps n =
        Except.ok (11184809 / 2 ^ 25, ps, n) := by
    intro k ps n
    cases k with
    | zero => rw [spawnLoop, if_neg c2]
    | succ k => rw [spawnLoop, if_neg c2]
  unfold SpawnParticles
  rw [if_pos (by rw [hs]; norm_num), hs, ht, t0]
  rw [spawnLoop, if_pos c0, hp]
  simp only [t1]
  rw [spawnLoop, if_pos c1, hp]
  simp only [t2]
  rw [hstop]
  exact ⟨_, rfl, rfl, rfl⟩

/-- C3, as stated, fails on the code: with the spawn rate `R = 3` and one step of one
second, `floor (T / (1 / R))` is 3, and the emitter constructs 2 particles. The `float`
quotient `1.0f / 3` is `11184811 / 2^25`, above one third, and the remainder after two
subtractions is below it. -/
theorem emission_count_rounds :
    (0 < thirdsDefinition.m_particlesPerSecond ∧
      thirdsDefinition.m_initialNumParticlesSpawn = 0) ∧
    ⌊((1 : Nat) * (1 : ℚ)) / (1 / thirdsDefinition.m_particlesPerSecond)⌋₊ = 3 ∧
    ∀ fuel : Nat, 2 ≤ fuel →
      ∃ e0 e', newFollowing thirdsDefinition (some ⟨0, 0⟩) constantDraws 0 fuel = Except.ok e0 ∧
        e0.m_particles = [] ∧ e0.numDraws = 0 ∧
        e0.m_secondsPerParticle = 11184811 / 2 ^ 25 ∧
        runUpdates fuel e0 (List.replicate 1 1) = Except.ok e' ∧ e'.numDraws = 2 := by
  refine ⟨⟨by norm_num [thirdsDefinition], rfl⟩, ?_, ?_⟩
  · rw [Nat.floor_eq_iff (by norm_num [thirdsDefinition])]
    norm_num [thirdsDefinition]
  · intro fuel hfuel
    obtain ⟨k, rfl⟩ : ∃ k, fuel = k + 2 := ⟨fuel - 2, by omega⟩
    have hs : Float32.div 1 thirdsDefinition.m_particlesPerSecond =
        ((11184811 : Nat) : ℚ) * 2 ^ (-25 : Int) := by
      unfold Float32.div
      have h := Float32.round_eq_of_pos ((1 : ℚ) / 3) (-2) 11184811 (by norm_num) (by norm_num)
        (by norm_num) (by norm_num) (by norm_num)
      have e3 : thirdsDefinition.m_particlesPerSecond = 3 := rfl
      rw [e3, h]
      norm_num
    obtain ⟨e0, h0, hps, hn, hd, hp, hs0, ht⟩ :=
      newFollowing_grid thirdsDefinition ⟨0, 0⟩ constantDraws 0 (k + 2) (-25) 11184811 rfl hs
        (by norm_num)
    have hs1 : e0.m_secondsPerParticle = 11184811 / 2 ^ 25 := by
      rw [hs0]; norm_num
    obtain ⟨e3, h1, h2, h3, h4, h5, hu⟩ := Update_live_float e0 1 (k + 2) hd
    obtain ⟨e4, hsp, hn4, -⟩ := SpawnParticles_third e3 ⟨0, 0⟩ k (h1.trans hp) (h2.trans hs1)
      (h3.trans ht)
    have hs4 : e4.m_secondsPerParticle = 11184811 / 2 ^ 25 := by
      have hpos : e3.m_secondsPerParticle > 0 := by rw [h2, hs1]; norm_num
      unfold SpawnParticles at hsp
      rw [if_pos hpos] at hsp
      split at hsp
      · exact absurd hsp (by simp)
      · simp only [Except.ok.injEq] at hsp
        rw [← hsp]
        exact h2.trans hs1
    rw [hsp] at hu
    simp only [] at hu
    rw [if_neg (by rw [hs4]; norm_num)] at hu
    refine ⟨e0, e4, h0, hps, hn, hs1, ?_, by rw [hn4, h4, hn]⟩
    simp only [List.replicate_succ, List.replicate_zero, runUpdates, hu]

end ParticleEmitter
end F32

namespace SpriteLayer
open RenderableHeap

/-- C8, as stated, fails: the claim is about every sequence of `Add`/`Remove` operations,
and a sequence that adds a renderable that is a member already breaks the ring. After
adding 1, 2 and 3 to the empty layer the list is the ring 1, 2, 3. Adding 2 again links 2
in before the head: from the head 1, `next` now leads to 2 and back to 1 and never reaches
3, while `prev` leads to 2 and then to 3; no list of members makes this a ring. -/
theorem repeated_add_breaks_ring :
    IsRing (applyOps (blankHeap, emptyLayer) [RingOp.add 1, RingOp.add 2, RingOp.add 3]).1
      (applyOps (blankHeap, emptyLayer)
        [RingOp.add 1, RingOp.add 2, RingOp.add 3]).2.m_renderablesList [1, 2, 3] ∧
    walk (fun a => ((applyOps (blankHeap, emptyLayer)
        [RingOp.add 1, RingOp.add 2, RingOp.add 3, RingOp.add 2]).1 a).next) 3 1 = [1, 2, 1] ∧
    walk (fun a => ((applyOps (blankHeap, emptyLayer)
        [RingOp.add 1, RingOp.add 2, RingOp.add 3, RingOp.add 2]).1 a).prev) 3 1 = [1, 2, 3] ∧
    ∀ members : List Nat,
      ¬ IsRing
        (applyOps (blankHeap, emptyLayer)
          [RingOp.add 1, RingOp.add 2, RingOp.add 3, RingOp.add 2]).1
        (applyOps (blankHeap, emptyLayer)
          [RingOp.add 1, RingOp.add 2, RingOp.add 3, RingOp.add 2]).2.m_renderablesList
        members := by
  have hring : LinkedRing
      (applyOps (blankHeap, emptyLayer) [RingOp.add 1, RingOp.add 2, RingOp.add 3]).1
      (applyOps (blankHeap, emptyLayer)
        [RingOp.add 1, RingOp.add 2, RingOp.add 3]).2.m_renderablesList [1, 2, 3] :=
    applyOps_LinkedRing [RingOp.add 1, RingOp.add 2, RingOp.add 3] (blankHeap, emptyLayer) []
      (by simp [LinkedRing, emptyLayer]) (by simp [ValidOps])
  have hsplit : applyOps (blankHeap, emptyLayer)
      [RingOp.add 1, RingOp.add 2, RingOp.add 3, RingOp.add 2] =
      (applyOps (blankHeap, emptyLayer)
        [RingOp.add 1, RingOp.add 2, RingOp.add 3]).2.AddRenderable2D
        (applyOps (blankHeap, emptyLayer) [RingOp.add 1, RingOp.add 2, RingOp.add 3]).1 2 := by
    simp only [applyOps, applyOp]
  have hhead : (applyOps (blankHeap, emptyLayer)
      [RingOp.add 1, RingOp.add 2, RingOp.add 3]).2.m_renderablesList = some 1 := by
    simp only [applyOps, applyOp, AddRenderable2D_head]
    rfl
  refine ⟨LinkedRing_IsRing _ _ _ hring, ?_⟩
  rw [hsplit]
  generalize applyOps (blankHeap, emptyLayer) [RingOp.add 1, RingOp.add 2, RingOp.add 3] = s
    at hring hhead
  obtain ⟨heap, layer⟩ := s
  simp only at hring hhead ⊢
  rw [hhead] at hring
  obtain ⟨-, -, h12, h21, h23, h32, h31, h13⟩ := hring
  have hadd : layer.AddRenderable2D heap 2 =
      ((((heap.setPrev 2 3).setNext 2 1).setNext 3 2).setPrev 1 2, layer) := by
    unfold AddRenderable2D
    rw [hhead]
    simp only [h13]
  rw [hadd]
  simp only
  have n1 : ((((((heap.setPrev 2 3).setNext 2 1).setNext 3 2).setPrev 1 2)) 1).next = 2 := by
    simp [setPrev_next, setNext_next, h12]
  have n2 : ((((((heap.setPrev 2 3).setNext 2 1).setNext 3 2).setPrev 1 2)) 2).next = 1 := by
    simp [setPrev_next, setNext_next]
  have p1 : ((((((heap.setPrev 2 3).setNext 2 1).setNext 3 2).setPrev 1 2)) 1).prev = 2 := by
    simp [setPrev_prev]
  have p2 : ((((((heap.setPrev 2 3).setNext 2 1).setNext 3 2).setPrev 1 2)) 2).prev = 3 := by
    simp [setPrev_prev, setNext_prev]
  refine ⟨by simp [walk, n1, n2], by simp [walk, p1, p2], ?_⟩
  intro members h
  rw [hhead] at h
  obtain ⟨hne, hnd, hn, hp⟩ := h
  rcases members with _ | ⟨a, _ | ⟨b, _ | ⟨c, rest⟩⟩⟩
  · exact hne rfl
  · simp [walk, n1] at hn
  · simp [walk, p1, p2] at hp
  · simp only [List.length_cons, walk, n1, n2, List.cons_append, List.cons.injEq] at hn
    obtain ⟨ha, -, hc, -⟩ := hn
    rw [← ha, ← hc] at hnd
    simp at hnd

end SpriteLayer

end Engine
